import Mathlib

/-!
# wolfCrypt HMAC and the key-derivation functions built on it

A shallow embedding of `wolfcrypt/src/hmac.c`.

* Bytes are natural numbers, buffers are lists of bytes, a pointer argument
  that the source tests against `NULL` is an `Option`.
* A C function that mutates `*hmac` or an output buffer returns the new
  context / buffer next to its return code.
* The hash primitives (`wc_Md5Update`, `wc_Sha256Final`, ...) are external:
  they are the fields `hashInit`, `hashUpdate`, `hashFinal`, `hashFree` of an
  environment `Env`, indexed by the algorithm tag, and may fail.
* Conditional compilation that changes the behaviour of the functions below
  is kept as boolean fields of the environment (`HAVE_FIPS`,
  `WOLF_CRYPTO_CB`); every algorithm is compiled in.  The asynchronous
  hardware offload (`WOLFSSL_ASYNC_CRYPT`) is not part of the embedding.
-/

namespace WolfHmac

/-! ## Constants of the headers -/

/-- Modelled from the spec: error code `BAD_FUNC_ARG` of `error-crypt.h`
(the header is not among the sources), the spec's `InvalidArgument`. -/
def BAD_FUNC_ARG : Int := -173

/-- Modelled from the spec: error code `BUFFER_E` of `error-crypt.h`, the
spec's `BufferTooSmall`. -/
def BUFFER_E : Int := -132

/-- Modelled from the spec: error code `HMAC_MIN_KEYLEN_E` of `error-crypt.h`,
the spec's `KeyTooShort`. -/
def HMAC_MIN_KEYLEN_E : Int := -260

/-- Modelled from the spec: `CRYPTOCB_UNAVAILABLE` of `error-crypt.h`, the
spec's internal `BackendUnavailable` signal. -/
def CRYPTOCB_UNAVAILABLE : Int := -271

/-- Modelled from the spec: `INVALID_DEVID` of `types.h`, the device id of the
pure software case. -/
def INVALID_DEVID : Int := -2

/-- Modelled from the spec: minimum key length of a FIPS build
(`HMAC_FIPS_MIN_KEY` of `hmac.h`). -/
def HMAC_FIPS_MIN_KEY : Nat := 14

/-- Modelled from the spec: algorithm tag "none" (`WC_HASH_TYPE_NONE`). -/
def WC_HASH_TYPE_NONE : Int := 0
/-- Modelled from the spec: algorithm tag of MD5 (`hmac.h`, `types.h`). -/
def WC_MD5 : Int := 3
/-- Modelled from the spec: algorithm tag of SHA-1. -/
def WC_SHA : Int := 4
/-- Modelled from the spec: algorithm tag of SHA-224. -/
def WC_SHA224 : Int := 5
/-- Modelled from the spec: algorithm tag of SHA-256. -/
def WC_SHA256 : Int := 6
/-- Modelled from the spec: algorithm tag of SHA-384. -/
def WC_SHA384 : Int := 7
/-- Modelled from the spec: algorithm tag of SHA-512. -/
def WC_SHA512 : Int := 8
/-- Modelled from the spec: algorithm tag of SHA3-224. -/
def WC_SHA3_224 : Int := 10
/-- Modelled from the spec: algorithm tag of SHA3-256. -/
def WC_SHA3_256 : Int := 11
/-- Modelled from the spec: algorithm tag of SHA3-384. -/
def WC_SHA3_384 : Int := 12
/-- Modelled from the spec: algorithm tag of SHA3-512. -/
def WC_SHA3_512 : Int := 13

/-- Modelled from the spec: size of the pad buffers, `WC_HMAC_BLOCK_SIZE`
(the largest block size, that of SHA3-224). -/
def WC_HMAC_BLOCK_SIZE : Nat := 144

/-- Modelled from the spec: size of the digest buffers,
`WC_MAX_DIGEST_SIZE`. -/
def WC_MAX_DIGEST_SIZE : Nat := 64

/-- Inner pad constant `IPAD` of `hmac.h`. -/
def IPAD : Nat := 0x36
/-- Outer pad constant `OPAD` of `hmac.h`. -/
def OPAD : Nat := 0x5C

/-- Value stored in `innerHashKeyed` by the software path
(`WC_HMAC_INNER_HASH_KEYED_SW`). -/
def WC_HMAC_INNER_HASH_KEYED_SW : Nat := 1

/-- The test on `type` shared by `wc_HmacSizeByType` and `wc_HmacSetKey`:
one of the ten supported algorithm tags. -/
def Supported (t : Int) : Prop :=
  t = WC_MD5 ∨ t = WC_SHA ∨ t = WC_SHA224 ∨ t = WC_SHA256 ∨
  t = WC_SHA384 ∨ t = WC_SHA512 ∨ t = WC_SHA3_224 ∨ t = WC_SHA3_256 ∨
  t = WC_SHA3_384 ∨ t = WC_SHA3_512

instance (t : Int) : Decidable (Supported t) := by
  unfold Supported; infer_instance

/-- Modelled from the spec: the `WC_*_DIGEST_SIZE` constant used by the
`case` of tag `t` (0 where no `case` exists). -/
def digestSize (t : Int) : Nat :=
  if t = WC_MD5 then 16 else if t = WC_SHA then 20
  else if t = WC_SHA224 then 28 else if t = WC_SHA256 then 32
  else if t = WC_SHA384 then 48 else if t = WC_SHA512 then 64
  else if t = WC_SHA3_224 then 28 else if t = WC_SHA3_256 then 32
  else if t = WC_SHA3_384 then 48 else if t = WC_SHA3_512 then 64
  else 0

/-- Modelled from the spec: the `WC_*_BLOCK_SIZE` constant used by the
`case` of tag `t` (0 where no `case` exists). -/
def blockSize (t : Int) : Nat :=
  if t = WC_MD5 then 64 else if t = WC_SHA then 64
  else if t = WC_SHA224 then 64 else if t = WC_SHA256 then 64
  else if t = WC_SHA384 then 128 else if t = WC_SHA512 then 128
  else if t = WC_SHA3_224 then 144 else if t = WC_SHA3_256 then 136
  else if t = WC_SHA3_384 then 104 else if t = WC_SHA3_512 then 72
  else 0

/-! ## Memory -/

/-- Read `n` bytes through a (possibly null) pointer. -/
def rd (p : Option (List Nat)) (n : Nat) : List Nat :=
  (p.getD []).take n

/-- Store the bytes `src` into `dst` from offset `off` on. -/
def writeAt (dst : List Nat) (off : Nat) (src : List Nat) : List Nat :=
  dst.take off ++ src ++ dst.drop (off + src.length)

/-- The call `XMEMCPY(dst + off, src, n)`. -/
def XMEMCPY (dst : List Nat) (off : Nat) (src : List Nat) (n : Nat) : List Nat :=
  writeAt dst off (src.take n)

/-- The call `XMEMSET(dst + off, v, n)`. -/
def XMEMSET (dst : List Nat) (off : Nat) (v : Nat) (n : Nat) : List Nat :=
  writeAt dst off (List.replicate n v)

/-- Conversion to `word32`. -/
def word32 (n : Nat) : Nat := n % 4294967296

/-! ## The HMAC context and its environment -/

/-- The `Hmac` structure of `hmac.h`: `hash` is the union of hash states,
`ipad`, `opad` are `WC_HMAC_BLOCK_SIZE` bytes, `innerHash` is
`WC_MAX_DIGEST_SIZE` bytes; `devId`, `devCtx`, `keyRaw`, `keyLen` exist in a
build with `WOLF_CRYPTO_CB`. -/
structure Hmac (σ : Type) where
  hash : σ
  ipad : List Nat
  opad : List Nat
  innerHash : List Nat
  macType : Int
  innerHashKeyed : Nat
  devId : Int
  devCtx : Option Nat
  keyRaw : Option (List Nat)
  keyLen : Nat

/-- The arrays of a context have their declared sizes. -/
def WF {σ : Type} (h : Hmac σ) : Prop :=
  h.ipad.length = WC_HMAC_BLOCK_SIZE ∧ h.opad.length = WC_HMAC_BLOCK_SIZE ∧
  h.innerHash.length = WC_MAX_DIGEST_SIZE

/-- What `hmac.c` is compiled with and linked against: the build flags, the
hash primitives on the union of hash states (each returns its code and the
new state, `hashFinal` also the digest it stores), and the crypto-callback
device `wc_CryptoCb_Hmac`.  `hashZero` is the all-zero image of the union.
The last three fields are the typing of these interfaces: a `Final`
primitive stores at most the digest size of its algorithm, exactly that many
bytes when it succeeds, and the device leaves the arrays of the context at
their declared sizes. -/
structure Env (σ : Type) where
  HAVE_FIPS : Bool
  WOLF_CRYPTO_CB : Bool
  hashZero : σ
  hashInit : Int → σ → Int × σ
  hashUpdate : Int → σ → List Nat → Int × σ
  hashFinal : Int → σ → Int × σ × List Nat
  hashFree : Int → σ → σ
  wc_CryptoCb_Hmac : Hmac σ → Int → Option (List Nat) → Nat →
    Option (List Nat) → Int × Hmac σ × Option (List Nat)
  final_len : ∀ t s, (hashFinal t s).1 = 0 →
    (hashFinal t s).2.2.length = digestSize t
  final_le : ∀ t s, (hashFinal t s).2.2.length ≤ digestSize t
  cb_wf : ∀ h t m n o, WF h → WF (wc_CryptoCb_Hmac h t m n o).2.1

variable {σ : Type}

/-- The guard `hmac->devId != INVALID_DEVID` of a build with
`WOLF_CRYPTO_CB`: the call is offered to the device first. -/
def onDevice (env : Env σ) (h : Hmac σ) : Prop :=
  env.WOLF_CRYPTO_CB = true ∧ h.devId ≠ INVALID_DEVID

instance (env : Env σ) (h : Hmac σ) : Decidable (onDevice env h) := by
  unfold onDevice; infer_instance

/-- The source function `wc_HmacSizeByType`. -/
def wc_HmacSizeByType (type : Int) : Int :=
  if ¬ Supported type then BAD_FUNC_ARG
  else (digestSize type : Int)

/-- The source function `_InitHmac`: initialise the hash state of `type`. -/
def _InitHmac (env : Env σ) (hmac : Hmac σ) (type : Int) : Int × Hmac σ :=
  if Supported type then
    let r := env.hashInit type hmac.hash
    (r.1, { hmac with hash := r.2 })
  else (BAD_FUNC_ARG, hmac)

/-- The source function `wc_HmacFree` on a non-null context: an optional
final call of the device, then the two `switch` blocks, the second of which
has no SHA-3 case. -/
def HmacFree (env : Env σ) (hmac : Hmac σ) : Hmac σ :=
  let h1 :=
    if onDevice env hmac ∧ hmac.devCtx.isSome then
      (env.wc_CryptoCb_Hmac hmac hmac.macType none 0
        (some (List.replicate WC_HMAC_BLOCK_SIZE 0))).2.1
    else hmac
  let h2 :=
    if Supported h1.macType then { h1 with hash := env.hashFree h1.macType h1.hash }
    else h1
  if h2.macType = WC_MD5 ∨ h2.macType = WC_SHA ∨ h2.macType = WC_SHA224 ∨
      h2.macType = WC_SHA256 ∨ h2.macType = WC_SHA384 ∨ h2.macType = WC_SHA512 then
    { h2 with hash := env.hashFree h2.macType h2.hash }
  else h2

/-- The source function `wc_HmacFree`. -/
def wc_HmacFree (env : Env σ) (hmac : Option (Hmac σ)) : Option (Hmac σ) :=
  match hmac with
  | none => none
  | some h => some (HmacFree env h)

/-- The loop `for (i = 0; i < hmac_block_size; i++)` of `wc_HmacSetKey`:
`n` iterations are left, `op[i] = ip[i] ^ OPAD; ip[i] ^= IPAD;`. -/
def padLoop : Nat → Nat → List Nat → List Nat → List Nat × List Nat
  | 0, _, ip, op => (ip, op)
  | n + 1, i, ip, op =>
    padLoop n (i + 1) (ip.set i (ip.getD i 0 ^^^ IPAD)) (op.set i (ip.getD i 0 ^^^ OPAD))

/-- The `case` of the `switch` of `wc_HmacSetKey` for a supported algorithm:
a key that fits the block is copied into `ipad`, a longer one is hashed into
it.  Returns `ret`, the context and the (possibly shortened) `length`. -/
def setKeyCase (env : Env σ) (h : Hmac σ) (key : Option (List Nat)) (length : Nat) :
    Int × Hmac σ × Nat :=
  if length ≤ blockSize h.macType then
    (0, (if key.isSome then { h with ipad := XMEMCPY h.ipad 0 (key.getD []) length }
         else h), length)
  else
    let u := env.hashUpdate h.macType h.hash (rd key length)
    if u.1 ≠ 0 then (u.1, { h with hash := u.2 }, length)
    else
      let f := env.hashFinal h.macType u.2
      if f.1 ≠ 0 then
        (f.1, { h with hash := f.2.1, ipad := writeAt h.ipad 0 f.2.2 }, length)
      else
        (0, { h with hash := f.2.1, ipad := writeAt h.ipad 0 f.2.2 },
          digestSize h.macType)

/-- The block `if (ret == 0) { ... }` that ends `wc_HmacSetKey`: zero the
rest of the block, then derive the two pads. -/
def setKeyPads (h : Hmac σ) (length B : Nat) : Hmac σ :=
  let ip := if length < B then XMEMSET h.ipad length 0 (B - length) else h.ipad
  let p := padLoop B 0 ip h.opad
  { h with ipad := p.1, opad := p.2 }

/-- The block `#ifndef HAVE_FIPS` that opens `wc_HmacSetKey`: a context that
has been keyed before is freed first. -/
def setKeyPre (env : Env σ) (h0 : Hmac σ) : Hmac σ :=
  if env.HAVE_FIPS = false ∧ h0.macType ≠ WC_HASH_TYPE_NONE then HmacFree env h0 else h0

/-- The block `#ifdef WOLF_CRYPTO_CB` of `wc_HmacSetKey`: the raw key and
its length (a `word16` field) are recorded for the device.  `keyRaw` holds
the `length` key bytes that the stored pointer designates. -/
def setKeyRaw (env : Env σ) (h : Hmac σ) (key : Option (List Nat)) (length : Nat) : Hmac σ :=
  if env.WOLF_CRYPTO_CB = true then
    { h with keyRaw := key.map (fun k => k.take length), keyLen := length % 65536 }
  else h

/-- The source function `wc_HmacSetKey` (the build without FIPS or for new
FIPS). -/
def wc_HmacSetKey (env : Env σ) (hmac : Option (Hmac σ)) (type : Int)
    (key : Option (List Nat)) (length : Nat) : Int × Option (Hmac σ) :=
  match hmac with
  | none => (BAD_FUNC_ARG, none)
  | some h0 =>
    if (key.isNone ∧ length ≠ 0) ∨ ¬ Supported type then (BAD_FUNC_ARG, some h0)
    else
      let h1 := setKeyPre env h0
      let h2 := { h1 with innerHashKeyed := 0, macType := type % 256 }
      let r3 := _InitHmac env h2 type
      if r3.1 ≠ 0 then (r3.1, some r3.2)
      else if env.HAVE_FIPS = true ∧ length < HMAC_FIPS_MIN_KEY then
        (HMAC_MIN_KEYLEN_E, some r3.2)
      else
        let h4 := setKeyRaw env r3.2 key length
        if ¬ Supported h4.macType then (BAD_FUNC_ARG, some h4)
        else
          let c := setKeyCase env h4 key length
          if c.1 = 0 then (0, some (setKeyPads c.2.1 c.2.2 (blockSize h4.macType)))
          else (c.1, some c.2.1)

/-- The source function `HmacKeyInnerHash`: feed the inner pad. -/
def HmacKeyInnerHash (env : Env σ) (hmac : Hmac σ) : Int × Hmac σ :=
  let r : Int × Hmac σ :=
    if Supported hmac.macType then
      let u := env.hashUpdate hmac.macType hmac.hash
        (hmac.ipad.take (blockSize hmac.macType))
      (u.1, { hmac with hash := u.2 })
    else (0, hmac)
  if r.1 = 0 then (0, { r.2 with innerHashKeyed := WC_HMAC_INNER_HASH_KEYED_SW })
  else r

/-- The source function `wc_HmacUpdate`. -/
def wc_HmacUpdate (env : Env σ) (hmac : Option (Hmac σ))
    (msg : Option (List Nat)) (length : Nat) : Int × Option (Hmac σ) :=
  match hmac with
  | none => (BAD_FUNC_ARG, none)
  | some h0 =>
    if msg.isNone ∧ length > 0 then (BAD_FUNC_ARG, some h0)
    else
      let cb := env.wc_CryptoCb_Hmac h0 h0.macType msg length none
      if onDevice env h0 ∧ cb.1 ≠ CRYPTOCB_UNAVAILABLE then
        (cb.1, some cb.2.1)
      else
        let h1 := if onDevice env h0 then cb.2.1 else h0
        let k := if h1.innerHashKeyed = 0 then HmacKeyInnerHash env h1 else (0, h1)
        if k.1 ≠ 0 then (k.1, some k.2)
        else if Supported k.2.macType then
          let u := env.hashUpdate k.2.macType k.2.hash (rd msg length)
          (u.1, some { k.2 with hash := u.2 })
        else (0, some k.2)

/-- The `case` of `wc_HmacFinal` for a supported algorithm: finish the inner
hash into `innerHash`, then hash the outer pad and the inner hash into the
caller's buffer. -/
def finalCase (env : Env σ) (h : Hmac σ) (out : List Nat) : Int × Hmac σ × List Nat :=
  let t := h.macType
  let f1 := env.hashFinal t h.hash
  let h1 := { h with hash := f1.2.1, innerHash := writeAt h.innerHash 0 f1.2.2 }
  if f1.1 ≠ 0 then (f1.1, h1, out)
  else
    let u2 := env.hashUpdate t h1.hash (h1.opad.take (blockSize t))
    let h2 := { h1 with hash := u2.2 }
    if u2.1 ≠ 0 then (u2.1, h2, out)
    else
      let u3 := env.hashUpdate t h2.hash (h2.innerHash.take (digestSize t))
      let h3 := { h2 with hash := u3.2 }
      if u3.1 ≠ 0 then (u3.1, h3, out)
      else
        let f4 := env.hashFinal t h3.hash
        (f4.1, { h3 with hash := f4.2.1 }, writeAt out 0 f4.2.2)

/-- The source function `wc_HmacFinal`. -/
def wc_HmacFinal (env : Env σ) (hmac : Option (Hmac σ))
    (hash : Option (List Nat)) : Int × Option (Hmac σ) × Option (List Nat) :=
  match hmac, hash with
  | none, o => (BAD_FUNC_ARG, none, o)
  | some h0, none => (BAD_FUNC_ARG, some h0, none)
  | some h0, some out =>
    let cb := env.wc_CryptoCb_Hmac h0 h0.macType none 0 (some out)
    if onDevice env h0 ∧ cb.1 ≠ CRYPTOCB_UNAVAILABLE then
      (cb.1, some cb.2.1, cb.2.2)
    else
      let h1 := if onDevice env h0 then cb.2.1 else h0
      let out1 := if onDevice env h0 then cb.2.2.getD out else out
      let k := if h1.innerHashKeyed = 0 then HmacKeyInnerHash env h1 else (0, h1)
      if k.1 ≠ 0 then (k.1, some k.2, some out1)
      else
        let r : Int × Hmac σ × List Nat :=
          if Supported k.2.macType then finalCase env k.2 out1
          else (BAD_FUNC_ARG, k.2, out1)
        if r.1 = 0 then (0, some { r.2.1 with innerHashKeyed := 0 }, some r.2.2)
        else (r.1, some r.2.1, some r.2.2)

/-- The all-zero image of an `Hmac`, the result of
`XMEMSET(hmac, 0, sizeof(Hmac))`. -/
def zeroHmac (env : Env σ) : Hmac σ :=
  { hash := env.hashZero
    ipad := List.replicate WC_HMAC_BLOCK_SIZE 0
    opad := List.replicate WC_HMAC_BLOCK_SIZE 0
    innerHash := List.replicate WC_MAX_DIGEST_SIZE 0
    macType := 0
    innerHashKeyed := 0
    devId := 0
    devCtx := none
    keyRaw := none
    keyLen := 0 }

/-- The source function `wc_HmacInit` (no asynchronous device). -/
def wc_HmacInit (env : Env σ) (hmac : Option (Hmac σ)) (devId : Int) :
    Int × Option (Hmac σ) :=
  match hmac with
  | none => (BAD_FUNC_ARG, none)
  | some _ =>
    (0, some { zeroHmac env with
      macType := WC_HASH_TYPE_NONE
      devId := if env.WOLF_CRYPTO_CB = true then devId else 0 })

/-! ## HKDF (RFC 5869) -/

/-- The source function `wc_HKDF_Extract`.  The local `tmp` starts zeroed
(the source leaves it uninitialised and only reads what it has set); the
closing `wc_HmacFree` of the local context does not show in the result. -/
def wc_HKDF_Extract (env : Env σ) (type : Int) (salt : Option (List Nat)) (saltSz : Nat)
    (inKey : Option (List Nat)) (inKeySz : Nat) (out : Option (List Nat)) :
    Int × Option (List Nat) :=
  let ret := wc_HmacSizeByType type
  if ret < 0 then (ret, out)
  else
    let hashSz := ret.toNat
    let tmp := XMEMSET (List.replicate WC_MAX_DIGEST_SIZE 0) 0 0 hashSz
    let localSalt := if salt.isNone then some tmp else salt
    let saltSz1 := if salt.isNone then hashSz else saltSz
    let r0 := wc_HmacInit env (some (zeroHmac env)) INVALID_DEVID
    if r0.1 = 0 then
      let r1 := wc_HmacSetKey env r0.2 type localSalt saltSz1
      let r2 := if r1.1 = 0 then wc_HmacUpdate env r1.2 inKey inKeySz else r1
      let r3 := if r2.1 = 0 then wc_HmacFinal env r2.2 out else (r2.1, r2.2, out)
      (r3.1, r3.2.2)
    else (r0.1, out)

/-- The `while (outIdx < outSz)` loop of `wc_HKDF_Expand`, `fuel` bounding the
number of iterations.  The state is the context, `tmp`, `out`, `outIdx` and the
counter byte `n`; the result carries `ret`. -/
def expandLoop (env : Env σ) (type : Int) (inKey : Option (List Nat)) (inKeySz : Nat)
    (info : Option (List Nat)) (infoSz : Nat) (outSz hashSz : Nat) :
    Nat → Option (Hmac σ) → List Nat → List Nat → Nat → Nat →
      Int × Option (Hmac σ) × List Nat
  | 0, hmac, _, out, _, _ => (0, hmac, out)
  | fuel + 1, hmac, tmp, out, outIdx, n =>
    if outIdx < outSz then
      let tmpSz := if n = 1 then 0 else hashSz
      let left := outSz - outIdx
      let r1 := wc_HmacSetKey env hmac type inKey inKeySz
      if r1.1 ≠ 0 then (r1.1, r1.2, out)
      else
        let r2 := wc_HmacUpdate env r1.2 (some tmp) tmpSz
        if r2.1 ≠ 0 then (r2.1, r2.2, out)
        else
          let r3 := wc_HmacUpdate env r2.2 info infoSz
          if r3.1 ≠ 0 then (r3.1, r3.2, out)
          else
            let r4 := wc_HmacUpdate env r3.2 (some [n]) 1
            if r4.1 ≠ 0 then (r4.1, r4.2, out)
            else
              let r5 := wc_HmacFinal env r4.2 (some tmp)
              if r5.1 ≠ 0 then (r5.1, r5.2.1, out)
              else
                let tmp1 := r5.2.2.getD tmp
                let out1 := XMEMCPY out outIdx tmp1 (min left hashSz)
                expandLoop env type inKey inKeySz info infoSz outSz hashSz fuel
                  r5.2.1 tmp1 out1 (word32 (outIdx + hashSz)) ((n + 1) % 256)
    else (0, hmac, out)

/-- The source function `wc_HKDF_Expand`.  `hashSz` is the `word32` image of
the (possibly negative) result of `wc_HmacSizeByType`; the loop adds at least
one to `outIdx` per iteration, so `outSz` iterations are enough fuel.  The
local `tmp` starts zeroed, the closing `wc_HmacFree` of the local context
does not show in the result. -/
def wc_HKDF_Expand (env : Env σ) (type : Int) (inKey : Option (List Nat)) (inKeySz : Nat)
    (info : Option (List Nat)) (infoSz : Nat) (out : Option (List Nat)) (outSz : Nat) :
    Int × Option (List Nat) :=
  let hashSz := (wc_HmacSizeByType type % 4294967296).toNat
  match out with
  | none => (BAD_FUNC_ARG, none)
  | some o =>
    if outSz / hashSz + (if outSz % hashSz ≠ 0 then 1 else 0) > 255 then
      (BAD_FUNC_ARG, some o)
    else
      let r0 := wc_HmacInit env (some (zeroHmac env)) INVALID_DEVID
      if r0.1 ≠ 0 then (r0.1, some o)
      else
        let r := expandLoop env type inKey inKeySz info infoSz outSz hashSz outSz
          r0.2 (List.replicate WC_MAX_DIGEST_SIZE 0) o 0 1
        (r.1, some r.2.2)

/-- The source function `wc_HKDF`. -/
def wc_HKDF (env : Env σ) (type : Int) (inKey : Option (List Nat)) (inKeySz : Nat)
    (salt : Option (List Nat)) (saltSz : Nat) (info : Option (List Nat)) (infoSz : Nat)
    (out : Option (List Nat)) (outSz : Nat) : Int × Option (List Nat) :=
  let hashSz := wc_HmacSizeByType type
  if hashSz < 0 then (BAD_FUNC_ARG, out)
  else
    let e := wc_HKDF_Extract env type salt saltSz inKey inKeySz
      (some (List.replicate WC_MAX_DIGEST_SIZE 0))
    if e.1 ≠ 0 then (e.1, out)
    else wc_HKDF_Expand env type e.2 hashSz.toNat info infoSz out outSz

/-- Modelled from the spec: `MAX_TLS13_HKDF_LABEL_SZ` of the headers (not
among the sources), the size of the scratch buffer of
`wc_Tls13_HKDF_Expand_Label` (the spec's "hard upper bound on total size"). -/
def MAX_TLS13_HKDF_LABEL_SZ : Nat := 47 + WC_MAX_DIGEST_SIZE

/-- The scratch buffer `data` of `wc_Tls13_HKDF_Expand_Label` after its seven
stores, and the final `idx`.  The local starts zeroed; a store past the end of
the array, which the source does not check for, shows here as a longer list. -/
def hkdfLabelData (okmLen : Nat) (protocol : Option (List Nat)) (protocolLen : Nat)
    (label : Option (List Nat)) (labelLen : Nat) (info : Option (List Nat)) (infoLen : Nat) :
    List Nat × Nat :=
  let d0 := List.replicate MAX_TLS13_HKDF_LABEL_SZ 0
  let d1 := writeAt d0 0 [(okmLen >>> 8) % 256]
  let d2 := writeAt d1 1 [okmLen % 256]
  let d3 := writeAt d2 2 [word32 (protocolLen + labelLen) % 256]
  let d4 := XMEMCPY d3 3 (protocol.getD []) protocolLen
  let d5 := XMEMCPY d4 (3 + protocolLen) (label.getD []) labelLen
  let d6 := writeAt d5 (3 + protocolLen + labelLen) [infoLen % 256]
  let d7 := XMEMCPY d6 (3 + protocolLen + labelLen + 1) (info.getD []) infoLen
  (d7, 3 + protocolLen + labelLen + 1 + infoLen)

/-- The source function `wc_Tls13_HKDF_Expand_Label`; the closing `ForceZero`
acts on the local `data` only. -/
def wc_Tls13_HKDF_Expand_Label (env : Env σ) (okm : Option (List Nat)) (okmLen : Nat)
    (prk : Option (List Nat)) (prkLen : Nat) (protocol : Option (List Nat)) (protocolLen : Nat)
    (label : Option (List Nat)) (labelLen : Nat) (info : Option (List Nat)) (infoLen : Nat)
    (digest : Int) : Int × Option (List Nat) :=
  let d := hkdfLabelData okmLen protocol protocolLen label labelLen info infoLen
  wc_HKDF_Expand env digest prk prkLen (some d.1) (word32 d.2) okm okmLen


/-! ## The TLS pseudorandom function -/

/-- Modelled from the spec: MAC identifier `md5_mac` of the headers. -/
def md5_mac : Int := 1
/-- Modelled from the spec: MAC identifier `sha_mac`. -/
def sha_mac : Int := 2
/-- Modelled from the spec: MAC identifier `sha224_mac`. -/
def sha224_mac : Int := 3
/-- Modelled from the spec: MAC identifier `sha256_mac`. -/
def sha256_mac : Int := 4
/-- Modelled from the spec: MAC identifier `sha384_mac`. -/
def sha384_mac : Int := 5
/-- Modelled from the spec: MAC identifier `sha512_mac`. -/
def sha512_mac : Int := 6
/-- Modelled from the spec: MAC identifier `blake2b_mac`. -/
def blake2b_mac : Int := 8

/-- The macro `P_HASH_MAX_SIZE` of `hmac.c` with SHA-512 compiled in. -/
def P_HASH_MAX_SIZE : Nat := 64

/-- The `switch (hash)` of `wc_PRF`: the HMAC algorithm and `len`, its digest
size; `sha_mac` shares its case with `default`. -/
def prfAlg (hash : Int) : Int × Nat :=
  if hash = md5_mac then (WC_MD5, digestSize WC_MD5)
  else if hash = sha256_mac then (WC_SHA256, digestSize WC_SHA256)
  else if hash = sha384_mac then (WC_SHA384, digestSize WC_SHA384)
  else if hash = sha512_mac then (WC_SHA512, digestSize WC_SHA512)
  else (WC_SHA, digestSize WC_SHA)

/-- The loop `for (i = 0; i < times; i++)` of `wc_PRF`; the first argument
counts the iterations left. -/
def prfLoop (env : Env σ) (seed : Option (List Nat)) (seedLen len lastLen lastTime : Nat) :
    Nat → Nat → Option (Hmac σ) → List Nat → List Nat → List Nat → Nat →
      Int × Option (Hmac σ) × List Nat
  | 0, _, hmac, _, _, result, _ => (0, hmac, result)
  | c + 1, i, hmac, previous, current, result, idx =>
    let r1 := wc_HmacUpdate env hmac (some previous) len
    if r1.1 ≠ 0 then (r1.1, r1.2, result)
    else
      let r2 := wc_HmacUpdate env r1.2 seed seedLen
      if r2.1 ≠ 0 then (r2.1, r2.2, result)
      else
        let r3 := wc_HmacFinal env r2.2 (some current)
        if r3.1 ≠ 0 then (r3.1, r3.2.1, result)
        else
          let current1 := r3.2.2.getD current
          if i = lastTime ∧ lastLen ≠ 0 then
            prfLoop env seed seedLen len lastLen lastTime c (i + 1) r3.2.1 previous current1
              (XMEMCPY result idx current1 (min lastLen P_HASH_MAX_SIZE)) idx
          else
            let result1 := XMEMCPY result idx current1 len
            let r4 := wc_HmacUpdate env r3.2.1 (some previous) len
            if r4.1 ≠ 0 then (r4.1, r4.2, result1)
            else
              let r5 := wc_HmacFinal env r4.2 (some previous)
              if r5.1 ≠ 0 then (r5.1, r5.2.1, result1)
              else
                prfLoop env seed seedLen len lastLen lastTime c (i + 1) r5.2.1
                  (r5.2.2.getD previous) current1 result1 (word32 (idx + len))

/-- The source function `wc_PRF`.  The locals `previous` and `current` start
zeroed; the closing `wc_HmacFree` and `ForceZero` calls act on locals only. -/
def wc_PRF (env : Env σ) (result : List Nat) (resLen : Nat) (secret : Option (List Nat))
    (secLen : Nat) (seed : Option (List Nat)) (seedLen : Nat) (hash : Int) (devId : Int) :
    Int × List Nat :=
  let alg := prfAlg hash
  let len := alg.2
  let lastLen := resLen % len
  let times := if lastLen ≠ 0 then word32 (resLen / len + 1) else resLen / len
  let lastTime := word32 (times + 4294967295)
  let r0 := wc_HmacInit env (some (zeroHmac env)) devId
  if r0.1 = 0 then
    let r1 := wc_HmacSetKey env r0.2 alg.1 secret secLen
    let r2 := if r1.1 = 0 then wc_HmacUpdate env r1.2 seed seedLen else r1
    let r3 :=
      if r2.1 = 0 then wc_HmacFinal env r2.2 (some (List.replicate P_HASH_MAX_SIZE 0))
      else (r2.1, r2.2, some (List.replicate P_HASH_MAX_SIZE 0))
    if r3.1 = 0 then
      let r := prfLoop env seed seedLen len lastLen lastTime times 0 r3.2.1
        (r3.2.2.getD []) (List.replicate P_HASH_MAX_SIZE 0) result 0
      (r.1, r.2.2)
    else (r3.1, result)
  else (r0.1, result)

/-- Modelled from the spec: `MAX_PRF_HALF` of the headers (not among the
sources), the size of the scratch buffers of the two secret halves (the
spec's `max_half`). -/
def MAX_PRF_HALF : Nat := 260
/-- Modelled from the spec: `MAX_PRF_LABSEED` of the headers, the size of the
scratch buffer of `label || seed` (the spec's `max_label_seed`). -/
def MAX_PRF_LABSEED : Nat := 128
/-- Modelled from the spec: `MAX_PRF_DIG` of the headers, the size of the
scratch buffers of the two results (the spec's `max_digest`). -/
def MAX_PRF_DIG : Nat := 224

/-- Modelled from the spec: `xorbuf` of `misc.c` (not among the sources),
`buf[i] ^= mask[i]` for `i < count`. -/
def xorbuf (buf mask : List Nat) (count : Nat) : List Nat :=
  (List.range count).map (fun i => buf.getD i 0 ^^^ mask.getD i 0) ++ buf.drop count

/-- The initialiser `word32 half = (secLen + 1) / 2` of `wc_PRF_TLSv1`. -/
def prfHalf (secLen : Nat) : Nat := word32 (secLen + 1) / 2

/-- The condition of `wc_PRF_TLSv1` that leads to `return BUFFER_E`; the sum
`labLen + seedLen` is a `word32`. -/
def prfTooBig (secLen labLen seedLen digLen : Nat) : Prop :=
  prfHalf secLen > MAX_PRF_HALF ∨ word32 (labLen + seedLen) > MAX_PRF_LABSEED ∨
    digLen > MAX_PRF_DIG

instance (secLen labLen seedLen digLen : Nat) :
    Decidable (prfTooBig secLen labLen seedLen digLen) := by
  unfold prfTooBig; infer_instance

/-- The local `md5_half` after `XMEMCPY(md5_half, secret, half)`.  The locals
of `wc_PRF_TLSv1` start zeroed. -/
def md5Half (secret : Option (List Nat)) (secLen : Nat) : List Nat :=
  XMEMCPY (List.replicate MAX_PRF_HALF 0) 0 (secret.getD []) (prfHalf secLen)

/-- The local `sha_half` after
`XMEMCPY(sha_half, secret + half - secLen % 2, half)`. -/
def shaHalf (secret : Option (List Nat)) (secLen : Nat) : List Nat :=
  XMEMCPY (List.replicate MAX_PRF_HALF 0) 0
    ((secret.getD []).drop (prfHalf secLen - secLen % 2)) (prfHalf secLen)

/-- The local `labelSeed` after `XMEMCPY(labelSeed, label, labLen)` and
`XMEMCPY(labelSeed + labLen, seed, seedLen)`.  A copy past the end of the
array, which the source does not check for, shows here as a longer list. -/
def labelSeedBuf (label : Option (List Nat)) (labLen : Nat) (seed : Option (List Nat))
    (seedLen : Nat) : List Nat :=
  XMEMCPY (XMEMCPY (List.replicate MAX_PRF_LABSEED 0) 0 (label.getD []) labLen) labLen
    (seed.getD []) seedLen

/-- The source function `wc_PRF_TLSv1`. -/
def wc_PRF_TLSv1 (env : Env σ) (digest : List Nat) (digLen : Nat) (secret : Option (List Nat))
    (secLen : Nat) (label : Option (List Nat)) (labLen : Nat) (seed : Option (List Nat))
    (seedLen : Nat) (devId : Int) : Int × List Nat :=
  let half := prfHalf secLen
  if prfTooBig secLen labLen seedLen digLen then (BUFFER_E, digest)
  else
    let md5_result := XMEMSET (List.replicate MAX_PRF_DIG 0) 0 0 digLen
    let sha_result := XMEMSET (List.replicate MAX_PRF_DIG 0) 0 0 digLen
    let md5_half := md5Half secret secLen
    let sha_half := shaHalf secret secLen
    let labelSeed := labelSeedBuf label labLen seed seedLen
    let r1 := wc_PRF env md5_result digLen (some md5_half) half (some labelSeed)
      (word32 (labLen + seedLen)) md5_mac devId
    if r1.1 = 0 then
      let r2 := wc_PRF env sha_result digLen (some sha_half) half (some labelSeed)
        (word32 (labLen + seedLen)) sha_mac devId
      if r2.1 = 0 then (0, xorbuf (XMEMCPY digest 0 r1.2 digLen) r2.2 digLen)
      else (r2.1, digest)
    else (r1.1, digest)

/-- The source function `wc_PRF_TLS` (old TLS compiled in). -/
def wc_PRF_TLS (env : Env σ) (digest : List Nat) (digLen : Nat) (secret : Option (List Nat))
    (secLen : Nat) (label : Option (List Nat)) (labLen : Nat) (seed : Option (List Nat))
    (seedLen : Nat) (useAtLeastSha256 : Int) (hash_type : Int) (devId : Int) :
    Int × List Nat :=
  if useAtLeastSha256 ≠ 0 then
    if word32 (labLen + seedLen) > MAX_PRF_LABSEED then (BUFFER_E, digest)
    else
      let labelSeed := labelSeedBuf label labLen seed seedLen
      let hash_type1 :=
        if hash_type < sha256_mac ∨ hash_type = blake2b_mac then sha256_mac else hash_type
      wc_PRF env digest digLen secret secLen (some labelSeed) (word32 (labLen + seedLen))
        hash_type1 devId
  else
    wc_PRF_TLSv1 env digest digLen secret secLen label labLen seed seedLen devId

/-! ## SSH-KDF -/

/-- The four `case` labels of `_HashInit`, `_HashUpdate`, `_HashFinal`. -/
def SshHash (hashId : Int) : Prop :=
  hashId = WC_SHA ∨ hashId = WC_SHA256 ∨ hashId = WC_SHA384 ∨ hashId = WC_SHA512

instance (hashId : Int) : Decidable (SshHash hashId) := by
  unfold SshHash; infer_instance

/-- The source function `_HashInit`. -/
def _HashInit (env : Env σ) (hashId : Int) (hash : σ) : Int × σ :=
  if SshHash hashId then env.hashInit hashId hash else (BAD_FUNC_ARG, hash)

/-- The source function `_HashUpdate`. -/
def _HashUpdate (env : Env σ) (hashId : Int) (hash : σ) (data : List Nat) : Int × σ :=
  if SshHash hashId then env.hashUpdate hashId hash data else (BAD_FUNC_ARG, hash)

/-- The source function `_HashFinal`; the digest it stores comes third. -/
def _HashFinal (env : Env σ) (hashId : Int) (hash : σ) : Int × σ × List Nat :=
  if SshHash hashId then env.hashFinal hashId hash else (BAD_FUNC_ARG, hash, [])

/-- Modelled from the spec: `c32toa` of `misc.c` (not among the sources), the
4-byte big-endian encoding of a `word32`. -/
def c32toa (u32 : Nat) : List Nat :=
  [u32 / 16777216 % 256, u32 / 65536 % 256, u32 / 256 % 256, u32 % 256]

/-- A run of `_HashUpdate` calls, each made only while `ret` is 0: the
chains `if (ret == 0) ret = _HashUpdate(...)` and
`ret = _HashUpdate(...); if (ret != 0) break;` of `wc_SSH_KDF`. -/
def hashChain (env : Env σ) (hashId : Int) : Int × σ → List (List Nat) → Int × σ
  | r, [] => r
  | r, d :: ds =>
    if r.1 ≠ 0 then r else hashChain env hashId (_HashUpdate env hashId r.2 d) ds

/-- The loop `for (curBlock = 1; curBlock < blocks; curBlock++)` of
`wc_SSH_KDF`; the first argument counts the iterations left, the state is
`ret`, the hash state, the `key` buffer and `runningKeySz`.  `pre` are the
parts hashed first in every block: `kSzFlat`, the pad byte if any, `k`, `h`. -/
def sshLoop (env : Env σ) (hashId : Int) (pre : List (List Nat)) (digestSz : Nat) :
    Nat → Int × σ × List Nat × Nat → Int × σ × List Nat × Nat
  | 0, st => st
  | c + 1, (_, hash, key, running) =>
    let r := hashChain env hashId (_HashInit env hashId hash) (pre ++ [key.take running])
    if r.1 ≠ 0 then (r.1, r.2, key, running)
    else
      let f := _HashFinal env hashId r.2
      if f.1 ≠ 0 then (f.1, f.2.1, writeAt key running f.2.2, running)
      else sshLoop env hashId pre digestSz c
        (0, f.2.1, writeAt key running f.2.2, word32 (running + digestSz))

/-- The source function `wc_SSH_KDF`.  The local hash state starts zeroed, the
local `lastBlock` too; the closing `_HashFree` acts on the local only. -/
def wc_SSH_KDF (env : Env σ) (hashId : Int) (keyId : Nat) (key : Option (List Nat))
    (keySz : Nat) (k : Option (List Nat)) (kSz : Nat) (h : Option (List Nat)) (hSz : Nat)
    (sessionId : Option (List Nat)) (sessionIdSz : Nat) : Int × Option (List Nat) :=
  if key.isNone ∨ keySz = 0 ∨ k.isNone ∨ kSz = 0 ∨ h.isNone ∨ hSz = 0 ∨
      sessionId.isNone ∨ sessionIdSz = 0 then (BAD_FUNC_ARG, key)
  else
    let digestSz := wc_HmacSizeByType hashId
    if digestSz < 0 then (BAD_FUNC_ARG, key)
    else
      let D := digestSz.toNat
      let kPad := if ((k.getD []).getD 0 0) &&& 0x80 ≠ 0 then 1 else 0
      let kSzFlat := c32toa (word32 (kSz + kPad))
      let nBlocks := keySz / D
      let remainder := keySz % D
      let pre := [kSzFlat] ++ (if kPad ≠ 0 then [[0]] else []) ++ [rd k kSz, rd h hSz]
      let key0 := key.getD []
      let lastBlock0 := List.replicate WC_MAX_DIGEST_SIZE 0
      let r := hashChain env hashId (_HashInit env hashId env.hashZero)
        (pre ++ [[keyId], rd sessionId sessionIdSz])
      if r.1 ≠ 0 then (r.1, key)
      else if nBlocks = 0 then
        if remainder > 0 then
          let f := _HashFinal env hashId r.2
          if f.1 = 0 then (0, some (XMEMCPY key0 0 (writeAt lastBlock0 0 f.2.2) remainder))
          else (f.1, key)
        else (0, key)
      else
        let f := _HashFinal env hashId r.2
        let st := sshLoop env hashId pre D (nBlocks - 1) (f.1, f.2.1, writeAt key0 0 f.2.2, D)
        if remainder > 0 then
          if st.1 ≠ 0 then (st.1, some st.2.2.1)
          else
            let r2 := hashChain env hashId (_HashInit env hashId st.2.1)
              (pre ++ [st.2.2.1.take st.2.2.2])
            if r2.1 ≠ 0 then (r2.1, some st.2.2.1)
            else
              let f2 := _HashFinal env hashId r2.2
              if f2.1 = 0 then
                (0, some (XMEMCPY st.2.2.1 st.2.2.2 (writeAt lastBlock0 0 f2.2.2) remainder))
              else (f2.1, some st.2.2.1)
        else (st.1, some st.2.2.1)

/-! ## The hash computed by the capability, and HMAC as RFC 2104 defines it -/

/-- The hash state right after the `Init` primitive of algorithm `t`. -/
def freshState (env : Env σ) (t : Int) : σ := (env.hashInit t env.hashZero).2

/-- The digest the capability computes for the whole message `m`: one
`Init`, one `Update`, one `Final`. -/
def hashOf (env : Env σ) (t : Int) (m : List Nat) : List Nat :=
  (env.hashFinal t (env.hashUpdate t (freshState env t) m).2).2.2

/-- The block-sized key of RFC 2104: the key itself when it fits the block,
else its digest, zero-padded on the right to `B` bytes. -/
def normKey (H : List Nat → List Nat) (B : Nat) (key : List Nat) : List Nat :=
  let k0 := if key.length ≤ B then key else H key
  k0 ++ List.replicate (B - k0.length) 0

/-- The RFC 2104 definition `H((K' xor opad) || H((K' xor ipad) || msg))`. -/
def hmacSpec (H : List Nat → List Nat) (B : Nat) (key msg : List Nat) : List Nat :=
  H ((normKey H B key).map (fun b => b ^^^ OPAD) ++
     H ((normKey H B key).map (fun b => b ^^^ IPAD) ++ msg))

/-- HMAC of algorithm `t` over the capability of `env`. -/
def HMAC (env : Env σ) (t : Int) (key msg : List Nat) : List Nat :=
  hmacSpec (hashOf env t) (blockSize t) key msg

/-- A hash capability that never fails, whose `Update` is concatenative and
whose `Final` (like `Init`) leaves the freshly initialised state. -/
structure HashLaws (env : Env σ) : Prop where
  init_ok : ∀ t s, Supported t → (env.hashInit t s).1 = 0
  update_ok : ∀ t s d, (env.hashUpdate t s d).1 = 0
  final_ok : ∀ t s, (env.hashFinal t s).1 = 0
  update_concat : ∀ t s a b,
    (env.hashUpdate t (env.hashUpdate t s a).2 b).2 = (env.hashUpdate t s (a ++ b)).2
  final_resets : ∀ t s s', (env.hashFinal t s).2.1 = (env.hashInit t s').2

/-- The software path: no crypto callback is compiled in, or the context is
bound to no device. -/
def Software (env : Env σ) (devId : Int) : Prop :=
  env.WOLF_CRYPTO_CB = false ∨ devId = INVALID_DEVID

/-! ## A concrete capability, to run the definitions -/

/-- Digest of the toy hash: the digest size of the algorithm, each byte the
sum of the absorbed bytes plus their number, modulo 256. -/
def toyDigest (t : Int) (m : List Nat) : List Nat :=
  List.replicate (digestSize t) ((m.sum + m.length) % 256)

/-- A software-only build without FIPS whose hash state is the list of bytes
absorbed so far. -/
def toyEnv : Env (List Nat) :=
  { HAVE_FIPS := false
    WOLF_CRYPTO_CB := false
    hashZero := []
    hashInit := fun _ _ => (0, [])
    hashUpdate := fun _ s d => (0, s ++ d)
    hashFinal := fun t s => (0, [], toyDigest t s)
    hashFree := fun _ _ => []
    wc_CryptoCb_Hmac := fun h _ _ _ o => (CRYPTOCB_UNAVAILABLE, h, o)
    final_len := by intro t s _; simp [toyDigest]
    final_le := by intro t s; simp [toyDigest]
    cb_wf := by intro h _ _ _ _ hw; exact hw }

/-! ## The specifications of the derivation functions -/

/-- The concatenation `f 0 ++ f 1 ++ ... ++ f (N - 1)`. -/
def blocks (f : Nat → List Nat) : Nat → List Nat
  | 0 => []
  | N + 1 => blocks f N ++ f N

/-- The RFC 5869 block `T(n)`: `T(0)` is empty and
`T(n) = HMAC(prk, T(n-1) || info || byte(n))`. -/
def hkdfT (env : Env σ) (t : Int) (prk info : List Nat) : Nat → List Nat
  | 0 => []
  | n + 1 => HMAC env t prk (hkdfT env t prk info n ++ info ++ [n + 1])

/-- The TLS `P_hash` chain: `A(0) = seed`, `A(i) = HMAC(secret, A(i-1))`. -/
def prfA (env : Env σ) (t : Int) (secret seed : List Nat) : Nat → List Nat
  | 0 => seed
  | i + 1 => HMAC env t secret (prfA env t secret seed i)

/-- The `i`-th output block (from 0) of `P_hash`:
`HMAC(secret, A(i+1) || seed)`. -/
def prfBlock (env : Env σ) (t : Int) (secret seed : List Nat) (i : Nat) : List Nat :=
  HMAC env t secret (prfA env t secret seed (i + 1) ++ seed)

/-- The byte string every SSH-KDF block starts hashing with:
`be32(kSz + kPad) || (0x00 if kPad) || K || H`. -/
def sshPrefix (K H : List Nat) : List Nat :=
  let kPad := if (K.getD 0 0) &&& 0x80 ≠ 0 then 1 else 0
  c32toa (word32 (K.length + kPad)) ++ (if kPad ≠ 0 then [0] else []) ++ K ++ H

/-- The SSH-KDF block `digest(i)`: `digest(0) = Hash(P || keyId || sessionId)`
and `digest(i) = Hash(P || digest(0) || ... || digest(i-1))`.  The function
returns the pair of `digest(0) || ... || digest(i-1)` and `digest(i)`. -/
def sshDigests (env : Env σ) (t : Int) (K H : List Nat) (keyId : Nat)
    (sessionId : List Nat) : Nat → List Nat × List Nat
  | 0 => ([], hashOf env t (sshPrefix K H ++ [keyId] ++ sessionId))
  | i + 1 =>
    let p := sshDigests env t K H keyId sessionId i
    (p.1 ++ p.2, hashOf env t (sshPrefix K H ++ (p.1 ++ p.2)))

/-- The SSH-KDF block `digest(i)`. -/
def sshDigest (env : Env σ) (t : Int) (K H : List Nat) (keyId : Nat)
    (sessionId : List Nat) (i : Nat) : List Nat :=
  (sshDigests env t K H keyId sessionId i).2

/-- The RFC 5869 output stream `T(1) || T(2) || ... || T(255)`. -/
def hkdfOkm (env : Env σ) (t : Int) (prk info : List Nat) : List Nat :=
  blocks (fun i => hkdfT env t prk info (i + 1)) 255

/-- The hash identifiers of the TLS PRF, each with the HMAC algorithm it
stands for. -/
def prfPairs : List (Int × Int) :=
  [(md5_mac, WC_MD5), (sha_mac, WC_SHA), (sha256_mac, WC_SHA256),
   (sha384_mac, WC_SHA384), (sha512_mac, WC_SHA512)]

/-- The calls `wc_HmacUpdate(c1)`, ..., `wc_HmacUpdate(cn)` in a row, each
made only if the call before it returned 0. -/
def updateAll (env : Env σ) : Int × Option (Hmac σ) → List (List Nat) → Int × Option (Hmac σ)
  | r, [] => r
  | r, c :: cs =>
    if r.1 ≠ 0 then r else updateAll env (wc_HmacUpdate env r.2 (some c) c.length) cs

/-- The sequence `SetKey`, `Update(c1)` ... `Update(cn)`, `Final` on a context,
each call made only if the call before it returned 0. -/
def hmacChunks (env : Env σ) (hmac : Option (Hmac σ)) (type : Int)
    (key : Option (List Nat)) (keySz : Nat) (chunks : List (List Nat))
    (out : Option (List Nat)) : Int × Option (Hmac σ) × Option (List Nat) :=
  let r1 := wc_HmacSetKey env hmac type key keySz
  if r1.1 ≠ 0 then (r1.1, r1.2, out)
  else
    let r2 := updateAll env (0, r1.2) chunks
    if r2.1 ≠ 0 then (r2.1, r2.2, out)
    else wc_HmacFinal env r2.2 out

/-- The sequence `Update(msg)`, `Final` on a context, `Final` only if `Update`
returned 0. -/
def updateFinal (env : Env σ) (hmac : Option (Hmac σ)) (msg : Option (List Nat))
    (msgSz : Nat) (out : Option (List Nat)) : Int × Option (Hmac σ) × Option (List Nat) :=
  let r := wc_HmacUpdate env hmac msg msgSz
  if r.1 ≠ 0 then (r.1, r.2, out) else wc_HmacFinal env r.2 out

/-- One HMAC run as the callers of this file write it: `wc_HmacInit`, then
`wc_HmacSetKey`, `wc_HmacUpdate` and `wc_HmacFinal`, each only if the call
before it returned 0.  Returns the last code and the output buffer. -/
def hmacRun (env : Env σ) (type : Int) (key : Option (List Nat)) (keySz : Nat)
    (msg : Option (List Nat)) (msgSz : Nat) (out : Option (List Nat)) :
    Int × Option (List Nat) :=
  let r0 := wc_HmacInit env (some (zeroHmac env)) INVALID_DEVID
  if r0.1 ≠ 0 then (r0.1, out)
  else
    let r1 := wc_HmacSetKey env r0.2 type key keySz
    if r1.1 ≠ 0 then (r1.1, out)
    else
      let r2 := wc_HmacUpdate env r1.2 msg msgSz
      if r2.1 ≠ 0 then (r2.1, out)
      else
        let r3 := wc_HmacFinal env r2.2 out
        (r3.1, r3.2.2)

/-! ## Vocabulary of the statements -/

/-- The context once the inner pad and the message bytes `m` have been fed
to the hash state of the unkeyed context `h`. -/
def absorb (env : Env σ) (h : Hmac σ) (m : List Nat) : Hmac σ :=
  { h with
    hash := (env.hashUpdate h.macType h.hash (h.ipad.take (blockSize h.macType) ++ m)).2
    innerHashKeyed := WC_HMAC_INNER_HASH_KEYED_SW }

/-- The `Update` primitives never fail. -/
def UpdateNeverFails (env : Env σ) : Prop :=
  ∀ t s d, (env.hashUpdate t s d).1 = 0

/-- The `Update` primitives are concatenative: feeding `a` and then `b`
leaves the state that feeding `a ++ b` leaves. -/
def UpdateConcat (env : Env σ) : Prop :=
  ∀ t s a b, (env.hashUpdate t (env.hashUpdate t s a).2 b).2 = (env.hashUpdate t s (a ++ b)).2

/-- The `Final` primitives reset the hash state: they leave the state that
`Init` leaves. -/
def FinalResets (env : Env σ) : Prop :=
  ∀ t s s', (env.hashFinal t s).2.1 = (env.hashInit t s').2

/-- A context keyed with `key` for algorithm `t` on the software path, at the
start of a message: both pads hold the RFC 2104 key pads, nothing has been
fed to the freshly initialised hash state. -/
structure Ready (env : Env σ) (t : Int) (key : List Nat) (h : Hmac σ) : Prop where
  wf : WF h
  sw : Software env h.devId
  macType : h.macType = t
  unkeyed : h.innerHashKeyed = 0
  fresh : h.hash = freshState env t
  ipad : h.ipad.take (blockSize t) =
    (normKey (hashOf env t) (blockSize t) key).map (fun b => b ^^^ IPAD)
  opad : h.opad.take (blockSize t) =
    (normKey (hashOf env t) (blockSize t) key).map (fun b => b ^^^ OPAD)

/-- The digest of `k` as `wc_HmacSetKey` computes it for an over-long key:
`Update` and `Final` on the state `s0` that `_InitHmac` left. -/
def keyHash (env : Env σ) (t : Int) (s0 : σ) (k : List Nat) : List Nat :=
  (env.hashFinal t (env.hashUpdate t s0 k).2).2.2

/-- The key length passes the minimum-length gate of `wc_HmacSetKey`: a
build without FIPS has no gate, a FIPS build wants `HMAC_FIPS_MIN_KEY`
bytes. -/
def KeyLenOk (env : Env σ) (n : Nat) : Prop :=
  env.HAVE_FIPS = false ∨ HMAC_FIPS_MIN_KEY ≤ n

/-- No call on the context is offered to a device. -/
def NoDev (env : Env σ) (hmac : Option (Hmac σ)) : Prop :=
  ∀ h, hmac = some h → ¬ onDevice env h

/-- HKDF as the spec words it, `Expand(Extract(...), info, output)`:
`wc_HKDF_Extract` into a scratch buffer `prk`, then, if that returned 0,
`wc_HKDF_Expand` with `prk` and the digest size as key length. -/
def hkdfExtractThenExpand (env : Env σ) (type : Int) (inKey : Option (List Nat))
    (inKeySz : Nat) (salt : Option (List Nat)) (saltSz : Nat) (info : Option (List Nat))
    (infoSz : Nat) (out : Option (List Nat)) (outSz : Nat) : Int × Option (List Nat) :=
  let e := wc_HKDF_Extract env type salt saltSz inKey inKeySz
    (some (List.replicate WC_MAX_DIGEST_SIZE 0))
  if e.1 ≠ 0 then (e.1, out)
  else wc_HKDF_Expand env type e.2 (digestSize type) info infoSz out outSz

/-- What `wc_HKDF_Expand` does once its argument check has let the call
through: `wc_HmacInit`, then the loop over the output blocks. -/
def expandRun (env : Env σ) (type : Int) (inKey : Option (List Nat)) (inKeySz : Nat)
    (info : Option (List Nat)) (infoSz : Nat) (o : List Nat) (outSz : Nat) :
    Int × Option (List Nat) :=
  let r0 := wc_HmacInit env (some (zeroHmac env)) INVALID_DEVID
  if r0.1 ≠ 0 then (r0.1, some o)
  else
    let r := expandLoop env type inKey inKeySz info infoSz outSz
      (wc_HmacSizeByType type % 4294967296).toNat outSz
      r0.2 (List.replicate WC_MAX_DIGEST_SIZE 0) o 0 1
    (r.1, some r.2.2)

/-- The RFC 8446 `HkdfLabel` as the spec words it: the output length on two
bytes, big-endian, the length of `protocol || label` on one byte, `protocol`,
`label`, the length of `info` on one byte, `info`. -/
def hkdfLabel (okmLen : Nat) (protocol label info : List Nat) : List Nat :=
  [okmLen >>> 8, okmLen &&& 0xff, (protocol.length + label.length) &&& 0xff] ++
    protocol ++ label ++ [info.length &&& 0xff] ++ info

/-- The key of `P_MD5` in `wc_PRF_TLSv1`: the bytes `md5_half[0 .. half)`. -/
def prfS1 (secret : Option (List Nat)) (secLen : Nat) : List Nat :=
  (md5Half secret secLen).take (prfHalf secLen)

/-- The key of `P_SHA1` in `wc_PRF_TLSv1`: the bytes `sha_half[0 .. half)`. -/
def prfS2 (secret : Option (List Nat)) (secLen : Nat) : List Nat :=
  (shaHalf secret secLen).take (prfHalf secLen)

/-- Digest of a second toy hash: zero bytes but for the last one, which is the
sum of the absorbed bytes plus their number, modulo 256. -/
def tailDigest (t : Int) (m : List Nat) : List Nat :=
  (List.replicate (digestSize t) 0).set (digestSize t - 1) ((m.sum + m.length) % 256)

/-- The build of `toyEnv` over the second toy hash. -/
def tailEnv : Env (List Nat) :=
  { HAVE_FIPS := false
    WOLF_CRYPTO_CB := false
    hashZero := []
    hashInit := fun _ _ => (0, [])
    hashUpdate := fun _ s d => (0, s ++ d)
    hashFinal := fun t s => (0, [], tailDigest t s)
    hashFree := fun _ _ => []
    wc_CryptoCb_Hmac := fun h _ _ _ o => (CRYPTOCB_UNAVAILABLE, h, o)
    final_len := by intro t s _; simp [tailDigest]
    final_le := by intro t s; simp [tailDigest]
    cb_wf := by intro h _ _ _ _ hw; exact hw }

/-- The block `if (!hmac->innerHashKeyed) { ret = HmacKeyInnerHash(hmac); ... }`
that opens the software path of `wc_HmacUpdate` and of `wc_HmacFinal`. -/
def innerKeying (env : Env σ) (h : Hmac σ) : Int × Hmac σ :=
  if h.innerHashKeyed = 0 then HmacKeyInnerHash env h else (0, h)

/-- A run of primitive calls that stops at the first failure: each entry is
the code a call returns and the hash state it leaves; the result is the code
and state of the first call with a non-zero code, or 0 and the state the last
call left (`s` when there is no call). -/
def stopAt {α : Type} : List (Int × α) → α → Int × α
  | [], s => (0, s)
  | (e, s') :: rest, _ => if e ≠ 0 then (e, s') else stopAt rest s'

/-- The four primitive calls of the `case` of `wc_HmacFinal`, in order, each
on the state the call before it left: `Final` into `innerHash`,
`Update(opad)`, `Update(innerHash)`, `Final` into the caller's buffer. -/
def finalSteps (env : Env σ) (h : Hmac σ) : List (Int × σ) :=
  let t := h.macType
  let f1 := env.hashFinal t h.hash
  let u2 := env.hashUpdate t f1.2.1 (h.opad.take (blockSize t))
  let u3 := env.hashUpdate t u2.2 ((writeAt h.innerHash 0 f1.2.2).take (digestSize t))
  let f4 := env.hashFinal t u3.2
  [(f1.1, f1.2.1), (u2.1, u2.2), (u3.1, u3.2), (f4.1, f4.2.1)]

/-- The build of `env` without the crypto callback (`WOLF_CRYPTO_CB` not
defined): the pure software path. -/
def softwareEnv (env : Env σ) : Env σ :=
  { env with WOLF_CRYPTO_CB := false }

/-- A capability that records its calls: the state is the list of the calls
made since `Init`, `some n` for an `Update` of `n` bytes and `none` for a
`Final`; the digests are zero bytes. -/
def traceEnv : Env (List (Option Nat)) :=
  { HAVE_FIPS := false
    WOLF_CRYPTO_CB := false
    hashZero := []
    hashInit := fun _ _ => (0, [])
    hashUpdate := fun _ s d => (0, s ++ [some d.length])
    hashFinal := fun t s => (0, s ++ [none], List.replicate (digestSize t) 0)
    hashFree := fun _ s => s
    wc_CryptoCb_Hmac := fun h _ _ _ o => (CRYPTOCB_UNAVAILABLE, h, o)
    final_len := by intro t s _; simp
    final_le := by intro t s; simp
    cb_wf := by intro h _ _ _ _ hw; exact hw }

/-- The build of `toyEnv` over a hash whose `Final` fails with code `-1`, and
stores nothing, exactly when 8 bytes have been absorbed. -/
def flakyEnv : Env (List Nat) :=
  { HAVE_FIPS := false
    WOLF_CRYPTO_CB := false
    hashZero := []
    hashInit := fun _ _ => (0, [])
    hashUpdate := fun _ s d => (0, s ++ d)
    hashFinal := fun t s => if s.length = 8 then (-1, [], []) else (0, [], toyDigest t s)
    hashFree := fun _ _ => []
    wc_CryptoCb_Hmac := fun h _ _ _ o => (CRYPTOCB_UNAVAILABLE, h, o)
    final_len := by
      intro t s h
      by_cases c : s.length = 8
      · simp [c] at h
      · simp [c, toyDigest]
    final_le := by
      intro t s
      by_cases c : s.length = 8
      · simp [c]
      · simp [c, toyDigest]
    cb_wf := by intro h _ _ _ _ hw; exact hw }

/-- The build of `toyEnv` with the crypto callback compiled in: the device of
id 1 reports `CRYPTOCB_UNAVAILABLE`, every other device fails with code `-1`,
and neither touches the context or the output buffer. -/
def deviceEnv : Env (List Nat) :=
  { HAVE_FIPS := false
    WOLF_CRYPTO_CB := true
    hashZero := []
    hashInit := fun _ _ => (0, [])
    hashUpdate := fun _ s d => (0, s ++ d)
    hashFinal := fun t s => (0, [], toyDigest t s)
    hashFree := fun _ _ => []
    wc_CryptoCb_Hmac := fun h _ _ _ o =>
      if h.devId = 1 then (CRYPTOCB_UNAVAILABLE, h, o) else (-1, h, o)
    final_len := by intro t s _; simp [toyDigest]
    final_le := by intro t s; simp [toyDigest]
    cb_wf := by
      intro h _ _ _ _ hw
      by_cases c : h.devId = 1
      · simp only [c, if_true]; exact hw
      · simp only [c, if_false]; exact hw }

/-- A context of `flakyEnv` keyed for HMAC-SHA1 whose inner hash is keyed and
has absorbed 8 bytes, so that the next `Final` primitive fails. -/
def flakyCtx : Hmac (List Nat) :=
  { zeroHmac flakyEnv with
    hash := [1, 2, 3, 4, 5, 6, 7, 8], macType := WC_SHA, innerHashKeyed := 1 }

/-- The context of `deviceEnv` bound to device `devId` by `wc_HmacInit` and
keyed for HMAC-SHA256 with the key `[1, 2, 3]`. -/
def deviceCtx (devId : Int) : Hmac (List Nat) :=
  (wc_HmacSetKey deviceEnv (wc_HmacInit deviceEnv (some (zeroHmac deviceEnv)) devId).2
    WC_SHA256 (some [1, 2, 3]) 3).2.getD (zeroHmac deviceEnv)

/-- The context of `toyEnv` after one whole HMAC-MD5 run: `wc_HmacSetKey` with
the key `[1, 2, 3]`, `wc_HmacUpdate` of `[4, 5]`, `wc_HmacFinal`. -/
def usedCtx : Hmac (List Nat) :=
  ((wc_HmacFinal toyEnv
    (wc_HmacUpdate toyEnv
      (wc_HmacSetKey toyEnv (some (zeroHmac toyEnv)) WC_MD5 (some [1, 2, 3]) 3).2
      (some [4, 5]) 2).2
    (some (List.replicate 16 0))).2.1).getD (zeroHmac toyEnv)

/-- A capability whose state counts the `Free` calls made on it since `Init`;
the digests are zero bytes. -/
def countEnv : Env Nat :=
  { HAVE_FIPS := false
    WOLF_CRYPTO_CB := false
    hashZero := 0
    hashInit := fun _ _ => (0, 0)
    hashUpdate := fun _ s _ => (0, s)
    hashFinal := fun t s => (0, s, List.replicate (digestSize t) 0)
    hashFree := fun _ s => s + 1
    wc_CryptoCb_Hmac := fun h _ _ _ o => (CRYPTOCB_UNAVAILABLE, h, o)
    final_len := by intro t s _; simp
    final_le := by intro t s; simp
    cb_wf := by intro h _ _ _ _ hw; exact hw }

/-- The `while (outIdx < outSz)` loop of `wc_HKDF_Expand` once more, with two
ghost results next to that of `expandLoop`: the list of the pairs
`(n, tmpSz)` of the iterations entered, in order, and `outIdx` at the exit. -/
def expandLoopTrace (env : Env σ) (type : Int) (inKey : Option (List Nat)) (inKeySz : Nat)
    (info : Option (List Nat)) (infoSz : Nat) (outSz hashSz : Nat) :
    Nat → Option (Hmac σ) → List Nat → List Nat → Nat → Nat →
      (Int × Option (Hmac σ) × List Nat) × List (Nat × Nat) × Nat
  | 0, hmac, _, out, outIdx, _ => ((0, hmac, out), [], outIdx)
  | fuel + 1, hmac, tmp, out, outIdx, n =>
    if outIdx < outSz then
      let tmpSz := if n = 1 then 0 else hashSz
      let left := outSz - outIdx
      let r1 := wc_HmacSetKey env hmac type inKey inKeySz
      if r1.1 ≠ 0 then ((r1.1, r1.2, out), [(n, tmpSz)], outIdx)
      else
        let r2 := wc_HmacUpdate env r1.2 (some tmp) tmpSz
        if r2.1 ≠ 0 then ((r2.1, r2.2, out), [(n, tmpSz)], outIdx)
        else
          let r3 := wc_HmacUpdate env r2.2 info infoSz
          if r3.1 ≠ 0 then ((r3.1, r3.2, out), [(n, tmpSz)], outIdx)
          else
            let r4 := wc_HmacUpdate env r3.2 (some [n]) 1
            if r4.1 ≠ 0 then ((r4.1, r4.2, out), [(n, tmpSz)], outIdx)
            else
              let r5 := wc_HmacFinal env r4.2 (some tmp)
              if r5.1 ≠ 0 then ((r5.1, r5.2.1, out), [(n, tmpSz)], outIdx)
              else
                let tmp1 := r5.2.2.getD tmp
                let out1 := XMEMCPY out outIdx tmp1 (min left hashSz)
                let rest := expandLoopTrace env type inKey inKeySz info infoSz outSz hashSz
                  fuel r5.2.1 tmp1 out1 (word32 (outIdx + hashSz)) ((n + 1) % 256)
                (rest.1, (n, tmpSz) :: rest.2.1, rest.2.2)
    else ((0, hmac, out), [], outIdx)

/-- One call of the streaming interface on a context, with valid buffers:
`wc_HmacSetKey(type, key, len(key))`, `wc_HmacUpdate(msg, len(msg))` or
`wc_HmacFinal(out)`. -/
inductive HmacCall where
  | setKey (type : Int) (key : List Nat)
  | update (msg : List Nat)
  | final (out : List Nat)

/-- The call made on a context: the code it returns, the context it leaves
and, for `wc_HmacFinal`, the output buffer it leaves. -/
def callHmac (env : Env σ) (hmac : Option (Hmac σ)) :
    HmacCall → Int × Option (Hmac σ) × Option (List Nat)
  | .setKey t k =>
    ((wc_HmacSetKey env hmac t (some k) k.length).1,
      (wc_HmacSetKey env hmac t (some k) k.length).2, none)
  | .update m =>
    ((wc_HmacUpdate env hmac (some m) m.length).1,
      (wc_HmacUpdate env hmac (some m) m.length).2, none)
  | .final o => wc_HmacFinal env hmac (some o)

/-- A sequence of calls on one context, each made whatever the call before it
returned: the log of the calls, each with its code and output, and the context
at the end. -/
def runCalls (env : Env σ) :
    Option (Hmac σ) → List HmacCall →
      List (HmacCall × Int × Option (List Nat)) × Option (Hmac σ)
  | h, [] => ([], h)
  | h, c :: cs =>
    ((c, (callHmac env h c).1, (callHmac env h c).2.2) ::
        (runCalls env (callHmac env h c).2.1 cs).1,
      (runCalls env (callHmac env h c).2.1 cs).2)

/-- A logged call that is not a `wc_HmacSetKey` failing past its argument
check: a `wc_HmacSetKey` has returned 0 or was given an unsupported type. -/
def Settled : HmacCall × Int × Option (List Nat) → Prop
  | (.setKey t _, code, _) => ¬ Supported t ∨ code = 0
  | (.update _, _, _) => True
  | (.final _, _, _) => True

instance : (e : HmacCall × Int × Option (List Nat)) → Decidable (Settled e)
  | (.setKey t _, code, _) => inferInstanceAs (Decidable (¬ Supported t ∨ code = 0))
  | (.update _, _, _) => inferInstanceAs (Decidable True)
  | (.final _, _, _) => inferInstanceAs (Decidable True)

/-- The algorithm and key of the last `wc_HmacSetKey` of a log that returned
0, `acc` if there is none. -/
def lastKey : Option (Int × List Nat) → List (HmacCall × Int × Option (List Nat)) →
    Option (Int × List Nat)
  | acc, [] => acc
  | acc, (.setKey t k, code, _) :: rest => lastKey (if code = 0 then some (t, k) else acc) rest
  | acc, (.update _, _, _) :: rest => lastKey acc rest
  | acc, (.final _, _, _) :: rest => lastKey acc rest

/-- The two states of the spec: uninitialised (no algorithm bound) or fully
keyed, the algorithm bound and both pads derived from the key. -/
def KeyedBy (env : Env σ) (h : Hmac σ) : Option (Int × List Nat) → Prop
  | none => h.macType = WC_HASH_TYPE_NONE
  | some (t, key) =>
    Supported t ∧ h.macType = t ∧
    h.ipad.take (blockSize t) =
      (normKey (hashOf env t) (blockSize t) key).map (fun b => b ^^^ IPAD) ∧
    h.opad.take (blockSize t) =
      (normKey (hashOf env t) (blockSize t) key).map (fun b => b ^^^ OPAD)

/-- The build of `toyEnv` over a hash with two faults: `Init` fails with `-1`
for SHA-384, `Update` fails with `-1` on more than 200 bytes at once. -/
def faultyEnv : Env (List Nat) :=
  { HAVE_FIPS := false
    WOLF_CRYPTO_CB := false
    hashZero := []
    hashInit := fun t _ => (if t = WC_SHA384 then -1 else 0, [])
    hashUpdate := fun _ s d => (if d.length > 200 then -1 else 0, s ++ d)
    hashFinal := fun t s => (0, [], toyDigest t s)
    hashFree := fun _ _ => []
    wc_CryptoCb_Hmac := fun h _ _ _ o => (CRYPTOCB_UNAVAILABLE, h, o)
    final_len := by intro t s _; simp [toyDigest]
    final_le := by intro t s; simp [toyDigest]
    cb_wf := by intro h _ _ _ _ hw; exact hw }

/-- Whether the call is a `wc_HmacSetKey`. -/
def HmacCall.isSetKey : HmacCall → Bool
  | .setKey _ _ => true
  | .update _ => false
  | .final _ => false

/-- The state of the spec after one more successful call: nothing while no
key is set, else the algorithm, the key of the last `wc_HmacSetKey` and the
message fed since the last `wc_HmacSetKey` or `wc_HmacFinal` (`none` while no
`wc_HmacUpdate` has been made). -/
def track : Option (Int × List Nat × Option (List Nat)) → HmacCall →
    Option (Int × List Nat × Option (List Nat))
  | _, .setKey t k => some (t, k, none)
  | some (t, k, m), .update c => some (t, k, some (m.getD [] ++ c))
  | none, .update _ => none
  | some (t, k, _), .final _ => some (t, k, none)
  | none, .final _ => none

/-- The state of the spec after a sequence of successful calls. -/
def trackAll : Option (Int × List Nat × Option (List Nat)) → List HmacCall →
    Option (Int × List Nat × Option (List Nat))
  | st, [] => st
  | st, c :: cs => trackAll (track st c) cs

/-- The output the spec gives a call: `wc_HmacFinal` stores the HMAC of the
message fed so far. -/
def specOut (env : Env σ) : Option (Int × List Nat × Option (List Nat)) → HmacCall →
    Option (List Nat)
  | some (t, k, m), .final o => some (HMAC env t k (m.getD []) ++ o.drop (digestSize t))
  | _, _ => none

/-- The log the spec gives a sequence of calls that all succeed. -/
def specLog (env : Env σ) : Option (Int × List Nat × Option (List Nat)) → List HmacCall →
    List (HmacCall × Int × Option (List Nat))
  | _, [] => []
  | st, c :: cs => (c, 0, specOut env st c) :: specLog env (track st c) cs

/-- The context `h` is in the state `st` of the spec, on the software path:
unbound, keyed at the start of a message, or keyed with the inner pad and the
message `m` fed to the hash. -/
def Tracks (env : Env σ) (h : Hmac σ) : Option (Int × List Nat × Option (List Nat)) → Prop
  | none => WF h ∧ Software env h.devId ∧ h.macType = WC_HASH_TYPE_NONE
  | some (t, key, none) => Supported t ∧ Ready env t key h
  | some (t, key, some m) =>
    Supported t ∧ ∃ base, Ready env t key base ∧ h = absorb env base m

/-- The context of `countEnv` keyed for HMAC with algorithm `t` and the key
`[1, 2, 3]`. -/
def countCtx (t : Int) : Hmac Nat :=
  (wc_HmacSetKey countEnv (some (zeroHmac countEnv)) t (some [1, 2, 3]) 3).2.getD
    (zeroHmac countEnv)

/-- A context of `toyEnv` in the middle of a message: keyed for HMAC-SHA3-224
(block size 144) with the key `[9, 9]`, the message byte `7` fed. -/
def midCtx : Hmac (List Nat) :=
  (wc_HmacUpdate toyEnv
    (wc_HmacSetKey toyEnv (some (zeroHmac toyEnv)) WC_SHA3_224 (some [9, 9]) 2).2
    (some [7]) 1).2.getD (zeroHmac toyEnv)

/-! ## Basic facts -/

theorem toyEnv_laws : HashLaws toyEnv := by
  constructor <;> intros <;> simp [toyEnv]

theorem supported_mod (t : Int) (h : Supported t) : t % 256 = t := by
  rcases h with h | h | h | h | h | h | h | h | h | h <;> subst h <;> decide

theorem supported_sizes (t : Int) (h : Supported t) :
    0 < digestSize t ∧ digestSize t ≤ blockSize t ∧
    blockSize t ≤ WC_HMAC_BLOCK_SIZE ∧ digestSize t ≤ WC_MAX_DIGEST_SIZE := by
  rcases h with h | h | h | h | h | h | h | h | h | h <;> subst h <;> decide

theorem supported_digest_ge (t : Int) (h : Supported t) : 16 ≤ digestSize t := by
  rcases h with h | h | h | h | h | h | h | h | h | h <;> subst h <;> decide

theorem padLoop_append (mid : List Nat) :
    ∀ (pre post opre omid opost : List Nat),
      opre.length = pre.length → omid.length = mid.length →
      padLoop mid.length pre.length (pre ++ mid ++ post) (opre ++ omid ++ opost) =
        (pre ++ mid.map (fun b => b ^^^ IPAD) ++ post,
         opre ++ mid.map (fun b => b ^^^ OPAD) ++ opost) := by
  induction mid with
  | nil =>
    intro pre post opre omid opost _ h2
    have : omid = [] := List.length_eq_zero.mp h2
    subst this
    simp [padLoop]
  | cons x xs ih =>
    intro pre post opre omid opost h1 h2
    cases omid with
    | nil => simp at h2
    | cons y ys =>
      have h3 : ys.length = xs.length := by simpa using h2
      have e1 : (pre ++ x :: xs ++ post).getD pre.length 0 = x := by
        rw [List.getD_eq_getElem?_getD, List.append_assoc,
          List.getElem?_append_right (le_refl _)]
        simp
      have e2 : (pre ++ x :: xs ++ post).set pre.length (x ^^^ IPAD) =
          (pre ++ [x ^^^ IPAD]) ++ xs ++ post := by
        simp [List.set_append]
      have e3 : (opre ++ y :: ys ++ opost).set pre.length (x ^^^ OPAD) =
          (opre ++ [x ^^^ OPAD]) ++ ys ++ opost := by
        rw [← h1]; simp [List.set_append]
      have := ih (pre ++ [x ^^^ IPAD]) post (opre ++ [x ^^^ OPAD]) ys opost
        (by simp [h1]) h3
      simp only [List.length_cons, padLoop, e1, e2, e3]
      simp only [List.length_append, List.length_cons, List.length_nil] at this
      simpa using this

/-! ## Memory lemmas -/

theorem rd_some_length (k : List Nat) : rd (some k) k.length = k := by
  simp [rd]

theorem writeAt_length (dst src : List Nat) (off : Nat)
    (h : off + src.length ≤ dst.length) : (writeAt dst off src).length = dst.length := by
  simp [writeAt]; omega

theorem writeAt_zero_take (dst src : List Nat) :
    (writeAt dst 0 src).take src.length = src := by
  simp [writeAt]

theorem writeAt_zero_drop (dst src : List Nat) :
    (writeAt dst 0 src).drop src.length = dst.drop src.length := by
  simp [writeAt]

theorem setKeyPads_fields (h : Hmac σ) (length B : Nat) (hw : WF h)
    (hB : B ≤ WC_HMAC_BLOCK_SIZE) (hl : length ≤ B) :
    (setKeyPads h length B).ipad =
        (h.ipad.take length ++ List.replicate (B - length) 0).map (fun b => b ^^^ IPAD) ++
          h.ipad.drop B ∧
    (setKeyPads h length B).opad =
        (h.ipad.take length ++ List.replicate (B - length) 0).map (fun b => b ^^^ OPAD) ++
          h.opad.drop B := by
  obtain ⟨hi, ho, _⟩ := hw
  have hip : (if length < B then XMEMSET h.ipad length 0 (B - length) else h.ipad) =
      [] ++ (h.ipad.take length ++ List.replicate (B - length) 0) ++ h.ipad.drop B := by
    split
    · next hlt =>
      simp only [XMEMSET, writeAt, List.length_replicate, List.nil_append]
      congr 2
      omega
    · next hge =>
      have : length = B := by omega
      subst this
      simp
  have hop : h.opad = [] ++ h.opad.take B ++ h.opad.drop B := by simp
  have hlen : (h.ipad.take length ++ List.replicate (B - length) 0).length = B := by
    simp [List.length_take]; omega
  have hlen2 : (h.opad.take B).length = B := by
    simp [List.length_take]; omega
  have key := padLoop_append (h.ipad.take length ++ List.replicate (B - length) 0)
    [] (h.ipad.drop B) [] (h.opad.take B) (h.opad.drop B) rfl (by rw [hlen, hlen2])
  rw [hlen] at key
  simp only [List.length_nil] at key
  unfold setKeyPads
  simp only []
  rw [hip]
  conv => lhs; rw [hop]
  conv => rhs; lhs; rw [hop]
  rw [key]
  simp

/-! ## The software path -/

theorem software_not_onDevice (env : Env σ) (h : Hmac σ) (hsw : Software env h.devId) :
    ¬ onDevice env h := by
  rintro ⟨h1, h2⟩
  rcases hsw with h3 | h3
  · rw [h1] at h3; cases h3
  · exact h2 h3

theorem wf_HmacFree (env : Env σ) (h : Hmac σ) (hw : WF h) : WF (HmacFree env h) := by
  unfold HmacFree
  have h1 : WF (if onDevice env h ∧ h.devCtx.isSome then
      (env.wc_CryptoCb_Hmac h h.macType none 0
        (some (List.replicate WC_HMAC_BLOCK_SIZE 0))).2.1 else h) := by
    split
    · exact env.cb_wf _ _ _ _ _ hw
    · exact hw
  revert h1
  generalize (if onDevice env h ∧ h.devCtx.isSome then
      (env.wc_CryptoCb_Hmac h h.macType none 0
        (some (List.replicate WC_HMAC_BLOCK_SIZE 0))).2.1 else h) = g
  intro hg
  simp only []
  split <;> split <;> exact hg

theorem update_unkeyed (env : Env σ) (h : Hmac σ) (c : List Nat)
    (hnf : UpdateNeverFails env) (hc : UpdateConcat env)
    (hsw : Software env h.devId) (hs : Supported h.macType) (hk : h.innerHashKeyed = 0) :
    wc_HmacUpdate env (some h) (some c) c.length = (0, some (absorb env h c)) := by
  have hd := software_not_onDevice env h hsw
  simp [wc_HmacUpdate, hd, hk, HmacKeyInnerHash, hs, hnf _ _ _, rd, absorb, hc _ _ _ _]

theorem update_keyed (env : Env σ) (h : Hmac σ) (m c : List Nat)
    (hnf : UpdateNeverFails env) (hc : UpdateConcat env)
    (hsw : Software env h.devId) (hs : Supported h.macType) :
    wc_HmacUpdate env (some (absorb env h m)) (some c) c.length =
      (0, some (absorb env h (m ++ c))) := by
  have hd : ¬ onDevice env (absorb env h m) := software_not_onDevice env _ hsw
  simp [wc_HmacUpdate, hd]
  simp [absorb, hs, hnf _ _ _, rd, hc _ _ _ _, WC_HMAC_INNER_HASH_KEYED_SW]

theorem final_unkeyed (env : Env σ) (h : Hmac σ) (o : List Nat)
    (hnf : UpdateNeverFails env)
    (hsw : Software env h.devId) (hs : Supported h.macType) (hk : h.innerHashKeyed = 0) :
    wc_HmacFinal env (some h) (some o) =
      wc_HmacFinal env (some (absorb env h [])) (some o) := by
  have hd := software_not_onDevice env h hsw
  have hd2 : ¬ onDevice env (absorb env h []) := software_not_onDevice env _ hsw
  simp [wc_HmacFinal, hd, hd2, hk, HmacKeyInnerHash, hs, hnf _ _ _]
  simp [absorb, hs, WC_HMAC_INNER_HASH_KEYED_SW]

/-! ## Keyed contexts under a lawful hash -/

theorem HashLaws.init_fresh {env : Env σ} (hl : HashLaws env) (t : Int) (s : σ) :
    (env.hashInit t s).2 = freshState env t := by
  unfold freshState
  rw [← hl.final_resets t s s, ← hl.final_resets t s env.hashZero]

theorem HashLaws.final_fresh {env : Env σ} (hl : HashLaws env) (t : Int) (s : σ) :
    (env.hashFinal t s).2.1 = freshState env t :=
  hl.final_resets t s env.hashZero

theorem HashLaws.hashOf_length {env : Env σ} (hl : HashLaws env) (t : Int) (m : List Nat) :
    (hashOf env t m).length = digestSize t :=
  env.final_len t _ (hl.final_ok t _)

theorem HmacFree_software (env : Env σ) (h : Hmac σ) (hsw : Software env h.devId) :
    ∃ s, HmacFree env h = { h with hash := s } := by
  have hd := software_not_onDevice env h hsw
  unfold HmacFree
  simp only [hd, false_and, if_false]
  split <;> split <;> exact ⟨_, rfl⟩

theorem final_absorbed (env : Env σ) (hl : HashLaws env) (t : Int) (key m out : List Nat)
    (h : Hmac σ) (hs : Supported t) (hr : Ready env t key h) :
    ∃ h', wc_HmacFinal env (some (absorb env h m)) (some out) =
        (0, some h', some (writeAt out 0 (HMAC env t key m))) ∧ Ready env t key h' := by
  obtain ⟨hw, hsw, hmt, hk, hf, hip, hop⟩ := hr
  have hd : ¬ onDevice env (absorb env h m) := software_not_onDevice env _ hsw
  have hsz := supported_sizes t hs
  obtain ⟨hwi, hwo, hwh⟩ := hw
  -- the inner digest
  have hin : (env.hashFinal t (env.hashUpdate t (freshState env t)
      (h.ipad.take (blockSize t) ++ m)).2).2.2 =
      hashOf env t ((normKey (hashOf env t) (blockSize t) key).map (fun b => b ^^^ IPAD) ++ m) := by
    rw [hip]; rfl
  have hlen := hl.hashOf_length t
    ((normKey (hashOf env t) (blockSize t) key).map (fun b => b ^^^ IPAD) ++ m)
  have htake : (writeAt h.innerHash 0 (hashOf env t
      ((normKey (hashOf env t) (blockSize t) key).map (fun b => b ^^^ IPAD) ++ m))).take
      (digestSize t) = hashOf env t
      ((normKey (hashOf env t) (blockSize t) key).map (fun b => b ^^^ IPAD) ++ m) := by
    have := writeAt_zero_take h.innerHash (hashOf env t
      ((normKey (hashOf env t) (blockSize t) key).map (fun b => b ^^^ IPAD) ++ m))
    rwa [hlen] at this
  refine ⟨{ h with hash := freshState env t,
                   innerHash := writeAt h.innerHash 0 (hashOf env t
      ((normKey (hashOf env t) (blockSize t) key).map (fun b => b ^^^ IPAD) ++ m)) }, ?_, ?_⟩
  · have hfold : ∀ x, (env.hashFinal t (env.hashUpdate t (freshState env t) x).2).2.2 =
        hashOf env t x := fun _ => rfl
    simp only [wc_HmacFinal, hd, false_and, if_false]
    simp only [absorb, hmt, hf, WC_HMAC_INNER_HASH_KEYED_SW, hs, finalCase,
      hl.final_ok, hl.update_ok, hl.final_fresh, hip, hop, hfold, htake, hl.update_concat,
      if_true, ne_eq, not_true_eq_false, if_false, one_ne_zero, hk, HMAC, hmacSpec]
  · refine ⟨⟨hwi, hwo, ?_⟩, hsw, hmt, hk, rfl, hip, hop⟩
    simp only []
    rw [writeAt_length]
    · exact hwh
    · rw [hlen, hwh]; simpa using hsz.2.2.2

/-! ## What a successful `wc_HmacSetKey` leaves -/

theorem wf_setKeyPre (env : Env σ) (h : Hmac σ) (hw : WF h) : WF (setKeyPre env h) := by
  unfold setKeyPre
  split
  · exact wf_HmacFree env h hw
  · exact hw

theorem setKeyCase_fields (env : Env σ) (h : Hmac σ) (t : Int) (k : List Nat)
    (hs : Supported t) (hmt : h.macType = t) (hw : WF h)
    (hret : (setKeyCase env h (some k) k.length).1 = 0) :
    ∃ s ip, (setKeyCase env h (some k) k.length).2.1 = { h with hash := s, ipad := ip } ∧
      ip.length = WC_HMAC_BLOCK_SIZE ∧
      (setKeyCase env h (some k) k.length).2.2 ≤ blockSize t ∧
      ip.take (setKeyCase env h (some k) k.length).2.2 ++
          List.replicate (blockSize t - (setKeyCase env h (some k) k.length).2.2) 0 =
        normKey (keyHash env t h.hash) (blockSize t) k ∧
      s = (if k.length ≤ blockSize t then h.hash
           else (env.hashFinal t (env.hashUpdate t h.hash k).2).2.1) := by
  obtain ⟨hwi, hwo, hwh⟩ := hw
  have hsz := supported_sizes t hs
  by_cases hle : k.length ≤ blockSize t
  · refine ⟨h.hash, XMEMCPY h.ipad 0 k k.length, ?_, ?_, ?_, ?_, ?_⟩
    · simp [setKeyCase, hmt, hle]
    · simp only [XMEMCPY, List.take_length]
      rw [writeAt_length]
      · exact hwi
      · rw [hwi]; omega
    · simp [setKeyCase, hmt, hle]
    · simp [setKeyCase, hmt, hle, XMEMCPY, writeAt, normKey]
    · simp [hle]
  · have h1 : (env.hashUpdate t h.hash k).1 = 0 := by
      by_contra hne
      simp [setKeyCase, hmt, hle, rd, hne] at hret
    have h2 : (env.hashFinal t (env.hashUpdate t h.hash k).2).1 = 0 := by
      by_contra hne
      simp [setKeyCase, hmt, hle, rd, h1, hne] at hret
    have hlen := env.final_len t _ h2
    refine ⟨(env.hashFinal t (env.hashUpdate t h.hash k).2).2.1,
      writeAt h.ipad 0 (env.hashFinal t (env.hashUpdate t h.hash k).2).2.2, ?_, ?_, ?_, ?_, ?_⟩
    · simp [setKeyCase, hmt, hle, rd, h1, h2]
    · rw [writeAt_length]
      · exact hwi
      · rw [hwi, hlen]; omega
    · simp [setKeyCase, hmt, hle, rd, h1, h2]; exact hsz.2.1
    · have e : (setKeyCase env h (some k) k.length).2.2 = digestSize t := by
        simp [setKeyCase, hmt, hle, rd, h1, h2]
      rw [e]
      have := writeAt_zero_take h.ipad (env.hashFinal t (env.hashUpdate t h.hash k).2).2.2
      rw [hlen] at this
      rw [this]
      simp [normKey, hle, keyHash, hlen]
    · simp [hle]

theorem setKey_success (env : Env σ) (h0 : Hmac σ) (t : Int) (k : List Nat)
    (hs : Supported t) (hw : WF h0)
    (hret : (wc_HmacSetKey env (some h0) t (some k) k.length).1 = 0) :
    ∃ h', wc_HmacSetKey env (some h0) t (some k) k.length = (0, some h') ∧
      h'.macType = t ∧ h'.innerHashKeyed = 0 ∧ WF h' ∧
      h'.devId = (setKeyPre env h0).devId ∧
      h'.innerHash = (setKeyPre env h0).innerHash ∧
      h'.ipad.take (blockSize t) =
        (normKey (keyHash env t (env.hashInit t (setKeyPre env h0).hash).2)
          (blockSize t) k).map (fun b => b ^^^ IPAD) ∧
      h'.opad.take (blockSize t) =
        (normKey (keyHash env t (env.hashInit t (setKeyPre env h0).hash).2)
          (blockSize t) k).map (fun b => b ^^^ OPAD) ∧
      h'.hash = (if k.length ≤ blockSize t then (env.hashInit t (setKeyPre env h0).hash).2
        else (env.hashFinal t (env.hashUpdate t
          (env.hashInit t (setKeyPre env h0).hash).2 k).2).2.1) := by
  have hm := supported_mod t hs
  have hsz := supported_sizes t hs
  obtain ⟨hpi, hpo, hph⟩ := wf_setKeyPre env h0 hw
  unfold wc_HmacSetKey at hret ⊢
  simp only [Option.isNone_some, Bool.false_eq_true, false_and, hs, not_true_eq_false,
    or_self, if_false, _InitHmac, if_true, hm] at hret ⊢
  by_cases hi : (env.hashInit t (setKeyPre env h0).hash).1 = 0
  swap
  · simp [hi] at hret
  simp only [hi, ne_eq, not_true_eq_false, if_false] at hret ⊢
  by_cases hf : env.HAVE_FIPS = true ∧ k.length < HMAC_FIPS_MIN_KEY
  · simp [hf, HMAC_MIN_KEYLEN_E] at hret
  simp only [hf, if_false] at hret ⊢
  generalize hg : setKeyRaw env _ _ _ = g at hret ⊢
  have hg1 : g.macType = t ∧ g.innerHashKeyed = 0 ∧
      g.hash = (env.hashInit t (setKeyPre env h0).hash).2 ∧
      g.ipad = (setKeyPre env h0).ipad ∧ g.opad = (setKeyPre env h0).opad ∧
      g.innerHash = (setKeyPre env h0).innerHash ∧ g.devId = (setKeyPre env h0).devId := by
    rw [← hg]; unfold setKeyRaw; split <;> simp
  obtain ⟨hgm, hgk, hgh, hgi, hgo, hgn, hgd⟩ := hg1
  have hgw : WF g := ⟨by rw [hgi]; exact hpi, by rw [hgo]; exact hpo, by rw [hgn]; exact hph⟩
  simp only [hgm, hs, not_true_eq_false, if_false] at hret ⊢
  by_cases hc : (setKeyCase env g (some k) k.length).1 = 0
  swap
  · simp [hc] at hret
  simp only [hc, if_true]
  obtain ⟨s, ip, e1, e2, e3, e4', e5⟩ := setKeyCase_fields env g t k hs hgm hgw hc
  have hwc : WF (setKeyCase env g (some k) k.length).2.1 := by
    rw [e1]; exact ⟨e2, hgw.2.1, hgw.2.2⟩
  obtain ⟨p1, p2⟩ := setKeyPads_fields (setKeyCase env g (some k) k.length).2.1
    (setKeyCase env g (some k) k.length).2.2 (blockSize t) hwc hsz.2.2.1 e3
  have hlen : ((setKeyCase env g (some k) k.length).2.1.ipad.take
      (setKeyCase env g (some k) k.length).2.2 ++
      List.replicate (blockSize t - (setKeyCase env g (some k) k.length).2.2) 0).length =
      blockSize t := by
    rw [List.length_append, List.length_take, List.length_replicate, hwc.1]
    have := hsz.2.2.1
    omega
  have hX : (setKeyCase env g (some k) k.length).2.1.ipad.take
      (setKeyCase env g (some k) k.length).2.2 ++
      List.replicate (blockSize t - (setKeyCase env g (some k) k.length).2.2) 0 =
      normKey (keyHash env t (env.hashInit t (setKeyPre env h0).hash).2) (blockSize t) k := by
    rw [← hgh, ← e4', e1]
  rw [hX] at p1 p2 hlen
  have hlen2 : (List.map (fun b => b ^^^ IPAD)
      (normKey (keyHash env t (env.hashInit t (setKeyPre env h0).hash).2)
        (blockSize t) k)).length = blockSize t := by
    rw [List.length_map, hlen]
  have hlen3 : (List.map (fun b => b ^^^ OPAD)
      (normKey (keyHash env t (env.hashInit t (setKeyPre env h0).hash).2)
        (blockSize t) k)).length = blockSize t := by
    rw [List.length_map, hlen]
  refine ⟨_, rfl, ?_, ?_, ?_, ?_, ?_, ?_, ?_, ?_⟩
  · simp [setKeyPads, e1, hgm]
  · simp [setKeyPads, e1, hgk]
  · refine ⟨?_, ?_, ?_⟩
    · rw [p1, List.length_append, hlen2, List.length_drop, hwc.1]
      have := hsz.2.2.1
      omega
    · rw [p2, List.length_append, hlen3, List.length_drop, hwc.2.1]
      have := hsz.2.2.1
      omega
    · simp [setKeyPads, e1, hgn, hph]
  · simp [setKeyPads, e1, hgd]
  · simp [setKeyPads, e1, hgn]
  · rw [p1, List.take_left' hlen2]
  · rw [p2, List.take_left' hlen3]
  · simp only [setKeyPads, e1, e5, hgh]

theorem setKeyPre_software (env : Env σ) (h : Hmac σ) (hsw : Software env h.devId) :
    ∃ s, setKeyPre env h = { h with hash := s } := by
  unfold setKeyPre
  split
  · exact HmacFree_software env h hsw
  · exact ⟨h.hash, rfl⟩

theorem keyHash_fresh (env : Env σ) (t : Int) :
    keyHash env t (freshState env t) = hashOf env t := rfl

theorem setKey_ret_laws (env : Env σ) (hl : HashLaws env) (h0 : Hmac σ) (t : Int)
    (k : List Nat) (hs : Supported t)
    (hfips : env.HAVE_FIPS = false ∨ HMAC_FIPS_MIN_KEY ≤ k.length) :
    (wc_HmacSetKey env (some h0) t (some k) k.length).1 = 0 := by
  have hm := supported_mod t hs
  have hf : ¬ (env.HAVE_FIPS = true ∧ k.length < HMAC_FIPS_MIN_KEY) := by
    rintro ⟨h1, h2⟩
    rcases hfips with h3 | h3
    · rw [h1] at h3; cases h3
    · omega
  unfold wc_HmacSetKey
  simp only [Option.isNone_some, Bool.false_eq_true, false_and, hs, not_true_eq_false,
    or_self, if_false, _InitHmac, if_true, hm, hl.init_ok t _ hs, ne_eq, hf]
  generalize hg : setKeyRaw env _ _ _ = g
  have hgm : g.macType = t := by
    rw [← hg]; unfold setKeyRaw; split <;> simp
  have hc : (setKeyCase env g (some k) k.length).1 = 0 := by
    unfold setKeyCase
    split
    · rfl
    · simp [hl.update_ok, hl.final_ok]
  simp [hgm, hs, hc]

theorem setKey_ready (env : Env σ) (hl : HashLaws env) (h0 : Hmac σ) (t : Int)
    (k : List Nat) (hs : Supported t)
    (hfips : env.HAVE_FIPS = false ∨ HMAC_FIPS_MIN_KEY ≤ k.length)
    (hw : WF h0) (hsw : Software env h0.devId) :
    ∃ h', wc_HmacSetKey env (some h0) t (some k) k.length = (0, some h') ∧
      Ready env t k h' := by
  obtain ⟨h', e, hmt, hk, hwf, hd, _, hip, hop, hh⟩ :=
    setKey_success env h0 t k hs hw (setKey_ret_laws env hl h0 t k hs hfips)
  obtain ⟨s, hpre⟩ := setKeyPre_software env h0 hsw
  refine ⟨h', e, hwf, ?_, hmt, hk, ?_, ?_, ?_⟩
  · rw [hd, hpre]; exact hsw
  · rw [hh]
    split
    · exact hl.init_fresh t _
    · exact hl.final_fresh t _
  · rw [hip, hl.init_fresh, keyHash_fresh]
  · rw [hop, hl.init_fresh, keyHash_fresh]

theorem HashLaws.neverFails {env : Env σ} (hl : HashLaws env) : UpdateNeverFails env :=
  hl.update_ok

theorem HashLaws.concat {env : Env σ} (hl : HashLaws env) : UpdateConcat env :=
  hl.update_concat

theorem init_fields (env : Env σ) (x : Hmac σ) (devId : Int) :
    ∃ h, wc_HmacInit env (some x) devId = (0, some h) ∧ WF h ∧
      h.macType = WC_HASH_TYPE_NONE ∧ h.hash = env.hashZero ∧ h.innerHashKeyed = 0 ∧
      h.devId = (if env.WOLF_CRYPTO_CB = true then devId else 0) := by
  refine ⟨_, rfl, ?_, rfl, rfl, rfl, rfl⟩
  simp [WF, zeroHmac]

theorem init_software (env : Env σ) (devId : Int) (hsw : Software env devId) :
    Software env (if env.WOLF_CRYPTO_CB = true then devId else 0) := by
  rcases hsw with h | h
  · exact Or.inl h
  · split
    · exact Or.inr h
    · rename_i hc
      left
      simpa using hc

theorem writeAt_zero (dst src : List Nat) :
    writeAt dst 0 src = src ++ dst.drop src.length := by
  simp [writeAt]

/-- One message on a keyed context: `Update` of the whole message and `Final`
store the RFC 2104 value and leave the context keyed for the next message. -/
theorem ready_update_final (env : Env σ) (hl : HashLaws env) (t : Int)
    (key m out : List Nat) (h : Hmac σ) (hs : Supported t) (hr : Ready env t key h) :
    ∃ h1 h2, wc_HmacUpdate env (some h) (some m) m.length = (0, some h1) ∧
      wc_HmacFinal env (some h1) (some out) =
        (0, some h2, some (HMAC env t key m ++ out.drop (digestSize t))) ∧
      Ready env t key h2 := by
  have hsm : Supported h.macType := by rw [hr.macType]; exact hs
  obtain ⟨h2, e2, hr2⟩ := final_absorbed env hl t key m out h hs hr
  refine ⟨absorb env h m, h2,
    update_unkeyed env h m hl.neverFails hl.concat hr.sw hsm hr.unkeyed, ?_, hr2⟩
  rw [e2, writeAt_zero]
  have : (HMAC env t key m).length = digestSize t := hl.hashOf_length t _
  rw [this]

/-- `Final` right after keying: the value for the empty message. -/
theorem ready_final (env : Env σ) (hl : HashLaws env) (t : Int)
    (key out : List Nat) (h : Hmac σ) (hs : Supported t) (hr : Ready env t key h) :
    ∃ h2, wc_HmacFinal env (some h) (some out) =
        (0, some h2, some (HMAC env t key [] ++ out.drop (digestSize t))) ∧
      Ready env t key h2 := by
  have hsm : Supported h.macType := by rw [hr.macType]; exact hs
  obtain ⟨h2, e2, hr2⟩ := final_absorbed env hl t key [] out h hs hr
  refine ⟨h2, ?_, hr2⟩
  rw [final_unkeyed env h out hl.neverFails hr.sw hsm hr.unkeyed, e2, writeAt_zero]
  have : (HMAC env t key []).length = digestSize t := hl.hashOf_length t _
  rw [this]

theorem hmac_init_setKey_update_final (env : Env σ) (hl : HashLaws env) (x : Hmac σ)
    (devId : Int) (t : Int) (key msg out : List Nat)
    (hsw : Software env devId) (hs : Supported t) (hk : KeyLenOk env key.length) :
    (wc_HmacInit env (some x) devId).1 = 0 ∧
    (wc_HmacSetKey env (wc_HmacInit env (some x) devId).2 t (some key) key.length).1 = 0 ∧
    (wc_HmacUpdate env
      (wc_HmacSetKey env (wc_HmacInit env (some x) devId).2 t (some key) key.length).2
      (some msg) msg.length).1 = 0 ∧
    (wc_HmacFinal env
      (wc_HmacUpdate env
        (wc_HmacSetKey env (wc_HmacInit env (some x) devId).2 t (some key) key.length).2
        (some msg) msg.length).2 (some out)).1 = 0 ∧
    (wc_HmacFinal env
      (wc_HmacUpdate env
        (wc_HmacSetKey env (wc_HmacInit env (some x) devId).2 t (some key) key.length).2
        (some msg) msg.length).2 (some out)).2.2 =
      some (hmacSpec (hashOf env t) (blockSize t) key msg ++ out.drop (digestSize t)) := by
  obtain ⟨h0, e0, hw0, _, _, _, hd0⟩ := init_fields env x devId
  have hsw0 : Software env h0.devId := by rw [hd0]; exact init_software env devId hsw
  obtain ⟨h1, e1, hr1⟩ := setKey_ready env hl h0 t key hs hk hw0 hsw0
  obtain ⟨h2, h3, e2, e3, _⟩ := ready_update_final env hl t key msg out h1 hs hr1
  rw [e0]; simp only []
  rw [e1]; simp only []
  rw [e2]; simp only []
  rw [e3]
  exact ⟨trivial, trivial, trivial, rfl, rfl⟩

/-! ## `Update` with any pointer and length -/

theorem update_unkeyed_rd (env : Env σ) (h : Hmac σ) (msg : Option (List Nat)) (n : Nat)
    (hnf : UpdateNeverFails env) (hc : UpdateConcat env)
    (hsw : Software env h.devId) (hs : Supported h.macType) (hk : h.innerHashKeyed = 0)
    (hmsg : ¬ (msg.isNone ∧ n > 0)) :
    wc_HmacUpdate env (some h) msg n = (0, some (absorb env h (rd msg n))) := by
  have hd := software_not_onDevice env h hsw
  simp only [wc_HmacUpdate, hmsg, if_false]
  simp [hd, hk, HmacKeyInnerHash, hs, hnf _ _ _, absorb, hc _ _ _ _]

theorem update_keyed_rd (env : Env σ) (h : Hmac σ) (m : List Nat)
    (msg : Option (List Nat)) (n : Nat)
    (hnf : UpdateNeverFails env) (hc : UpdateConcat env)
    (hsw : Software env h.devId) (hs : Supported h.macType)
    (hmsg : ¬ (msg.isNone ∧ n > 0)) :
    wc_HmacUpdate env (some (absorb env h m)) msg n =
      (0, some (absorb env h (m ++ rd msg n))) := by
  have hd : ¬ onDevice env (absorb env h m) := software_not_onDevice env _ hsw
  simp only [wc_HmacUpdate, hmsg, if_false]
  simp [hd]
  simp [absorb, hs, hnf _ _ _, hc _ _ _ _, WC_HMAC_INNER_HASH_KEYED_SW]

theorem setKey_rd (env : Env σ) (hmac : Option (Hmac σ)) (t : Int)
    (key : Option (List Nat)) (n : Nat) :
    wc_HmacSetKey env hmac t key n =
      wc_HmacSetKey env hmac t (key.map (fun k => k.take n)) n := by
  cases hmac with
  | none => rfl
  | some h =>
    cases key with
    | none => rfl
    | some k =>
      simp [wc_HmacSetKey, setKeyRaw, setKeyCase, rd, XMEMCPY, List.take_take]

/-! ## HKDF-Extract -/

theorem extract_eq_hmacRun (env : Env σ) (type : Int) (salt : Option (List Nat))
    (saltSz : Nat) (inKey : Option (List Nat)) (inKeySz : Nat) (out : Option (List Nat))
    (hs : Supported type) :
    wc_HKDF_Extract env type salt saltSz inKey inKeySz out =
      hmacRun env type
        (if salt.isNone then some (List.replicate (digestSize type) 0) else salt)
        (if salt.isNone then digestSize type else saltSz) inKey inKeySz out := by
  have hsz := supported_sizes type hs
  have hnn : ¬ ((digestSize type : Int) < 0) := by omega
  have htmp : XMEMSET (List.replicate WC_MAX_DIGEST_SIZE 0) 0 0 (digestSize type) =
      List.replicate WC_MAX_DIGEST_SIZE 0 := by
    have h4 := hsz.2.2.2
    simp only [XMEMSET, writeAt, List.take_zero, List.nil_append, List.length_replicate,
      Nat.zero_add, List.drop_replicate, ← List.replicate_add]
    congr 1
    omega
  have h0 : (wc_HmacInit env (some (zeroHmac env)) INVALID_DEVID).1 = 0 := rfl
  unfold wc_HKDF_Extract hmacRun
  simp only [wc_HmacSizeByType, hs, not_true_eq_false, if_false, hnn, Int.toNat_ofNat, htmp]
  cases salt with
  | some s =>
    simp only [Option.isNone_some, Bool.false_eq_true, if_false, h0, ne_eq,
      not_true_eq_false, if_true]
    generalize wc_HmacSetKey env _ type (some s) saltSz = r1
    by_cases h1 : r1.1 = 0
    · simp only [h1, if_true, not_true_eq_false, if_false]
      generalize wc_HmacUpdate env r1.2 inKey inKeySz = r2
      by_cases h2 : r2.1 = 0
      · simp [h2]
      · simp [h2]
    · simp [h1]
  | none =>
    simp only [Option.isNone_none, if_true]
    have hk : wc_HmacSetKey env (wc_HmacInit env (some (zeroHmac env)) INVALID_DEVID).2 type
        (some (List.replicate WC_MAX_DIGEST_SIZE 0)) (digestSize type) =
        wc_HmacSetKey env (wc_HmacInit env (some (zeroHmac env)) INVALID_DEVID).2 type
        (some (List.replicate (digestSize type) 0)) (digestSize type) := by
      rw [setKey_rd env _ type (some (List.replicate WC_MAX_DIGEST_SIZE 0)),
        setKey_rd env _ type (some (List.replicate (digestSize type) 0))]
      have h4 := hsz.2.2.2
      simp [List.take_replicate, h4]
    rw [hk]
    simp only [h0, ne_eq, not_true_eq_false, if_false, if_true]
    generalize wc_HmacSetKey env _ type (some (List.replicate (digestSize type) 0))
      (digestSize type) = r1
    by_cases h1 : r1.1 = 0
    · simp only [h1, if_true, not_true_eq_false, if_false]
      generalize wc_HmacUpdate env r1.2 inKey inKeySz = r2
      by_cases h2 : r2.1 = 0
      · simp [h2]
      · simp [h2]
    · simp [h1]

theorem extract_unsupported (env : Env σ) (type : Int) (salt : Option (List Nat))
    (saltSz : Nat) (inKey : Option (List Nat)) (inKeySz : Nat) (out : Option (List Nat))
    (hs : ¬ Supported type) :
    wc_HKDF_Extract env type salt saltSz inKey inKeySz out = (BAD_FUNC_ARG, out) := by
  simp [wc_HKDF_Extract, wc_HmacSizeByType, hs, BAD_FUNC_ARG]

theorem hmacRun_laws (env : Env σ) (hl : HashLaws env) (t : Int) (key msg out : List Nat)
    (hs : Supported t) (hk : KeyLenOk env key.length) :
    hmacRun env t (some key) key.length (some msg) msg.length (some out) =
      (0, some (HMAC env t key msg ++ out.drop (digestSize t))) := by
  obtain ⟨h1, h2, h3, h4, h5⟩ := hmac_init_setKey_update_final env hl (zeroHmac env)
    INVALID_DEVID t key msg out (Or.inr rfl) hs hk
  unfold hmacRun
  simp only [h1, h2, h3, ne_eq, not_true_eq_false, if_false]
  rw [Prod.ext_iff]
  exact ⟨h4, h5⟩

/-! ## Streams of equal-sized blocks -/

theorem blocks_length (f : Nat → List Nat) (D : Nat) (hf : ∀ i, (f i).length = D) (N : Nat) :
    (blocks f N).length = N * D := by
  induction N with
  | zero => simp [blocks]
  | succ n ih => simp [blocks, ih, hf, Nat.succ_mul]

theorem blocks_split (f : Nat → List Nat) (j : Nat) :
    ∀ k, ∃ rest, blocks f (j + k) = blocks f j ++ rest := by
  intro k
  induction k with
  | zero => exact ⟨[], by simp⟩
  | succ k ih =>
    obtain ⟨rest, e⟩ := ih
    refine ⟨rest ++ f (j + k), ?_⟩
    rw [← Nat.add_assoc, blocks, e, List.append_assoc]

theorem blocks_take (f : Nat → List Nat) (D : Nat) (hf : ∀ i, (f i).length = D)
    (N j r : Nat) (hj : j < N) (hr : r ≤ D) :
    (blocks f N).take (j * D + r) = blocks f j ++ (f j).take r := by
  obtain ⟨rest, e⟩ := blocks_split f (j + 1) (N - (j + 1))
  have hN : j + 1 + (N - (j + 1)) = N := by omega
  rw [hN] at e
  rw [e, blocks, List.append_assoc]
  have hl := blocks_length f D hf j
  rw [List.take_append_eq_append_take, hl]
  have h1 : (blocks f j).take (j * D + r) = blocks f j := by
    apply List.take_of_length_le; omega
  rw [h1]
  congr 1
  have h2 : j * D + r - j * D = r := by omega
  rw [h2, List.take_append_eq_append_take, hf j]
  have h3 : r - D = 0 := by omega
  rw [h3]
  simp

theorem blocks_take_full (f : Nat → List Nat) (D : Nat) (hf : ∀ i, (f i).length = D)
    (N j : Nat) (hj : j ≤ N) :
    (blocks f N).take (j * D) = blocks f j := by
  obtain ⟨rest, e⟩ := blocks_split f j (N - j)
  have hN : j + (N - j) = N := by omega
  rw [hN] at e
  rw [e, List.take_append_eq_append_take, blocks_length f D hf j]
  simp
  rw [blocks_length f D hf j]

/-! ## HKDF-Expand -/

/-- One iteration of the loops of the derivation functions on a lawful
software context: keying, three `Update` calls and `Final`. -/
theorem hmac_cycle3 (env : Env σ) (hl : HashLaws env) (t : Int) (key : List Nat)
    (h : Hmac σ) (hw : WF h) (hsw : Software env h.devId) (hs : Supported t)
    (hk : KeyLenOk env key.length)
    (m1 m2 m3 : Option (List Nat)) (n1 n2 n3 : Nat)
    (hm1 : ¬ (m1.isNone ∧ n1 > 0)) (hm2 : ¬ (m2.isNone ∧ n2 > 0))
    (hm3 : ¬ (m3.isNone ∧ n3 > 0)) (out : List Nat) :
    ∃ h1 h2 h3 h4 h5,
      wc_HmacSetKey env (some h) t (some key) key.length = (0, some h1) ∧
      wc_HmacUpdate env (some h1) m1 n1 = (0, some h2) ∧
      wc_HmacUpdate env (some h2) m2 n2 = (0, some h3) ∧
      wc_HmacUpdate env (some h3) m3 n3 = (0, some h4) ∧
      wc_HmacFinal env (some h4) (some out) =
        (0, some h5, some (HMAC env t key (rd m1 n1 ++ rd m2 n2 ++ rd m3 n3) ++
          out.drop (digestSize t))) ∧
      Ready env t key h5 := by
  obtain ⟨h1, e1, hr1⟩ := setKey_ready env hl h t key hs hk hw hsw
  have hsm : Supported h1.macType := by rw [hr1.macType]; exact hs
  obtain ⟨h5, e5, hr5⟩ := final_absorbed env hl t key (rd m1 n1 ++ rd m2 n2 ++ rd m3 n3)
    out h1 hs hr1
  refine ⟨h1, absorb env h1 (rd m1 n1), absorb env h1 (rd m1 n1 ++ rd m2 n2),
    absorb env h1 (rd m1 n1 ++ rd m2 n2 ++ rd m3 n3), h5, e1,
    update_unkeyed_rd env h1 m1 n1 hl.neverFails hl.concat hr1.sw hsm hr1.unkeyed hm1,
    update_keyed_rd env h1 _ m2 n2 hl.neverFails hl.concat hr1.sw hsm hm2,
    update_keyed_rd env h1 _ m3 n3 hl.neverFails hl.concat hr1.sw hsm hm3, ?_, hr5⟩
  rw [e5, writeAt_zero]
  have : (HMAC env t key (rd m1 n1 ++ rd m2 n2 ++ rd m3 n3)).length = digestSize t :=
    hl.hashOf_length t _
  rw [this]

theorem hkdfT_length (env : Env σ) (hl : HashLaws env) (t : Int) (prk info : List Nat)
    (i : Nat) : (hkdfT env t prk info (i + 1)).length = digestSize t :=
  hl.hashOf_length t _

theorem write_block (S o M rest : List Nat) (a r : Nat) (ha : a ≤ S.length)
    (hr : r ≤ M.length) (hS : S.take (a + r) = S.take a ++ M.take r) :
    XMEMCPY (S.take a ++ o.drop a) a (M ++ rest) r = S.take (a + r) ++ o.drop (a + r) := by
  have h1 : (S.take a).length = a := by rw [List.length_take]; omega
  have h2 : (M.take r).length = r := by rw [List.length_take]; omega
  have h3 : (M ++ rest).take r = M.take r := by
    rw [List.take_append_eq_append_take]
    have : r - M.length = 0 := by omega
    rw [this]; simp
  unfold XMEMCPY writeAt
  rw [h3, h2, hS]
  have h4 : (S.take a ++ o.drop a).take a = S.take a := by
    rw [List.take_append_eq_append_take, h1]
    simp
  have h5 : (S.take a ++ o.drop a).drop (a + r) = o.drop (a + r) := by
    rw [List.drop_append_eq_append_drop, h1]
    have e1 : (S.take a).drop (a + r) = [] := by
      apply List.drop_of_length_le; omega
    have e2 : a + r - a = r := by omega
    rw [e1, e2, List.drop_drop]
    simp [Nat.add_comm]
  rw [h4, h5]

theorem expandLoop_spec (env : Env σ) (hl : HashLaws env) (t : Int) (prk info o : List Nat)
    (outSz : Nat) (hs : Supported t) (hk : KeyLenOk env prk.length)
    (hsz : outSz ≤ 255 * digestSize t) :
    ∀ (fuel j : Nat) (h : Hmac σ) (tmp out : List Nat),
      WF h → Software env h.devId → tmp.length = WC_MAX_DIGEST_SIZE →
      tmp.take (if j = 0 then 0 else digestSize t) = hkdfT env t prk info j →
      out = (blocks (fun i => hkdfT env t prk info (i + 1)) 255).take
              (min (j * digestSize t) outSz) ++ o.drop (min (j * digestSize t) outSz) →
      outSz ≤ j * digestSize t + fuel →
      ∃ h', expandLoop env t (some prk) prk.length (some info) info.length outSz
          (digestSize t) fuel (some h) tmp out (j * digestSize t) ((j + 1) % 256) =
        (0, some h', (blocks (fun i => hkdfT env t prk info (i + 1)) 255).take outSz ++
          o.drop outSz) := by
  have hD := supported_sizes t hs
  have hlenT : ∀ i, ((fun i => hkdfT env t prk info (i + 1)) i).length = digestSize t :=
    fun i => hkdfT_length env hl t prk info i
  intro fuel
  induction fuel with
  | zero =>
    intro j h tmp out _ _ _ _ hout hfuel
    have : min (j * digestSize t) outSz = outSz := by omega
    rw [this] at hout
    exact ⟨h, by rw [expandLoop, hout]⟩
  | succ fuel ih =>
    intro j h tmp out hw hsw htl htmp hout hfuel
    by_cases hlt : j * digestSize t < outSz
    · -- one more block
      have hj : j < 255 := by
        by_contra hge
        have : 255 * digestSize t ≤ j * digestSize t :=
          Nat.mul_le_mul_right _ (by omega)
        omega
      have hn : (j + 1) % 256 = j + 1 := Nat.mod_eq_of_lt (by omega)
      have hn1 : (j + 1 = 1) = (j = 0) := by simp
      obtain ⟨h1, h2, h3, h4, h5, e1, e2, e3, e4, e5, hr5⟩ :=
        hmac_cycle3 env hl t prk h hw hsw hs hk
          (some tmp) (some info) (some [j + 1])
          (if j = 0 then 0 else digestSize t) info.length 1
          (by simp) (by simp) (by simp) tmp
      have hmsg : rd (some tmp) (if j = 0 then 0 else digestSize t) ++
          rd (some info) info.length ++ rd (some [j + 1]) 1 =
          hkdfT env t prk info j ++ info ++ [j + 1] := by
        simp only [rd, Option.getD_some, htmp, List.take_length]
        simp
      rw [hmsg] at e5
      have hTj : hkdfT env t prk info (j + 1) =
          HMAC env t prk (hkdfT env t prk info j ++ info ++ [j + 1]) := rfl
      rw [← hTj] at e5
      have hTlen := hkdfT_length env hl t prk info j
      have hw32 : word32 (j * digestSize t + digestSize t) = (j + 1) * digestSize t := by
        unfold word32
        rw [Nat.succ_mul]
        apply Nat.mod_eq_of_lt
        have h64 := hD.2.2.2
        simp only [WC_MAX_DIGEST_SIZE] at h64
        have : j * digestSize t ≤ 255 * 64 :=
          Nat.mul_le_mul (by omega) h64
        omega
      rw [expandLoop]
      simp only [hlt, if_true, hn, hn1, e1, e2, e3, e4, e5, ne_eq, not_true_eq_false,
        if_false, Option.getD_some, hw32]
      have h64 := hD.2.2.2
      apply ih (j + 1) h5 _ _ hr5.wf hr5.sw
      · rw [List.length_append, List.length_drop, hTlen, htl]
        omega
      · simp only [Nat.succ_ne_zero, if_false]
        exact List.take_left' hTlen
      · have hmin : min (j * digestSize t) outSz = j * digestSize t := by omega
        rw [hmin] at hout
        have hSlen := blocks_length (fun i => hkdfT env t prk info (i + 1)) (digestSize t)
          hlenT 255
        have hr : min (outSz - j * digestSize t) (digestSize t) ≤ digestSize t :=
          Nat.min_le_right _ _
        have hS := blocks_take (fun i => hkdfT env t prk info (i + 1)) (digestSize t)
          hlenT 255 j (min (outSz - j * digestSize t) (digestSize t)) hj hr
        rw [← blocks_take_full (fun i => hkdfT env t prk info (i + 1)) (digestSize t)
          hlenT 255 j (by omega)] at hS
        have hwb := write_block (blocks (fun i => hkdfT env t prk info (i + 1)) 255) o
          (hkdfT env t prk info (j + 1)) (tmp.drop (digestSize t)) (j * digestSize t)
          (min (outSz - j * digestSize t) (digestSize t))
          (by rw [hSlen]; exact Nat.mul_le_mul_right _ (by omega))
          (by rw [hTlen]; exact hr) hS
        have hmin2 : min ((j + 1) * digestSize t) outSz =
            j * digestSize t + min (outSz - j * digestSize t) (digestSize t) := by
          rw [Nat.succ_mul]; omega
        rw [hmin2, hout]
        exact hwb
      · rw [Nat.succ_mul]; omega
    · -- the loop ends
      have : min (j * digestSize t) outSz = outSz := by omega
      rw [this] at hout
      refine ⟨h, ?_⟩
      rw [expandLoop]
      simp [hlt, hout]

theorem expand_guard (outSz D : Nat) (hD : 0 < D) :
    (outSz / D + (if outSz % D ≠ 0 then 1 else 0) > 255) ↔ 255 * D < outSz := by
  have h1 := Nat.div_add_mod outSz D
  have h2 := Nat.mod_lt outSz hD
  generalize outSz / D = q at h1 ⊢
  generalize outSz % D = r at h1 h2 ⊢
  have h3 : q ≤ 254 → D * q ≤ D * 254 := fun h => Nat.mul_le_mul_left _ h
  have h4 : q ≤ 255 → D * q ≤ D * 255 := fun h => Nat.mul_le_mul_left _ h
  have h5 : 255 ≤ q → D * 255 ≤ D * q := fun h => Nat.mul_le_mul_left _ h
  have h6 : 256 ≤ q → D * 256 ≤ D * q := fun h => Nat.mul_le_mul_left _ h
  generalize D * q = P at h1 h3 h4 h5 h6
  by_cases hr : r ≠ 0
  · rw [if_pos hr]
    constructor
    · intro h
      have := h5 (by omega)
      omega
    · intro h
      by_contra hc
      have := h3 (by omega)
      omega
  · have hr0 : r = 0 := by omega
    subst hr0
    rw [if_neg hr]
    constructor
    · intro h
      have := h6 (by omega)
      omega
    · intro h
      by_contra hc
      have := h4 (by omega)
      omega

theorem hashSz_word32 (t : Int) (hs : Supported t) :
    (wc_HmacSizeByType t % 4294967296).toNat = digestSize t := by
  have h := (supported_sizes t hs).2.2.2
  simp only [WC_MAX_DIGEST_SIZE] at h
  simp only [wc_HmacSizeByType, hs, not_true_eq_false, if_false]
  omega

theorem expand_spec (env : Env σ) (hl : HashLaws env) (t : Int) (prk info o : List Nat)
    (outSz : Nat) (hs : Supported t) (hk : KeyLenOk env prk.length)
    (hsz : outSz ≤ 255 * digestSize t) :
    wc_HKDF_Expand env t (some prk) prk.length (some info) info.length (some o) outSz =
      (0, some ((hkdfOkm env t prk info).take outSz ++ o.drop outSz)) := by
  have hD := supported_sizes t hs
  have hg : ¬ (outSz / digestSize t + (if outSz % digestSize t ≠ 0 then 1 else 0) > 255) := by
    rw [expand_guard outSz _ hD.1]; omega
  obtain ⟨h0, e0, hw0, _, _, _, hd0⟩ := init_fields env (zeroHmac env) INVALID_DEVID
  have hsw0 : Software env h0.devId := by
    rw [hd0]; exact init_software env _ (Or.inr rfl)
  obtain ⟨h', e⟩ := expandLoop_spec env hl t prk info o outSz hs hk hsz outSz 0 h0
    (List.replicate WC_MAX_DIGEST_SIZE 0) o hw0 hsw0 (by simp) (by simp [hkdfT])
    (by simp) (by omega)
  simp only [Nat.zero_mul, Nat.zero_add, Nat.one_mod] at e
  unfold wc_HKDF_Expand
  simp only [hashSz_word32 t hs, hg, if_false, e0, ne_eq, not_true_eq_false, e, hkdfOkm]

/-! ## The TLS PRF -/

theorem ready_cycle1 (env : Env σ) (hl : HashLaws env) (t : Int) (key : List Nat)
    (h : Hmac σ) (hs : Supported t) (hr : Ready env t key h)
    (m1 : Option (List Nat)) (n1 : Nat) (hm1 : ¬ (m1.isNone ∧ n1 > 0)) (out : List Nat) :
    ∃ h1 h2,
      wc_HmacUpdate env (some h) m1 n1 = (0, some h1) ∧
      wc_HmacFinal env (some h1) (some out) =
        (0, some h2, some (HMAC env t key (rd m1 n1) ++ out.drop (digestSize t))) ∧
      Ready env t key h2 := by
  have hsm : Supported h.macType := by rw [hr.macType]; exact hs
  obtain ⟨h2, e2, hr2⟩ := final_absorbed env hl t key (rd m1 n1) out h hs hr
  refine ⟨absorb env h (rd m1 n1), h2,
    update_unkeyed_rd env h m1 n1 hl.neverFails hl.concat hr.sw hsm hr.unkeyed hm1, ?_, hr2⟩
  rw [e2, writeAt_zero]
  have : (HMAC env t key (rd m1 n1)).length = digestSize t := hl.hashOf_length t _
  rw [this]

theorem ready_cycle2 (env : Env σ) (hl : HashLaws env) (t : Int) (key : List Nat)
    (h : Hmac σ) (hs : Supported t) (hr : Ready env t key h)
    (m1 m2 : Option (List Nat)) (n1 n2 : Nat)
    (hm1 : ¬ (m1.isNone ∧ n1 > 0)) (hm2 : ¬ (m2.isNone ∧ n2 > 0)) (out : List Nat) :
    ∃ h1 h2 h3,
      wc_HmacUpdate env (some h) m1 n1 = (0, some h1) ∧
      wc_HmacUpdate env (some h1) m2 n2 = (0, some h2) ∧
      wc_HmacFinal env (some h2) (some out) =
        (0, some h3, some (HMAC env t key (rd m1 n1 ++ rd m2 n2) ++
          out.drop (digestSize t))) ∧
      Ready env t key h3 := by
  have hsm : Supported h.macType := by rw [hr.macType]; exact hs
  obtain ⟨h3, e3, hr3⟩ := final_absorbed env hl t key (rd m1 n1 ++ rd m2 n2) out h hs hr
  refine ⟨absorb env h (rd m1 n1), absorb env h (rd m1 n1 ++ rd m2 n2), h3,
    update_unkeyed_rd env h m1 n1 hl.neverFails hl.concat hr.sw hsm hr.unkeyed hm1,
    update_keyed_rd env h _ m2 n2 hl.neverFails hl.concat hr.sw hsm hm2, ?_, hr3⟩
  rw [e3, writeAt_zero]
  have : (HMAC env t key (rd m1 n1 ++ rd m2 n2)).length = digestSize t :=
    hl.hashOf_length t _
  rw [this]

theorem prfBlock_length (env : Env σ) (hl : HashLaws env) (t : Int) (secret seed : List Nat)
    (i : Nat) : (prfBlock env t secret seed i).length = digestSize t :=
  hl.hashOf_length t _

theorem prfLoop_spec (env : Env σ) (hl : HashLaws env) (t : Int)
    (secret seed result : List Nat) (resLen q lastLen times lastTime N : Nat)
    (hs : Supported t)
    (hq : resLen = q * digestSize t + lastLen) (hlt : lastLen < digestSize t)
    (htimes : times = if lastLen ≠ 0 then q + 1 else q)
    (hlast : 1 ≤ times → lastTime = times - 1)
    (hN : times ≤ N) (h32 : resLen < 4294967296) :
    ∀ (c i : Nat) (h : Hmac σ) (previous current res : List Nat),
      Ready env t secret h →
      previous.length = P_HASH_MAX_SIZE →
      previous.take (digestSize t) = prfA env t secret seed (i + 1) →
      current.length = P_HASH_MAX_SIZE →
      res = (blocks (prfBlock env t secret seed) N).take (min (i * digestSize t) resLen) ++
              result.drop (min (i * digestSize t) resLen) →
      c + i = times →
      ∃ h', prfLoop env (some seed) seed.length (digestSize t) lastLen lastTime c i
          (some h) previous current res (i * digestSize t) =
        (0, some h', (blocks (prfBlock env t secret seed) N).take resLen ++
          result.drop resLen) := by
  have hD := supported_sizes t hs
  have h64 : digestSize t ≤ 64 := hD.2.2.2
  have hlenB : ∀ i, (prfBlock env t secret seed i).length = digestSize t :=
    fun i => prfBlock_length env hl t secret seed i
  have hSlen := blocks_length (prfBlock env t secret seed) (digestSize t) hlenB N
  intro c
  induction c with
  | zero =>
    intro i h previous current res _ _ _ _ hres hci
    have hi : i = times := by omega
    have hge : resLen ≤ i * digestSize t := by
      rw [hi, htimes, hq]
      split
      · rw [Nat.succ_mul]; omega
      · omega
    have : min (i * digestSize t) resLen = resLen := by omega
    rw [this] at hres
    exact ⟨h, by rw [prfLoop, hres]⟩
  | succ c ih =>
    intro i h previous current res hr hpl hprev hcl hres hci
    have hit : i < times := by omega
    have hlt' := hlast (by omega)
    -- the block of this iteration
    obtain ⟨h1, h2, h3, e1, e2, e3, hr3⟩ := ready_cycle2 env hl t secret h hs hr
      (some previous) (some seed) (digestSize t) seed.length (by simp) (by simp) current
    have hmsg : rd (some previous) (digestSize t) ++ rd (some seed) seed.length =
        prfA env t secret seed (i + 1) ++ seed := by
      simp [rd, hprev]
    rw [hmsg] at e3
    have hB : prfBlock env t secret seed i =
        HMAC env t secret (prfA env t secret seed (i + 1) ++ seed) := rfl
    rw [← hB] at e3
    have hiq : i ≤ q := by
      rw [htimes] at hit
      split at hit <;> omega
    have hiN : i < N := by omega
    have hmin : min (i * digestSize t) resLen = i * digestSize t := by
      have : i * digestSize t ≤ q * digestSize t := Nat.mul_le_mul_right _ hiq
      omega
    rw [hmin] at hres
    have haS : i * digestSize t ≤ (blocks (prfBlock env t secret seed) N).length := by
      rw [hSlen]; exact Nat.mul_le_mul_right _ (by omega)
    have hfull := blocks_take_full (prfBlock env t secret seed) (digestSize t) hlenB N i
      (by omega)
    rw [prfLoop]
    simp only [e1, e2, e3, ne_eq, not_true_eq_false, if_false, Option.getD_some]
    by_cases hcase : i = lastTime ∧ lastLen ≠ 0
    · -- the last, partial block
      rw [if_pos hcase]
      have hc0 : c = 0 := by omega
      subst hc0
      have hiq2 : i = q := by
        rw [htimes, if_pos hcase.2] at hci
        omega
      have hmin2 : min lastLen P_HASH_MAX_SIZE = lastLen := by
        simp only [P_HASH_MAX_SIZE]; omega
      have hS := blocks_take (prfBlock env t secret seed) (digestSize t) hlenB N i lastLen
        hiN (by omega)
      rw [← hfull] at hS
      have hwb := write_block (blocks (prfBlock env t secret seed) N) result
        (prfBlock env t secret seed i) (current.drop (digestSize t)) (i * digestSize t)
        lastLen haS (by rw [hlenB]; omega) hS
      refine ⟨h3, ?_⟩
      rw [prfLoop, hmin2, hres, hwb, hq, hiq2]
    · -- a full block, then the next `A(i)`
      rw [if_neg hcase]
      have hi1 : i + 1 ≤ q := by
        rw [htimes] at hit hlt'
        by_cases hl0 : lastLen ≠ 0
        · have hne : i ≠ lastTime := fun he => hcase ⟨he, hl0⟩
          rw [if_pos hl0] at hit hlt'
          omega
        · rw [if_neg hl0] at hit
          omega
      have hle : (i + 1) * digestSize t ≤ resLen := by
        have : (i + 1) * digestSize t ≤ q * digestSize t := Nat.mul_le_mul_right _ hi1
        omega
      obtain ⟨h4, h5, e4, e5, hr5⟩ := ready_cycle1 env hl t secret h3 hs hr3
        (some previous) (digestSize t) (by simp) previous
      have hmsg2 : rd (some previous) (digestSize t) = prfA env t secret seed (i + 1) := by
        simp [rd, hprev]
      rw [hmsg2] at e5
      have hA : prfA env t secret seed (i + 1 + 1) =
          HMAC env t secret (prfA env t secret seed (i + 1)) := rfl
      rw [← hA] at e5
      have hAlen : (prfA env t secret seed (i + 1 + 1)).length = digestSize t :=
        hl.hashOf_length t _
      simp only [e4, e5, ne_eq, not_true_eq_false, if_false, Option.getD_some]
      have hw32 : word32 (i * digestSize t + digestSize t) = (i + 1) * digestSize t := by
        unfold word32
        rw [Nat.succ_mul]
        apply Nat.mod_eq_of_lt
        rw [Nat.succ_mul] at hle
        omega
      rw [hw32]
      have hS := blocks_take (prfBlock env t secret seed) (digestSize t) hlenB N i
        (digestSize t) hiN (le_refl _)
      rw [← hfull] at hS
      have hwb := write_block (blocks (prfBlock env t secret seed) N) result
        (prfBlock env t secret seed i) (current.drop (digestSize t)) (i * digestSize t)
        (digestSize t) haS (by rw [hlenB]) hS
      apply ih (i + 1) h5 _ _ _ hr5
      · rw [List.length_append, List.length_drop, hAlen, hpl]
        simp only [P_HASH_MAX_SIZE]; omega
      · exact List.take_left' hAlen
      · rw [List.length_append, List.length_drop, hlenB, hcl]
        simp only [P_HASH_MAX_SIZE]; omega
      · have hmin3 : min ((i + 1) * digestSize t) resLen =
            i * digestSize t + digestSize t := by
          rw [Nat.succ_mul] at hle ⊢; omega
        rw [hmin3, hres]
        exact hwb
      · omega

theorem prfPairs_alg (hash t : Int) (h : (hash, t) ∈ prfPairs) :
    prfAlg hash = (t, digestSize t) ∧ Supported t := by
  simp only [prfPairs, List.mem_cons, Prod.mk.injEq, List.mem_singleton, List.mem_nil_iff,
    or_false] at h
  rcases h with ⟨h1, h2⟩ | ⟨h1, h2⟩ | ⟨h1, h2⟩ | ⟨h1, h2⟩ | ⟨h1, h2⟩ <;>
    subst h1 <;> subst h2 <;> exact ⟨by decide, by decide⟩

theorem prf_spec (env : Env σ) (hl : HashLaws env) (hash t : Int)
    (ht : (hash, t) ∈ prfPairs) (secret seed result : List Nat) (resLen : Nat)
    (devId : Int) (h32 : resLen < 4294967296) (hsw : Software env devId)
    (hk : KeyLenOk env secret.length) :
    wc_PRF env result resLen (some secret) secret.length (some seed) seed.length hash devId =
      (0, (blocks (prfBlock env t secret seed) resLen).take resLen ++ result.drop resLen) := by
  obtain ⟨halg, hs⟩ := prfPairs_alg hash t ht
  have hD := supported_sizes t hs
  have h64 : digestSize t ≤ 64 := hD.2.2.2
  obtain ⟨h0, e0, hw0, _, _, _, hd0⟩ := init_fields env (zeroHmac env) devId
  have hsw0 : Software env h0.devId := by rw [hd0]; exact init_software env devId hsw
  obtain ⟨h1, e1, hr1⟩ := setKey_ready env hl h0 t secret hs hk hw0 hsw0
  obtain ⟨h2, h3, e2, e3, hr3⟩ := ready_cycle1 env hl t secret h1 hs hr1
    (some seed) seed.length (by simp) (List.replicate P_HASH_MAX_SIZE 0)
  have hmsg : rd (some seed) seed.length = seed := rd_some_length seed
  rw [hmsg] at e3
  have hA : prfA env t secret seed (0 + 1) = HMAC env t secret seed := rfl
  rw [← hA] at e3
  have hAlen : (prfA env t secret seed (0 + 1)).length = digestSize t :=
    hl.hashOf_length t _
  -- the arithmetic of `times`, `lastLen`, `lastTime`
  have hdm := Nat.div_add_mod resLen (digestSize t)
  have hml := Nat.mod_lt resLen hD.1
  have hq : resLen = resLen / digestSize t * digestSize t + resLen % digestSize t := by
    rw [Nat.mul_comm]; exact hdm.symm
  have hqle : resLen / digestSize t ≤ resLen / digestSize t * digestSize t :=
    Nat.le_mul_of_pos_right _ hD.1
  have hw1 : word32 (resLen / digestSize t + 1) = resLen / digestSize t + 1 := by
    unfold word32
    apply Nat.mod_eq_of_lt
    have h16 := supported_digest_ge t hs
    have : resLen / digestSize t * 2 ≤ resLen / digestSize t * digestSize t :=
      Nat.mul_le_mul_left _ (by omega)
    omega
  obtain ⟨times, htimes⟩ : ∃ times, times =
      if resLen % digestSize t ≠ 0 then resLen / digestSize t + 1
      else resLen / digestSize t := ⟨_, rfl⟩
  have htN : times ≤ resLen := by
    rw [htimes]; split <;> omega
  have hlast : 1 ≤ times → word32 (times + 4294967295) = times - 1 := by
    intro h1t
    unfold word32
    have : times + 4294967295 = (times - 1) + 4294967296 := by omega
    rw [this, Nat.add_mod_right]
    apply Nat.mod_eq_of_lt
    omega
  obtain ⟨h', e⟩ := prfLoop_spec env hl t secret seed result resLen
    (resLen / digestSize t) (resLen % digestSize t) times (word32 (times + 4294967295))
    resLen hs hq hml htimes hlast htN h32 times 0 h3
    (prfA env t secret seed (0 + 1) ++ (List.replicate P_HASH_MAX_SIZE 0).drop (digestSize t))
    (List.replicate P_HASH_MAX_SIZE 0) result hr3
    (by rw [List.length_append, List.length_drop, hAlen, List.length_replicate]
        simp only [P_HASH_MAX_SIZE]; omega)
    (List.take_left' hAlen) (by simp) (by simp) (by omega)
  simp only [Nat.zero_mul] at e
  unfold wc_PRF
  simp only [halg, e0, e1, e2, e3, if_true, hw1, ← htimes, Option.getD_some, e]

/-! ## SSH-KDF -/

theorem sshHash_supported (t : Int) (h : SshHash t) : Supported t := by
  rcases h with h | h | h | h <;> subst h <;> decide

theorem hashChain_laws (env : Env σ) (hl : HashLaws env) (t : Int) (ht : SshHash t) :
    ∀ (ds : List (List Nat)) (s : σ) (d : List Nat),
      hashChain env t (0, s) (d :: ds) =
        (0, (env.hashUpdate t s (d ++ ds.flatten)).2) := by
  intro ds
  induction ds with
  | nil =>
    intro s d
    simp only [hashChain, ne_eq, not_true_eq_false, if_false, _HashUpdate, ht, if_true,
      List.flatten_nil, List.append_nil]
    rw [Prod.ext_iff]
    exact ⟨hl.update_ok t s d, rfl⟩
  | cons d2 ds ih =>
    intro s d
    have e : _HashUpdate env t s d = (0, (env.hashUpdate t s d).2) := by
      simp only [_HashUpdate, ht, if_true]
      rw [Prod.ext_iff]
      exact ⟨hl.update_ok t s d, rfl⟩
    rw [hashChain]
    simp only [ne_eq, not_true_eq_false, if_false, e]
    rw [ih, hl.update_concat]
    simp

/-- One SSH-KDF block on a lawful hash: `Init`, the `Update` calls and `Final`
compute the digest of the concatenated parts. -/
theorem ssh_block (env : Env σ) (hl : HashLaws env) (t : Int) (ht : SshHash t)
    (s : σ) (d : List Nat) (ds : List (List Nat)) :
    (hashChain env t (_HashInit env t s) (d :: ds)).1 = 0 ∧
    _HashFinal env t (hashChain env t (_HashInit env t s) (d :: ds)).2 =
      (0, freshState env t, hashOf env t (d ++ ds.flatten)) := by
  have hs := sshHash_supported t ht
  have e : _HashInit env t s = (0, freshState env t) := by
    simp only [_HashInit, ht, if_true]
    rw [Prod.ext_iff]
    exact ⟨hl.init_ok t s hs, hl.init_fresh t s⟩
  rw [e, hashChain_laws env hl t ht]
  refine ⟨rfl, ?_⟩
  simp only [_HashFinal, ht, if_true]
  rw [Prod.ext_iff, Prod.ext_iff]
  exact ⟨hl.final_ok t _, hl.final_fresh t _, rfl⟩

theorem sshDigests_fst (env : Env σ) (t : Int) (K H : List Nat) (keyId : Nat)
    (sid : List Nat) (i : Nat) :
    (sshDigests env t K H keyId sid i).1 = blocks (sshDigest env t K H keyId sid) i := by
  induction i with
  | zero => rfl
  | succ i ih =>
    simp only [sshDigests, blocks, ih]
    rfl

theorem sshDigest_succ (env : Env σ) (t : Int) (K H : List Nat) (keyId : Nat)
    (sid : List Nat) (i : Nat) :
    sshDigest env t K H keyId sid (i + 1) =
      hashOf env t (sshPrefix K H ++ blocks (sshDigest env t K H keyId sid) (i + 1)) := by
  simp only [sshDigest, sshDigests, blocks]
  rw [sshDigests_fst]

theorem sshDigest_length (env : Env σ) (hl : HashLaws env) (t : Int) (K H : List Nat)
    (keyId : Nat) (sid : List Nat) (i : Nat) :
    (sshDigest env t K H keyId sid i).length = digestSize t := by
  cases i with
  | zero => exact hl.hashOf_length t _
  | succ i => rw [sshDigest_succ]; exact hl.hashOf_length t _

theorem writeAt_eq_XMEMCPY (dst src : List Nat) (off : Nat) :
    writeAt dst off src = XMEMCPY dst off (src ++ []) src.length := by
  simp [XMEMCPY]

theorem sshLoop_spec (env : Env σ) (hl : HashLaws env) (t : Int) (ht : SshHash t)
    (K H key sid : List Nat) (keyId nBlocks N : Nat) (pre : List (List Nat))
    (hpre : pre.flatten = sshPrefix K H) (hpne : pre ≠ [])
    (hN : nBlocks ≤ N) (h32 : nBlocks * digestSize t < 4294967296) :
    ∀ (c i : Nat) (s : σ) (keyI : List Nat),
      c + i = nBlocks → 1 ≤ i →
      keyI = (blocks (sshDigest env t K H keyId sid) N).take (i * digestSize t) ++
        key.drop (i * digestSize t) →
      ∃ s', sshLoop env t pre (digestSize t) c (0, s, keyI, i * digestSize t) =
        (0, s', (blocks (sshDigest env t K H keyId sid) N).take (nBlocks * digestSize t) ++
          key.drop (nBlocks * digestSize t), nBlocks * digestSize t) := by
  have hlenB : ∀ i, (sshDigest env t K H keyId sid i).length = digestSize t :=
    fun i => sshDigest_length env hl t K H keyId sid i
  have hSlen := blocks_length (sshDigest env t K H keyId sid) (digestSize t) hlenB N
  intro c
  induction c with
  | zero =>
    intro i s keyI hci _ hkey
    have : i = nBlocks := by omega
    subst this
    exact ⟨s, by rw [sshLoop, hkey]⟩
  | succ c ih =>
    intro i s keyI hci hi hkey
    have hiN : i < N := by omega
    have hfull := blocks_take_full (sshDigest env t K H keyId sid) (digestSize t) hlenB N i
      (by omega)
    have haS : i * digestSize t ≤ (blocks (sshDigest env t K H keyId sid) N).length := by
      rw [hSlen]; exact Nat.mul_le_mul_right _ (by omega)
    have htake : keyI.take (i * digestSize t) = blocks (sshDigest env t K H keyId sid) i := by
      rw [hkey, List.take_append_eq_append_take, List.length_take, Nat.min_eq_left haS]
      simp [hfull, blocks_length (sshDigest env t K H keyId sid) (digestSize t) hlenB i]
    obtain ⟨d, ds, hds⟩ : ∃ d ds, pre ++ [keyI.take (i * digestSize t)] = d :: ds := by
      cases pre with
      | nil => exact absurd rfl hpne
      | cons d ds => exact ⟨d, ds ++ [keyI.take (i * digestSize t)], rfl⟩
    obtain ⟨b1, b2⟩ := ssh_block env hl t ht s d ds
    have hflat : d ++ ds.flatten = sshPrefix K H ++ blocks (sshDigest env t K H keyId sid) i := by
      have : (d :: ds).flatten = d ++ ds.flatten := by simp
      rw [← this, ← hds, List.flatten_append, hpre, htake]
      simp
    rw [hflat] at b2
    obtain ⟨i', rfl⟩ : ∃ i', i = i' + 1 := ⟨i - 1, by omega⟩
    rw [← sshDigest_succ] at b2
    rw [sshLoop]
    simp only [hds, b1, b2, ne_eq, not_true_eq_false, if_false]
    have hle : (i' + 1 + 1) * digestSize t ≤ nBlocks * digestSize t :=
      Nat.mul_le_mul_right _ (by omega)
    have hw32 : word32 ((i' + 1) * digestSize t + digestSize t) =
        (i' + 1 + 1) * digestSize t := by
      unfold word32
      rw [Nat.succ_mul (i' + 1)]
      apply Nat.mod_eq_of_lt
      rw [Nat.succ_mul (i' + 1)] at hle
      omega
    rw [hw32]
    apply ih (i' + 1 + 1) _ _ (by omega) (by omega)
    have hS := blocks_take (sshDigest env t K H keyId sid) (digestSize t) hlenB N (i' + 1)
      (digestSize t) hiN (le_refl _)
    rw [← hfull] at hS
    have hwb := write_block (blocks (sshDigest env t K H keyId sid) N) key
      (sshDigest env t K H keyId sid (i' + 1)) [] ((i' + 1) * digestSize t)
      (digestSize t) haS (by rw [hlenB]) hS
    rw [writeAt_eq_XMEMCPY, hlenB, hkey, hwb, Nat.succ_mul (i' + 1)]

theorem ssh_kdf_spec (env : Env σ) (hl : HashLaws env) (t : Int) (ht : SshHash t)
    (keyId : Nat) (key K H sid : List Nat) (keySz : Nat)
    (hK : K ≠ []) (hH : H ≠ []) (hsid : sid ≠ []) (hkey : 0 < keySz)
    (h32 : keySz < 4294967296) :
    wc_SSH_KDF env t keyId (some key) keySz (some K) K.length (some H) H.length
        (some sid) sid.length =
      (0, some ((blocks (sshDigest env t K H keyId sid) keySz).take keySz ++
        key.drop keySz)) := by
  have hs := sshHash_supported t ht
  have hD := supported_sizes t hs
  have h16 := supported_digest_ge t hs
  have h64 : digestSize t ≤ 64 := hD.2.2.2
  have hlenB : ∀ i, (sshDigest env t K H keyId sid i).length = digestSize t :=
    fun i => sshDigest_length env hl t K H keyId sid i
  have hSlen := blocks_length (sshDigest env t K H keyId sid) (digestSize t) hlenB keySz
  have hKl : K.length ≠ 0 := by simpa using hK
  have hHl : H.length ≠ 0 := by simpa using hH
  have hsl : sid.length ≠ 0 := by simpa using hsid
  have hnn : ¬ ((digestSize t : Int) < 0) := by omega
  -- the parts hashed first in every block
  obtain ⟨pre, hpredef⟩ : ∃ pre, pre =
      [c32toa (word32 (K.length + if K.getD 0 0 &&& 128 ≠ 0 then 1 else 0))] ++
        (if (if K.getD 0 0 &&& 128 ≠ 0 then 1 else 0) ≠ 0 then [[0]] else []) ++
        [rd (some K) K.length, rd (some H) H.length] := ⟨_, rfl⟩
  have hpre : pre.flatten = sshPrefix K H := by
    rw [hpredef]
    unfold sshPrefix
    simp only [rd_some_length]
    split <;> simp
  obtain ⟨d, ds, hds⟩ : ∃ d ds, pre = d :: ds := by
    rw [hpredef]; exact ⟨_, _, rfl⟩
  have hpne : pre ≠ [] := by rw [hds]; simp
  -- digest(0)
  obtain ⟨b1, b2⟩ := ssh_block env hl t ht env.hashZero d
    (ds ++ [[keyId], rd (some sid) sid.length])
  have hflat0 : d ++ (ds ++ [[keyId], rd (some sid) sid.length]).flatten =
      sshPrefix K H ++ [keyId] ++ sid := by
    rw [← hpre, hds, rd_some_length]
    simp
  rw [hflat0] at b2
  have hd0 : hashOf env t (sshPrefix K H ++ [keyId] ++ sid) =
      sshDigest env t K H keyId sid 0 := rfl
  rw [hd0] at b2
  have hdm := Nat.div_add_mod keySz (digestSize t)
  have hml := Nat.mod_lt keySz hD.1
  have hnD : keySz / digestSize t * digestSize t + keySz % digestSize t = keySz := by
    rw [Nat.mul_comm]; exact hdm
  have hnlt : keySz / digestSize t < keySz := Nat.div_lt_self hkey (by omega)
  unfold wc_SSH_KDF
  simp only [Option.isNone_some, Bool.false_eq_true, hKl, hHl, hsl, or_self, or_false,
    false_or, Nat.pos_iff_ne_zero.mp hkey, if_false, wc_HmacSizeByType, hs,
    not_true_eq_false, hnn, Int.toNat_ofNat, Option.getD_some, ← hpredef]
  have hchain0 : pre ++ [[keyId], rd (some sid) sid.length] =
      d :: (ds ++ [[keyId], rd (some sid) sid.length]) := by rw [hds]; rfl
  simp only [hchain0, b1, b2, ne_eq, not_true_eq_false, if_false, if_true]
  clear hdm
  generalize keySz / digestSize t = n at hnD hnlt ⊢
  generalize keySz % digestSize t = r at hnD hml ⊢
  by_cases hn0 : n = 0
  · -- less than one block
    have hrem : r = keySz := by
      rw [hn0] at hnD; omega
    have hS := blocks_take (sshDigest env t K H keyId sid) (digestSize t) hlenB keySz 0 keySz
      hkey (by omega)
    simp only [Nat.zero_mul, Nat.zero_add, blocks, List.nil_append] at hS
    have hS' : (blocks (sshDigest env t K H keyId sid) keySz).take (0 + keySz) =
        (blocks (sshDigest env t K H keyId sid) keySz).take 0 ++
          (sshDigest env t K H keyId sid 0).take keySz := by
      rw [List.take_zero, List.nil_append, Nat.zero_add]; exact hS
    have hwb := write_block (blocks (sshDigest env t K H keyId sid) keySz) key
      (sshDigest env t K H keyId sid 0)
      ((List.replicate WC_MAX_DIGEST_SIZE 0).drop (sshDigest env t K H keyId sid 0).length)
      0 keySz (by omega) (by rw [hlenB]; omega) hS'
    simp only [List.take_zero, List.drop_zero, List.nil_append, Nat.zero_add] at hwb
    simp only [hn0, if_true, hrem, hkey, writeAt_zero, hwb]
  · -- at least one block
    simp only [hn0, if_false]
    have hS1 := blocks_take (sshDigest env t K H keyId sid) (digestSize t) hlenB keySz 0
      (digestSize t) hkey (le_refl _)
    have hS1' : (blocks (sshDigest env t K H keyId sid) keySz).take (0 + digestSize t) =
        (blocks (sshDigest env t K H keyId sid) keySz).take 0 ++
          (sshDigest env t K H keyId sid 0).take (digestSize t) := by
      simp only [Nat.zero_mul, blocks, List.nil_append] at hS1
      rw [List.take_zero, List.nil_append]; exact hS1
    have hwb1 := write_block (blocks (sshDigest env t K H keyId sid) keySz) key
      (sshDigest env t K H keyId sid 0) [] 0 (digestSize t) (by omega)
      (by rw [hlenB]) hS1'
    simp only [List.take_zero, List.drop_zero, List.nil_append, Nat.zero_add] at hwb1
    have hkey1 : writeAt key 0 (sshDigest env t K H keyId sid 0) =
        (blocks (sshDigest env t K H keyId sid) keySz).take (1 * digestSize t) ++
          key.drop (1 * digestSize t) := by
      rw [writeAt_eq_XMEMCPY, hlenB, hwb1, Nat.one_mul]
    have hle : n * digestSize t ≤ keySz := by omega
    obtain ⟨s', eloop⟩ := sshLoop_spec env hl t ht K H key sid keyId (n)
      keySz pre hpre hpne (by omega) (by omega) (n - 1) 1
      (freshState env t) _ (by omega) (le_refl _) hkey1
    rw [Nat.one_mul] at eloop
    rw [eloop]
    simp only []
    by_cases hr0 : r = 0
    · have : ¬ (r > 0) := by omega
      rw [if_neg this]
      have e : n * digestSize t = keySz := by omega
      rw [e]
    · have hrpos : r > 0 := by omega
      rw [if_pos hrpos]
      -- the last, partial block
      have hfull := blocks_take_full (sshDigest env t K H keyId sid) (digestSize t) hlenB
        keySz (n) (by omega)
      have haS : n * digestSize t ≤
          (blocks (sshDigest env t K H keyId sid) keySz).length := by
        rw [hSlen]; exact Nat.mul_le_mul_right _ (by omega)
      have htake : ((blocks (sshDigest env t K H keyId sid) keySz).take
            (n * digestSize t) ++
            key.drop (n * digestSize t)).take
            (n * digestSize t) =
          blocks (sshDigest env t K H keyId sid) (n) := by
        rw [List.take_append_eq_append_take, List.length_take, Nat.min_eq_left haS]
        simp [hfull, blocks_length (sshDigest env t K H keyId sid) (digestSize t) hlenB
          (n)]
      obtain ⟨d2, ds2, hds2⟩ : ∃ d2 ds2, pre ++
          [((blocks (sshDigest env t K H keyId sid) keySz).take
            (n * digestSize t) ++
            key.drop (n * digestSize t)).take
            (n * digestSize t)] = d2 :: ds2 := by
        rw [hds]; exact ⟨_, _, rfl⟩
      obtain ⟨c1, c2⟩ := ssh_block env hl t ht s' d2 ds2
      have hflat : d2 ++ ds2.flatten = sshPrefix K H ++
          blocks (sshDigest env t K H keyId sid) (n) := by
        have : (d2 :: ds2).flatten = d2 ++ ds2.flatten := by simp
        rw [← this, ← hds2, List.flatten_append, hpre, htake]
        simp
      rw [hflat] at c2
      obtain ⟨n', hn'⟩ : ∃ n', n = n' + 1 :=
        ⟨n - 1, by omega⟩
      rw [hn'] at c2
      rw [← sshDigest_succ, ← hn'] at c2
      simp only [hds2, c1, c2, ne_eq, not_true_eq_false, if_false, if_true, writeAt_zero]
      have hS := blocks_take (sshDigest env t K H keyId sid) (digestSize t) hlenB keySz
        (n) (r) hnlt (by omega)
      rw [← hfull] at hS
      have hwb := write_block (blocks (sshDigest env t K H keyId sid) keySz) key
        (sshDigest env t K H keyId sid (n))
        ((List.replicate WC_MAX_DIGEST_SIZE 0).drop
          (sshDigest env t K H keyId sid (n)).length)
        (n * digestSize t) (r) haS
        (by rw [hlenB]; omega) hS
      rw [hwb, hnD]

/-! ## Streaming in chunks -/

theorem setKey_success_light (env : Env σ) (h0 : Hmac σ) (t : Int)
    (key : Option (List Nat)) (n : Nat)
    (hret : (wc_HmacSetKey env (some h0) t key n).1 = 0) :
    ∃ h', wc_HmacSetKey env (some h0) t key n = (0, some h') ∧
      Supported h'.macType ∧ h'.innerHashKeyed = 0 ∧
      h'.devId = (setKeyPre env h0).devId ∧
      ∃ s0, h'.hash = (env.hashInit h'.macType s0).2 ∨
        h'.hash = (env.hashFinal h'.macType s0).2.1 := by
  simp only [wc_HmacSetKey] at hret ⊢
  by_cases hbad : (key.isNone ∧ n ≠ 0) ∨ ¬ Supported t
  · rw [if_pos hbad] at hret
    simp [BAD_FUNC_ARG] at hret
  have hs : Supported t := by
    by_contra h; exact hbad (Or.inr h)
  have hm := supported_mod t hs
  rw [if_neg hbad] at hret ⊢
  simp only [_InitHmac, hs, if_true, hm] at hret ⊢
  by_cases hi : (env.hashInit t (setKeyPre env h0).hash).1 = 0
  swap
  · simp [hi] at hret
  simp only [hi, ne_eq, not_true_eq_false, if_false] at hret ⊢
  by_cases hf : env.HAVE_FIPS = true ∧ n < HMAC_FIPS_MIN_KEY
  · simp [hf, HMAC_MIN_KEYLEN_E] at hret
  simp only [hf, if_false] at hret ⊢
  generalize hg : setKeyRaw env _ _ _ = g at hret ⊢
  have hg1 : g.macType = t ∧ g.innerHashKeyed = 0 ∧ g.devId = (setKeyPre env h0).devId ∧
      g.hash = (env.hashInit t (setKeyPre env h0).hash).2 := by
    rw [← hg]; unfold setKeyRaw; split <;> simp
  obtain ⟨hgm, hgk, hgd, hgh⟩ := hg1
  simp only [hgm, hs, not_true_eq_false, if_false] at hret ⊢
  by_cases hc : (setKeyCase env g key n).1 = 0
  swap
  · simp [hc] at hret
  simp only [hc, if_true]
  have hcase : (setKeyCase env g key n).2.1.macType = t ∧
      (setKeyCase env g key n).2.1.innerHashKeyed = 0 ∧
      (setKeyCase env g key n).2.1.devId = g.devId ∧
      ∃ s0, (setKeyCase env g key n).2.1.hash = (env.hashInit t s0).2 ∨
        (setKeyCase env g key n).2.1.hash = (env.hashFinal t s0).2.1 := by
    unfold setKeyCase at hc ⊢
    simp only [] at hc ⊢
    split_ifs at hc ⊢ with q1 q2 q3 q4
    · simp only [hgm, hgk, true_and]; exact ⟨_, Or.inl hgh⟩
    · simp only [hgm, hgk, true_and]; exact ⟨_, Or.inl hgh⟩
    · exact absurd hc q3
    · exact absurd hc q4
    · simp only [hgm, hgk, true_and]; exact ⟨_, Or.inr rfl⟩
  obtain ⟨c1, c2, c3, s0, c4⟩ := hcase
  refine ⟨_, rfl, ?_, ?_, ?_, s0, ?_⟩
  · simp only [setKeyPads, c1]; exact hs
  · simp only [setKeyPads, c2]
  · simp only [setKeyPads, c3, hgd]
  · simp only [setKeyPads, c1]; exact c4

theorem updateAll_absorb (env : Env σ) (h : Hmac σ)
    (hnf : UpdateNeverFails env) (hc : UpdateConcat env)
    (hsw : Software env h.devId) (hs : Supported h.macType) :
    ∀ (cs : List (List Nat)) (m : List Nat),
      updateAll env (0, some (absorb env h m)) cs = (0, some (absorb env h (m ++ cs.flatten))) := by
  intro cs
  induction cs with
  | nil => intro m; simp [updateAll]
  | cons c cs ih =>
    intro m
    rw [updateAll]
    simp only [ne_eq, not_true_eq_false, if_false]
    rw [update_keyed env h m c hnf hc hsw hs, ih]
    simp

theorem hmacChunks_concat (env : Env σ) (h0 : Hmac σ) (t : Int)
    (key : Option (List Nat)) (keySz : Nat) (chunks : List (List Nat)) (o : List Nat)
    (hnf : UpdateNeverFails env) (hc : UpdateConcat env) (hsw : Software env h0.devId) :
    hmacChunks env (some h0) t key keySz chunks (some o) =
      hmacChunks env (some h0) t key keySz [chunks.flatten] (some o) := by
  unfold hmacChunks
  by_cases hret : (wc_HmacSetKey env (some h0) t key keySz).1 = 0
  swap
  · simp [hret]
  obtain ⟨h1, e1, hs1, hk1, hd1, _⟩ := setKey_success_light env h0 t key keySz hret
  obtain ⟨s, hpre⟩ := setKeyPre_software env h0 hsw
  have hsw1 : Software env h1.devId := by rw [hd1, hpre]; exact hsw
  simp only [e1, ne_eq, not_true_eq_false, if_false]
  have hone : updateAll env (0, some h1) [chunks.flatten] =
      (0, some (absorb env h1 chunks.flatten)) := by
    simp only [updateAll, ne_eq, not_true_eq_false, if_false]
    rw [update_unkeyed env h1 _ hnf hc hsw1 hs1 hk1]
  rw [hone]
  cases chunks with
  | nil =>
    simp only [updateAll, ne_eq, not_true_eq_false, if_false, List.flatten_nil]
    exact final_unkeyed env h1 o hnf hsw1 hs1 hk1
  | cons c cs =>
    rw [updateAll]
    simp only [ne_eq, not_true_eq_false, if_false]
    rw [update_unkeyed env h1 c hnf hc hsw1 hs1 hk1,
      updateAll_absorb env h1 hnf hc hsw1 hs1]
    simp

/-! ## Re-use of a keyed context -/

theorem keyInner_frame (env : Env σ) (h : Hmac σ) :
    ∃ s k, (HmacKeyInnerHash env h).2 = { h with hash := s, innerHashKeyed := k } := by
  unfold HmacKeyInnerHash
  simp only []
  split_ifs <;> exact ⟨_, _, rfl⟩

theorem update_frame (env : Env σ) (h : Hmac σ) (msg : Option (List Nat)) (n : Nat)
    (hd : ¬ onDevice env h) :
    ∃ s k, (wc_HmacUpdate env (some h) msg n).2 =
      some { h with hash := s, innerHashKeyed := k } := by
  simp only [wc_HmacUpdate, hd, false_and, if_false]
  by_cases hbad : msg.isNone ∧ n > 0
  · rw [if_pos hbad]; exact ⟨h.hash, h.innerHashKeyed, rfl⟩
  rw [if_neg hbad]
  obtain ⟨g, hg⟩ : ∃ g, g = (if h.innerHashKeyed = 0 then HmacKeyInnerHash env h else (0, h)) :=
    ⟨_, rfl⟩
  have hfr : ∃ s k, g.2 = { h with hash := s, innerHashKeyed := k } := by
    rw [hg]
    split
    · exact keyInner_frame env h
    · exact ⟨h.hash, h.innerHashKeyed, rfl⟩
  obtain ⟨s, k, e⟩ := hfr
  rw [← hg]
  split_ifs <;> simp only [e] <;> exact ⟨_, _, rfl⟩

theorem final_frame (env : Env σ) (h : Hmac σ) (o : List Nat) (hd : ¬ onDevice env h)
    (hret : (wc_HmacFinal env (some h) (some o)).1 = 0) :
    ∃ s x, (wc_HmacFinal env (some h) (some o)).2.1 =
      some { h with hash := (env.hashFinal h.macType s).2.1, innerHash := x,
                    innerHashKeyed := 0 } := by
  simp only [wc_HmacFinal, hd, false_and, if_false] at hret ⊢
  obtain ⟨g, hg⟩ : ∃ g, g = (if h.innerHashKeyed = 0 then HmacKeyInnerHash env h else (0, h)) :=
    ⟨_, rfl⟩
  have hfr : ∃ s k, g.2 = { h with hash := s, innerHashKeyed := k } := by
    rw [hg]
    split
    · exact keyInner_frame env h
    · exact ⟨h.hash, h.innerHashKeyed, rfl⟩
  obtain ⟨s, k, e⟩ := hfr
  rw [← hg] at hret ⊢
  by_cases hk : g.1 ≠ 0
  · rw [if_pos hk] at hret; exact absurd hret hk
  rw [if_neg hk] at hret ⊢
  have hmt : g.2.macType = h.macType := by rw [e]
  by_cases hs : Supported g.2.macType
  swap
  · rw [if_neg hs] at hret; simp [BAD_FUNC_ARG] at hret
  rw [if_pos hs] at hret ⊢
  by_cases hfc : (finalCase env g.2 o).1 = 0
  swap
  · rw [if_neg hfc] at hret; exact absurd hret hfc
  rw [if_pos hfc]
  -- a successful `finalCase` went through all four calls
  unfold finalCase at hfc ⊢
  simp only [] at hfc ⊢
  split_ifs at hfc ⊢ with c1 c2 c3
  · exact absurd hfc c1
  · exact absurd hfc c2
  · exact absurd hfc c3
  · simp only [e]
    exact ⟨_, _, rfl⟩

theorem keyInner_inner (env : Env σ) (h : Hmac σ) (x : List Nat) :
    HmacKeyInnerHash env { h with innerHash := x } =
      ((HmacKeyInnerHash env h).1, { (HmacKeyInnerHash env h).2 with innerHash := x }) := by
  unfold HmacKeyInnerHash
  simp only []
  split_ifs <;> rfl

theorem update_inner (env : Env σ) (h : Hmac σ) (x : List Nat) (msg : Option (List Nat))
    (n : Nat) (hd : ¬ onDevice env h) :
    wc_HmacUpdate env (some { h with innerHash := x }) msg n =
      ((wc_HmacUpdate env (some h) msg n).1,
        (wc_HmacUpdate env (some h) msg n).2.map (fun g => { g with innerHash := x })) := by
  have hd2 : ¬ onDevice env { h with innerHash := x } := hd
  simp only [wc_HmacUpdate, hd, hd2, false_and, if_false, keyInner_inner]
  split_ifs <;> simp_all

theorem finalCase_inner (env : Env σ) (h : Hmac σ) (x o : List Nat) :
    (finalCase env { h with innerHash := x } o).1 = (finalCase env h o).1 ∧
    (finalCase env { h with innerHash := x } o).2.2 = (finalCase env h o).2.2 := by
  unfold finalCase
  simp only []
  by_cases h1 : (env.hashFinal h.macType h.hash).1 = 0
  · have hlen := env.final_len _ _ h1
    have e1 : (writeAt x 0 (env.hashFinal h.macType h.hash).2.2).take (digestSize h.macType) =
        (env.hashFinal h.macType h.hash).2.2 := by
      have := writeAt_zero_take x (env.hashFinal h.macType h.hash).2.2
      rwa [hlen] at this
    have e2 : (writeAt h.innerHash 0 (env.hashFinal h.macType h.hash).2.2).take
        (digestSize h.macType) = (env.hashFinal h.macType h.hash).2.2 := by
      have := writeAt_zero_take h.innerHash (env.hashFinal h.macType h.hash).2.2
      rwa [hlen] at this
    simp only [h1, ne_eq, not_true_eq_false, if_false, e1, e2]
    split_ifs <;> exact ⟨rfl, rfl⟩
  · simp only [h1, ne_eq, not_false_eq_true, if_true, and_self]

theorem final_inner (env : Env σ) (h : Hmac σ) (x o : List Nat) (hd : ¬ onDevice env h) :
    (wc_HmacFinal env (some { h with innerHash := x }) (some o)).1 =
      (wc_HmacFinal env (some h) (some o)).1 ∧
    (wc_HmacFinal env (some { h with innerHash := x }) (some o)).2.2 =
      (wc_HmacFinal env (some h) (some o)).2.2 := by
  have hd2 : ¬ onDevice env { h with innerHash := x } := hd
  simp only [wc_HmacFinal, hd, hd2, false_and, if_false, keyInner_inner]
  obtain ⟨g, hg⟩ : ∃ g, g = (if h.innerHashKeyed = 0 then HmacKeyInnerHash env h else (0, h)) :=
    ⟨_, rfl⟩
  have e : (if h.innerHashKeyed = 0 then
        ((HmacKeyInnerHash env h).1, { (HmacKeyInnerHash env h).2 with innerHash := x })
      else (0, { h with innerHash := x })) = (g.1, { g.2 with innerHash := x }) := by
    rw [hg]; split <;> rfl
  rw [e, ← hg]
  simp only []
  obtain ⟨f1, f2⟩ := finalCase_inner env g.2 x o
  by_cases hk : g.1 ≠ 0
  · rw [if_pos hk, if_pos hk]
    exact ⟨rfl, rfl⟩
  rw [if_neg hk, if_neg hk]
  by_cases hs : Supported g.2.macType
  · rw [if_pos hs, if_pos hs, f1, f2]
    split_ifs <;> exact ⟨rfl, rfl⟩
  · rw [if_neg hs, if_neg hs]
    split_ifs <;> exact ⟨rfl, rfl⟩

theorem hmacChunks_one (env : Env σ) (h0 : Hmac σ) (t : Int) (key : Option (List Nat))
    (keySz : Nat) (m : List Nat) (o : Option (List Nat)) (h1 : Hmac σ)
    (e1 : wc_HmacSetKey env (some h0) t key keySz = (0, some h1)) :
    hmacChunks env (some h0) t key keySz [m] o =
      updateFinal env (some h1) (some m) m.length o := by
  unfold hmacChunks updateFinal
  simp only [e1, ne_eq, not_true_eq_false, if_false, updateAll]

theorem updateFinal_inner (env : Env σ) (h : Hmac σ) (x m o : List Nat)
    (hd : ¬ onDevice env h) :
    (updateFinal env (some { h with innerHash := x }) (some m) m.length (some o)).1 =
      (updateFinal env (some h) (some m) m.length (some o)).1 ∧
    (updateFinal env (some { h with innerHash := x }) (some m) m.length (some o)).2.2 =
      (updateFinal env (some h) (some m) m.length (some o)).2.2 := by
  unfold updateFinal
  rw [update_inner env h x (some m) m.length hd]
  obtain ⟨s, k, e⟩ := update_frame env h (some m) m.length hd
  simp only [e, Option.map_some']
  by_cases hr : (wc_HmacUpdate env (some h) (some m) m.length).1 ≠ 0
  · rw [if_pos hr, if_pos hr]; exact ⟨rfl, rfl⟩
  · rw [if_neg hr, if_neg hr]
    have hd3 : ¬ onDevice env { h with hash := s, innerHashKeyed := k } := hd
    exact final_inner env { h with hash := s, innerHashKeyed := k } x o hd3

/-- A context that has finished one message behaves, for the return code and
the output of the next `Update`, `Final`, like the context `wc_HmacSetKey`
left. -/
theorem reuse_eq_fresh (env : Env σ) (hfr : FinalResets env) (h0 : Hmac σ)
    (hsw : Software env h0.devId) (t : Int) (key : Option (List Nat)) (keySz : Nat)
    (m1 m2 o1 o2 : List Nat)
    (hfirst : (hmacChunks env (some h0) t key keySz [m1] (some o1)).1 = 0) :
    (updateFinal env (hmacChunks env (some h0) t key keySz [m1] (some o1)).2.1
        (some m2) m2.length (some o2)).1 =
      (hmacChunks env (some h0) t key keySz [m2] (some o2)).1 ∧
    (updateFinal env (hmacChunks env (some h0) t key keySz [m1] (some o1)).2.1
        (some m2) m2.length (some o2)).2.2 =
      (hmacChunks env (some h0) t key keySz [m2] (some o2)).2.2 := by
  have hret : (wc_HmacSetKey env (some h0) t key keySz).1 = 0 := by
    by_contra hne
    unfold hmacChunks at hfirst
    simp only [ne_eq, hne, not_false_eq_true, if_true] at hfirst
  obtain ⟨h1, e1, hs1, hk1, hd1, s0, hh1⟩ := setKey_success_light env h0 t key keySz hret
  obtain ⟨s, hpre⟩ := setKeyPre_software env h0 hsw
  have hsw1 : Software env h1.devId := by rw [hd1, hpre]; exact hsw
  have hdev1 := software_not_onDevice env h1 hsw1
  rw [hmacChunks_one env h0 t key keySz m1 _ h1 e1] at hfirst ⊢
  rw [hmacChunks_one env h0 t key keySz m2 _ h1 e1]
  -- the context after the first message
  unfold updateFinal at hfirst
  obtain ⟨s2, k2, e2⟩ := update_frame env h1 (some m1) m1.length hdev1
  have hu : (wc_HmacUpdate env (some h1) (some m1) m1.length).1 = 0 := by
    by_contra hne
    simp only [ne_eq, hne, not_false_eq_true, if_true] at hfirst
  simp only [hu, ne_eq, not_true_eq_false, if_false, e2] at hfirst
  have hdev2 : ¬ onDevice env { h1 with hash := s2, innerHashKeyed := k2 } := hdev1
  obtain ⟨s3, x, e3⟩ := final_frame env _ o1 hdev2 hfirst
  have hctx : (updateFinal env (some h1) (some m1) m1.length (some o1)).2.1 =
      some { h1 with innerHash := x } := by
    unfold updateFinal
    simp only [hu, ne_eq, not_true_eq_false, if_false, e2, e3]
    have hhash : (env.hashFinal h1.macType s3).2.1 = h1.hash := by
      rcases hh1 with hh | hh
      · rw [hh]; exact hfr _ _ _
      · rw [hh, hfr _ s3 s0, hfr _ s0 s0]
    simp only [hhash, ← hk1]
  rw [hctx]
  exact updateFinal_inner env h1 x m2 o2 hdev1

/-! ## Keys longer than the block -/

theorem setKey_ret_zero (env : Env σ) (h0 : Hmac σ) (t : Int) (k : List Nat)
    (hs : Supported t)
    (hret : (wc_HmacSetKey env (some h0) t (some k) k.length).1 = 0) :
    (env.hashInit t (setKeyPre env h0).hash).1 = 0 ∧
    ¬ (env.HAVE_FIPS = true ∧ k.length < HMAC_FIPS_MIN_KEY) ∧
    (blockSize t < k.length →
      (env.hashFinal t (env.hashUpdate t
        (env.hashInit t (setKeyPre env h0).hash).2 k).2).1 = 0) := by
  have hm := supported_mod t hs
  simp only [wc_HmacSetKey, Option.isNone_some, Bool.false_eq_true, false_and, hs,
    not_true_eq_false, or_self, if_false, _InitHmac, if_true, hm] at hret
  by_cases hi : (env.hashInit t (setKeyPre env h0).hash).1 = 0
  swap
  · simp [hi] at hret
  simp only [hi, ne_eq, not_true_eq_false, if_false] at hret
  by_cases hf : env.HAVE_FIPS = true ∧ k.length < HMAC_FIPS_MIN_KEY
  · simp [hf, HMAC_MIN_KEYLEN_E] at hret
  simp only [hf, if_false] at hret
  refine ⟨hi, hf, ?_⟩
  intro hlong
  generalize hg : setKeyRaw env _ _ _ = g at hret
  have hg1 : g.macType = t ∧ g.hash = (env.hashInit t (setKeyPre env h0).hash).2 := by
    rw [← hg]; unfold setKeyRaw; split <;> simp
  obtain ⟨hgm, hgh⟩ := hg1
  simp only [hgm, hs, not_true_eq_false, if_false] at hret
  by_cases hc : (setKeyCase env g (some k) k.length).1 = 0
  swap
  · simp [hc] at hret
  have hnle : ¬ k.length ≤ blockSize t := by omega
  unfold setKeyCase at hc
  simp only [hgm, hnle, if_false, rd_some_length, hgh] at hc
  by_contra hne
  split_ifs at hc with q1
  · exact q1 hc
  · exact hne hc

theorem setKey_ret_short (env : Env σ) (h0 : Hmac σ) (t : Int) (k : List Nat)
    (hs : Supported t) (hle : k.length ≤ blockSize t)
    (hi : (env.hashInit t (setKeyPre env h0).hash).1 = 0)
    (hf : ¬ (env.HAVE_FIPS = true ∧ k.length < HMAC_FIPS_MIN_KEY)) :
    (wc_HmacSetKey env (some h0) t (some k) k.length).1 = 0 := by
  have hm := supported_mod t hs
  simp only [wc_HmacSetKey, Option.isNone_some, Bool.false_eq_true, false_and, hs,
    not_true_eq_false, or_self, if_false, _InitHmac, if_true, hm, hi, ne_eq, hf]
  generalize hg : setKeyRaw env _ _ _ = g
  have hgm : g.macType = t := by
    rw [← hg]; unfold setKeyRaw; split <;> simp
  have hc : (setKeyCase env g (some k) k.length).1 = 0 := by
    unfold setKeyCase
    simp [hgm, hle]
  simp [hgm, hs, hc]

theorem longKey_pads (env : Env σ) (x : Hmac σ) (devId : Int) (t : Int) (key : List Nat)
    (hs : Supported t) (hlong : blockSize t < key.length)
    (hret : (wc_HmacSetKey env (wc_HmacInit env (some x) devId).2 t (some key)
      key.length).1 = 0) :
    ∃ h1 h2,
      wc_HmacSetKey env (wc_HmacInit env (some x) devId).2 t (some key) key.length =
        (0, some h1) ∧
      wc_HmacSetKey env (wc_HmacInit env (some x) devId).2 t (some (hashOf env t key))
        (digestSize t) = (0, some h2) ∧
      h1.ipad.take (blockSize t) = h2.ipad.take (blockSize t) ∧
      h1.opad.take (blockSize t) = h2.opad.take (blockSize t) ∧
      h1.macType = h2.macType ∧ h1.innerHashKeyed = h2.innerHashKeyed := by
  obtain ⟨h0, e0, hw0, hm0, hh0, _, _⟩ := init_fields env x devId
  rw [e0] at hret ⊢
  simp only [] at hret ⊢
  have hD := supported_sizes t hs
  have h16 := supported_digest_ge t hs
  have hpre : setKeyPre env h0 = h0 := by
    unfold setKeyPre
    simp [hm0]
  obtain ⟨hi, hf, hfin⟩ := setKey_ret_zero env h0 t key hs hret
  have hfin' := hfin hlong
  rw [hpre, hh0] at hi hfin'
  have hlen : (hashOf env t key).length = digestSize t := env.final_len t _ hfin'
  have hret2 : (wc_HmacSetKey env (some h0) t (some (hashOf env t key))
      (hashOf env t key).length).1 = 0 := by
    apply setKey_ret_short env h0 t _ hs
    · rw [hlen]; exact hD.2.1
    · rw [hpre, hh0]; exact hi
    · rintro ⟨_, h2⟩
      rw [hlen] at h2
      simp only [HMAC_FIPS_MIN_KEY] at h2
      omega
  obtain ⟨h1, e1, m1, k1, _, _, _, i1, o1, _⟩ := setKey_success env h0 t key hs hw0 hret
  obtain ⟨h2, e2, m2, k2, _, _, _, i2, o2, _⟩ :=
    setKey_success env h0 t (hashOf env t key) hs hw0 hret2
  rw [hlen] at e2
  refine ⟨h1, h2, e1, e2, ?_, ?_, ?_, ?_⟩
  · rw [i1, i2]
    congr 1
    rw [hpre, hh0]
    have hnle : ¬ key.length ≤ blockSize t := by omega
    have hle2 : (hashOf env t key).length ≤ blockSize t := by rw [hlen]; exact hD.2.1
    simp only [normKey, hnle, if_false, hle2, if_true]
    rfl
  · rw [o1, o2]
    congr 1
    rw [hpre, hh0]
    have hnle : ¬ key.length ≤ blockSize t := by omega
    have hle2 : (hashOf env t key).length ≤ blockSize t := by rw [hlen]; exact hD.2.1
    simp only [normKey, hnle, if_false, hle2, if_true]
    rfl
  · rw [m1, m2]
  · rw [k1, k2]

theorem hmacChunks_laws (env : Env σ) (hl : HashLaws env) (h0 : Hmac σ) (t : Int)
    (key m o : List Nat) (hs : Supported t) (hk : KeyLenOk env key.length)
    (hw : WF h0) (hsw : Software env h0.devId) :
    ∃ h', hmacChunks env (some h0) t (some key) key.length [m] (some o) =
      (0, some h', some (HMAC env t key m ++ o.drop (digestSize t))) := by
  obtain ⟨h1, e1, hr1⟩ := setKey_ready env hl h0 t key hs hk hw hsw
  obtain ⟨h2, h3, e2, e3, _⟩ := ready_update_final env hl t key m o h1 hs hr1
  refine ⟨h3, ?_⟩
  rw [hmacChunks_one env h0 t (some key) key.length m _ h1 e1]
  unfold updateFinal
  simp only [e2, ne_eq, not_true_eq_false, if_false, e3]

theorem ceil_le_255 (outSz D : Nat) (hD : 0 < D)
    (h : outSz / D + (if outSz % D ≠ 0 then 1 else 0) ≤ 255) : outSz ≤ 255 * D := by
  by_contra hc
  have := (expand_guard outSz D hD).mpr (by omega)
  omega

/-! ## Contexts that stay on the software path -/

theorem onDevice_congr (env : Env σ) (h h' : Hmac σ) (e : h'.devId = h.devId) :
    onDevice env h' ↔ onDevice env h := by
  unfold onDevice; rw [e]

theorem keyInner_devId (env : Env σ) (h : Hmac σ) :
    (HmacKeyInnerHash env h).2.devId = h.devId := by
  obtain ⟨s, k, e⟩ := keyInner_frame env h
  rw [e]

theorem HmacFree_devId (env : Env σ) (h : Hmac σ) (hd : ¬ onDevice env h) :
    (HmacFree env h).devId = h.devId := by
  unfold HmacFree
  simp only [hd, false_and, if_false]
  split_ifs <;> rfl

theorem setKeyCase_devId (env : Env σ) (h : Hmac σ) (key : Option (List Nat)) (n : Nat) :
    (setKeyCase env h key n).2.1.devId = h.devId := by
  unfold setKeyCase
  simp only []
  split_ifs <;> rfl

theorem setKeyPads_devId (h : Hmac σ) (length B : Nat) :
    (setKeyPads h length B).devId = h.devId := rfl

theorem setKeyRaw_devId (env : Env σ) (h : Hmac σ) (key : Option (List Nat)) (n : Nat) :
    (setKeyRaw env h key n).devId = h.devId := by
  unfold setKeyRaw; split_ifs <;> rfl

theorem initHmac_devId (env : Env σ) (h : Hmac σ) (t : Int) :
    (_InitHmac env h t).2.devId = h.devId := by
  unfold _InitHmac; split_ifs <;> rfl

theorem setKey_devId (env : Env σ) (h : Hmac σ) (t : Int) (key : Option (List Nat)) (n : Nat)
    (hd : ¬ onDevice env h) :
    ∃ h', (wc_HmacSetKey env (some h) t key n).2 = some h' ∧ h'.devId = h.devId := by
  have hpre : (setKeyPre env h).devId = h.devId := by
    unfold setKeyPre
    split_ifs
    · exact HmacFree_devId env h hd
    · rfl
  simp only [wc_HmacSetKey]
  split_ifs <;> refine ⟨_, rfl, ?_⟩ <;>
    (try simp only [setKeyPads_devId, setKeyCase_devId, setKeyRaw_devId, initHmac_devId]) <;>
    exact hpre

theorem update_devId (env : Env σ) (h : Hmac σ) (msg : Option (List Nat)) (n : Nat)
    (hd : ¬ onDevice env h) :
    ∃ h', (wc_HmacUpdate env (some h) msg n).2 = some h' ∧ h'.devId = h.devId := by
  obtain ⟨s, k, e⟩ := update_frame env h msg n hd
  exact ⟨_, e, rfl⟩

theorem finalCase_devId (env : Env σ) (h : Hmac σ) (o : List Nat) :
    (finalCase env h o).2.1.devId = h.devId := by
  unfold finalCase
  simp only []
  split_ifs <;> rfl

theorem final_devId (env : Env σ) (h : Hmac σ) (out : Option (List Nat))
    (hd : ¬ onDevice env h) :
    ∃ h', (wc_HmacFinal env (some h) out).2.1 = some h' ∧ h'.devId = h.devId := by
  cases out with
  | none => exact ⟨h, rfl, rfl⟩
  | some o =>
    have hk : (if h.innerHashKeyed = 0 then HmacKeyInnerHash env h else (0, h)).2.devId =
        h.devId := by
      split
      · exact keyInner_devId env h
      · rfl
    simp only [wc_HmacFinal, hd, false_and, if_false]
    generalize (if h.innerHashKeyed = 0 then HmacKeyInnerHash env h else (0, h)) = g at hk ⊢
    split_ifs <;> refine ⟨_, rfl, ?_⟩ <;> (try simp only [finalCase_devId]) <;> exact hk

theorem NoDev.setKey {env : Env σ} {o : Option (Hmac σ)} (hn : NoDev env o) (t : Int)
    (key : Option (List Nat)) (n : Nat) : NoDev env (wc_HmacSetKey env o t key n).2 := by
  cases o with
  | none => intro h e; simp [wc_HmacSetKey] at e
  | some h0 =>
    obtain ⟨h', e, ed⟩ := setKey_devId env h0 t key n (hn h0 rfl)
    intro h eh
    rw [e] at eh
    cases eh
    exact fun c => hn h0 rfl ((onDevice_congr env h0 h' ed).1 c)

theorem NoDev.update {env : Env σ} {o : Option (Hmac σ)} (hn : NoDev env o)
    (msg : Option (List Nat)) (n : Nat) : NoDev env (wc_HmacUpdate env o msg n).2 := by
  cases o with
  | none => intro h e; simp [wc_HmacUpdate] at e
  | some h0 =>
    obtain ⟨h', e, ed⟩ := update_devId env h0 msg n (hn h0 rfl)
    intro h eh
    rw [e] at eh
    cases eh
    exact fun c => hn h0 rfl ((onDevice_congr env h0 h' ed).1 c)

theorem NoDev.final {env : Env σ} {o : Option (Hmac σ)} (hn : NoDev env o)
    (out : Option (List Nat)) : NoDev env (wc_HmacFinal env o out).2.1 := by
  cases o with
  | none => intro h e; simp [wc_HmacFinal] at e
  | some h0 =>
    obtain ⟨h', e, ed⟩ := final_devId env h0 out (hn h0 rfl)
    intro h eh
    rw [e] at eh
    cases eh
    exact fun c => hn h0 rfl ((onDevice_congr env h0 h' ed).1 c)

theorem NoDev.init (env : Env σ) (x : Option (Hmac σ)) (devId : Int) (hsw : Software env devId) :
    NoDev env (wc_HmacInit env x devId).2 := by
  cases x with
  | none => intro h e; simp [wc_HmacInit] at e
  | some x0 =>
    obtain ⟨h0, e0, _, _, _, _, hd0⟩ := init_fields env x0 devId
    intro h e
    rw [e0] at e
    cases e
    apply software_not_onDevice
    rw [hd0]
    exact init_software env devId hsw

theorem update_ptr (env : Env σ) (o : Option (Hmac σ)) (hn : NoDev env o)
    (msg : Option (List Nat)) (n : Nat) :
    wc_HmacUpdate env o msg n = wc_HmacUpdate env o (msg.map (fun m => m.take n)) n := by
  cases o with
  | none => rfl
  | some h =>
    have hd := hn h rfl
    cases msg with
    | none => rfl
    | some m =>
      simp [wc_HmacUpdate, hd, rd, List.take_take]

/-! ## Pointer arguments are read up to their length -/

theorem prfLoop_ptr (env : Env σ) (seed : Option (List Nat))
    (seedLen len lastLen lastTime : Nat) :
    ∀ (c i : Nat) (hmac : Option (Hmac σ)) (previous current result : List Nat) (idx : Nat),
      NoDev env hmac →
      prfLoop env seed seedLen len lastLen lastTime c i hmac previous current result idx =
        prfLoop env (seed.map (fun m => m.take seedLen)) seedLen len lastLen lastTime c i hmac
          previous current result idx := by
  intro c
  induction c with
  | zero => intros; rfl
  | succ c ih =>
    intro i hmac previous current result idx hn
    have h1 := hn.update (some previous) len
    have e2 := update_ptr env _ h1 seed seedLen
    have h3 := (h1.update seed seedLen).final (some current)
    have h5 := (h3.update (some previous) len).final (some previous)
    simp only [prfLoop]
    rw [← e2]
    split_ifs
    · rfl
    · rfl
    · rfl
    · exact ih _ _ _ _ _ _ h3
    · rfl
    · rfl
    · exact ih _ _ _ _ _ _ h5

theorem wc_PRF_ptr (env : Env σ) (result : List Nat) (resLen : Nat)
    (secret : Option (List Nat)) (secLen : Nat) (seed : Option (List Nat)) (seedLen : Nat)
    (hash devId : Int) (hsw : Software env devId) :
    wc_PRF env result resLen secret secLen seed seedLen hash devId =
      wc_PRF env result resLen (secret.map (fun m => m.take secLen)) secLen
        (seed.map (fun m => m.take seedLen)) seedLen hash devId := by
  have h0 := NoDev.init env (some (zeroHmac env)) devId hsw
  have h1 := h0.setKey (prfAlg hash).1 secret secLen
  have e1 := setKey_rd env (wc_HmacInit env (some (zeroHmac env)) devId).2 (prfAlg hash).1
    secret secLen
  simp only [wc_PRF]
  rw [← e1]
  generalize wc_HmacSetKey env _ (prfAlg hash).1 secret secLen = r1 at h1 ⊢
  by_cases c0 : (wc_HmacInit env (some (zeroHmac env)) devId).1 = 0
  swap
  · simp only [c0, if_false]
  simp only [c0, if_true]
  by_cases c1 : r1.1 = 0
  swap
  · simp only [c1, if_false]
  simp only [c1, if_true]
  rw [← update_ptr env r1.2 h1 seed seedLen]
  have h2 := h1.update seed seedLen
  generalize wc_HmacUpdate env r1.2 seed seedLen = r2 at h2 ⊢
  by_cases c2 : r2.1 = 0
  swap
  · simp only [c2, if_false]
  simp only [c2, if_true]
  have h3 := h2.final (some (List.replicate P_HASH_MAX_SIZE 0))
  generalize wc_HmacFinal env r2.2 (some (List.replicate P_HASH_MAX_SIZE 0)) = r3 at h3 ⊢
  by_cases c3 : r3.1 = 0
  swap
  · simp only [c3, if_false]
  simp only [c3, if_true]
  rw [prfLoop_ptr env seed seedLen _ _ _ _ _ _ _ _ _ _ h3]

theorem expandLoop_ptr (env : Env σ) (type : Int) (inKey : Option (List Nat)) (inKeySz : Nat)
    (info : Option (List Nat)) (infoSz outSz hashSz : Nat) :
    ∀ (fuel : Nat) (hmac : Option (Hmac σ)) (tmp out : List Nat) (outIdx n : Nat),
      NoDev env hmac →
      expandLoop env type inKey inKeySz info infoSz outSz hashSz fuel hmac tmp out outIdx n =
        expandLoop env type inKey inKeySz (info.map (fun m => m.take infoSz)) infoSz outSz
          hashSz fuel hmac tmp out outIdx n := by
  intro fuel
  induction fuel with
  | zero => intros; rfl
  | succ fuel ih =>
    intro hmac tmp out outIdx n hn
    simp only [expandLoop]
    generalize (if n = 1 then 0 else hashSz) = tmpSz
    have h2 := (hn.setKey type inKey inKeySz).update (some tmp) tmpSz
    have e3 := update_ptr env _ h2 info infoSz
    have h5 := ((h2.update info infoSz).update (some [n]) 1).final (some tmp)
    rw [← e3]
    split_ifs <;> first | with_reducible rfl | exact ih _ _ _ _ _ h5

theorem expand_ptr (env : Env σ) (type : Int) (inKey : Option (List Nat)) (inKeySz : Nat)
    (info : Option (List Nat)) (infoSz : Nat) (out : Option (List Nat)) (outSz : Nat) :
    wc_HKDF_Expand env type inKey inKeySz info infoSz out outSz =
      wc_HKDF_Expand env type inKey inKeySz (info.map (fun m => m.take infoSz)) infoSz
        out outSz := by
  have h0 := NoDev.init env (some (zeroHmac env)) INVALID_DEVID (Or.inr rfl)
  cases out with
  | none => rfl
  | some o =>
    simp only [wc_HKDF_Expand]
    rw [expandLoop_ptr env type inKey inKeySz info infoSz _ _ _ _ _ _ _ _ h0]

/-! ## Argument checks -/

theorem hkdf_eq_twoStep (env : Env σ) (type : Int) (inKey : Option (List Nat))
    (inKeySz : Nat) (salt : Option (List Nat)) (saltSz : Nat) (info : Option (List Nat))
    (infoSz : Nat) (out : Option (List Nat)) (outSz : Nat) :
    wc_HKDF env type inKey inKeySz salt saltSz info infoSz out outSz =
      hkdfExtractThenExpand env type inKey inKeySz salt saltSz info infoSz out outSz := by
  unfold wc_HKDF hkdfExtractThenExpand
  by_cases hs : Supported type
  · have h1 : wc_HmacSizeByType type = (digestSize type : Int) := by
      simp [wc_HmacSizeByType, hs]
    have h2 : ¬ ((digestSize type : Int) < 0) := by omega
    simp only [h1, h2, if_false, Int.toNat_ofNat]
  · have h1 : (wc_HKDF_Extract env type salt saltSz inKey inKeySz
        (some (List.replicate WC_MAX_DIGEST_SIZE 0))).1 = BAD_FUNC_ARG := by
      simp [wc_HKDF_Extract, wc_HmacSizeByType, hs, BAD_FUNC_ARG]
    have h2 : wc_HmacSizeByType type < 0 := by
      simp [wc_HmacSizeByType, hs, BAD_FUNC_ARG]
    have h3 : BAD_FUNC_ARG ≠ 0 := by decide
    simp only [h2, if_true, h1, ne_eq, h3, not_false_eq_true]

theorem hkdf_unsupported (env : Env σ) (type : Int) (inKey : Option (List Nat))
    (inKeySz : Nat) (salt : Option (List Nat)) (saltSz : Nat) (info : Option (List Nat))
    (infoSz : Nat) (out : Option (List Nat)) (outSz : Nat) (hs : ¬ Supported type) :
    wc_HKDF env type inKey inKeySz salt saltSz info infoSz out outSz = (BAD_FUNC_ARG, out) := by
  simp [wc_HKDF, wc_HmacSizeByType, hs, BAD_FUNC_ARG]

theorem hkdf_extract_fails (env : Env σ) (type : Int) (inKey : Option (List Nat))
    (inKeySz : Nat) (salt : Option (List Nat)) (saltSz : Nat) (info : Option (List Nat))
    (infoSz : Nat) (out : Option (List Nat)) (outSz : Nat)
    (hf : (wc_HKDF_Extract env type salt saltSz inKey inKeySz
      (some (List.replicate WC_MAX_DIGEST_SIZE 0))).1 ≠ 0) :
    wc_HKDF env type inKey inKeySz salt saltSz info infoSz out outSz =
      ((wc_HKDF_Extract env type salt saltSz inKey inKeySz
        (some (List.replicate WC_MAX_DIGEST_SIZE 0))).1, out) := by
  rw [hkdf_eq_twoStep]
  unfold hkdfExtractThenExpand
  simp only [hf, ne_eq, not_false_eq_true, if_true]

theorem expand_null_out (env : Env σ) (t : Int) (inKey : Option (List Nat)) (inKeySz : Nat)
    (info : Option (List Nat)) (infoSz outSz : Nat) :
    wc_HKDF_Expand env t inKey inKeySz info infoSz none outSz = (BAD_FUNC_ARG, none) := rfl

theorem expand_too_long (env : Env σ) (t : Int) (inKey : Option (List Nat)) (inKeySz : Nat)
    (info : Option (List Nat)) (infoSz : Nat) (o : List Nat) (outSz : Nat) (hs : Supported t)
    (hlong : 255 * digestSize t < outSz) :
    wc_HKDF_Expand env t inKey inKeySz info infoSz (some o) outSz = (BAD_FUNC_ARG, some o) := by
  have hg := (expand_guard outSz _ (supported_sizes t hs).1).2 hlong
  simp only [wc_HKDF_Expand, hashSz_word32 t hs, hg, if_true]

theorem expand_passes (env : Env σ) (t : Int) (inKey : Option (List Nat)) (inKeySz : Nat)
    (info : Option (List Nat)) (infoSz : Nat) (o : List Nat) (outSz : Nat) (hs : Supported t)
    (hsz : outSz ≤ 255 * digestSize t) :
    wc_HKDF_Expand env t inKey inKeySz info infoSz (some o) outSz =
      expandRun env t inKey inKeySz info infoSz o outSz := by
  have hg : ¬ (outSz / digestSize t + (if outSz % digestSize t ≠ 0 then 1 else 0) > 255) := by
    rw [expand_guard outSz _ (supported_sizes t hs).1]; omega
  simp only [wc_HKDF_Expand, expandRun, hashSz_word32 t hs, hg, if_false]

theorem setKey_bad_args (env : Env σ) (hmac : Option (Hmac σ)) (t : Int)
    (key : Option (List Nat)) (n : Nat)
    (hbad : hmac = none ∨ ¬ Supported t ∨ (key = none ∧ n ≠ 0)) :
    wc_HmacSetKey env hmac t key n = (BAD_FUNC_ARG, hmac) := by
  cases hmac with
  | none => rfl
  | some h =>
    have hb : (key.isNone ∧ n ≠ 0) ∨ ¬ Supported t := by
      rcases hbad with h1 | h1 | ⟨h1, h2⟩
      · cases h1
      · exact Or.inr h1
      · exact Or.inl ⟨by rw [h1]; rfl, h2⟩
    simp only [wc_HmacSetKey]
    rw [if_pos hb]

theorem update_unbound (env : Env σ) (h : Hmac σ) (msg : Option (List Nat)) (n : Nat)
    (hd : ¬ onDevice env h) (hu : ¬ Supported h.macType) (hmsg : ¬ (msg.isNone ∧ n > 0)) :
    wc_HmacUpdate env (some h) msg n =
      (0, some (if h.innerHashKeyed = 0 then
        { h with innerHashKeyed := WC_HMAC_INNER_HASH_KEYED_SW } else h)) := by
  simp only [wc_HmacUpdate]
  rw [if_neg hmsg]
  simp only [hd, false_and, if_false]
  by_cases hk : h.innerHashKeyed = 0
  · simp [hk, HmacKeyInnerHash, hu]
  · simp [hk, hu]

theorem update_null_msg (env : Env σ) (hmac : Option (Hmac σ)) (n : Nat) (hn : 0 < n) :
    wc_HmacUpdate env hmac none n = (BAD_FUNC_ARG, hmac) := by
  cases hmac with
  | none => rfl
  | some h => simp [wc_HmacUpdate, hn]

/-! ## The TLS 1.3 label -/

theorem and_255 (x : Nat) : x &&& 0xff = x % 256 :=
  Nat.and_pow_two_sub_one_eq_mod x 8

theorem writeAt_append (pre rest src : List Nat) :
    writeAt (pre ++ rest) pre.length src = (pre ++ src) ++ rest.drop src.length := by
  simp [writeAt, List.take_append_eq_append_take, List.drop_append_eq_append_drop]

theorem writeAt_append' (pre rest src : List Nat) (n : Nat) (hn : n = pre.length) :
    writeAt (pre ++ rest) n src = (pre ++ src) ++ rest.drop src.length := by
  subst hn; exact writeAt_append pre rest src

/-- The bytes the source stores in `data`, each cast to `byte`. -/
theorem hkdfLabelData_eq (okmLen : Nat) (protocol label info : List Nat) :
    ∃ rest, (hkdfLabelData okmLen (some protocol) protocol.length (some label) label.length
        (some info) info.length).1 =
      ([(okmLen >>> 8) % 256, okmLen % 256,
        word32 (protocol.length + label.length) % 256] ++ protocol ++ label ++
        [info.length % 256] ++ info) ++ rest := by
  unfold hkdfLabelData
  simp only [Option.getD_some, XMEMCPY, List.take_length]
  have e1 := writeAt_append' [] (List.replicate MAX_TLS13_HKDF_LABEL_SZ 0)
    [(okmLen >>> 8) % 256] 0 rfl
  simp only [List.nil_append] at e1
  rw [e1]
  rw [writeAt_append' [(okmLen >>> 8) % 256] _ [okmLen % 256] 1 rfl]
  rw [writeAt_append' ([(okmLen >>> 8) % 256] ++ [okmLen % 256]) _
    [word32 (protocol.length + label.length) % 256] 2 rfl]
  rw [writeAt_append' ([(okmLen >>> 8) % 256] ++ [okmLen % 256] ++
    [word32 (protocol.length + label.length) % 256]) _ protocol 3 rfl]
  rw [writeAt_append' _ _ label (3 + protocol.length) (by simp; omega)]
  rw [writeAt_append' _ _ [info.length % 256] (3 + protocol.length + label.length)
    (by simp; omega)]
  rw [writeAt_append' _ _ info (3 + protocol.length + label.length + 1) (by simp; omega)]
  exact ⟨_, rfl⟩

theorem expandLoop_unsupported (env : Env σ) (t : Int) (inKey : Option (List Nat))
    (inKeySz : Nat) (info info' : Option (List Nat)) (infoSz infoSz' outSz hashSz : Nat)
    (hu : ¬ Supported t) (fuel : Nat) (hmac : Option (Hmac σ)) (tmp out : List Nat)
    (outIdx n : Nat) :
    expandLoop env t inKey inKeySz info infoSz outSz hashSz fuel hmac tmp out outIdx n =
      expandLoop env t inKey inKeySz info' infoSz' outSz hashSz fuel hmac tmp out outIdx n := by
  cases fuel with
  | zero => rfl
  | succ fuel =>
    have e := setKey_bad_args env hmac t inKey inKeySz
      (by
        cases hmac with
        | none => exact Or.inl rfl
        | some h => exact Or.inr (Or.inl hu))
    have hb : BAD_FUNC_ARG ≠ 0 := by decide
    simp only [expandLoop, e, ne_eq, hb, not_false_eq_true, if_true]

theorem expand_unsupported (env : Env σ) (t : Int) (inKey : Option (List Nat))
    (inKeySz : Nat) (info info' : Option (List Nat)) (infoSz infoSz' : Nat)
    (out : Option (List Nat)) (outSz : Nat) (hu : ¬ Supported t) :
    wc_HKDF_Expand env t inKey inKeySz info infoSz out outSz =
      wc_HKDF_Expand env t inKey inKeySz info' infoSz' out outSz := by
  cases out with
  | none => rfl
  | some o =>
    simp only [wc_HKDF_Expand]
    rw [expandLoop_unsupported env t inKey inKeySz info info' infoSz infoSz' _ _ hu]

theorem expand_label_spec (env : Env σ) (okm : Option (List Nat)) (okmLen : Nat)
    (prk : Option (List Nat)) (prkLen : Nat) (protocol label info : List Nat) (digest : Int)
    (hfit : 4 + protocol.length + label.length + info.length ≤ MAX_TLS13_HKDF_LABEL_SZ) :
    wc_Tls13_HKDF_Expand_Label env okm okmLen prk prkLen (some protocol) protocol.length
        (some label) label.length (some info) info.length digest =
      wc_HKDF_Expand env digest prk prkLen (some (hkdfLabel okmLen protocol label info))
        (4 + protocol.length + label.length + info.length) okm okmLen := by
  simp only [MAX_TLS13_HKDF_LABEL_SZ, WC_MAX_DIGEST_SIZE] at hfit
  obtain ⟨rest, hd⟩ := hkdfLabelData_eq okmLen protocol label info
  have hidx : (hkdfLabelData okmLen (some protocol) protocol.length (some label) label.length
      (some info) info.length).2 = 4 + protocol.length + label.length + info.length := by
    simp only [hkdfLabelData]; omega
  have hw : word32 (4 + protocol.length + label.length + info.length) =
      4 + protocol.length + label.length + info.length := by
    unfold word32; omega
  have hw2 : word32 (protocol.length + label.length) % 256 =
      (protocol.length + label.length) % 256 := by
    unfold word32; omega
  unfold wc_Tls13_HKDF_Expand_Label
  simp only [hidx, hw]
  by_cases hsmall : okmLen < 65536
  · -- the two labels are the same bytes
    have h8 : (okmLen >>> 8) % 256 = okmLen >>> 8 := by
      rw [Nat.shiftRight_eq_div_pow]; omega
    have hL : ((hkdfLabelData okmLen (some protocol) protocol.length (some label) label.length
        (some info) info.length).1).take (4 + protocol.length + label.length + info.length) =
        hkdfLabel okmLen protocol label info := by
      rw [hd, hw2, h8]
      unfold hkdfLabel
      simp only [and_255]
      apply List.take_left'
      simp; omega
    have hL2 : (hkdfLabel okmLen protocol label info).take
        (4 + protocol.length + label.length + info.length) =
        hkdfLabel okmLen protocol label info := by
      apply List.take_of_length_le
      simp [hkdfLabel]; omega
    rw [expand_ptr env digest prk prkLen (some _), expand_ptr env digest prk prkLen (some (hkdfLabel _ _ _ _))]
    simp only [Option.map_some', hL, hL2]
  · by_cases hs : Supported digest
    · have hlong : 255 * digestSize digest < okmLen := by
        have := (supported_sizes digest hs).2.2.2
        simp only [WC_MAX_DIGEST_SIZE] at this
        omega
      cases okm with
      | none => rfl
      | some o =>
        rw [expand_too_long env digest prk prkLen _ _ o okmLen hs hlong,
          expand_too_long env digest prk prkLen _ _ o okmLen hs hlong]
    · exact expand_unsupported env digest prk prkLen _ _ _ _ okm okmLen hs

theorem hkdfLabel_length (okmLen : Nat) (protocol label info : List Nat) :
    (hkdfLabel okmLen protocol label info).length =
      4 + protocol.length + label.length + info.length := by
  simp [hkdfLabel]; omega

/-! ## The TLS 1.0 PRF -/

theorem writeAt_length_ge (dst src : List Nat) (off : Nat) :
    dst.length ≤ (writeAt dst off src).length := by
  simp only [writeAt, List.length_append, List.length_take, List.length_drop]
  omega

theorem prfLoop_length_ge (env : Env σ) (seed : Option (List Nat))
    (seedLen len lastLen lastTime : Nat) :
    ∀ (c i : Nat) (hmac : Option (Hmac σ)) (previous current result : List Nat) (idx : Nat),
      result.length ≤
        (prfLoop env seed seedLen len lastLen lastTime c i hmac previous current result
          idx).2.2.length := by
  intro c
  induction c with
  | zero => intros; exact Nat.le_refl _
  | succ c ih =>
    intro i hmac previous current result idx
    simp only [prfLoop]
    split_ifs
    · exact Nat.le_refl _
    · exact Nat.le_refl _
    · exact Nat.le_refl _
    · exact le_trans (writeAt_length_ge _ _ _) (ih _ _ _ _ _ _)
    · exact writeAt_length_ge _ _ _
    · exact writeAt_length_ge _ _ _
    · exact le_trans (writeAt_length_ge _ _ _) (ih _ _ _ _ _ _)

theorem wc_PRF_length_ge (env : Env σ) (result : List Nat) (resLen : Nat)
    (secret : Option (List Nat)) (secLen : Nat) (seed : Option (List Nat)) (seedLen : Nat)
    (hash devId : Int) :
    result.length ≤
      (wc_PRF env result resLen secret secLen seed seedLen hash devId).2.length := by
  simp only [wc_PRF]
  split_ifs <;>
    first
    | exact prfLoop_length_ge _ _ _ _ _ _ _ _ _ _ _ _ _
    | exact Nat.le_refl _

theorem prfHalf_eq (n : Nat) (h : n < 4294967295) : prfHalf n = (n + 1) / 2 := by
  unfold prfHalf word32
  rw [Nat.mod_eq_of_lt (by omega)]

theorem prfS1_eq (secret : List Nat) (n : Nat) (hn : prfHalf n ≤ secret.length) :
    prfS1 (some secret) n = secret.take (prfHalf n) := by
  simp only [prfS1, md5Half, XMEMCPY, writeAt, Option.getD_some, List.take_zero,
    List.nil_append]
  apply List.take_left'
  simp only [List.length_take]; omega

theorem prfS2_eq (secret : List Nat) (n : Nat)
    (hn : prfHalf n - n % 2 + prfHalf n ≤ secret.length) :
    prfS2 (some secret) n = (secret.drop (prfHalf n - n % 2)).take (prfHalf n) := by
  simp only [prfS2, shaHalf, XMEMCPY, writeAt, Option.getD_some, List.take_zero,
    List.nil_append]
  apply List.take_left'
  simp only [List.length_take, List.length_drop]; omega

theorem labelSeedBuf_take (label seed : List Nat) :
    (labelSeedBuf (some label) label.length (some seed) seed.length).take
      (label.length + seed.length) = label ++ seed := by
  simp only [labelSeedBuf, XMEMCPY, Option.getD_some, List.take_length]
  have e1 := writeAt_append' [] (List.replicate MAX_PRF_LABSEED 0) label 0 rfl
  simp only [List.nil_append] at e1
  rw [e1, writeAt_append' label _ seed label.length rfl]
  apply List.take_left'
  simp

theorem xmemset_zeros (n k : Nat) (h : k ≤ n) :
    XMEMSET (List.replicate n 0) 0 0 k = List.replicate n 0 := by
  simp only [XMEMSET, writeAt, List.take_zero, List.nil_append, List.length_replicate,
    Nat.zero_add, List.drop_replicate]
  rw [← List.replicate_add]
  congr 1
  omega

theorem xorbuf_copy (digest a b : List Nat) (n : Nat) (ha : n ≤ a.length) :
    xorbuf (XMEMCPY digest 0 a n) b n =
      (List.range n).map (fun i => a.getD i 0 ^^^ b.getD i 0) ++ digest.drop n := by
  have hl : (a.take n).length = n := by simp [ha]
  simp only [xorbuf, XMEMCPY, writeAt, List.take_zero, List.nil_append, Nat.zero_add, hl]
  congr 1
  · apply List.map_congr_left
    intro i hi
    rw [List.mem_range] at hi
    congr 1
    rw [List.getD_eq_getElem?_getD, List.getD_eq_getElem?_getD,
      List.getElem?_append_left (by omega), List.getElem?_take_of_lt hi]
  · rw [List.drop_append_of_le_length (by omega)]
    simp [List.drop_eq_nil_of_le, hl]

theorem accepted_not_tooBig (secLen labLen seedLen digLen : Nat)
    (hhalf : (secLen + 1) / 2 ≤ MAX_PRF_HALF) (hls : labLen + seedLen ≤ MAX_PRF_LABSEED)
    (hdig : digLen ≤ MAX_PRF_DIG) : ¬ prfTooBig secLen labLen seedLen digLen := by
  simp only [MAX_PRF_HALF, MAX_PRF_LABSEED, MAX_PRF_DIG] at *
  have h1 : prfHalf secLen = (secLen + 1) / 2 := prfHalf_eq secLen (by omega)
  have h2 : word32 (labLen + seedLen) = labLen + seedLen := by unfold word32; omega
  unfold prfTooBig
  rw [h1, h2]
  simp only [MAX_PRF_HALF, MAX_PRF_LABSEED, MAX_PRF_DIG]
  omega

/-- The two calls of `wc_PRF` in `wc_PRF_TLSv1`, with the keys and the seed
as byte strings. -/
theorem tlsv1_calls (env : Env σ) (secret label seed : List Nat) (digLen : Nat)
    (hash devId : Int) (hsw : Software env devId)
    (hhalf : (secret.length + 1) / 2 ≤ MAX_PRF_HALF)
    (hls : label.length + seed.length ≤ MAX_PRF_LABSEED) (hdig : digLen ≤ MAX_PRF_DIG) :
    wc_PRF env (XMEMSET (List.replicate MAX_PRF_DIG 0) 0 0 digLen) digLen
        (some (md5Half (some secret) secret.length)) (prfHalf secret.length)
        (some (labelSeedBuf (some label) label.length (some seed) seed.length))
        (word32 (label.length + seed.length)) hash devId =
      wc_PRF env (List.replicate MAX_PRF_DIG 0) digLen
        (some (secret.take ((secret.length + 1) / 2))) ((secret.length + 1) / 2)
        (some (label ++ seed)) (label.length + seed.length) hash devId ∧
    wc_PRF env (XMEMSET (List.replicate MAX_PRF_DIG 0) 0 0 digLen) digLen
        (some (shaHalf (some secret) secret.length)) (prfHalf secret.length)
        (some (labelSeedBuf (some label) label.length (some seed) seed.length))
        (word32 (label.length + seed.length)) hash devId =
      wc_PRF env (List.replicate MAX_PRF_DIG 0) digLen
        (some (secret.drop (secret.length - (secret.length + 1) / 2)))
        ((secret.length + 1) / 2)
        (some (label ++ seed)) (label.length + seed.length) hash devId := by
  have hh : prfHalf secret.length = (secret.length + 1) / 2 :=
    prfHalf_eq _ (by simp only [MAX_PRF_HALF] at hhalf; omega)
  have hw : word32 (label.length + seed.length) = label.length + seed.length := by
    simp only [MAX_PRF_LABSEED] at hls; unfold word32; omega
  have h1 := prfS1_eq secret secret.length (by rw [hh]; omega)
  have h2 := prfS2_eq secret secret.length (by rw [hh]; omega)
  have hoff : (secret.length + 1) / 2 - secret.length % 2 =
      secret.length - (secret.length + 1) / 2 := by omega
  have h3 : (secret.drop (secret.length - (secret.length + 1) / 2)).take
      ((secret.length + 1) / 2) = secret.drop (secret.length - (secret.length + 1) / 2) := by
    apply List.take_of_length_le
    simp only [List.length_drop]; omega
  have h4 : (secret.take ((secret.length + 1) / 2)).take ((secret.length + 1) / 2) =
      secret.take ((secret.length + 1) / 2) := by
    rw [List.take_take]; simp
  have h5 : (label ++ seed).take (label.length + seed.length) = label ++ seed := by
    apply List.take_of_length_le; simp
  simp only [prfS1, prfS2] at h1 h2
  rw [hh, hoff] at h2
  rw [hh] at h1
  rw [xmemset_zeros _ _ hdig, hh, hw]
  constructor
  · rw [wc_PRF_ptr env _ _ (some (md5Half _ _)) _ _ _ _ _ hsw,
      wc_PRF_ptr env _ _ (some (secret.take _)) _ (some (label ++ seed)) _ _ _ hsw]
    simp only [Option.map_some', h1, h4, h5, labelSeedBuf_take]
  · rw [wc_PRF_ptr env _ _ (some (shaHalf _ _)) _ _ _ _ _ hsw,
      wc_PRF_ptr env _ _ (some (secret.drop _)) _ (some (label ++ seed)) _ _ _ hsw]
    simp only [Option.map_some', h2, h3, h5, labelSeedBuf_take]

theorem tlsv1_xor (env : Env σ) (digest secret label seed : List Nat) (digLen : Nat)
    (devId : Int) (hsw : Software env devId)
    (hhalf : (secret.length + 1) / 2 ≤ MAX_PRF_HALF)
    (hls : label.length + seed.length ≤ MAX_PRF_LABSEED) (hdig : digLen ≤ MAX_PRF_DIG)
    (hret : (wc_PRF_TLSv1 env digest digLen (some secret) secret.length (some label)
      label.length (some seed) seed.length devId).1 = 0) :
    (wc_PRF_TLSv1 env digest digLen (some secret) secret.length (some label)
      label.length (some seed) seed.length devId).2 =
      (List.range digLen).map (fun i =>
        (wc_PRF env (List.replicate MAX_PRF_DIG 0) digLen
          (some (secret.take ((secret.length + 1) / 2))) ((secret.length + 1) / 2)
          (some (label ++ seed)) (label.length + seed.length) md5_mac devId).2.getD i 0 ^^^
        (wc_PRF env (List.replicate MAX_PRF_DIG 0) digLen
          (some (secret.drop (secret.length - (secret.length + 1) / 2)))
          ((secret.length + 1) / 2)
          (some (label ++ seed)) (label.length + seed.length) sha_mac devId).2.getD i 0) ++
      digest.drop digLen := by
  have hg := accepted_not_tooBig secret.length label.length seed.length digLen hhalf hls hdig
  have c1 := (tlsv1_calls env secret label seed digLen md5_mac devId hsw hhalf hls hdig).1
  have c2 := (tlsv1_calls env secret label seed digLen sha_mac devId hsw hhalf hls hdig).2
  simp only [wc_PRF_TLSv1] at hret ⊢
  rw [if_neg hg] at hret ⊢
  rw [c1, c2] at hret ⊢
  have hA := wc_PRF_length_ge env (List.replicate MAX_PRF_DIG 0) digLen
    (some (secret.take ((secret.length + 1) / 2))) ((secret.length + 1) / 2)
    (some (label ++ seed)) (label.length + seed.length) md5_mac devId
  rw [List.length_replicate] at hA
  generalize wc_PRF env (List.replicate MAX_PRF_DIG 0) digLen
    (some (secret.take ((secret.length + 1) / 2))) ((secret.length + 1) / 2)
    (some (label ++ seed)) (label.length + seed.length) md5_mac devId = A at hret hA ⊢
  generalize wc_PRF env (List.replicate MAX_PRF_DIG 0) digLen
    (some (secret.drop (secret.length - (secret.length + 1) / 2)))
    ((secret.length + 1) / 2)
    (some (label ++ seed)) (label.length + seed.length) sha_mac devId = B at hret ⊢
  by_cases a0 : A.1 = 0
  swap
  · rw [if_neg a0] at hret; exact absurd hret a0
  rw [if_pos a0] at hret ⊢
  by_cases b0 : B.1 = 0
  swap
  · rw [if_neg b0] at hret; exact absurd hret b0
  rw [if_pos b0]
  exact xorbuf_copy digest A.2 B.2 digLen (by omega)

theorem prf_ret_zero (env : Env σ) (hl : HashLaws env) (hash t : Int)
    (ht : (hash, t) ∈ prfPairs) (result secret seed : List Nat) (resLen secLen seedLen : Nat)
    (devId : Int) (h32 : resLen < 4294967296) (hsw : Software env devId)
    (hk : KeyLenOk env secLen) (hsec : secLen ≤ secret.length)
    (hseed : seedLen ≤ seed.length) :
    (wc_PRF env result resLen (some secret) secLen (some seed) seedLen hash devId).1 = 0 := by
  have h1 : (secret.take secLen).length = secLen := by simp [hsec]
  have h2 : (seed.take seedLen).length = seedLen := by simp [hseed]
  have h := prf_spec env hl hash t ht (secret.take secLen) (seed.take seedLen) result resLen
    devId h32 hsw (by rw [h1]; exact hk)
  rw [h1, h2] at h
  rw [wc_PRF_ptr env _ _ _ _ _ _ _ _ hsw]
  simp only [Option.map_some', h]

theorem tlsv1_ret_zero (env : Env σ) (hl : HashLaws env) (digest : List Nat) (digLen : Nat)
    (secret : Option (List Nat)) (secLen : Nat) (label : Option (List Nat)) (labLen : Nat)
    (seed : Option (List Nat)) (seedLen : Nat) (devId : Int) (hsw : Software env devId)
    (hk : KeyLenOk env (prfHalf secLen))
    (hg : ¬ prfTooBig secLen labLen seedLen digLen) :
    (wc_PRF_TLSv1 env digest digLen secret secLen label labLen seed seedLen devId).1 = 0 := by
  have hg' := hg
  simp only [prfTooBig, not_or, not_lt, gt_iff_lt] at hg'
  obtain ⟨g1, g2, g3⟩ := hg'
  have hm : prfHalf secLen ≤ (md5Half secret secLen).length :=
    le_trans g1 (by
      unfold md5Half XMEMCPY
      exact le_trans (by simp) (writeAt_length_ge _ _ _))
  have hs : prfHalf secLen ≤ (shaHalf secret secLen).length :=
    le_trans g1 (by
      unfold shaHalf XMEMCPY
      exact le_trans (by simp) (writeAt_length_ge _ _ _))
  have hls : word32 (labLen + seedLen) ≤ (labelSeedBuf label labLen seed seedLen).length :=
    le_trans g2 (by
      unfold labelSeedBuf XMEMCPY
      exact le_trans (le_trans (by simp) (writeAt_length_ge _ _ _)) (writeAt_length_ge _ _ _))
  have h32 : digLen < 4294967296 := by simp only [MAX_PRF_DIG] at g3; omega
  have r1 := prf_ret_zero env hl md5_mac WC_MD5 (by decide)
    (XMEMSET (List.replicate MAX_PRF_DIG 0) 0 0 digLen) (md5Half secret secLen)
    (labelSeedBuf label labLen seed seedLen) digLen (prfHalf secLen)
    (word32 (labLen + seedLen)) devId h32 hsw hk hm hls
  have r2 := prf_ret_zero env hl sha_mac WC_SHA (by decide)
    (XMEMSET (List.replicate MAX_PRF_DIG 0) 0 0 digLen) (shaHalf secret secLen)
    (labelSeedBuf label labLen seed seedLen) digLen (prfHalf secLen)
    (word32 (labLen + seedLen)) devId h32 hsw hk hs hls
  simp only [wc_PRF_TLSv1]
  rw [if_neg hg, if_pos r1, if_pos r2]

theorem wc_PRF_alg (env : Env σ) (result : List Nat) (resLen : Nat)
    (secret : Option (List Nat)) (secLen : Nat) (seed : Option (List Nat)) (seedLen : Nat)
    (hash hash' devId : Int) (h : prfAlg hash = prfAlg hash') :
    wc_PRF env result resLen secret secLen seed seedLen hash devId =
      wc_PRF env result resLen secret secLen seed seedLen hash' devId := by
  simp only [wc_PRF, h]

theorem prfAlg_default (hash : Int) (h : hash = 7 ∨ 8 < hash) : prfAlg hash = prfAlg sha_mac := by
  simp only [prfAlg, md5_mac, sha_mac, sha256_mac, sha384_mac, sha512_mac]
  rcases h with h | h
  · subst h; decide
  · have h1 : ¬ hash = 1 := by omega
    have h2 : ¬ hash = 4 := by omega
    have h3 : ¬ hash = 5 := by omega
    have h4 : ¬ hash = 6 := by omega
    simp [h1, h2, h3, h4]

theorem prfTls_atLeast (env : Env σ) (digest : List Nat) (digLen : Nat)
    (secret : Option (List Nat)) (secLen : Nat) (label : Option (List Nat)) (labLen : Nat)
    (seed : Option (List Nat)) (seedLen : Nat) (useAtLeastSha256 hash_type devId : Int)
    (hu : useAtLeastSha256 ≠ 0) (hfit : word32 (labLen + seedLen) ≤ MAX_PRF_LABSEED) :
    wc_PRF_TLS env digest digLen secret secLen label labLen seed seedLen useAtLeastSha256
        hash_type devId =
      wc_PRF env digest digLen secret secLen (some (labelSeedBuf label labLen seed seedLen))
        (word32 (labLen + seedLen))
        (if hash_type < sha256_mac ∨ hash_type = blake2b_mac then sha256_mac else hash_type)
        devId := by
  simp only [wc_PRF_TLS]
  rw [if_pos hu, if_neg (by omega)]

theorem prfTls_legacy (env : Env σ) (digest : List Nat) (digLen : Nat)
    (secret : Option (List Nat)) (secLen : Nat) (label : Option (List Nat)) (labLen : Nat)
    (seed : Option (List Nat)) (seedLen : Nat) (hash_type devId : Int) :
    wc_PRF_TLS env digest digLen secret secLen label labLen seed seedLen 0 hash_type devId =
      wc_PRF_TLSv1 env digest digLen secret secLen label labLen seed seedLen devId := by
  simp [wc_PRF_TLS]

theorem prfTls_hole (env : Env σ) (digest : List Nat) (digLen : Nat)
    (secret : Option (List Nat)) (secLen : Nat) (label : Option (List Nat)) (labLen : Nat)
    (seed : Option (List Nat)) (seedLen : Nat) (useAtLeastSha256 hash_type devId : Int)
    (hu : useAtLeastSha256 ≠ 0) (hfit : word32 (labLen + seedLen) ≤ MAX_PRF_LABSEED)
    (hh : hash_type = 7 ∨ 8 < hash_type) :
    wc_PRF_TLS env digest digLen secret secLen label labLen seed seedLen useAtLeastSha256
        hash_type devId =
      wc_PRF env digest digLen secret secLen (some (labelSeedBuf label labLen seed seedLen))
        (word32 (labLen + seedLen)) sha_mac devId := by
  rw [prfTls_atLeast env _ _ _ _ _ _ _ _ _ _ _ hu hfit]
  have hn : ¬ (hash_type < sha256_mac ∨ hash_type = blake2b_mac) := by
    simp only [sha256_mac, blake2b_mac]; omega
  rw [if_neg hn]
  exact wc_PRF_alg env _ _ _ _ _ _ _ _ _ (prfAlg_default hash_type hh)

/-! ## The sign padding of SSH-KDF -/

theorem sshPrefix_eq (K H : List Nat) :
    sshPrefix K H =
      c32toa (word32 (K.length + (if K.getD 0 0 &&& 0x80 ≠ 0 then 1 else 0))) ++
        (if K.getD 0 0 &&& 0x80 ≠ 0 then [0] else []) ++ K ++ H := by
  unfold sshPrefix
  by_cases h : K.getD 0 0 &&& 0x80 ≠ 0
  · simp only [if_pos h]
    simp
  · simp only [if_neg h]
    simp

theorem sshPrefix_length (K H : List Nat) :
    (sshPrefix K H).length =
      4 + (if K.getD 0 0 &&& 0x80 ≠ 0 then 1 else 0) + K.length + H.length := by
  rw [sshPrefix_eq]
  by_cases h : K.getD 0 0 &&& 0x80 ≠ 0
  · simp only [if_pos h]
    simp [c32toa]; omega
  · simp only [if_neg h]
    simp [c32toa]; omega

theorem sshDigest_input (env : Env σ) (t : Int) (K H : List Nat) (keyId : Nat)
    (sid : List Nat) (i : Nat) :
    sshDigest env t K H keyId sid i =
      hashOf env t (sshPrefix K H ++
        (match i with
         | 0 => [keyId] ++ sid
         | j + 1 => blocks (sshDigest env t K H keyId sid) (j + 1))) := by
  cases i with
  | zero => simp [sshDigest, sshDigests]
  | succ j => exact sshDigest_succ env t K H keyId sid j

theorem blocks_head (f : Nat → List Nat) (D : Nat) (hf : ∀ i, (f i).length = D) (n : Nat)
    (hn : 0 < n) (rest : List Nat) :
    ((blocks f n).take n ++ rest).take (min n D) = (f 0).take n := by
  have hD : 0 < D ∨ D = 0 := by omega
  have hlen : (blocks f n).length = n * D := blocks_length f D hf n
  have h1 := blocks_take f D hf n 0 (min n D) hn (Nat.min_le_right _ _)
  simp only [Nat.zero_mul, Nat.zero_add, blocks, List.nil_append] at h1
  have h2 : (f 0).take (min n D) = (f 0).take n := by
    rw [List.take_eq_take]
    rw [hf 0]
    omega
  rcases hD with hD | hD
  · have hge : n ≤ n * D := Nat.le_mul_of_pos_right n hD
    rw [List.take_append_of_le_length (by simp [hlen]; omega), List.take_take,
      Nat.min_eq_left (Nat.min_le_left _ _), h1, h2]
  · subst hD
    have e0 : (f 0) = [] := List.length_eq_zero.mp (hf 0)
    simp [e0]

theorem and_7f_80 (b : Nat) : (b &&& 0x7f) &&& 0x80 = 0 := by
  rw [Nat.land_assoc]
  have : (0x7f : Nat) &&& 0x80 = 0 := by decide
  rw [this, Nat.and_zero]

/-- Every block of `wc_SSH_KDF` hashes a string that starts with
`be32(kSz + kPad)`, the pad byte if any, `K` and `H`. -/
theorem ssh_blocks_input (env : Env σ) (hl : HashLaws env) (t : Int) (ht : SshHash t)
    (keyId : Nat) (key K H sid : List Nat) (keySz : Nat)
    (hK : K ≠ []) (hH : H ≠ []) (hsid : sid ≠ []) (hkey : 0 < keySz)
    (h32 : keySz < 4294967296) :
    ∃ tail : Nat → List Nat, tail 0 = [keyId] ++ sid ∧
      wc_SSH_KDF env t keyId (some key) keySz (some K) K.length (some H) H.length
          (some sid) sid.length =
        (0, some ((blocks (fun i => hashOf env t
            (c32toa (word32 (K.length + (if K.getD 0 0 &&& 0x80 ≠ 0 then 1 else 0))) ++
              (if K.getD 0 0 &&& 0x80 ≠ 0 then [0] else []) ++ K ++ H ++ tail i))
          keySz).take keySz ++ key.drop keySz)) := by
  refine ⟨fun i => match i with
    | 0 => [keyId] ++ sid
    | j + 1 => blocks (sshDigest env t K H keyId sid) (j + 1), rfl, ?_⟩
  rw [ssh_kdf_spec env hl t ht keyId key K H sid keySz hK hH hsid hkey h32]
  have hf : sshDigest env t K H keyId sid = fun i => hashOf env t
      (c32toa (word32 (K.length + (if K.getD 0 0 &&& 0x80 ≠ 0 then 1 else 0))) ++
        (if K.getD 0 0 &&& 0x80 ≠ 0 then [0] else []) ++ K ++ H ++
        (match i with
         | 0 => [keyId] ++ sid
         | j + 1 => blocks (sshDigest env t K H keyId sid) (j + 1))) := by
    funext i
    rw [sshDigest_input, sshPrefix_eq]
  rw [← hf]

theorem ssh_pad_matters (env : Env σ) (hl : HashLaws env) (t : Int) (ht : SshHash t)
    (keyId : Nat) (key H sid rest : List Nat) (b keySz : Nat)
    (hH : H ≠ []) (hsid : sid ≠ []) (hkey : 0 < keySz) (h32 : keySz < 4294967296)
    (hb : b &&& 0x80 ≠ 0) :
    sshPrefix (b :: rest) H =
      c32toa (word32 ((b :: rest).length + 1)) ++ [0] ++ (b :: rest) ++ H ∧
    sshPrefix ((b &&& 0x7f) :: rest) H =
      c32toa (word32 ((b :: rest).length)) ++ ((b &&& 0x7f) :: rest) ++ H ∧
    sshPrefix (b :: rest) H ++ [keyId] ++ sid ≠
      sshPrefix ((b &&& 0x7f) :: rest) H ++ [keyId] ++ sid ∧
    ((hashOf env t (sshPrefix (b :: rest) H ++ [keyId] ++ sid)).take keySz ≠
        (hashOf env t (sshPrefix ((b &&& 0x7f) :: rest) H ++ [keyId] ++ sid)).take keySz →
      (wc_SSH_KDF env t keyId (some key) keySz (some (b :: rest)) (b :: rest).length
          (some H) H.length (some sid) sid.length).2 ≠
        (wc_SSH_KDF env t keyId (some key) keySz (some ((b &&& 0x7f) :: rest))
          ((b &&& 0x7f) :: rest).length (some H) H.length (some sid) sid.length).2) := by
  have hb' : ¬ ((b &&& 0x7f) &&& 0x80 ≠ 0) := by rw [and_7f_80]; simp
  have p1 : sshPrefix (b :: rest) H =
      c32toa (word32 ((b :: rest).length + 1)) ++ [0] ++ (b :: rest) ++ H := by
    rw [sshPrefix_eq]
    have : (b :: rest).getD 0 0 = b := rfl
    rw [this, if_pos hb, if_pos hb]
  have p2 : sshPrefix ((b &&& 0x7f) :: rest) H =
      c32toa (word32 ((b :: rest).length)) ++ ((b &&& 0x7f) :: rest) ++ H := by
    rw [sshPrefix_eq]
    have : ((b &&& 0x7f) :: rest).getD 0 0 = b &&& 0x7f := rfl
    rw [this, if_neg hb', if_neg hb']
    simp
  refine ⟨p1, p2, ?_, ?_⟩
  · intro e
    have := congrArg List.length e
    rw [p1, p2] at this
    simp [c32toa] at this
  · intro hne e
    apply hne
    rw [ssh_kdf_spec env hl t ht keyId key (b :: rest) H sid keySz (by simp) hH hsid hkey h32,
      ssh_kdf_spec env hl t ht keyId key ((b &&& 0x7f) :: rest) H sid keySz (by simp) hH hsid
        hkey h32] at e
    simp only [Option.some.injEq] at e
    have e2 := congrArg (fun l => l.take (min keySz (digestSize t))) e
    simp only [] at e2
    rw [blocks_head _ (digestSize t) (sshDigest_length env hl t _ H keyId sid) keySz hkey,
      blocks_head _ (digestSize t) (sshDigest_length env hl t _ H keyId sid) keySz hkey] at e2
    simpa [sshDigest, sshDigests] using e2

/-! ## What `Final` keeps, and the empty message -/

theorem final_keeps (env : Env σ) (h : Hmac σ) (o : List Nat) (hsw : Software env h.devId)
    (hret : (wc_HmacFinal env (some h) (some o)).1 = 0) :
    ∃ h', (wc_HmacFinal env (some h) (some o)).2.1 = some h' ∧
      h'.innerHashKeyed = 0 ∧ h'.macType = h.macType ∧ h'.ipad = h.ipad ∧ h'.opad = h.opad ∧
      h'.devId = h.devId ∧ h'.devCtx = h.devCtx ∧ h'.keyRaw = h.keyRaw ∧
      h'.keyLen = h.keyLen := by
  obtain ⟨s, x, e⟩ := final_frame env h o (software_not_onDevice env h hsw) hret
  exact ⟨_, e, rfl, rfl, rfl, rfl, rfl, rfl, rfl, rfl⟩

theorem rd_zero (msg : Option (List Nat)) : rd msg 0 = [] := by
  simp [rd]

theorem final_after_empty_update (env : Env σ) (h : Hmac σ) (msg : Option (List Nat))
    (o : List Nat) (hnf : UpdateNeverFails env) (hc : UpdateConcat env)
    (hsw : Software env h.devId) (hs : Supported h.macType) (hk : h.innerHashKeyed = 0) :
    (wc_HmacUpdate env (some h) msg 0).1 = 0 ∧
    wc_HmacFinal env (wc_HmacUpdate env (some h) msg 0).2 (some o) =
      wc_HmacFinal env (some h) (some o) := by
  have e := update_unkeyed_rd env h msg 0 hnf hc hsw hs hk (by simp)
  rw [rd_zero] at e
  rw [e]
  exact ⟨rfl, (final_unkeyed env h o hnf hsw hs hk).symm⟩

theorem setKey_final_empty (env : Env σ) (hl : HashLaws env) (h0 : Hmac σ) (t : Int)
    (key out : List Nat) (hs : Supported t) (hk : KeyLenOk env key.length) (hw : WF h0)
    (hsw : Software env h0.devId) :
    (wc_HmacSetKey env (some h0) t (some key) key.length).1 = 0 ∧
    (wc_HmacFinal env (wc_HmacSetKey env (some h0) t (some key) key.length).2
      (some out)).1 = 0 ∧
    (wc_HmacFinal env (wc_HmacSetKey env (some h0) t (some key) key.length).2
      (some out)).2.2 = some (HMAC env t key [] ++ out.drop (digestSize t)) ∧
    ∀ msg : Option (List Nat),
      (wc_HmacUpdate env (wc_HmacSetKey env (some h0) t (some key) key.length).2 msg 0).1
        = 0 ∧
      wc_HmacFinal env
        (wc_HmacUpdate env (wc_HmacSetKey env (some h0) t (some key) key.length).2 msg 0).2
        (some out) =
      wc_HmacFinal env (wc_HmacSetKey env (some h0) t (some key) key.length).2 (some out) := by
  obtain ⟨h1, e1, hr1⟩ := setKey_ready env hl h0 t key hs hk hw hsw
  obtain ⟨h2, e2, _⟩ := ready_final env hl t key out h1 hs hr1
  have hsm : Supported h1.macType := by rw [hr1.macType]; exact hs
  rw [e1]
  refine ⟨rfl, ?_, ?_, ?_⟩
  · show (wc_HmacFinal env (some h1) (some out)).1 = 0
    rw [e2]
  · show (wc_HmacFinal env (some h1) (some out)).2.2 = _
    rw [e2]
  · intro msg
    exact final_after_empty_update env h1 msg out hl.neverFails hl.concat hr1.sw hsm hr1.unkeyed

/-! ## Argument checks of the derivation functions -/

theorem ssh_bad_args (env : Env σ) (hashId : Int) (keyId : Nat) (key : Option (List Nat))
    (keySz : Nat) (k : Option (List Nat)) (kSz : Nat) (h : Option (List Nat)) (hSz : Nat)
    (sessionId : Option (List Nat)) (sessionIdSz : Nat)
    (hbad : key = none ∨ keySz = 0 ∨ k = none ∨ kSz = 0 ∨ h = none ∨ hSz = 0 ∨
      sessionId = none ∨ sessionIdSz = 0 ∨ ¬ SshHash hashId) :
    wc_SSH_KDF env hashId keyId key keySz k kSz h hSz sessionId sessionIdSz =
      (BAD_FUNC_ARG, key) := by
  by_cases h1 : key.isNone ∨ keySz = 0 ∨ k.isNone ∨ kSz = 0 ∨ h.isNone ∨ hSz = 0 ∨
      sessionId.isNone ∨ sessionIdSz = 0
  · simp only [wc_SSH_KDF]
    rw [if_pos h1]
  · have hns : ¬ SshHash hashId := by
      rcases hbad with c | c | c | c | c | c | c | c | c
      · exact absurd (Or.inl (by rw [c]; rfl)) h1
      · exact absurd (Or.inr (Or.inl c)) h1
      · exact absurd (Or.inr (Or.inr (Or.inl (by rw [c]; rfl)))) h1
      · exact absurd (Or.inr (Or.inr (Or.inr (Or.inl c)))) h1
      · exact absurd (Or.inr (Or.inr (Or.inr (Or.inr (Or.inl (by rw [c]; rfl)))))) h1
      · exact absurd (Or.inr (Or.inr (Or.inr (Or.inr (Or.inr (Or.inl c)))))) h1
      · exact absurd
          (Or.inr (Or.inr (Or.inr (Or.inr (Or.inr (Or.inr (Or.inl (by rw [c]; rfl)))))))) h1
      · exact absurd (Or.inr (Or.inr (Or.inr (Or.inr (Or.inr (Or.inr (Or.inr c))))))) h1
      · exact c
    have hi : _HashInit env hashId env.hashZero = (BAD_FUNC_ARG, env.hashZero) := by
      simp only [_HashInit]
      rw [if_neg hns]
    have hc : ∀ ds, hashChain env hashId (BAD_FUNC_ARG, env.hashZero) ds =
        (BAD_FUNC_ARG, env.hashZero) := by
      intro ds
      cases ds with
      | nil => rfl
      | cons d ds => simp [hashChain, BAD_FUNC_ARG]
    simp only [wc_SSH_KDF]
    rw [if_neg h1]
    by_cases hd : wc_HmacSizeByType hashId < 0
    · rw [if_pos hd]
    · rw [if_neg hd]
      simp only [hi, hc]
      have : BAD_FUNC_ARG ≠ 0 := by decide
      simp [this]

theorem tlsv1_failure_keeps (env : Env σ) (digest : List Nat) (digLen : Nat)
    (secret : Option (List Nat)) (secLen : Nat) (label : Option (List Nat)) (labLen : Nat)
    (seed : Option (List Nat)) (seedLen : Nat) (devId : Int)
    (hret : (wc_PRF_TLSv1 env digest digLen secret secLen label labLen seed seedLen
      devId).1 ≠ 0) :
    (wc_PRF_TLSv1 env digest digLen secret secLen label labLen seed seedLen devId).2 =
      digest := by
  simp only [wc_PRF_TLSv1] at hret ⊢
  split_ifs at hret ⊢ with a b c
  · rfl
  · exact absurd rfl hret
  · rfl
  · rfl

theorem innerKeying_code (env : Env σ) (h : Hmac σ) (hs : Supported h.macType) :
    (innerKeying env h).1 =
      (if h.innerHashKeyed = 0 then
        (env.hashUpdate h.macType h.hash (h.ipad.take (blockSize h.macType))).1 else 0) ∧
    (innerKeying env h).2.macType = h.macType ∧
    (innerKeying env h).2.ipad = h.ipad ∧ (innerKeying env h).2.opad = h.opad ∧
    (innerKeying env h).2.innerHash = h.innerHash ∧
    (innerKeying env h).2.hash =
      (if h.innerHashKeyed = 0 then
        (env.hashUpdate h.macType h.hash (h.ipad.take (blockSize h.macType))).2
       else h.hash) ∧
    ((innerKeying env h).1 ≠ 0 → (innerKeying env h).2.innerHashKeyed = h.innerHashKeyed) ∧
    (h.innerHashKeyed ≠ 0 → (innerKeying env h).2.innerHashKeyed ≠ 0) := by
  unfold innerKeying
  by_cases hk : h.innerHashKeyed = 0
  · simp only [hk, if_true, HmacKeyInnerHash, hs]
    by_cases hu : (env.hashUpdate h.macType h.hash (h.ipad.take (blockSize h.macType))).1 = 0
    · simp [hu]
    · simp [hu, hk]
  · simp [hk]

theorem update_software (env : Env σ) (h : Hmac σ) (msg : Option (List Nat)) (n : Nat)
    (hd : ¬ onDevice env h) (hmsg : ¬ (msg.isNone ∧ n > 0)) :
    wc_HmacUpdate env (some h) msg n =
      (if (innerKeying env h).1 ≠ 0 then ((innerKeying env h).1, some (innerKeying env h).2)
       else if Supported (innerKeying env h).2.macType then
         ((env.hashUpdate (innerKeying env h).2.macType (innerKeying env h).2.hash
            (rd msg n)).1,
          some { (innerKeying env h).2 with
            hash := (env.hashUpdate (innerKeying env h).2.macType (innerKeying env h).2.hash
              (rd msg n)).2 })
       else (0, some (innerKeying env h).2)) := by
  simp only [wc_HmacUpdate, innerKeying]
  rw [if_neg hmsg]
  simp only [hd, false_and, if_false]

theorem final_software (env : Env σ) (h : Hmac σ) (out : List Nat) (hd : ¬ onDevice env h) :
    wc_HmacFinal env (some h) (some out) =
      (if (innerKeying env h).1 ≠ 0 then
        ((innerKeying env h).1, some (innerKeying env h).2, some out)
       else if Supported (innerKeying env h).2.macType then
         (if (finalCase env (innerKeying env h).2 out).1 = 0 then
            (0, some { (finalCase env (innerKeying env h).2 out).2.1 with innerHashKeyed := 0 },
              some (finalCase env (innerKeying env h).2 out).2.2)
          else ((finalCase env (innerKeying env h).2 out).1,
            some (finalCase env (innerKeying env h).2 out).2.1,
            some (finalCase env (innerKeying env h).2 out).2.2))
       else (BAD_FUNC_ARG, some (innerKeying env h).2, some out)) := by
  simp only [wc_HmacFinal, innerKeying]
  simp only [hd, false_and, if_false]
  split_ifs <;> simp_all [BAD_FUNC_ARG]

theorem finalCase_steps (env : Env σ) (h : Hmac σ) (out : List Nat) :
    ((finalCase env h out).1, (finalCase env h out).2.1.hash) =
      stopAt (finalSteps env h) h.hash ∧
    (finalCase env h out).2.1.innerHashKeyed = h.innerHashKeyed := by
  unfold finalCase finalSteps
  simp only [stopAt]
  constructor
  · split_ifs <;>
      first
      | rfl
      | (rename_i d; rw [Prod.mk.injEq]; exact ⟨not_not.mp d, rfl⟩)
  · split_ifs <;> rfl

theorem stopAt_cons {α : Type} (e : Int) (s' s : α) (rest : List (Int × α)) :
    stopAt ((e, s') :: rest) s = if e ≠ 0 then (e, s') else stopAt rest s' := rfl

theorem update_steps (env : Env σ) (h : Hmac σ) (msg : Option (List Nat)) (n : Nat)
    (hd : ¬ onDevice env h) (hs : Supported h.macType) (hmsg : ¬ (msg.isNone ∧ n > 0)) :
    ∃ h', wc_HmacUpdate env (some h) msg n = ((wc_HmacUpdate env (some h) msg n).1, some h') ∧
      ((wc_HmacUpdate env (some h) msg n).1, h'.hash) =
        stopAt [((innerKeying env h).1, (innerKeying env h).2.hash),
          ((env.hashUpdate h.macType (innerKeying env h).2.hash (rd msg n)).1,
           (env.hashUpdate h.macType (innerKeying env h).2.hash (rd msg n)).2)] h.hash ∧
      ((innerKeying env h).1 ≠ 0 → h' = (innerKeying env h).2) := by
  obtain ⟨_, hm, _, _, _, _, _, _⟩ := innerKeying_code env h hs
  rw [update_software env h msg n hd hmsg]
  have hs' : Supported (innerKeying env h).2.macType := by rw [hm]; exact hs
  generalize innerKeying env h = k at hm hs' ⊢
  rw [stopAt_cons, stopAt_cons]
  by_cases c : k.1 ≠ 0
  · rw [if_pos c, if_pos c]
    exact ⟨k.2, rfl, rfl, fun _ => rfl⟩
  · rw [if_neg c, if_neg c, if_pos hs', hm]
    refine ⟨_, rfl, ?_, fun x => absurd x c⟩
    by_cases u : (env.hashUpdate h.macType k.2.hash (rd msg n)).1 ≠ 0
    · rw [if_pos u]
    · rw [if_neg u, Prod.mk.injEq]
      exact ⟨not_not.mp u, rfl⟩

theorem final_steps (env : Env σ) (h : Hmac σ) (out : List Nat)
    (hd : ¬ onDevice env h) (hs : Supported h.macType) :
    ∃ h' o', wc_HmacFinal env (some h) (some out) =
        ((wc_HmacFinal env (some h) (some out)).1, some h', some o') ∧
      ((wc_HmacFinal env (some h) (some out)).1, h'.hash) =
        stopAt (((innerKeying env h).1, (innerKeying env h).2.hash) ::
          finalSteps env (innerKeying env h).2) h.hash ∧
      ((innerKeying env h).1 ≠ 0 → h' = (innerKeying env h).2 ∧ o' = out) ∧
      ((wc_HmacFinal env (some h) (some out)).1 ≠ 0 →
        h'.innerHashKeyed = (innerKeying env h).2.innerHashKeyed) ∧
      ((wc_HmacFinal env (some h) (some out)).1 = 0 → h'.innerHashKeyed = 0) := by
  obtain ⟨_, hm, _, _, _, _, _, _⟩ := innerKeying_code env h hs
  rw [final_software env h out hd]
  have hs' : Supported (innerKeying env h).2.macType := by rw [hm]; exact hs
  generalize innerKeying env h = k at hs' ⊢
  obtain ⟨hst, hik⟩ := finalCase_steps env k.2 out
  rw [stopAt_cons, ← hst]
  by_cases c : k.1 ≠ 0
  · rw [if_pos c, if_pos c]
    exact ⟨_, _, rfl, rfl, fun _ => ⟨rfl, rfl⟩, fun _ => rfl, fun x => absurd x c⟩
  · rw [if_neg c, if_neg c, if_pos hs']
    by_cases f : (finalCase env k.2 out).1 = 0
    · rw [if_pos f]
      refine ⟨_, _, rfl, ?_, fun x => absurd x c, fun x => absurd rfl x, fun _ => rfl⟩
      rw [f]
    · rw [if_neg f]
      exact ⟨_, _, rfl, rfl, fun x => absurd x c, fun _ => hik, fun x => absurd x f⟩

theorem innerKeying_keyed (env : Env σ) (h : Hmac σ)
    (hk : h.innerHashKeyed ≠ 0 ∨ (innerKeying env h).1 = 0) :
    (innerKeying env h).2.innerHashKeyed ≠ 0 := by
  unfold innerKeying at hk ⊢
  by_cases c : h.innerHashKeyed = 0
  · rw [if_pos c] at hk ⊢
    rcases hk with hk | hk
    · exact absurd c hk
    · unfold HmacKeyInnerHash at hk ⊢
      by_cases s : Supported h.macType
      · by_cases u : (env.hashUpdate h.macType h.hash (h.ipad.take (blockSize h.macType))).1 = 0
        · simp [s, u, WC_HMAC_INNER_HASH_KEYED_SW]
        · simp [s, u] at hk
      · simp [s, WC_HMAC_INNER_HASH_KEYED_SW]
  · rw [if_neg c]; exact c

/-! ## The device callback -/

theorem softwareEnv_not_onDevice (env : Env σ) (h : Hmac σ) :
    ¬ onDevice (softwareEnv env) h := by
  simp [onDevice, softwareEnv]

theorem softwareEnv_keyInner (env : Env σ) (h : Hmac σ) :
    HmacKeyInnerHash (softwareEnv env) h = HmacKeyInnerHash env h := rfl

theorem softwareEnv_finalCase (env : Env σ) (h : Hmac σ) (o : List Nat) :
    finalCase (softwareEnv env) h o = finalCase env h o := rfl

theorem update_unavailable (env : Env σ) (h : Hmac σ) (msg : Option (List Nat)) (n : Nat)
    (hon : onDevice env h)
    (hc1 : (env.wc_CryptoCb_Hmac h h.macType msg n none).1 = CRYPTOCB_UNAVAILABLE)
    (hc2 : (env.wc_CryptoCb_Hmac h h.macType msg n none).2.1 = h) :
    wc_HmacUpdate env (some h) msg n = wc_HmacUpdate (softwareEnv env) (some h) msg n := by
  have hsd := softwareEnv_not_onDevice env h
  simp only [wc_HmacUpdate, hon, hsd, true_and, false_and, if_true, if_false, hc1, hc2,
    ne_eq, not_true_eq_false, softwareEnv_keyInner]
  rfl

theorem update_device (env : Env σ) (h : Hmac σ) (msg : Option (List Nat)) (n : Nat)
    (hon : onDevice env h) (hmsg : ¬ (msg.isNone ∧ n > 0))
    (hc1 : (env.wc_CryptoCb_Hmac h h.macType msg n none).1 ≠ CRYPTOCB_UNAVAILABLE) :
    wc_HmacUpdate env (some h) msg n =
      ((env.wc_CryptoCb_Hmac h h.macType msg n none).1,
        some (env.wc_CryptoCb_Hmac h h.macType msg n none).2.1) := by
  simp only [wc_HmacUpdate]
  rw [if_neg hmsg, if_pos ⟨hon, hc1⟩]

theorem final_unavailable (env : Env σ) (h : Hmac σ) (o : List Nat)
    (hon : onDevice env h)
    (hc1 : (env.wc_CryptoCb_Hmac h h.macType none 0 (some o)).1 = CRYPTOCB_UNAVAILABLE)
    (hc2 : (env.wc_CryptoCb_Hmac h h.macType none 0 (some o)).2.1 = h)
    (hc3 : (env.wc_CryptoCb_Hmac h h.macType none 0 (some o)).2.2 = some o) :
    wc_HmacFinal env (some h) (some o) = wc_HmacFinal (softwareEnv env) (some h) (some o) := by
  have hsd := softwareEnv_not_onDevice env h
  simp only [wc_HmacFinal, hon, hsd, true_and, false_and, if_true, if_false, hc1, hc2, hc3,
    ne_eq, not_true_eq_false, softwareEnv_keyInner, softwareEnv_finalCase, Option.getD_some]

theorem final_device (env : Env σ) (h : Hmac σ) (o : List Nat)
    (hon : onDevice env h)
    (hc1 : (env.wc_CryptoCb_Hmac h h.macType none 0 (some o)).1 ≠ CRYPTOCB_UNAVAILABLE) :
    wc_HmacFinal env (some h) (some o) =
      ((env.wc_CryptoCb_Hmac h h.macType none 0 (some o)).1,
        some (env.wc_CryptoCb_Hmac h h.macType none 0 (some o)).2.1,
        (env.wc_CryptoCb_Hmac h h.macType none 0 (some o)).2.2) := by
  simp only [wc_HmacFinal]
  rw [if_pos ⟨hon, hc1⟩]

/-- The codes the software path of `wc_HmacUpdate` can return. -/
theorem update_software_code (env : Env σ) (h : Hmac σ) (msg : Option (List Nat)) (n : Nat)
    (hd : ¬ onDevice env h) :
    (wc_HmacUpdate env (some h) msg n).1 = BAD_FUNC_ARG ∨
    (wc_HmacUpdate env (some h) msg n).1 = 0 ∨
    ∃ t s d, (wc_HmacUpdate env (some h) msg n).1 = (env.hashUpdate t s d).1 := by
  by_cases hmsg : msg.isNone ∧ n > 0
  · left; simp only [wc_HmacUpdate]; rw [if_pos hmsg]
  · rw [update_software env h msg n hd hmsg]
    unfold innerKeying
    by_cases hk : h.innerHashKeyed = 0
    · simp only [hk, if_true, HmacKeyInnerHash]
      split_ifs <;> first
        | exact Or.inr (Or.inl rfl)
        | exact Or.inr (Or.inr ⟨_, _, _, rfl⟩)
    · simp only [hk, if_false]
      split_ifs <;> first
        | exact Or.inr (Or.inl rfl)
        | exact Or.inr (Or.inr ⟨_, _, _, rfl⟩)

/-- The codes the software path of `wc_HmacFinal` can return. -/
theorem final_software_code (env : Env σ) (h : Hmac σ) (o : List Nat)
    (hd : ¬ onDevice env h) :
    (wc_HmacFinal env (some h) (some o)).1 = BAD_FUNC_ARG ∨
    (wc_HmacFinal env (some h) (some o)).1 = 0 ∨
    (∃ t s d, (wc_HmacFinal env (some h) (some o)).1 = (env.hashUpdate t s d).1) ∨
    ∃ t s, (wc_HmacFinal env (some h) (some o)).1 = (env.hashFinal t s).1 := by
  rw [final_software env h o hd]
  have hk : (innerKeying env h).1 = 0 ∨ ∃ t s d, (innerKeying env h).1 = (env.hashUpdate t s d).1 := by
    unfold innerKeying
    by_cases hk : h.innerHashKeyed = 0
    · simp only [hk, if_true, HmacKeyInnerHash]
      split_ifs <;> first
        | exact Or.inl rfl
        | exact Or.inr ⟨_, _, _, rfl⟩
    · rw [if_neg hk]; exact Or.inl rfl
  have hf : ∀ g : Hmac σ, (finalCase env g o).1 = 0 ∨
      (∃ t s d, (finalCase env g o).1 = (env.hashUpdate t s d).1) ∨
      ∃ t s, (finalCase env g o).1 = (env.hashFinal t s).1 := by
    intro g
    unfold finalCase
    simp only []
    split_ifs <;> first
      | exact Or.inr (Or.inr ⟨_, _, rfl⟩)
      | exact Or.inr (Or.inl ⟨_, _, _, rfl⟩)
  generalize innerKeying env h = k at hk ⊢
  by_cases c : k.1 ≠ 0
  · rw [if_pos c]
    rcases hk with e | e
    · exact absurd e c
    · exact Or.inr (Or.inr (Or.inl e))
  · rw [if_neg c]
    by_cases s : Supported k.2.macType
    · rw [if_pos s]
      by_cases f : (finalCase env k.2 o).1 = 0
      · rw [if_pos f]; exact Or.inr (Or.inl rfl)
      · rw [if_neg f]
        rcases hf k.2 with e | e | e
        · exact absurd e f
        · exact Or.inr (Or.inr (Or.inl e))
        · exact Or.inr (Or.inr (Or.inr e))
    · rw [if_neg s]; exact Or.inl rfl

theorem unavailable_not_surfaced (env : Env σ) (h : Hmac σ) (msg : Option (List Nat))
    (n : Nat) (o : List Nat)
    (hu : ∀ t s d, (env.hashUpdate t s d).1 ≠ CRYPTOCB_UNAVAILABLE)
    (hf : ∀ t s, (env.hashFinal t s).1 ≠ CRYPTOCB_UNAVAILABLE) :
    (wc_HmacUpdate (softwareEnv env) (some h) msg n).1 ≠ CRYPTOCB_UNAVAILABLE ∧
    (wc_HmacFinal (softwareEnv env) (some h) (some o)).1 ≠ CRYPTOCB_UNAVAILABLE := by
  have hsd := softwareEnv_not_onDevice env h
  constructor
  · rcases update_software_code (softwareEnv env) h msg n hsd with e | e | ⟨t, s, d, e⟩
    · rw [e]; decide
    · rw [e]; decide
    · rw [e]; exact hu t s d
  · rcases final_software_code (softwareEnv env) h o hsd with e | e | ⟨t, s, d, e⟩ | ⟨t, s, e⟩
    · rw [e]; decide
    · rw [e]; decide
    · rw [e]; exact hu t s d
    · rw [e]; exact hf t s

/-! ## Sizes, `Free`, and the unsupported type in `Expand` -/

theorem sizeByType_table :
    wc_HmacSizeByType WC_MD5 = 16 ∧ wc_HmacSizeByType WC_SHA = 20 ∧
    wc_HmacSizeByType WC_SHA224 = 28 ∧ wc_HmacSizeByType WC_SHA256 = 32 ∧
    wc_HmacSizeByType WC_SHA384 = 48 ∧ wc_HmacSizeByType WC_SHA512 = 64 ∧
    wc_HmacSizeByType WC_SHA3_224 = 28 ∧ wc_HmacSizeByType WC_SHA3_256 = 32 ∧
    wc_HmacSizeByType WC_SHA3_384 = 48 ∧ wc_HmacSizeByType WC_SHA3_512 = 64 := by
  decide

theorem sizeByType_unsupported (t : Int) (h : ¬ Supported t) :
    wc_HmacSizeByType t = BAD_FUNC_ARG := by
  simp [wc_HmacSizeByType, h]

theorem sizeByType_supported (t : Int) (h : Supported t) :
    wc_HmacSizeByType t = (digestSize t : Int) := by
  simp [wc_HmacSizeByType, h]

set_option maxRecDepth 100000 in
theorem final_trace (t : Int) (hs : Supported t) :
    (wc_HmacFinal traceEnv
      (wc_HmacUpdate traceEnv
        (wc_HmacSetKey traceEnv (some (zeroHmac traceEnv)) t (some [1, 2, 3]) 3).2
        (some [4, 5]) 2).2
      (some (List.replicate 64 0))).2.1.map (fun h => h.hash) =
      some [some (blockSize t), some 2, none, some (blockSize t),
        some (wc_HmacSizeByType t).toNat, none] := by
  rcases hs with h | h | h | h | h | h | h | h | h | h <;> subst h <;> decide

theorem HmacFree_keeps (env : Env σ) (h : Hmac σ) (hd : ¬ onDevice env h) :
    (HmacFree env h).ipad = h.ipad ∧ (HmacFree env h).opad = h.opad ∧
    (HmacFree env h).innerHash = h.innerHash ∧ (HmacFree env h).macType = h.macType ∧
    (HmacFree env h).innerHashKeyed = h.innerHashKeyed := by
  unfold HmacFree
  simp only [hd, false_and, if_false]
  split_ifs <;> exact ⟨rfl, rfl, rfl, rfl, rfl⟩

theorem expand_unsupported_zero (env : Env σ) (t : Int) (inKey : Option (List Nat))
    (inKeySz : Nat) (info : Option (List Nat)) (infoSz : Nat) (o : List Nat)
    (hu : ¬ Supported t) :
    wc_HKDF_Expand env t inKey inKeySz info infoSz (some o) 0 = (0, some o) := by
  simp [wc_HKDF_Expand, wc_HmacSizeByType, hu, wc_HmacInit, expandLoop]

theorem expand_unsupported_pos (env : Env σ) (t : Int) (inKey : Option (List Nat))
    (inKeySz : Nat) (info : Option (List Nat)) (infoSz : Nat) (o : List Nat) (outSz : Nat)
    (hu : ¬ Supported t) (hpos : 0 < outSz) (h32 : outSz < 4294967296) :
    wc_HKDF_Expand env t inKey inKeySz info infoSz (some o) outSz = (BAD_FUNC_ARG, some o) := by
  have hsz : (wc_HmacSizeByType t % 4294967296).toNat = 4294967123 := by
    rw [sizeByType_unsupported t hu]; decide
  have hq : outSz / 4294967123 ≤ 1 := by
    have : outSz < 2 * 4294967123 := by omega
    omega
  have hg : ¬ (outSz / 4294967123 + (if outSz % 4294967123 ≠ 0 then 1 else 0) > 255) := by
    split_ifs <;> omega
  obtain ⟨fuel, hf⟩ : ∃ fuel, outSz = fuel + 1 := ⟨outSz - 1, by omega⟩
  have e := setKey_bad_args env (wc_HmacInit env (some (zeroHmac env)) INVALID_DEVID).2 t
    inKey inKeySz (Or.inr (Or.inl hu))
  have hb : BAD_FUNC_ARG ≠ 0 := by decide
  have h0 : ¬ ((wc_HmacInit env (some (zeroHmac env)) INVALID_DEVID).1 ≠ 0) := by
    simp [wc_HmacInit]
  simp only [wc_HKDF_Expand, hsz]
  rw [if_neg hg, if_neg h0]
  have hlt : 0 < fuel + 1 := by omega
  subst hf
  simp only [expandLoop, hlt, if_true, e, ne_eq, hb, not_false_eq_true]

theorem deviceEnv_cb (h : Hmac (List Nat)) (t : Int) (m : Option (List Nat)) (n : Nat)
    (o : Option (List Nat)) :
    deviceEnv.wc_CryptoCb_Hmac h t m n o =
      (if h.devId = 1 then CRYPTOCB_UNAVAILABLE else -1, h, o) := by
  by_cases c : h.devId = 1
  · simp only [deviceEnv, c, if_true]
  · simp only [deviceEnv, c, if_false]

/-! ## Prefixes of the HKDF stream, the pads, the label -/

theorem hkdfOkm_length (env : Env σ) (hl : HashLaws env) (t : Int) (prk info : List Nat) :
    (hkdfOkm env t prk info).length = 255 * digestSize t :=
  blocks_length _ (digestSize t) (fun i => hkdfT_length env hl t prk info i) 255

theorem expand_prefix (env : Env σ) (hl : HashLaws env) (t : Int) (prk info o1 o2 : List Nat)
    (L1 L2 : Nat) (hs : Supported t) (hk : KeyLenOk env prk.length)
    (h12 : L1 ≤ L2) (h2 : L2 ≤ 255 * digestSize t) :
    ∃ w1 w2,
      wc_HKDF_Expand env t (some prk) prk.length (some info) info.length (some o1) L1 =
        (0, some w1) ∧
      wc_HKDF_Expand env t (some prk) prk.length (some info) info.length (some o2) L2 =
        (0, some w2) ∧
      w1.take L1 = w2.take L1 ∧ w1.take L1 = (hkdfOkm env t prk info).take L1 ∧
      (w1.take L1).length = L1 := by
  have hlen := hkdfOkm_length env hl t prk info
  refine ⟨_, _, expand_spec env hl t prk info o1 L1 hs hk (le_trans h12 h2),
    expand_spec env hl t prk info o2 L2 hs hk h2, ?_, ?_, ?_⟩
  · have a1 : ((hkdfOkm env t prk info).take L1).length = L1 := by
      rw [List.length_take]; omega
    have a2 : ((hkdfOkm env t prk info).take L2).length = L2 := by
      rw [List.length_take]; omega
    rw [List.take_left' a1, List.take_append_of_le_length (by omega), List.take_take,
      Nat.min_eq_left h12]
  · have a1 : ((hkdfOkm env t prk info).take L1).length = L1 := by
      rw [List.length_take]; omega
    rw [List.take_left' a1]
  · have a1 : ((hkdfOkm env t prk info).take L1).length = L1 := by
      rw [List.length_take]; omega
    rw [List.take_left' a1, a1]

theorem xor_pads (b : Nat) : (b ^^^ IPAD) ^^^ (b ^^^ OPAD) = 0x6A := by
  have e : (b ^^^ IPAD) ^^^ (b ^^^ OPAD) = (b ^^^ b) ^^^ (IPAD ^^^ OPAD) := by
    simp only [Nat.xor_assoc]
    congr 1
    rw [← Nat.xor_assoc, Nat.xor_comm IPAD b, Nat.xor_assoc]
  rw [e, Nat.xor_self, Nat.zero_xor]
  decide

theorem getD_of_take (l : List Nat) (n i : Nat) (hi : i < n) :
    l.getD i 0 = (l.take n).getD i 0 := by
  simp only [List.getD_eq_getElem?_getD, List.getElem?_take, hi, if_true]

theorem setKey_pads_xor (env : Env σ) (h0 : Hmac σ) (t : Int) (k : List Nat)
    (hs : Supported t) (hw : WF h0)
    (hret : (wc_HmacSetKey env (some h0) t (some k) k.length).1 = 0) :
    ∃ h', wc_HmacSetKey env (some h0) t (some k) k.length = (0, some h') ∧
      ∀ i, i < blockSize t → h'.ipad.getD i 0 ^^^ h'.opad.getD i 0 = 0x6A := by
  obtain ⟨h', e, _, _, hw', _, _, hi, ho, _⟩ := setKey_success env h0 t k hs hw hret
  refine ⟨h', e, fun i hlt => ?_⟩
  have hB := (supported_sizes t hs).2.2.1
  have hn : (normKey (keyHash env t (env.hashInit t (setKeyPre env h0).hash).2)
      (blockSize t) k).length = blockSize t := by
    have := congrArg List.length hi
    rw [List.length_take, List.length_map, hw'.1] at this
    omega
  rw [getD_of_take h'.ipad (blockSize t) i hlt, getD_of_take h'.opad (blockSize t) i hlt,
    hi, ho]
  simp only [List.getD_eq_getElem?_getD, List.getElem?_map]
  have hget : i < (normKey (keyHash env t (env.hashInit t (setKeyPre env h0).hash).2)
      (blockSize t) k).length := by rw [hn]; exact hlt
  rw [List.getElem?_eq_getElem hget]
  simp only [Option.map_some', Option.getD_some]
  exact xor_pads _

theorem normKey_zeros (H : List Nat → List Nat) (B : Nat) (k : List Nat) (j : Nat)
    (hfit : k.length + j ≤ B) :
    normKey H B (k ++ List.replicate j 0) = normKey H B k := by
  have h1 : k.length ≤ B := by omega
  have h2 : (k ++ List.replicate j 0).length ≤ B := by simp; omega
  unfold normKey
  simp only []
  rw [if_pos h1, if_pos h2, List.append_assoc, List.length_append, List.length_replicate,
    ← List.replicate_add]
  congr 2
  omega

theorem HMAC_zeros (env : Env σ) (t : Int) (k msg : List Nat) (j : Nat)
    (hfit : k.length + j ≤ blockSize t) :
    HMAC env t (k ++ List.replicate j 0) msg = HMAC env t k msg := by
  unfold HMAC hmacSpec
  rw [normKey_zeros _ _ k j hfit]

theorem KeyLenOk.mono {env : Env σ} {n m : Nat} (h : KeyLenOk env n) (hnm : n ≤ m) :
    KeyLenOk env m := by
  rcases h with h | h
  · exact Or.inl h
  · exact Or.inr (le_trans h hnm)

theorem setKey_zeros (env : Env σ) (hl : HashLaws env) (h0 : Hmac σ) (t : Int)
    (k : List Nat) (j : Nat) (hs : Supported t) (hw : WF h0) (hsw : Software env h0.devId)
    (hk : KeyLenOk env k.length) (hfit : k.length + j ≤ blockSize t) :
    ∃ h1 h2,
      wc_HmacSetKey env (some h0) t (some k) k.length = (0, some h1) ∧
      wc_HmacSetKey env (some h0) t (some (k ++ List.replicate j 0))
        (k ++ List.replicate j 0).length = (0, some h2) ∧
      h1.ipad.take (blockSize t) = h2.ipad.take (blockSize t) ∧
      h1.opad.take (blockSize t) = h2.opad.take (blockSize t) ∧
      h1.macType = h2.macType ∧ h1.innerHashKeyed = h2.innerHashKeyed ∧
      h1.hash = h2.hash := by
  have hk2 : KeyLenOk env (k ++ List.replicate j 0).length := hk.mono (by simp)
  obtain ⟨h1, e1, r1⟩ := setKey_ready env hl h0 t k hs hk hw hsw
  obtain ⟨h2, e2, r2⟩ := setKey_ready env hl h0 t (k ++ List.replicate j 0) hs hk2 hw hsw
  refine ⟨h1, h2, e1, e2, ?_, ?_, ?_, ?_, ?_⟩
  · rw [r1.ipad, r2.ipad, normKey_zeros _ _ k j hfit]
  · rw [r1.opad, r2.opad, normKey_zeros _ _ k j hfit]
  · rw [r1.macType, r2.macType]
  · rw [r1.unkeyed, r2.unkeyed]
  · rw [r1.fresh, r2.fresh]

theorem hmacRun_zeros (env : Env σ) (hl : HashLaws env) (t : Int) (k msg out : List Nat)
    (j : Nat) (hs : Supported t) (hk : KeyLenOk env k.length)
    (hfit : k.length + j ≤ blockSize t) :
    hmacRun env t (some (k ++ List.replicate j 0)) (k ++ List.replicate j 0).length
        (some msg) msg.length (some out) =
      hmacRun env t (some k) k.length (some msg) msg.length (some out) := by
  rw [hmacRun_laws env hl t _ msg out hs (hk.mono (by simp)),
    hmacRun_laws env hl t k msg out hs hk, HMAC_zeros env t k msg j hfit]

theorem extract_null_eq_empty (env : Env σ) (hl : HashLaws env) (t : Int)
    (ikm out : List Nat) (saltSz : Nat) (hs : Supported t) (hk : KeyLenOk env 0) :
    wc_HKDF_Extract env t none saltSz (some ikm) ikm.length (some out) =
      wc_HKDF_Extract env t (some []) 0 (some ikm) ikm.length (some out) := by
  rw [extract_eq_hmacRun env t none saltSz _ _ _ hs,
    extract_eq_hmacRun env t (some []) 0 _ _ _ hs]
  simp only [Option.isNone_none, Option.isNone_some, if_true, Bool.false_eq_true, if_false]
  have h := hmacRun_zeros env hl t [] ikm out (digestSize t) hs hk
    (by simp; exact (supported_sizes t hs).2.1)
  simp only [List.nil_append, List.length_replicate, List.length_nil] at h
  exact h

theorem writeAt_length_max (dst src : List Nat) (off : Nat) (h : off ≤ dst.length) :
    (writeAt dst off src).length = max dst.length (off + src.length) := by
  simp only [writeAt, List.length_append, List.length_take, List.length_drop]
  omega

theorem hkdfLabelData_length (okmLen : Nat) (protocol label info : List Nat) :
    (hkdfLabelData okmLen (some protocol) protocol.length (some label) label.length
      (some info) info.length).1.length =
      max MAX_TLS13_HKDF_LABEL_SZ (4 + protocol.length + label.length + info.length) := by
  unfold hkdfLabelData
  simp only [Option.getD_some, XMEMCPY, List.take_length]
  have hM : MAX_TLS13_HKDF_LABEL_SZ = 111 := by decide
  rw [hM]
  generalize hd0 : List.replicate 111 0 = d0
  have l0 : d0.length = 111 := by rw [← hd0]; simp
  generalize hd1 : writeAt d0 0 [(okmLen >>> 8) % 256] = d1
  have l1 : d1.length = 111 := by
    rw [← hd1, writeAt_length_max _ _ _ (by omega), l0]; simp
  generalize hd2 : writeAt d1 1 [okmLen % 256] = d2
  have l2 : d2.length = 111 := by
    rw [← hd2, writeAt_length_max _ _ _ (by omega), l1]; simp
  generalize hd3 : writeAt d2 2 [word32 (protocol.length + label.length) % 256] = d3
  have l3 : d3.length = 111 := by
    rw [← hd3, writeAt_length_max _ _ _ (by omega), l2]; simp
  generalize hd4 : writeAt d3 3 protocol = d4
  have l4 : d4.length = max 111 (3 + protocol.length) := by
    rw [← hd4, writeAt_length_max _ _ _ (by omega), l3]
  generalize hd5 : writeAt d4 (3 + protocol.length) label = d5
  have l5 : d5.length = max 111 (3 + protocol.length + label.length) := by
    rw [← hd5, writeAt_length_max _ _ _ (by omega), l4]; omega
  generalize hd6 : writeAt d5 (3 + protocol.length + label.length) [info.length % 256] = d6
  have l6 : d6.length = max 111 (3 + protocol.length + label.length + 1) := by
    rw [← hd6, writeAt_length_max _ _ _ (by omega), l5]; simp; omega
  rw [writeAt_length_max _ _ _ (by omega), l6]
  omega

theorem hkdfLabelData_head (okmLen : Nat) (protocol label info : List Nat) :
    (hkdfLabelData okmLen (some protocol) protocol.length (some label) label.length
      (some info) info.length).1.take 2 = [(okmLen >>> 8) % 256, okmLen % 256] := by
  obtain ⟨rest, e⟩ := hkdfLabelData_eq okmLen protocol label info
  rw [e]
  simp

theorem expand_label_ok (env : Env σ) (okm : Option (List Nat)) (okmLen : Nat)
    (prk : Option (List Nat)) (prkLen : Nat) (protocol label info : List Nat) (digest : Int)
    (hs : Supported digest)
    (hret : (wc_Tls13_HKDF_Expand_Label env okm okmLen prk prkLen (some protocol)
      protocol.length (some label) label.length (some info) info.length digest).1 = 0) :
    okmLen ≤ 255 * digestSize digest ∧ okmLen < 65536 := by
  have hle : okmLen ≤ 255 * digestSize digest := by
    by_contra hlong
    have hlong : 255 * digestSize digest < okmLen := by omega
    unfold wc_Tls13_HKDF_Expand_Label at hret
    cases okm with
    | none => simp [wc_HKDF_Expand, BAD_FUNC_ARG] at hret
    | some o =>
      rw [expand_too_long env digest prk prkLen _ _ o okmLen hs hlong] at hret
      simp [BAD_FUNC_ARG] at hret
  refine ⟨hle, ?_⟩
  have := (supported_sizes digest hs).2.2.2
  simp only [WC_MAX_DIGEST_SIZE] at this
  omega

/-! ## `Free` twice, the iterations of `Expand` -/

theorem HmacFree_calls (env : Env σ) (h : Hmac σ) (hd : ¬ onDevice env h) :
    ((h.macType = WC_MD5 ∨ h.macType = WC_SHA ∨ h.macType = WC_SHA224 ∨
        h.macType = WC_SHA256 ∨ h.macType = WC_SHA384 ∨ h.macType = WC_SHA512) →
      (HmacFree env h).hash = env.hashFree h.macType (env.hashFree h.macType h.hash)) ∧
    ((h.macType = WC_SHA3_224 ∨ h.macType = WC_SHA3_256 ∨ h.macType = WC_SHA3_384 ∨
        h.macType = WC_SHA3_512) →
      (HmacFree env h).hash = env.hashFree h.macType h.hash) ∧
    (¬ Supported h.macType → (HmacFree env h).hash = h.hash) := by
  unfold HmacFree
  simp only [hd, false_and, if_false]
  refine ⟨fun hm => ?_, fun hm => ?_, fun hm => ?_⟩
  · have hs : Supported h.macType := by unfold Supported; tauto
    simp only [hs, if_true, hm]
  · have hs : Supported h.macType := by unfold Supported; tauto
    have hn : ¬ (h.macType = WC_MD5 ∨ h.macType = WC_SHA ∨ h.macType = WC_SHA224 ∨
        h.macType = WC_SHA256 ∨ h.macType = WC_SHA384 ∨ h.macType = WC_SHA512) := by
      rcases hm with e | e | e | e <;> rw [e] <;> decide
    simp only [hs, if_true, hn, if_false]
  · have hn : ¬ (h.macType = WC_MD5 ∨ h.macType = WC_SHA ∨ h.macType = WC_SHA224 ∨
        h.macType = WC_SHA256 ∨ h.macType = WC_SHA384 ∨ h.macType = WC_SHA512) := by
      intro c; apply hm; unfold Supported; tauto
    simp only [hm, if_false, hn]

theorem expandLoopTrace_fst (env : Env σ) (type : Int) (inKey : Option (List Nat))
    (inKeySz : Nat) (info : Option (List Nat)) (infoSz : Nat) (outSz hashSz : Nat) :
    ∀ (fuel : Nat) (hmac : Option (Hmac σ)) (tmp out : List Nat) (outIdx n : Nat),
      (expandLoopTrace env type inKey inKeySz info infoSz outSz hashSz fuel hmac tmp out
        outIdx n).1 =
      expandLoop env type inKey inKeySz info infoSz outSz hashSz fuel hmac tmp out
        outIdx n := by
  intro fuel
  induction fuel with
  | zero => intros; rfl
  | succ fuel ih =>
    intro hmac tmp out outIdx n
    simp only [expandLoopTrace, expandLoop]
    generalize (if n = 1 then 0 else hashSz) = tmpSz
    split_ifs <;> first | with_reducible rfl | exact ih _ _ _ _ _

theorem ceil_gt_iff (outSz D j : Nat) (hD : 0 < D) :
    j < outSz / D + (if outSz % D ≠ 0 then 1 else 0) ↔ j * D < outSz := by
  have hdm := Nat.div_add_mod outSz D
  have hml : outSz / D * D ≤ outSz := Nat.div_mul_le_self _ _
  have hmc : D * (outSz / D) = outSz / D * D := Nat.mul_comm _ _
  have hrl : outSz % D < D := Nat.mod_lt _ hD
  by_cases hr : outSz % D = 0
  · simp only [hr, ne_eq, not_true_eq_false, if_false, Nat.add_zero]
    have hq : outSz / D * D = outSz := by omega
    constructor
    · intro h
      have := Nat.mul_lt_mul_of_pos_right h hD
      omega
    · intro h
      rw [← hq] at h
      exact Nat.lt_of_mul_lt_mul_right h
  · simp only [hr, ne_eq, not_false_eq_true, if_true]
    rw [Nat.lt_succ_iff, Nat.le_div_iff_mul_le hD]
    constructor
    · intro h
      by_contra hc
      have he : j * D = outSz := by omega
      apply hr
      rw [← he]
      exact Nat.mul_mod_left j D
    · intro h; omega

theorem expandLoopTrace_spec (env : Env σ) (hl : HashLaws env) (t : Int) (prk info : List Nat)
    (outSz : Nat) (hs : Supported t) (hk : KeyLenOk env prk.length)
    (hsz : outSz ≤ 255 * digestSize t) :
    ∀ (fuel j : Nat) (h : Hmac σ) (tmp out : List Nat),
      WF h → Software env h.devId →
      j ≤ outSz / digestSize t + (if outSz % digestSize t ≠ 0 then 1 else 0) →
      outSz ≤ j * digestSize t + fuel →
      (expandLoopTrace env t (some prk) prk.length (some info) info.length outSz
          (digestSize t) fuel (some h) tmp out (j * digestSize t) ((j + 1) % 256)).1.1 = 0 ∧
      (expandLoopTrace env t (some prk) prk.length (some info) info.length outSz
          (digestSize t) fuel (some h) tmp out (j * digestSize t) ((j + 1) % 256)).2 =
        ((List.range' j
            (outSz / digestSize t + (if outSz % digestSize t ≠ 0 then 1 else 0) - j)).map
          (fun i => (i + 1, if i = 0 then 0 else digestSize t)),
         (outSz / digestSize t + (if outSz % digestSize t ≠ 0 then 1 else 0)) *
           digestSize t) := by
  have hD := supported_sizes t hs
  generalize hN : outSz / digestSize t + (if outSz % digestSize t ≠ 0 then 1 else 0) = N
  have hiff : ∀ j, j < N ↔ j * digestSize t < outSz := by
    intro j; rw [← hN]; exact ceil_gt_iff outSz (digestSize t) j hD.1
  intro fuel
  induction fuel with
  | zero =>
    intro j h tmp out _ _ hjN hfuel
    have hnl : ¬ j < N := by rw [hiff]; omega
    have hj : N = j := by omega
    subst hj
    simp [expandLoopTrace]
  | succ fuel ih =>
    intro j h tmp out hw hsw hjN hfuel
    by_cases hlt : j * digestSize t < outSz
    · have hjlt : j < N := (hiff j).mpr hlt
      have hj : j < 255 := by
        by_contra hge
        have : 255 * digestSize t ≤ j * digestSize t :=
          Nat.mul_le_mul_right _ (by omega)
        omega
      have hn : (j + 1) % 256 = j + 1 := Nat.mod_eq_of_lt (by omega)
      have hn1 : (j + 1 = 1) = (j = 0) := by simp
      obtain ⟨h1, h2, h3, h4, h5, e1, e2, e3, e4, e5, hr5⟩ :=
        hmac_cycle3 env hl t prk h hw hsw hs hk
          (some tmp) (some info) (some [j + 1])
          (if j = 0 then 0 else digestSize t) info.length 1
          (by simp) (by simp) (by simp) tmp
      have hw32 : word32 (j * digestSize t + digestSize t) = (j + 1) * digestSize t := by
        unfold word32
        rw [Nat.succ_mul]
        apply Nat.mod_eq_of_lt
        have h64 := hD.2.2.2
        simp only [WC_MAX_DIGEST_SIZE] at h64
        have : j * digestSize t ≤ 255 * 64 :=
          Nat.mul_le_mul (by omega) h64
        omega
      obtain ⟨i1, i2⟩ := ih (j + 1) h5
        (HMAC env t prk (rd (some tmp) (if j = 0 then 0 else digestSize t) ++
          rd (some info) info.length ++ rd (some [j + 1]) 1) ++ tmp.drop (digestSize t))
        (XMEMCPY out (j * digestSize t)
          (HMAC env t prk (rd (some tmp) (if j = 0 then 0 else digestSize t) ++
            rd (some info) info.length ++ rd (some [j + 1]) 1) ++ tmp.drop (digestSize t))
          (min (outSz - j * digestSize t) (digestSize t)))
        hr5.wf hr5.sw (by omega) (by rw [Nat.succ_mul]; omega)
      rw [expandLoopTrace]
      simp only [hlt, if_true, hn, hn1, e1, e2, e3, e4, e5, ne_eq, not_true_eq_false,
        if_false, Option.getD_some, hw32]
      refine ⟨i1, ?_⟩
      rw [i2]
      have hsplit : N - j = (N - (j + 1)) + 1 := by omega
      rw [hsplit, List.range'_succ]
      simp only [List.map_cons]
    · have hnl : ¬ j < N := by rw [hiff]; exact hlt
      have hj : N = j := by omega
      subst hj
      rw [expandLoopTrace]
      simp [hlt]

theorem expand_iterations (env : Env σ) (hl : HashLaws env) (t : Int) (prk info o : List Nat)
    (outSz : Nat) (hs : Supported t) (hk : KeyLenOk env prk.length)
    (hsz : outSz ≤ 255 * digestSize t) :
    ∃ h0, wc_HmacInit env (some (zeroHmac env)) INVALID_DEVID = (0, some h0) ∧
      (expandLoopTrace env t (some prk) prk.length (some info) info.length outSz
          (digestSize t) outSz (some h0) (List.replicate WC_MAX_DIGEST_SIZE 0) o 0 1).1.1 =
        0 ∧
      (expandLoopTrace env t (some prk) prk.length (some info) info.length outSz
          (digestSize t) outSz (some h0) (List.replicate WC_MAX_DIGEST_SIZE 0) o 0 1).2 =
        ((List.range
            (outSz / digestSize t + (if outSz % digestSize t ≠ 0 then 1 else 0))).map
          (fun i => (i + 1, if i = 0 then 0 else digestSize t)),
         (outSz / digestSize t + (if outSz % digestSize t ≠ 0 then 1 else 0)) *
           digestSize t) ∧
      outSz / digestSize t + (if outSz % digestSize t ≠ 0 then 1 else 0) ≤ 255 ∧
      outSz ≤ (outSz / digestSize t + (if outSz % digestSize t ≠ 0 then 1 else 0)) *
        digestSize t := by
  have hD := supported_sizes t hs
  have hg : ¬ (outSz / digestSize t + (if outSz % digestSize t ≠ 0 then 1 else 0) > 255) := by
    rw [expand_guard outSz _ hD.1]; omega
  obtain ⟨h0, e0, hw0, _, _, _, hd0⟩ := init_fields env (zeroHmac env) INVALID_DEVID
  have hsw0 : Software env h0.devId := by
    rw [hd0]; exact init_software env _ (Or.inr rfl)
  obtain ⟨i1, i2⟩ := expandLoopTrace_spec env hl t prk info outSz hs hk hsz outSz 0 h0
    (List.replicate WC_MAX_DIGEST_SIZE 0) o hw0 hsw0 (Nat.zero_le _) (by omega)
  simp only [Nat.zero_mul, Nat.zero_add, Nat.one_mod, Nat.sub_zero] at i1 i2
  refine ⟨h0, e0, i1, ?_, by omega, ?_⟩
  · rw [i2, List.range_eq_range']
  · have := (ceil_gt_iff outSz (digestSize t)
      (outSz / digestSize t + (if outSz % digestSize t ≠ 0 then 1 else 0)) hD.1).not
    simp only [Nat.lt_irrefl, not_false_eq_true, true_iff, Nat.not_lt] at this
    exact this

/-! ## Sequences of calls -/

theorem digestSize_le (t : Int) : digestSize t ≤ WC_MAX_DIGEST_SIZE := by
  unfold digestSize WC_MAX_DIGEST_SIZE
  split_ifs <;> omega

theorem finalCase_frame (env : Env σ) (h : Hmac σ) (o : List Nat) (hw : WF h) :
    ∃ s x, (finalCase env h o).2.1 = { h with hash := s, innerHash := x } ∧
      x.length = WC_MAX_DIGEST_SIZE := by
  have hx : (writeAt h.innerHash 0 (env.hashFinal h.macType h.hash).2.2).length =
      WC_MAX_DIGEST_SIZE := by
    rw [writeAt_length _ _ _ (by
      have := env.final_le h.macType h.hash
      have := digestSize_le h.macType
      rw [hw.2.2]; omega)]
    exact hw.2.2
  unfold finalCase
  simp only []
  split_ifs <;> exact ⟨_, _, rfl, hx⟩

theorem final_any (env : Env σ) (h : Hmac σ) (o : List Nat) (hd : ¬ onDevice env h)
    (hw : WF h) :
    ∃ h', (wc_HmacFinal env (some h) (some o)).2.1 = some h' ∧ WF h' ∧
      h'.macType = h.macType ∧ h'.ipad = h.ipad ∧ h'.opad = h.opad ∧
      h'.devId = h.devId := by
  rw [final_software env h o hd]
  obtain ⟨s, k, e⟩ : ∃ s k, (innerKeying env h).2 = { h with hash := s, innerHashKeyed := k } := by
    unfold innerKeying
    split
    · exact keyInner_frame env h
    · exact ⟨h.hash, h.innerHashKeyed, rfl⟩
  have hwk : WF (innerKeying env h).2 := by rw [e]; exact hw
  have k1 : (innerKeying env h).2.macType = h.macType := by rw [e]
  have k2 : (innerKeying env h).2.ipad = h.ipad := by rw [e]
  have k3 : (innerKeying env h).2.opad = h.opad := by rw [e]
  have k4 : (innerKeying env h).2.devId = h.devId := by rw [e]
  obtain ⟨s2, x, e2, hx⟩ := finalCase_frame env (innerKeying env h).2 o hwk
  have f0 : WF (finalCase env (innerKeying env h).2 o).2.1 := by
    rw [e2]; exact ⟨hwk.1, hwk.2.1, hx⟩
  have f1 : (finalCase env (innerKeying env h).2 o).2.1.macType = h.macType := by
    rw [e2]; exact k1
  have f2 : (finalCase env (innerKeying env h).2 o).2.1.ipad = h.ipad := by
    rw [e2]; exact k2
  have f3 : (finalCase env (innerKeying env h).2 o).2.1.opad = h.opad := by
    rw [e2]; exact k3
  have f4 : (finalCase env (innerKeying env h).2 o).2.1.devId = h.devId := by
    rw [e2]; exact k4
  split_ifs
  · exact ⟨_, rfl, hwk, k1, k2, k3, k4⟩
  · exact ⟨_, rfl, ⟨f0.1, f0.2.1, f0.2.2⟩, f1, f2, f3, f4⟩
  · exact ⟨_, rfl, f0, f1, f2, f3, f4⟩
  · exact ⟨_, rfl, hwk, k1, k2, k3, k4⟩

theorem update_any (env : Env σ) (h : Hmac σ) (msg : Option (List Nat)) (n : Nat)
    (hd : ¬ onDevice env h) (hw : WF h) :
    ∃ h', (wc_HmacUpdate env (some h) msg n).2 = some h' ∧ WF h' ∧
      h'.macType = h.macType ∧ h'.ipad = h.ipad ∧ h'.opad = h.opad ∧
      h'.devId = h.devId := by
  obtain ⟨s, k, e⟩ := update_frame env h msg n hd
  exact ⟨_, e, hw, rfl, rfl, rfl, rfl⟩

theorem FinalResets.init_resets {env : Env σ} (hfr : FinalResets env) (t : Int) (s : σ) :
    (env.hashInit t s).2 = freshState env t := by
  unfold freshState
  rw [← hfr t s s, ← hfr t s env.hashZero]

theorem setKey_keyed (env : Env σ) (hfr : FinalResets env) (h : Hmac σ) (t : Int)
    (k : List Nat) (hs : Supported t) (hw : WF h) (hsw : Software env h.devId)
    (hret : (wc_HmacSetKey env (some h) t (some k) k.length).1 = 0) :
    ∃ h', wc_HmacSetKey env (some h) t (some k) k.length = (0, some h') ∧ WF h' ∧
      Software env h'.devId ∧ KeyedBy env h' (some (t, k)) := by
  obtain ⟨h', e, hmt, _, hwf, hd, _, hip, hop, _⟩ := setKey_success env h t k hs hw hret
  obtain ⟨s, hpre⟩ := setKeyPre_software env h hsw
  refine ⟨h', e, hwf, ?_, hs, hmt, ?_, ?_⟩
  · rw [hd, hpre]; exact hsw
  · rw [hip, hfr.init_resets, keyHash_fresh]
  · rw [hop, hfr.init_resets, keyHash_fresh]

theorem KeyedBy.frame {env : Env σ} {h h' : Hmac σ} {acc : Option (Int × List Nat)}
    (hk : KeyedBy env h acc) (hm : h'.macType = h.macType) (hi : h'.ipad = h.ipad)
    (ho : h'.opad = h.opad) : KeyedBy env h' acc := by
  cases acc with
  | none => unfold KeyedBy at hk ⊢; rw [hm]; exact hk
  | some p =>
    obtain ⟨t, key⟩ := p
    unfold KeyedBy at hk ⊢
    rw [hm, hi, ho]; exact hk

theorem run_keyed (env : Env σ) (hfr : FinalResets env) :
    ∀ (calls : List HmacCall) (h : Hmac σ) (acc : Option (Int × List Nat)),
      WF h → Software env h.devId → KeyedBy env h acc →
      (∀ e ∈ (runCalls env (some h) calls).1, Settled e) →
      ∃ h', (runCalls env (some h) calls).2 = some h' ∧ WF h' ∧ Software env h'.devId ∧
        KeyedBy env h' (lastKey acc (runCalls env (some h) calls).1) := by
  intro calls
  induction calls with
  | nil =>
    intro h acc hw hsw hk _
    exact ⟨h, rfl, hw, hsw, hk⟩
  | cons c cs ih =>
    intro h acc hw hsw hk hall
    have hd := software_not_onDevice env h hsw
    simp only [runCalls, List.forall_mem_cons] at hall ⊢
    obtain ⟨hc, hrest⟩ := hall
    cases c with
    | setKey t k =>
      simp only [callHmac, Settled, lastKey] at hc hrest ⊢
      by_cases hs : Supported t
      · have hret : (wc_HmacSetKey env (some h) t (some k) k.length).1 = 0 := by
          rcases hc with hc | hc
          · exact absurd hs hc
          · exact hc
        obtain ⟨h', e, hw', hsw', hk'⟩ := setKey_keyed env hfr h t k hs hw hsw hret
        have e1 : (wc_HmacSetKey env (some h) t (some k) k.length).1 = 0 := by rw [e]
        have e2 : (wc_HmacSetKey env (some h) t (some k) k.length).2 = some h' := by rw [e]
        simp only [e1, e2, if_true] at hrest ⊢
        exact ih h' (some (t, k)) hw' hsw' hk' hrest
      · have e := setKey_bad_args env (some h) t (some k) k.length (Or.inr (Or.inl hs))
        have e1 : (wc_HmacSetKey env (some h) t (some k) k.length).1 = BAD_FUNC_ARG := by
          rw [e]
        have e2 : (wc_HmacSetKey env (some h) t (some k) k.length).2 = some h := by rw [e]
        have hb : ¬ (BAD_FUNC_ARG = 0) := by decide
        simp only [e1, e2, hb, if_false] at hrest ⊢
        exact ih h acc hw hsw hk hrest
    | update m =>
      simp only [callHmac, lastKey] at hrest ⊢
      obtain ⟨h', e, hw', hm, hi, ho, hdv⟩ := update_any env h (some m) m.length hd hw
      rw [e] at hrest ⊢
      exact ih h' acc hw' (by rw [hdv]; exact hsw) (hk.frame hm hi ho) hrest
    | final o =>
      simp only [callHmac, lastKey] at hrest ⊢
      obtain ⟨h', e, hw', hm, hi, ho, hdv⟩ := final_any env h o hd hw
      rw [e] at hrest ⊢
      exact ih h' acc hw' (by rw [hdv]; exact hsw) (hk.frame hm hi ho) hrest

/-! ## The state machine of the spec -/

theorem Tracks.wf_sw {env : Env σ} {h : Hmac σ}
    {st : Option (Int × List Nat × Option (List Nat))} (ht : Tracks env h st) :
    WF h ∧ Software env h.devId := by
  match st, ht with
  | none, ht => exact ⟨ht.1, ht.2.1⟩
  | some (t, key, none), ht => exact ⟨ht.2.wf, ht.2.sw⟩
  | some (t, key, some m), ht =>
    obtain ⟨_, base, hr, e⟩ := ht
    subst e
    exact ⟨hr.wf, hr.sw⟩

theorem setKey_ok_iff (env : Env σ) (hl : HashLaws env) (h : Hmac σ) (t : Int)
    (k : List Nat) :
    (wc_HmacSetKey env (some h) t (some k) k.length).1 = 0 ↔
      Supported t ∧ KeyLenOk env k.length := by
  constructor
  · intro hret
    by_cases hs : Supported t
    · refine ⟨hs, ?_⟩
      have hf := (setKey_ret_zero env h t k hs hret).2.1
      unfold KeyLenOk
      by_cases hfips : env.HAVE_FIPS = true
      · right
        by_contra hlt
        exact hf ⟨hfips, by omega⟩
      · left; simpa using hfips
    · rw [setKey_bad_args env (some h) t (some k) k.length (Or.inr (Or.inl hs))] at hret
      have hb : BAD_FUNC_ARG ≠ 0 := by decide
      exact absurd hret hb
  · rintro ⟨hs, hk⟩
    exact setKey_ret_laws env hl h t k hs hk

theorem step_setKey (env : Env σ) (hl : HashLaws env) (h : Hmac σ) (t : Int) (k : List Nat)
    (st : Option (Int × List Nat × Option (List Nat))) (ht : Tracks env h st)
    (hs : Supported t) (hk : KeyLenOk env k.length) :
    ∃ h', wc_HmacSetKey env (some h) t (some k) k.length = (0, some h') ∧
      Tracks env h' (some (t, k, none)) := by
  obtain ⟨hw, hsw⟩ := ht.wf_sw
  obtain ⟨h', e, hr⟩ := setKey_ready env hl h t k hs hk hw hsw
  exact ⟨h', e, hs, hr⟩

theorem step_update (env : Env σ) (hl : HashLaws env) (h : Hmac σ) (t : Int)
    (key : List Nat) (m : Option (List Nat)) (c : List Nat)
    (ht : Tracks env h (some (t, key, m))) :
    ∃ h', wc_HmacUpdate env (some h) (some c) c.length = (0, some h') ∧
      Tracks env h' (some (t, key, some (m.getD [] ++ c))) := by
  cases m with
  | none =>
    obtain ⟨hs, hr⟩ := ht
    have hsm : Supported h.macType := by rw [hr.macType]; exact hs
    exact ⟨absorb env h c,
      update_unkeyed env h c hl.neverFails hl.concat hr.sw hsm hr.unkeyed,
      hs, h, hr, by simp⟩
  | some m =>
    obtain ⟨hs, base, hr, e⟩ := ht
    subst e
    have hsm : Supported base.macType := by rw [hr.macType]; exact hs
    exact ⟨absorb env base (m ++ c),
      update_keyed env base m c hl.neverFails hl.concat hr.sw hsm, hs, base, hr, rfl⟩

theorem step_final (env : Env σ) (hl : HashLaws env) (h : Hmac σ) (t : Int)
    (key : List Nat) (m : Option (List Nat)) (o : List Nat)
    (ht : Tracks env h (some (t, key, m))) :
    ∃ h', wc_HmacFinal env (some h) (some o) =
        (0, some h', some (HMAC env t key (m.getD []) ++ o.drop (digestSize t))) ∧
      Tracks env h' (some (t, key, none)) := by
  cases m with
  | none =>
    obtain ⟨hs, hr⟩ := ht
    obtain ⟨h2, e, hr2⟩ := ready_final env hl t key o h hs hr
    exact ⟨h2, e, hs, hr2⟩
  | some m =>
    obtain ⟨hs, base, hr, e⟩ := ht
    subst e
    obtain ⟨h2, e2, hr2⟩ := final_absorbed env hl t key m o base hs hr
    refine ⟨h2, ?_, hs, hr2⟩
    rw [e2, writeAt_zero]
    have : (HMAC env t key m).length = digestSize t := hl.hashOf_length t _
    rw [this]
    rfl

theorem final_unbound (env : Env σ) (h : Hmac σ) (o : List Nat) (hd : ¬ onDevice env h)
    (hu : ¬ Supported h.macType) : (wc_HmacFinal env (some h) (some o)).1 ≠ 0 := by
  rw [final_software env h o hd]
  obtain ⟨s, k, e⟩ : ∃ s k, (innerKeying env h).2 = { h with hash := s, innerHashKeyed := k } := by
    unfold innerKeying
    split
    · exact keyInner_frame env h
    · exact ⟨h.hash, h.innerHashKeyed, rfl⟩
  have hm : (innerKeying env h).2.macType = h.macType := by rw [e]
  split_ifs with c1 c2 c3
  · exact c1
  · rw [hm] at c2; exact absurd c2 hu
  · rw [hm] at c2; exact absurd c2 hu
  · have hb : BAD_FUNC_ARG ≠ 0 := by decide
    exact hb

theorem track_setKey (st : Option (Int × List Nat × Option (List Nat))) (t : Int)
    (k : List Nat) : track st (.setKey t k) = some (t, k, none) := by
  unfold track
  split <;> simp_all

theorem run_tracks (env : Env σ) (hl : HashLaws env) :
    ∀ (calls : List HmacCall) (h : Hmac σ)
      (st : Option (Int × List Nat × Option (List Nat))),
      Tracks env h st →
      (∀ e ∈ (runCalls env (some h) calls).1, e.2.1 = 0) →
      ∃ h', (runCalls env (some h) calls).2 = some h' ∧
        Tracks env h' (trackAll st calls) ∧
        (runCalls env (some h) calls).1 = specLog env st calls := by
  intro calls
  induction calls with
  | nil =>
    intro h st ht _
    exact ⟨h, rfl, ht, rfl⟩
  | cons c cs ih =>
    intro h st ht hall
    obtain ⟨hw, hsw⟩ := ht.wf_sw
    have hd := software_not_onDevice env h hsw
    simp only [runCalls, List.forall_mem_cons] at hall ⊢
    obtain ⟨hc, hrest⟩ := hall
    cases c with
    | setKey t k =>
      simp only [callHmac, trackAll, specLog, specOut, track_setKey] at hc hrest ⊢
      obtain ⟨hs, hk⟩ := (setKey_ok_iff env hl h t k).mp hc
      obtain ⟨h', e, ht'⟩ := step_setKey env hl h t k st ht hs hk
      have e1 : (wc_HmacSetKey env (some h) t (some k) k.length).1 = 0 := by rw [e]
      have e2 : (wc_HmacSetKey env (some h) t (some k) k.length).2 = some h' := by rw [e]
      simp only [e1, e2] at hrest ⊢
      obtain ⟨h'', r1, r2, r3⟩ := ih h' _ ht' hrest
      exact ⟨h'', r1, r2, by rw [r3]⟩
    | update m =>
      simp only [callHmac, trackAll, specLog, specOut] at hc hrest ⊢
      match st, ht with
      | none, ht =>
        obtain ⟨h', e, hw', hm, hi, ho, hdv⟩ := update_any env h (some m) m.length hd hw
        simp only [e, hc] at hrest ⊢
        have ht' : Tracks env h' none := ⟨hw', by rw [hdv]; exact hsw, by rw [hm]; exact ht.2.2⟩
        obtain ⟨h'', r1, r2, r3⟩ := ih h' none ht' hrest
        exact ⟨h'', r1, r2, by rw [r3]; rfl⟩
      | some (t, key, mm), ht =>
        obtain ⟨h', e, ht'⟩ := step_update env hl h t key mm m ht
        have e1 : (wc_HmacUpdate env (some h) (some m) m.length).1 = 0 := by rw [e]
        have e2 : (wc_HmacUpdate env (some h) (some m) m.length).2 = some h' := by rw [e]
        simp only [e1, e2] at hrest ⊢
        obtain ⟨h'', r1, r2, r3⟩ := ih h' _ ht' hrest
        exact ⟨h'', r1, r2, by rw [r3]; rfl⟩
    | final o =>
      simp only [callHmac, trackAll, specLog] at hc hrest ⊢
      match st, ht with
      | none, ht =>
        have hu : ¬ Supported h.macType := by rw [ht.2.2]; decide
        exact absurd hc (final_unbound env h o hd hu)
      | some (t, key, mm), ht =>
        obtain ⟨h', e, ht'⟩ := step_final env hl h t key mm o ht
        simp only [e] at hrest ⊢
        obtain ⟨h'', r1, r2, r3⟩ := ih h' _ ht' hrest
        exact ⟨h'', r1, r2, by rw [r3]; rfl⟩

theorem run_session (env : Env σ) (hl : HashLaws env) :
    ∀ (calls : List HmacCall) (h : Hmac σ) (t : Int) (key : List Nat)
      (m : Option (List Nat)),
      Tracks env h (some (t, key, m)) →
      (∀ c ∈ calls, c.isSetKey = false) →
      (runCalls env (some h) calls).1 = specLog env (some (t, key, m)) calls := by
  intro calls
  induction calls with
  | nil => intros; rfl
  | cons c cs ih =>
    intro h t key m ht hall
    simp only [List.forall_mem_cons] at hall
    obtain ⟨hc, hrest⟩ := hall
    cases c with
    | setKey t' k' => simp [HmacCall.isSetKey] at hc
    | update c =>
      obtain ⟨h', e, ht'⟩ := step_update env hl h t key m c ht
      have e1 : (wc_HmacUpdate env (some h) (some c) c.length).1 = 0 := by rw [e]
      have e2 : (wc_HmacUpdate env (some h) (some c) c.length).2 = some h' := by rw [e]
      simp only [runCalls, callHmac, specLog, specOut, track, e1, e2]
      rw [ih h' t key _ ht' hrest]
    | final o =>
      obtain ⟨h', e, ht'⟩ := step_final env hl h t key m o ht
      simp only [runCalls, callHmac, specLog, specOut, track, e]
      rw [ih h' t key _ ht' hrest]

theorem faultyEnv_resets : FinalResets faultyEnv := by
  intro t s s'; rfl

set_option maxRecDepth 100000 in
theorem midCtx_wf : WF midCtx := ⟨by decide, by decide, by decide⟩

/-! ## The halves of the TLS 1.0 secret, `Free` in full -/

theorem faultyEnv_concat : UpdateConcat faultyEnv := by
  intro t s a b
  simp [faultyEnv]

theorem HmacFree_eq (env : Env σ) (h : Hmac σ) (hd : ¬ onDevice env h) :
    HmacFree env h =
      { h with hash :=
        if h.macType = WC_MD5 ∨ h.macType = WC_SHA ∨ h.macType = WC_SHA224 ∨
            h.macType = WC_SHA256 ∨ h.macType = WC_SHA384 ∨ h.macType = WC_SHA512 then
          env.hashFree h.macType (env.hashFree h.macType h.hash)
        else if Supported h.macType then env.hashFree h.macType h.hash
        else h.hash } := by
  unfold HmacFree
  simp only [hd, false_and, if_false]
  by_cases h6 : h.macType = WC_MD5 ∨ h.macType = WC_SHA ∨ h.macType = WC_SHA224 ∨
      h.macType = WC_SHA256 ∨ h.macType = WC_SHA384 ∨ h.macType = WC_SHA512
  · have hs : Supported h.macType := by unfold Supported; tauto
    simp only [hs, if_true, h6]
  · by_cases hs : Supported h.macType
    · simp only [hs, if_true, h6, if_false]
    · simp only [hs, if_false, h6]

/-! ## The claims -/

/-- C1: on the software path and with a hash capability that never fails (and
is concatenative and reset by `Final`), for every supported algorithm, every
key the build accepts and every message, `wc_HmacInit`, `wc_HmacSetKey`,
`wc_HmacUpdate`, `wc_HmacFinal` all return 0 and `wc_HmacFinal` stores exactly
`H((K' xor 0x5c..) || H((K' xor 0x36..) || msg))` at the start of the output
buffer, `K'` being the key (or its digest when it is longer than the block)
zero-padded to the block size. -/
theorem C1_hmac_rfc2104 (env : Env σ) (x : Hmac σ) (devId : Int) (t : Int)
    (key msg out : List Nat) (hl : HashLaws env) (hsw : Software env devId)
    (hs : Supported t) (hk : KeyLenOk env key.length) :
    (wc_HmacInit env (some x) devId).1 = 0 ∧
    (wc_HmacSetKey env (wc_HmacInit env (some x) devId).2 t (some key) key.length).1 = 0 ∧
    (wc_HmacUpdate env
      (wc_HmacSetKey env (wc_HmacInit env (some x) devId).2 t (some key) key.length).2
      (some msg) msg.length).1 = 0 ∧
    (wc_HmacFinal env
      (wc_HmacUpdate env
        (wc_HmacSetKey env (wc_HmacInit env (some x) devId).2 t (some key) key.length).2
        (some msg) msg.length).2 (some out)).1 = 0 ∧
    (wc_HmacFinal env
      (wc_HmacUpdate env
        (wc_HmacSetKey env (wc_HmacInit env (some x) devId).2 t (some key) key.length).2
        (some msg) msg.length).2 (some out)).2.2 =
      some (hmacSpec (hashOf env t) (blockSize t) key msg ++ out.drop (digestSize t)) :=
  hmac_init_setKey_update_final env hl x devId t key msg out hsw hs hk

/-- Witness of C1: HMAC-SHA256 over the toy hash, key `[1, 2, 3]`, message
`[4, 5]`. -/
theorem C1_hmac_rfc2104_witness :
    (wc_HmacInit toyEnv (some (zeroHmac toyEnv)) INVALID_DEVID).1 = 0 ∧
    (wc_HmacSetKey toyEnv (wc_HmacInit toyEnv (some (zeroHmac toyEnv)) INVALID_DEVID).2
      WC_SHA256 (some [1, 2, 3]) [1, 2, 3].length).1 = 0 ∧
    (wc_HmacUpdate toyEnv
      (wc_HmacSetKey toyEnv (wc_HmacInit toyEnv (some (zeroHmac toyEnv)) INVALID_DEVID).2
        WC_SHA256 (some [1, 2, 3]) [1, 2, 3].length).2
      (some [4, 5]) [4, 5].length).1 = 0 ∧
    (wc_HmacFinal toyEnv
      (wc_HmacUpdate toyEnv
        (wc_HmacSetKey toyEnv (wc_HmacInit toyEnv (some (zeroHmac toyEnv)) INVALID_DEVID).2
          WC_SHA256 (some [1, 2, 3]) [1, 2, 3].length).2
        (some [4, 5]) [4, 5].length).2 (some (List.replicate 32 0))).1 = 0 ∧
    (wc_HmacFinal toyEnv
      (wc_HmacUpdate toyEnv
        (wc_HmacSetKey toyEnv (wc_HmacInit toyEnv (some (zeroHmac toyEnv)) INVALID_DEVID).2
          WC_SHA256 (some [1, 2, 3]) [1, 2, 3].length).2
        (some [4, 5]) [4, 5].length).2 (some (List.replicate 32 0))).2.2 =
      some (hmacSpec (hashOf toyEnv WC_SHA256) (blockSize WC_SHA256) [1, 2, 3] [4, 5] ++
        (List.replicate 32 0).drop (digestSize WC_SHA256)) :=
  C1_hmac_rfc2104 toyEnv (zeroHmac toyEnv) INVALID_DEVID WC_SHA256 [1, 2, 3] [4, 5]
    (List.replicate 32 0) toyEnv_laws (Or.inl rfl) (by decide) (Or.inl rfl)

/-- C2: for every supported algorithm, every pseudorandom key the build
accepts, every info string and every `outSz` with
`ceil(outSz / hashSz) <= 255`, on a lawful hash `wc_HKDF_Expand` returns 0 and
leaves in `out` the first `outSz` bytes of `T(1) || T(2) || ...`, where `T(0)`
is empty and `T(n) = HMAC(prk, T(n-1) || info || byte(n))`, followed by the
bytes `out` held from index `outSz` on: no byte at an index `>= outSz` is
written. -/
theorem C2_hkdf_expand (env : Env σ) (t : Int) (prk info out : List Nat) (outSz : Nat)
    (hl : HashLaws env) (hs : Supported t) (hk : KeyLenOk env prk.length)
    (hceil : outSz / digestSize t + (if outSz % digestSize t ≠ 0 then 1 else 0) ≤ 255) :
    wc_HKDF_Expand env t (some prk) prk.length (some info) info.length (some out) outSz =
      (0, some ((hkdfOkm env t prk info).take outSz ++ out.drop outSz)) :=
  expand_spec env hl t prk info out outSz hs hk
    (ceil_le_255 outSz (digestSize t) (supported_sizes t hs).1 hceil)

/-- Witness of C2: 35 bytes of HKDF-SHA256 over the toy hash into a buffer of
40 bytes. -/
theorem C2_hkdf_expand_witness :
    wc_HKDF_Expand toyEnv WC_SHA256 (some [1, 2, 3]) [1, 2, 3].length (some [9])
        [9].length (some (List.replicate 40 7)) 35 =
      (0, some ((hkdfOkm toyEnv WC_SHA256 [1, 2, 3] [9]).take 35 ++
        (List.replicate 40 7).drop 35)) :=
  C2_hkdf_expand toyEnv WC_SHA256 [1, 2, 3] [9] (List.replicate 40 7) 35 toyEnv_laws
    (by decide) (Or.inl rfl) (by decide)

/-- C3: for every secret the build accepts, every seed, every `word32` result
length and every hash id among `md5_mac`, `sha_mac`, `sha256_mac`,
`sha384_mac`, `sha512_mac` (with the HMAC algorithm `t` it stands for), on the
software path and a lawful hash `wc_PRF` returns 0 and leaves in `result` the
first `resLen` bytes of `HMAC(secret, A(1) || seed) || HMAC(secret, A(2) ||
seed) || ...` with `A(0) = seed`, `A(i) = HMAC(secret, A(i-1))`, followed by
the bytes `result` held from index `resLen` on (also for `resLen = 0` and for
a multiple of the digest size). -/
theorem C3_prf (env : Env σ) (hash t : Int) (secret seed result : List Nat) (resLen : Nat)
    (devId : Int) (hl : HashLaws env) (ht : (hash, t) ∈ prfPairs)
    (h32 : resLen < 4294967296) (hsw : Software env devId)
    (hk : KeyLenOk env secret.length) :
    wc_PRF env result resLen (some secret) secret.length (some seed) seed.length hash devId =
      (0, (blocks (prfBlock env t secret seed) resLen).take resLen ++ result.drop resLen) :=
  prf_spec env hl hash t ht secret seed result resLen devId h32 hsw hk

/-- Witness of C3: 41 bytes of `P_SHA1` over the toy hash into a buffer of 45
bytes. -/
theorem C3_prf_witness :
    wc_PRF toyEnv (List.replicate 45 7) 41 (some [1, 2, 3]) [1, 2, 3].length (some [9])
        [9].length sha_mac INVALID_DEVID =
      (0, (blocks (prfBlock toyEnv WC_SHA [1, 2, 3] [9]) 41).take 41 ++
        (List.replicate 45 7).drop 41) :=
  C3_prf toyEnv sha_mac WC_SHA [1, 2, 3] [9] (List.replicate 45 7) 41 INVALID_DEVID
    toyEnv_laws (by decide) (by decide) (Or.inl rfl) (Or.inl rfl)

/-- C4: for every hash id among SHA-1, SHA-256, SHA-384, SHA-512, every
non-empty `K`, `H` and `sessionId`, every `keyId` and every `word32` key size
`keySz > 0`, on a lawful hash `wc_SSH_KDF` returns 0 and leaves in `key` the
first `keySz` bytes of `digest(0) || digest(1) || ...`, where
`P = be32(kSz + kPad) || (0x00 if kPad) || K || H`,
`digest(0) = Hash(P || keyId || sessionId)` and
`digest(i) = Hash(P || digest(0) || ... || digest(i-1))`; this covers key
sizes below, equal to a multiple of, and not a multiple of the digest size. -/
theorem C4_ssh_kdf (env : Env σ) (t : Int) (keyId : Nat) (key K H sid : List Nat)
    (keySz : Nat) (hl : HashLaws env) (ht : SshHash t)
    (hK : K ≠ []) (hH : H ≠ []) (hsid : sid ≠ []) (hkey : 0 < keySz)
    (h32 : keySz < 4294967296) :
    wc_SSH_KDF env t keyId (some key) keySz (some K) K.length (some H) H.length
        (some sid) sid.length =
      (0, some ((blocks (sshDigest env t K H keyId sid) keySz).take keySz ++
        key.drop keySz)) :=
  ssh_kdf_spec env hl t ht keyId key K H sid keySz hK hH hsid hkey h32

/-- Witness of C4: 45 key bytes (two SHA-1 blocks and a partial one) over the
toy hash, `K` with the high bit of its first byte set. -/
theorem C4_ssh_kdf_witness :
    wc_SSH_KDF toyEnv WC_SHA 65 (some (List.replicate 50 7)) 45 (some [200, 2, 3])
        [200, 2, 3].length (some [9]) [9].length (some [5, 5]) [5, 5].length =
      (0, some ((blocks (sshDigest toyEnv WC_SHA [200, 2, 3] [9] 65 [5, 5]) 45).take 45 ++
        (List.replicate 50 7).drop 45)) :=
  C4_ssh_kdf toyEnv WC_SHA 65 (List.replicate 50 7) [200, 2, 3] [9] [5, 5] 45 toyEnv_laws
    (by decide) (by decide) (by decide) (by decide) (by decide) (by decide)

/-- C5, amended: on the software path, with `Update` primitives that never fail
and are concatenative, for every algorithm, key and list of chunks (of any sizes,
empty chunks and the empty list included), `SetKey`, `Update(c1)`, ...,
`Update(cn)`, `Final` ends with the same return code, the same context and the
same output buffer as `SetKey`, `Update(c1 ++ ... ++ cn)`, `Final`. -/
theorem C5_chunked_update (env : Env σ) (h0 : Hmac σ) (t : Int) (key : Option (List Nat))
    (keySz : Nat) (chunks : List (List Nat)) (out : List Nat)
    (hnf : UpdateNeverFails env) (hc : UpdateConcat env) (hsw : Software env h0.devId) :
    hmacChunks env (some h0) t key keySz chunks (some out) =
      hmacChunks env (some h0) t key keySz [chunks.flatten] (some out) :=
  hmacChunks_concat env h0 t key keySz chunks out hnf hc hsw

/-- Witness of C5: three chunks, the middle one empty, under HMAC-MD5 over the
toy hash. -/
theorem C5_chunked_update_witness :
    hmacChunks toyEnv (some (zeroHmac toyEnv)) WC_MD5 (some [1, 2]) 2
        [[3], [], [4, 5]] (some (List.replicate 16 0)) =
      hmacChunks toyEnv (some (zeroHmac toyEnv)) WC_MD5 (some [1, 2]) 2
        [[[3], [], [4, 5]].flatten] (some (List.replicate 16 0)) :=
  C5_chunked_update toyEnv (zeroHmac toyEnv) WC_MD5 (some [1, 2]) 2 [[3], [], [4, 5]]
    (List.replicate 16 0) toyEnv_laws.neverFails toyEnv_laws.concat (Or.inl rfl)

set_option maxRecDepth 100000 in
/-- Counterexample to C5 as stated: the `Update` primitive of `faultyEnv` is
concatenative but fails on more than 200 bytes at once; on the software path,
under HMAC-SHA256, the chunks of 100 and 101 bytes give the return code 0 and
a digest, the same 201 bytes in one `Update` give `-1` and leave the output
buffer untouched. -/
theorem C5_chunked_update_counterexample :
    UpdateConcat faultyEnv ∧ Software faultyEnv (zeroHmac faultyEnv).devId ∧
    hmacChunks faultyEnv (some (zeroHmac faultyEnv)) WC_SHA256 (some [1, 2]) 2
        [List.replicate 100 0, List.replicate 101 0] (some (List.replicate 32 0)) ≠
      hmacChunks faultyEnv (some (zeroHmac faultyEnv)) WC_SHA256 (some [1, 2]) 2
        [[List.replicate 100 0, List.replicate 101 0].flatten]
        (some (List.replicate 32 0)) ∧
    (hmacChunks faultyEnv (some (zeroHmac faultyEnv)) WC_SHA256 (some [1, 2]) 2
        [List.replicate 100 0, List.replicate 101 0] (some (List.replicate 32 0))).1 = 0 ∧
    (hmacChunks faultyEnv (some (zeroHmac faultyEnv)) WC_SHA256 (some [1, 2]) 2
        [List.replicate 100 0, List.replicate 101 0] (some (List.replicate 32 0))).2.2 =
      some (List.replicate 32 99) ∧
    (hmacChunks faultyEnv (some (zeroHmac faultyEnv)) WC_SHA256 (some [1, 2]) 2
        [[List.replicate 100 0, List.replicate 101 0].flatten]
        (some (List.replicate 32 0))).1 = -1 ∧
    (hmacChunks faultyEnv (some (zeroHmac faultyEnv)) WC_SHA256 (some [1, 2]) 2
        [[List.replicate 100 0, List.replicate 101 0].flatten]
        (some (List.replicate 32 0))).2.2 = some (List.replicate 32 0) := by
  have h1 : (hmacChunks faultyEnv (some (zeroHmac faultyEnv)) WC_SHA256 (some [1, 2]) 2
      [List.replicate 100 0, List.replicate 101 0] (some (List.replicate 32 0))).1 = 0 := by
    decide
  have h2 : (hmacChunks faultyEnv (some (zeroHmac faultyEnv)) WC_SHA256 (some [1, 2]) 2
      [[List.replicate 100 0, List.replicate 101 0].flatten]
      (some (List.replicate 32 0))).1 = -1 := by
    decide
  refine ⟨faultyEnv_concat, Or.inl rfl, fun e => ?_, h1, by decide, h2, by decide⟩
  rw [e, h2] at h1
  exact absurd h1 (by decide)

/-- C6: on the software path and with `Final` primitives that reset the hash
state, once `SetKey(key)`, `Update(m1)`, `Final` has succeeded on an
initialised context, a further `Update(m2)`, `Final` on the same context, with
no `SetKey` in between, ends with the return code and the output buffer of
`SetKey(key)`, `Update(m2)`, `Final` on a freshly initialised context; on a
lawful hash that output is `HMAC(key, m2)`. -/
theorem C6_reuse_without_rekey (env : Env σ) (x : Hmac σ) (devId : Int) (t : Int)
    (key m1 m2 o1 o2 : List Nat) (hfr : FinalResets env) (hsw : Software env devId)
    (hfirst : (hmacChunks env (wc_HmacInit env (some x) devId).2 t (some key) key.length
      [m1] (some o1)).1 = 0) :
    (updateFinal env
        (hmacChunks env (wc_HmacInit env (some x) devId).2 t (some key) key.length
          [m1] (some o1)).2.1 (some m2) m2.length (some o2)).1 =
      (hmacChunks env (wc_HmacInit env (some x) devId).2 t (some key) key.length
        [m2] (some o2)).1 ∧
    (updateFinal env
        (hmacChunks env (wc_HmacInit env (some x) devId).2 t (some key) key.length
          [m1] (some o1)).2.1 (some m2) m2.length (some o2)).2.2 =
      (hmacChunks env (wc_HmacInit env (some x) devId).2 t (some key) key.length
        [m2] (some o2)).2.2 ∧
    (HashLaws env → Supported t → KeyLenOk env key.length →
      (updateFinal env
        (hmacChunks env (wc_HmacInit env (some x) devId).2 t (some key) key.length
          [m1] (some o1)).2.1 (some m2) m2.length (some o2)).2.2 =
        some (HMAC env t key m2 ++ o2.drop (digestSize t))) := by
  obtain ⟨h0, e0, hw0, _, _, _, hd0⟩ := init_fields env x devId
  have hsw0 : Software env h0.devId := by rw [hd0]; exact init_software env devId hsw
  rw [e0] at hfirst ⊢
  simp only [] at hfirst ⊢
  obtain ⟨r1, r2⟩ := reuse_eq_fresh env hfr h0 hsw0 t (some key) key.length m1 m2 o1 o2 hfirst
  refine ⟨r1, r2, ?_⟩
  intro hl hs hk
  obtain ⟨h', e⟩ := hmacChunks_laws env hl h0 t key m2 o2 hs hk hw0 hsw0
  rw [r2, e]

/-- Witness of C6: two messages in a row under one HMAC-SHA1 key over the toy
hash. -/
theorem C6_reuse_without_rekey_witness :
    (updateFinal toyEnv
        (hmacChunks toyEnv (wc_HmacInit toyEnv (some (zeroHmac toyEnv)) INVALID_DEVID).2
          WC_SHA (some [1, 2]) [1, 2].length [[3, 4]] (some (List.replicate 20 0))).2.1
        (some [5]) [5].length (some (List.replicate 20 0))).1 =
      (hmacChunks toyEnv (wc_HmacInit toyEnv (some (zeroHmac toyEnv)) INVALID_DEVID).2
        WC_SHA (some [1, 2]) [1, 2].length [[5]] (some (List.replicate 20 0))).1 ∧
    (updateFinal toyEnv
        (hmacChunks toyEnv (wc_HmacInit toyEnv (some (zeroHmac toyEnv)) INVALID_DEVID).2
          WC_SHA (some [1, 2]) [1, 2].length [[3, 4]] (some (List.replicate 20 0))).2.1
        (some [5]) [5].length (some (List.replicate 20 0))).2.2 =
      (hmacChunks toyEnv (wc_HmacInit toyEnv (some (zeroHmac toyEnv)) INVALID_DEVID).2
        WC_SHA (some [1, 2]) [1, 2].length [[5]] (some (List.replicate 20 0))).2.2 ∧
    (HashLaws toyEnv → Supported WC_SHA → KeyLenOk toyEnv [1, 2].length →
      (updateFinal toyEnv
        (hmacChunks toyEnv (wc_HmacInit toyEnv (some (zeroHmac toyEnv)) INVALID_DEVID).2
          WC_SHA (some [1, 2]) [1, 2].length [[3, 4]] (some (List.replicate 20 0))).2.1
        (some [5]) [5].length (some (List.replicate 20 0))).2.2 =
        some (HMAC toyEnv WC_SHA [1, 2] [5] ++ (List.replicate 20 0).drop (digestSize WC_SHA))) :=
  C6_reuse_without_rekey toyEnv (zeroHmac toyEnv) INVALID_DEVID WC_SHA [1, 2] [3, 4] [5]
    (List.replicate 20 0) (List.replicate 20 0) toyEnv_laws.final_resets (Or.inl rfl)
    (by decide)

/-- C7: for every supported algorithm with block size `B` and digest size `D`
and every key longer than `B`, a successful `wc_HmacSetKey(type, key, len)` on
a freshly initialised context leaves the same `inner_pad[0..B)` and
`outer_pad[0..B)`, the same algorithm tag and the same `inner_keyed` flag as
`wc_HmacSetKey(type, Hash(key), D)` on an identically initialised context,
which succeeds too. -/
theorem C7_long_key_hashed (env : Env σ) (x : Hmac σ) (devId : Int) (t : Int)
    (key : List Nat) (hs : Supported t) (hlong : blockSize t < key.length)
    (hret : (wc_HmacSetKey env (wc_HmacInit env (some x) devId).2 t (some key)
      key.length).1 = 0) :
    ∃ h1 h2,
      wc_HmacSetKey env (wc_HmacInit env (some x) devId).2 t (some key) key.length =
        (0, some h1) ∧
      wc_HmacSetKey env (wc_HmacInit env (some x) devId).2 t (some (hashOf env t key))
        (digestSize t) = (0, some h2) ∧
      h1.ipad.take (blockSize t) = h2.ipad.take (blockSize t) ∧
      h1.opad.take (blockSize t) = h2.opad.take (blockSize t) ∧
      h1.macType = h2.macType ∧ h1.innerHashKeyed = h2.innerHashKeyed :=
  longKey_pads env x devId t key hs hlong hret

/-- Witness of C7: HMAC-SHA256 over the toy hash with a key of 100 bytes. -/
theorem C7_long_key_hashed_witness :
    ∃ h1 h2,
      wc_HmacSetKey toyEnv (wc_HmacInit toyEnv (some (zeroHmac toyEnv)) INVALID_DEVID).2
        WC_SHA256 (some (List.replicate 100 11)) (List.replicate 100 11).length =
        (0, some h1) ∧
      wc_HmacSetKey toyEnv (wc_HmacInit toyEnv (some (zeroHmac toyEnv)) INVALID_DEVID).2
        WC_SHA256 (some (hashOf toyEnv WC_SHA256 (List.replicate 100 11)))
        (digestSize WC_SHA256) = (0, some h2) ∧
      h1.ipad.take (blockSize WC_SHA256) = h2.ipad.take (blockSize WC_SHA256) ∧
      h1.opad.take (blockSize WC_SHA256) = h2.opad.take (blockSize WC_SHA256) ∧
      h1.macType = h2.macType ∧ h1.innerHashKeyed = h2.innerHashKeyed :=
  C7_long_key_hashed toyEnv (zeroHmac toyEnv) INVALID_DEVID WC_SHA256
    (List.replicate 100 11) (by decide) (by decide) (by decide)

/-- C8: for every supported algorithm with block size `B` and every key with
`len(key) <= B` (also `len(key) = B` and `len(key) = 0`), a successful
`wc_HmacSetKey` on a context leaves `inner_pad[i] = k'[i] xor 0x36` and
`outer_pad[i] = k'[i] xor 0x5c` for every `i` in `[0, B)`, where `k'` is the
key itself, not hashed, zero-padded on the right to `B` bytes: the outer pad
comes from the bytes before the `0x36` xor. -/
theorem C8_short_key_pads (env : Env σ) (h0 : Hmac σ) (t : Int) (k : List Nat)
    (hs : Supported t) (hw : WF h0) (hle : k.length ≤ blockSize t)
    (hret : (wc_HmacSetKey env (some h0) t (some k) k.length).1 = 0) :
    ∃ h', wc_HmacSetKey env (some h0) t (some k) k.length = (0, some h') ∧
      h'.ipad.take (blockSize t) =
        (k ++ List.replicate (blockSize t - k.length) 0).map (fun b => b ^^^ 0x36) ∧
      h'.opad.take (blockSize t) =
        (k ++ List.replicate (blockSize t - k.length) 0).map (fun b => b ^^^ 0x5c) := by
  obtain ⟨h', e, _, _, _, _, _, hip, hop, _⟩ := setKey_success env h0 t k hs hw hret
  refine ⟨h', e, ?_, ?_⟩
  · rw [hip]; simp only [normKey, hle, if_true]; rfl
  · rw [hop]; simp only [normKey, hle, if_true]; rfl

/-- Witness of C8: HMAC-SHA3-512 over the toy hash with a key of exactly the
block size, 72 bytes. -/
theorem C8_short_key_pads_witness :
    ∃ h', wc_HmacSetKey toyEnv (some (zeroHmac toyEnv)) WC_SHA3_512
        (some (List.replicate 72 9)) (List.replicate 72 9).length = (0, some h') ∧
      h'.ipad.take (blockSize WC_SHA3_512) =
        (List.replicate 72 9 ++
          List.replicate (blockSize WC_SHA3_512 - (List.replicate 72 9).length) 0).map
          (fun b => b ^^^ 0x36) ∧
      h'.opad.take (blockSize WC_SHA3_512) =
        (List.replicate 72 9 ++
          List.replicate (blockSize WC_SHA3_512 - (List.replicate 72 9).length) 0).map
          (fun b => b ^^^ 0x5c) :=
  C8_short_key_pads toyEnv (zeroHmac toyEnv) WC_SHA3_512 (List.replicate 72 9)
    (by decide) (by simp [WF, zeroHmac]) (by decide) (by decide)

/-- C9: for every supported algorithm, every (non-null) salt and every input
keying material, `wc_HKDF_Extract(type, salt, saltSz, ikm, ikmSz, out)` returns
the code and leaves the output buffer of the one HMAC run `wc_HmacInit`,
`wc_HmacSetKey(type, salt, saltSz)`, `wc_HmacUpdate(ikm, ikmSz)`,
`wc_HmacFinal(out)`; on a lawful hash that is code 0 and `out = HMAC(salt,
ikm)`; for an unsupported type it returns the negative `BAD_FUNC_ARG` and
leaves `out` as it was. -/
theorem C9_extract_is_one_hmac (env : Env σ) (type : Int) (salt : List Nat) (saltSz : Nat)
    (inKey : Option (List Nat)) (inKeySz : Nat) (out : Option (List Nat)) :
    (Supported type →
      wc_HKDF_Extract env type (some salt) saltSz inKey inKeySz out =
        hmacRun env type (some salt) saltSz inKey inKeySz out) ∧
    (∀ ikm o : List Nat, HashLaws env → Supported type → KeyLenOk env salt.length →
      wc_HKDF_Extract env type (some salt) salt.length (some ikm) ikm.length (some o) =
        (0, some (HMAC env type salt ikm ++ o.drop (digestSize type)))) ∧
    (¬ Supported type →
      wc_HKDF_Extract env type (some salt) saltSz inKey inKeySz out = (BAD_FUNC_ARG, out) ∧
      BAD_FUNC_ARG < 0) := by
  refine ⟨?_, ?_, ?_⟩
  · intro hs
    exact extract_eq_hmacRun env type (some salt) saltSz inKey inKeySz out hs
  · intro ikm o hl hs hk
    rw [extract_eq_hmacRun env type (some salt) salt.length (some ikm) ikm.length (some o) hs]
    exact hmacRun_laws env hl type salt ikm o hs hk
  · intro hs
    exact ⟨extract_unsupported env type (some salt) saltSz inKey inKeySz out hs, by decide⟩

/-- Witness of C9: HKDF-Extract with SHA-384 over the toy hash. -/
theorem C9_extract_is_one_hmac_witness :
    wc_HKDF_Extract toyEnv WC_SHA384 (some [1, 2]) [1, 2].length (some [3, 4, 5])
        [3, 4, 5].length (some (List.replicate 48 0)) =
      hmacRun toyEnv WC_SHA384 (some [1, 2]) [1, 2].length (some [3, 4, 5])
        [3, 4, 5].length (some (List.replicate 48 0)) ∧
    wc_HKDF_Extract toyEnv WC_SHA384 (some [1, 2]) [1, 2].length (some [3, 4, 5])
        [3, 4, 5].length (some (List.replicate 48 0)) =
      (0, some (HMAC toyEnv WC_SHA384 [1, 2] [3, 4, 5] ++
        (List.replicate 48 0).drop (digestSize WC_SHA384))) ∧
    wc_HKDF_Extract toyEnv 99 (some [1, 2]) [1, 2].length (some [3, 4, 5])
        [3, 4, 5].length (some (List.replicate 48 0)) =
      (BAD_FUNC_ARG, some (List.replicate 48 0)) :=
  ⟨(C9_extract_is_one_hmac toyEnv WC_SHA384 [1, 2] [1, 2].length (some [3, 4, 5])
      [3, 4, 5].length (some (List.replicate 48 0))).1 (by decide),
   (C9_extract_is_one_hmac toyEnv WC_SHA384 [1, 2] [1, 2].length (some [3, 4, 5])
      [3, 4, 5].length (some (List.replicate 48 0))).2.1 [3, 4, 5] (List.replicate 48 0)
      toyEnv_laws (by decide) (Or.inl rfl),
   ((C9_extract_is_one_hmac toyEnv 99 [1, 2] [1, 2].length (some [3, 4, 5])
      [3, 4, 5].length (some (List.replicate 48 0))).2.2 (by decide)).1⟩

/-- C10: for every algorithm tag with digest size `D` (the supported ones in
particular) and every ikm, `wc_HKDF_Extract` with a null salt, whatever
`saltSz` is passed, returns the code and leaves the output of
`wc_HKDF_Extract` with a salt of `D` zero bytes and `saltSz = D`. -/
theorem C10_null_salt_is_zero_salt (env : Env σ) (type : Int) (saltSz : Nat)
    (inKey : Option (List Nat)) (inKeySz : Nat) (out : Option (List Nat)) :
    wc_HKDF_Extract env type none saltSz inKey inKeySz out =
      wc_HKDF_Extract env type (some (List.replicate (digestSize type) 0)) (digestSize type)
        inKey inKeySz out := by
  by_cases hs : Supported type
  · rw [extract_eq_hmacRun env type none saltSz inKey inKeySz out hs,
      extract_eq_hmacRun env type (some (List.replicate (digestSize type) 0))
        (digestSize type) inKey inKeySz out hs]
    rfl
  · rw [extract_unsupported env type none saltSz inKey inKeySz out hs,
      extract_unsupported env type _ _ inKey inKeySz out hs]

/-- C11: for every algorithm tag and all inputs, `wc_HKDF` returns the code
and the output buffer of `wc_HKDF_Extract` into a scratch `prk` followed, when
that returned 0, by `wc_HKDF_Expand` with `prk`, the digest size as key length
and the caller's `info`, `out`, `outSz`; when `wc_HKDF_Extract` fails its code
is returned and `out` is left as it was; for an unsupported type the result is
`BAD_FUNC_ARG` with `out` untouched. -/
theorem C11_hkdf_is_extract_then_expand (env : Env σ) (type : Int)
    (inKey : Option (List Nat)) (inKeySz : Nat) (salt : Option (List Nat)) (saltSz : Nat)
    (info : Option (List Nat)) (infoSz : Nat) (out : Option (List Nat)) (outSz : Nat) :
    wc_HKDF env type inKey inKeySz salt saltSz info infoSz out outSz =
      hkdfExtractThenExpand env type inKey inKeySz salt saltSz info infoSz out outSz ∧
    ((wc_HKDF_Extract env type salt saltSz inKey inKeySz
        (some (List.replicate WC_MAX_DIGEST_SIZE 0))).1 ≠ 0 →
      wc_HKDF env type inKey inKeySz salt saltSz info infoSz out outSz =
        ((wc_HKDF_Extract env type salt saltSz inKey inKeySz
          (some (List.replicate WC_MAX_DIGEST_SIZE 0))).1, out)) ∧
    (¬ Supported type →
      wc_HKDF env type inKey inKeySz salt saltSz info infoSz out outSz =
        (BAD_FUNC_ARG, out)) :=
  ⟨hkdf_eq_twoStep env type inKey inKeySz salt saltSz info infoSz out outSz,
   hkdf_extract_fails env type inKey inKeySz salt saltSz info infoSz out outSz,
   hkdf_unsupported env type inKey inKeySz salt saltSz info infoSz out outSz⟩

/-- Witness of C11: HKDF-SHA256 over the toy hash, 35 bytes into a buffer of
40, and the unsupported tag 9. -/
theorem C11_hkdf_is_extract_then_expand_witness :
    wc_HKDF toyEnv WC_SHA256 (some [1, 2]) 2 (some [3]) 1 (some [4]) 1
        (some (List.replicate 40 0)) 35 =
      hkdfExtractThenExpand toyEnv WC_SHA256 (some [1, 2]) 2 (some [3]) 1 (some [4]) 1
        (some (List.replicate 40 0)) 35 ∧
    wc_HKDF toyEnv 9 (some [1, 2]) 2 (some [3]) 1 (some [4]) 1 (some [0, 0, 0, 0]) 3 =
      (BAD_FUNC_ARG, some [0, 0, 0, 0]) :=
  ⟨(C11_hkdf_is_extract_then_expand toyEnv WC_SHA256 (some [1, 2]) 2 (some [3]) 1 (some [4]) 1
      (some (List.replicate 40 0)) 35).1,
   (C11_hkdf_is_extract_then_expand toyEnv 9 (some [1, 2]) 2 (some [3]) 1 (some [4]) 1
      (some [0, 0, 0, 0]) 3).2.2 (by decide)⟩

/-- C12: for every supported algorithm with digest size `D`, `wc_HKDF_Expand`
returns `BAD_FUNC_ARG` and leaves `out` as it was when `out` is null or when
`outSz > 255 * D`, which is when the block count of the source,
`outSz / D + (outSz % D != 0)`, exceeds 255; for a non-null `out` and
`outSz <= 255 * D` (the bound included) the argument check lets the call
through, the function is then `wc_HmacInit` followed by the block loop, and
with a lawful hash, a key the build accepts and an info string it returns 0. -/
theorem C12_expand_argument_check (env : Env σ) (t : Int) (inKey : Option (List Nat))
    (inKeySz : Nat) (info : Option (List Nat)) (infoSz : Nat) (o : List Nat) (outSz : Nat)
    (hs : Supported t) :
    wc_HKDF_Expand env t inKey inKeySz info infoSz none outSz = (BAD_FUNC_ARG, none) ∧
    ((outSz / digestSize t + (if outSz % digestSize t ≠ 0 then 1 else 0) > 255) ↔
      255 * digestSize t < outSz) ∧
    (255 * digestSize t < outSz →
      wc_HKDF_Expand env t inKey inKeySz info infoSz (some o) outSz =
        (BAD_FUNC_ARG, some o)) ∧
    (outSz ≤ 255 * digestSize t →
      wc_HKDF_Expand env t inKey inKeySz info infoSz (some o) outSz =
        expandRun env t inKey inKeySz info infoSz o outSz) ∧
    (outSz ≤ 255 * digestSize t → HashLaws env →
      ∀ prk inf : List Nat, KeyLenOk env prk.length →
        (wc_HKDF_Expand env t (some prk) prk.length (some inf) inf.length (some o) outSz).1
          = 0) :=
  ⟨expand_null_out env t inKey inKeySz info infoSz outSz,
   expand_guard outSz (digestSize t) (supported_sizes t hs).1,
   expand_too_long env t inKey inKeySz info infoSz o outSz hs,
   expand_passes env t inKey inKeySz info infoSz o outSz hs,
   fun hsz hl prk inf hk => by rw [expand_spec env hl t prk inf o outSz hs hk hsz]⟩

/-- Witness of C12: HKDF-MD5 over the toy hash at the bound, `outSz = 255 * 16`:
the call is let through and returns 0. -/
theorem C12_expand_argument_check_witness :
    wc_HKDF_Expand toyEnv WC_MD5 (some [1]) 1 (some [2]) 1 (some (List.replicate 4090 0)) 4080 =
      expandRun toyEnv WC_MD5 (some [1]) 1 (some [2]) 1 (List.replicate 4090 0) 4080 ∧
    (wc_HKDF_Expand toyEnv WC_MD5 (some [1]) [1].length (some [2]) [2].length
      (some (List.replicate 4090 0)) 4080).1 = 0 ∧
    wc_HKDF_Expand toyEnv WC_MD5 (some [1]) 1 (some [2]) 1 (some (List.replicate 4090 0)) 4081 =
      (BAD_FUNC_ARG, some (List.replicate 4090 0)) :=
  ⟨(C12_expand_argument_check toyEnv WC_MD5 (some [1]) 1 (some [2]) 1 (List.replicate 4090 0)
      4080 (by decide)).2.2.2.1 (by decide),
   (C12_expand_argument_check toyEnv WC_MD5 (some [1]) 1 (some [2]) 1 (List.replicate 4090 0)
      4080 (by decide)).2.2.2.2 (by decide) toyEnv_laws [1] [2] (Or.inl rfl),
   (C12_expand_argument_check toyEnv WC_MD5 (some [1]) 1 (some [2]) 1 (List.replicate 4090 0)
      4081 (by decide)).2.2.1 (by decide)⟩

/-- C13: on the software path, for every secret, label, seed and `digLen`
that `wc_PRF_TLSv1` accepts (each half of the secret fits `MAX_PRF_HALF`,
`label || seed` fits `MAX_PRF_LABSEED`, `digLen` is at most `MAX_PRF_DIG`),
when the call returns 0 byte `i` of `digest`, for every `i < digLen`, is byte
`i` of `wc_PRF(md5_mac)` keyed with `S1 = secret[0 .. ceil(n/2))` xor byte `i`
of `wc_PRF(sha_mac)` keyed with `S2 = secret[n - ceil(n/2) .. n)`, both over
the seed `label || seed` and for `digLen` bytes; the bytes of `digest` from
index `digLen` on are left as they were. -/
theorem C13_tlsv1_is_xor_of_two_prf (env : Env σ) (digest secret label seed : List Nat)
    (digLen : Nat) (devId : Int) (hsw : Software env devId)
    (hhalf : (secret.length + 1) / 2 ≤ MAX_PRF_HALF)
    (hls : label.length + seed.length ≤ MAX_PRF_LABSEED) (hdig : digLen ≤ MAX_PRF_DIG)
    (hret : (wc_PRF_TLSv1 env digest digLen (some secret) secret.length (some label)
      label.length (some seed) seed.length devId).1 = 0) :
    (wc_PRF_TLSv1 env digest digLen (some secret) secret.length (some label)
      label.length (some seed) seed.length devId).2 =
      (List.range digLen).map (fun i =>
        (wc_PRF env (List.replicate MAX_PRF_DIG 0) digLen
          (some (secret.take ((secret.length + 1) / 2))) ((secret.length + 1) / 2)
          (some (label ++ seed)) (label.length + seed.length) md5_mac devId).2.getD i 0 ^^^
        (wc_PRF env (List.replicate MAX_PRF_DIG 0) digLen
          (some (secret.drop (secret.length - (secret.length + 1) / 2)))
          ((secret.length + 1) / 2)
          (some (label ++ seed)) (label.length + seed.length) sha_mac devId).2.getD i 0) ++
      digest.drop digLen :=
  tlsv1_xor env digest secret label seed digLen devId hsw hhalf hls hdig hret

/-- Witness of C13: 6 bytes over the toy hash from the secret `[1, 2, 3]`
(halves `[1, 2]` and `[2, 3]`), label `[4]`, seed `[5]`, into a buffer of 8
bytes. -/
theorem C13_tlsv1_is_xor_of_two_prf_witness :
    (wc_PRF_TLSv1 toyEnv (List.replicate 8 9) 6 (some [1, 2, 3]) [1, 2, 3].length
      (some [4]) [4].length (some [5]) [5].length INVALID_DEVID).2 =
      (List.range 6).map (fun i =>
        (wc_PRF toyEnv (List.replicate MAX_PRF_DIG 0) 6
          (some ([1, 2, 3].take (([1, 2, 3].length + 1) / 2))) (([1, 2, 3].length + 1) / 2)
          (some ([4] ++ [5])) ([4].length + [5].length) md5_mac INVALID_DEVID).2.getD i 0 ^^^
        (wc_PRF toyEnv (List.replicate MAX_PRF_DIG 0) 6
          (some ([1, 2, 3].drop ([1, 2, 3].length - ([1, 2, 3].length + 1) / 2)))
          (([1, 2, 3].length + 1) / 2)
          (some ([4] ++ [5])) ([4].length + [5].length) sha_mac INVALID_DEVID).2.getD i 0) ++
      (List.replicate 8 9).drop 6 :=
  C13_tlsv1_is_xor_of_two_prf toyEnv (List.replicate 8 9) [1, 2, 3] [4] [5] 6 INVALID_DEVID
    (Or.inl rfl) (by decide) (by decide) (by decide)
    (tlsv1_ret_zero toyEnv toyEnv_laws _ _ _ _ _ _ _ _ _ (Or.inl rfl) (Or.inl rfl)
      (by decide))

/-- C15, evaluated: with `labLen = 2^32 - 1` and `seedLen = 1` the sum
`labLen + seedLen` is 0 as a `word32`, so the size check of `wc_PRF_TLSv1`
does not fire although the true sum exceeds `MAX_PRF_LABSEED`, and the call
goes on to copy `labLen` bytes into `labelSeed` and returns 0 (toy hash, any
label and seed); with `secLen = 2^32 - 1` the sum `secLen + 1` wraps, `half`
is 0 and the check does not fire although `ceil(secLen / 2)` exceeds
`MAX_PRF_HALF`. -/
theorem C15_size_check_wraps :
    ¬ prfTooBig 0 4294967295 1 0 ∧
    MAX_PRF_LABSEED < 4294967295 + 1 ∧
    (∀ (digest : List Nat) (label seed : Option (List Nat)),
      (wc_PRF_TLSv1 toyEnv digest 0 (some []) 0 label 4294967295 seed 1
        INVALID_DEVID).1 = 0) ∧
    ¬ prfTooBig 4294967295 0 0 0 ∧
    MAX_PRF_HALF < (4294967295 + 1) / 2 ∧
    (∀ (digest : List Nat) (secret : Option (List Nat)),
      (wc_PRF_TLSv1 toyEnv digest 0 secret 4294967295 (some []) 0 (some []) 0
        INVALID_DEVID).1 = 0) :=
  ⟨by decide, by decide,
   fun _ _ _ => tlsv1_ret_zero toyEnv toyEnv_laws _ _ _ _ _ _ _ _ _ (Or.inl rfl) (Or.inl rfl)
     (by decide),
   by decide, by decide,
   fun _ _ => tlsv1_ret_zero toyEnv toyEnv_laws _ _ _ _ _ _ _ _ _ (Or.inl rfl) (Or.inl rfl)
     (by decide)⟩

set_option maxRecDepth 100000 in
/-- C16, evaluated: with `useAtLeastSha256 = 1` and `hash_type = 7` (the
identifier after `sha512_mac`, before `blake2b_mac`) the identifier is passed
on unchanged and the `default` case of `wc_PRF` selects SHA-1: for every
build and input whose `label || seed` fits, `wc_PRF_TLS` is the call of
`wc_PRF` with `sha_mac`; over the toy hash its 8 output bytes are those of the
SHA-1 PRF and differ from those of the SHA-256 PRF. -/
theorem C16_atLeastSha256_falls_to_sha1 :
    (∀ (τ : Type) (env : Env τ) (digest : List Nat) (digLen : Nat)
        (secret : Option (List Nat)) (secLen : Nat) (label seed : Option (List Nat))
        (devId : Int),
      wc_PRF_TLS env digest digLen secret secLen label 1 seed 1 1 7 devId =
        wc_PRF env digest digLen secret secLen (some (labelSeedBuf label 1 seed 1))
          (word32 (1 + 1)) sha_mac devId) ∧
    wc_PRF_TLS toyEnv (List.replicate 8 0) 8 (some [1, 2, 3]) 3 (some [4]) 1 (some [5]) 1 1 7
        INVALID_DEVID =
      wc_PRF toyEnv (List.replicate 8 0) 8 (some [1, 2, 3]) 3 (some [4, 5]) 2 sha_mac
        INVALID_DEVID ∧
    wc_PRF_TLS toyEnv (List.replicate 8 0) 8 (some [1, 2, 3]) 3 (some [4]) 1 (some [5]) 1 1 7
        INVALID_DEVID ≠
      wc_PRF toyEnv (List.replicate 8 0) 8 (some [1, 2, 3]) 3 (some [4, 5]) 2 sha256_mac
        INVALID_DEVID := by
  refine ⟨fun τ env digest digLen secret secLen label seed devId =>
    prfTls_hole env digest digLen secret secLen label 1 seed 1 1 7 devId
      (by decide) (by decide) (Or.inl rfl), ?_, ?_⟩ <;> decide

/-- C17: for every output length, key, digest tag and every `protocol`,
`label`, `info` whose label `4 + protocolLen + labelLen + infoLen` fits the
scratch buffer of `MAX_TLS13_HKDF_LABEL_SZ` bytes,
`wc_Tls13_HKDF_Expand_Label` returns exactly what
`wc_HKDF_Expand(digest, prk, prkLen, L, len(L), okm, okmLen)` returns, code and
output buffer, where `L = [okmLen >> 8, okmLen & 0xff,
(protocolLen + labelLen) & 0xff] ++ protocol ++ label ++ [infoLen & 0xff] ++
info` and `len(L) = 4 + protocolLen + labelLen + infoLen`. -/
theorem C17_expand_label (env : Env σ) (okm : Option (List Nat)) (okmLen : Nat)
    (prk : Option (List Nat)) (prkLen : Nat) (protocol label info : List Nat) (digest : Int)
    (hfit : 4 + protocol.length + label.length + info.length ≤ MAX_TLS13_HKDF_LABEL_SZ) :
    wc_Tls13_HKDF_Expand_Label env okm okmLen prk prkLen (some protocol) protocol.length
        (some label) label.length (some info) info.length digest =
      wc_HKDF_Expand env digest prk prkLen (some (hkdfLabel okmLen protocol label info))
        (hkdfLabel okmLen protocol label info).length okm okmLen ∧
    (hkdfLabel okmLen protocol label info).length =
      4 + protocol.length + label.length + info.length := by
  rw [hkdfLabel_length]
  exact ⟨expand_label_spec env okm okmLen prk prkLen protocol label info digest hfit, rfl⟩

/-- Witness of C17: 34 bytes under SHA-256 over the toy hash, protocol
`[1, 2]`, label `[3, 4, 5]`, info `[9, 9]`. -/
theorem C17_expand_label_witness :
    wc_Tls13_HKDF_Expand_Label toyEnv (some (List.replicate 40 0)) 34 (some [1, 2, 3]) 3
        (some [1, 2]) [1, 2].length (some [3, 4, 5]) [3, 4, 5].length (some [9, 9])
        [9, 9].length WC_SHA256 =
      wc_HKDF_Expand toyEnv WC_SHA256 (some [1, 2, 3]) 3
        (some (hkdfLabel 34 [1, 2] [3, 4, 5] [9, 9]))
        (hkdfLabel 34 [1, 2] [3, 4, 5] [9, 9]).length (some (List.replicate 40 0)) 34 ∧
    (hkdfLabel 34 [1, 2] [3, 4, 5] [9, 9]).length =
      4 + [1, 2].length + [3, 4, 5].length + [9, 9].length :=
  C17_expand_label toyEnv (some (List.replicate 40 0)) 34 (some [1, 2, 3]) 3 [1, 2] [3, 4, 5]
    [9, 9] WC_SHA256 (by decide)

/-- C18, amended: on a lawful hash, for every non-empty `K` the string hashed
for every block of `wc_SSH_KDF` starts with the 4-byte big-endian encoding of
`kSz + kPad`, then a single `0x00` byte if and only if `kPad = 1`, then `K`
(then `H` and the block's tail, `keyId || sessionId` for block 0), where
`kPad = 1` exactly when `(K[0] & 0x80) != 0`.  For `K = b :: rest` with the
high bit of `b` set and the same `K` with the bit cleared, the hashed inputs of
block 0 differ (`be32(kSz + 1) || 0x00 || K || ...` against
`be32(kSz) || K' || ...`), and the two outputs differ whenever the two digests
of block 0 differ within their first `keySz` bytes; a difference further on in
the digest is cut off when `keySz` is smaller than the digest. -/
theorem C18_ssh_sign_padding (env : Env σ) (t : Int) (keyId : Nat)
    (key H sid rest : List Nat) (b keySz : Nat) (hl : HashLaws env) (ht : SshHash t)
    (hH : H ≠ []) (hsid : sid ≠ []) (hkey : 0 < keySz) (h32 : keySz < 4294967296) :
    (∀ K : List Nat, K ≠ [] →
      ∃ tail : Nat → List Nat, tail 0 = [keyId] ++ sid ∧
        wc_SSH_KDF env t keyId (some key) keySz (some K) K.length (some H) H.length
            (some sid) sid.length =
          (0, some ((blocks (fun i => hashOf env t
              (c32toa (word32 (K.length + (if K.getD 0 0 &&& 0x80 ≠ 0 then 1 else 0))) ++
                (if K.getD 0 0 &&& 0x80 ≠ 0 then [0] else []) ++ K ++ H ++ tail i))
            keySz).take keySz ++ key.drop keySz))) ∧
    (b &&& 0x80 ≠ 0 →
      sshPrefix (b :: rest) H =
        c32toa (word32 ((b :: rest).length + 1)) ++ [0] ++ (b :: rest) ++ H ∧
      sshPrefix ((b &&& 0x7f) :: rest) H =
        c32toa (word32 ((b :: rest).length)) ++ ((b &&& 0x7f) :: rest) ++ H ∧
      sshPrefix (b :: rest) H ++ [keyId] ++ sid ≠
        sshPrefix ((b &&& 0x7f) :: rest) H ++ [keyId] ++ sid ∧
      ((hashOf env t (sshPrefix (b :: rest) H ++ [keyId] ++ sid)).take keySz ≠
          (hashOf env t (sshPrefix ((b &&& 0x7f) :: rest) H ++ [keyId] ++ sid)).take keySz →
        (wc_SSH_KDF env t keyId (some key) keySz (some (b :: rest)) (b :: rest).length
            (some H) H.length (some sid) sid.length).2 ≠
          (wc_SSH_KDF env t keyId (some key) keySz (some ((b &&& 0x7f) :: rest))
            ((b &&& 0x7f) :: rest).length (some H) H.length (some sid) sid.length).2)) :=
  ⟨fun K hK => ssh_blocks_input env hl t ht keyId key K H sid keySz hK hH hsid hkey h32,
   fun hb => ssh_pad_matters env hl t ht keyId key H sid rest b keySz hH hsid hkey h32 hb⟩

set_option maxRecDepth 100000 in
/-- Witness of C18: over the toy hash, SHA-1, 45 key bytes: `K = [200, 2, 3]`
and the same `K` with the high bit cleared give different outputs. -/
theorem C18_ssh_sign_padding_witness :
    (wc_SSH_KDF toyEnv WC_SHA 65 (some (List.replicate 50 7)) 45 (some (200 :: [2, 3]))
        (200 :: [2, 3]).length (some [9]) [9].length (some [5, 5]) [5, 5].length).2 ≠
      (wc_SSH_KDF toyEnv WC_SHA 65 (some (List.replicate 50 7)) 45
        (some ((200 &&& 0x7f) :: [2, 3])) ((200 &&& 0x7f) :: [2, 3]).length (some [9])
        [9].length (some [5, 5]) [5, 5].length).2 :=
  ((C18_ssh_sign_padding toyEnv WC_SHA 65 (List.replicate 50 7) [9] [5, 5] [2, 3] 200 45
    toyEnv_laws (by decide) (by decide) (by decide) (by decide) (by decide)).2
      (by decide)).2.2.2 (by decide)

set_option maxRecDepth 100000 in
/-- Counterexample to C18 as stated: over the second toy hash, whose digests
differ in their last byte only, the digests of the two block-0 inputs for
`K = [128]` and `K = [0]` differ, yet for `keySz = 1` `wc_SSH_KDF` returns the
same code and the same key bytes for both. -/
theorem C18_ssh_sign_padding_counterexample :
    hashOf tailEnv WC_SHA (sshPrefix [128] [1] ++ [65] ++ [2]) ≠
      hashOf tailEnv WC_SHA (sshPrefix [0] [1] ++ [65] ++ [2]) ∧
    wc_SSH_KDF tailEnv WC_SHA 65 (some [7, 7]) 1 (some [128]) 1 (some [1]) 1 (some [2]) 1 =
      wc_SSH_KDF tailEnv WC_SHA 65 (some [7, 7]) 1 (some [0]) 1 (some [1]) 1 (some [2]) 1 := by
  constructor <;> decide

/-- C19: `wc_HmacSetKey` returns `BAD_FUNC_ARG` whenever the context is null,
the type is not one of the ten supported tags, or the key is null while the
length is not 0, and the context it leaves is the context it was given, every
field included. -/
theorem C19_setKey_bad_args (env : Env σ) (hmac : Option (Hmac σ)) (t : Int)
    (key : Option (List Nat)) (n : Nat)
    (hbad : hmac = none ∨ ¬ Supported t ∨ (key = none ∧ n ≠ 0)) :
    wc_HmacSetKey env hmac t key n = (BAD_FUNC_ARG, hmac) :=
  setKey_bad_args env hmac t key n hbad

/-- Witness of C19: the unsupported tag 9 on a context of the toy build. -/
theorem C19_setKey_bad_args_witness :
    wc_HmacSetKey toyEnv (some (zeroHmac toyEnv)) 9 (some [1, 2, 3]) 3 =
      (BAD_FUNC_ARG, some (zeroHmac toyEnv)) :=
  C19_setKey_bad_args toyEnv (some (zeroHmac toyEnv)) 9 (some [1, 2, 3]) 3
    (Or.inr (Or.inl (by decide)))

/-- C20, evaluated: on the context that `wc_HmacInit` leaves (no algorithm
bound, software path) `wc_HmacUpdate` with the message `[1, 2, 3]` returns 0,
not `BAD_FUNC_ARG`; the `wc_HmacFinal` that follows is the call that returns
`BAD_FUNC_ARG`.  A null message of length 3 is refused. -/
theorem C20_update_unbound_returns_zero :
    (wc_HmacInit toyEnv (some (zeroHmac toyEnv)) INVALID_DEVID).1 = 0 ∧
    (wc_HmacUpdate toyEnv (wc_HmacInit toyEnv (some (zeroHmac toyEnv)) INVALID_DEVID).2
      (some [1, 2, 3]) 3).1 = 0 ∧
    (wc_HmacFinal toyEnv
      (wc_HmacUpdate toyEnv (wc_HmacInit toyEnv (some (zeroHmac toyEnv)) INVALID_DEVID).2
        (some [1, 2, 3]) 3).2 (some (List.replicate 64 0))).1 = BAD_FUNC_ARG ∧
    (wc_HmacUpdate toyEnv (wc_HmacInit toyEnv (some (zeroHmac toyEnv)) INVALID_DEVID).2
      none 3).1 = BAD_FUNC_ARG := by
  refine ⟨rfl, ?_, ?_, ?_⟩ <;> decide

/-- C21: on the software path, for every context, a `wc_HmacFinal` that
returns 0 leaves a context whose `innerHashKeyed` is 0 and whose algorithm
tag, `ipad` and `opad` (and device fields) are exactly those it was given:
only the hash state, `innerHash` and the caller's buffer may have changed. -/
theorem C21_final_frame (env : Env σ) (h : Hmac σ) (out : List Nat)
    (hsw : Software env h.devId)
    (hret : (wc_HmacFinal env (some h) (some out)).1 = 0) :
    ∃ h', (wc_HmacFinal env (some h) (some out)).2.1 = some h' ∧
      h'.innerHashKeyed = 0 ∧ h'.macType = h.macType ∧ h'.ipad = h.ipad ∧ h'.opad = h.opad ∧
      h'.devId = h.devId ∧ h'.devCtx = h.devCtx ∧ h'.keyRaw = h.keyRaw ∧
      h'.keyLen = h.keyLen :=
  final_keeps env h out hsw hret

/-- Witness of C21: `wc_HmacFinal` on a context keyed for HMAC-SHA256 over the
toy hash. -/
theorem C21_final_frame_witness :
    ∃ h', (wc_HmacFinal toyEnv
        (some ((wc_HmacSetKey toyEnv (some (zeroHmac toyEnv)) WC_SHA256 (some [1, 2, 3])
          3).2.getD (zeroHmac toyEnv)))
        (some (List.replicate 32 0))).2.1 = some h' ∧
      h'.innerHashKeyed = 0 ∧
      h'.macType = ((wc_HmacSetKey toyEnv (some (zeroHmac toyEnv)) WC_SHA256
        (some [1, 2, 3]) 3).2.getD (zeroHmac toyEnv)).macType ∧
      h'.ipad = ((wc_HmacSetKey toyEnv (some (zeroHmac toyEnv)) WC_SHA256
        (some [1, 2, 3]) 3).2.getD (zeroHmac toyEnv)).ipad ∧
      h'.opad = ((wc_HmacSetKey toyEnv (some (zeroHmac toyEnv)) WC_SHA256
        (some [1, 2, 3]) 3).2.getD (zeroHmac toyEnv)).opad :=
  (C21_final_frame toyEnv
    ((wc_HmacSetKey toyEnv (some (zeroHmac toyEnv)) WC_SHA256 (some [1, 2, 3])
      3).2.getD (zeroHmac toyEnv))
    (List.replicate 32 0) (Or.inl rfl) (by decide)).imp
    (fun _ hh => ⟨hh.1, hh.2.1, hh.2.2.1, hh.2.2.2.1, hh.2.2.2.2.1⟩)

/-- C22: on the software path and a lawful hash, for every supported
algorithm and every key the build accepts, `wc_HmacSetKey` followed directly
by `wc_HmacFinal` returns 0 and stores `HMAC(key, empty message)`; the
sequence with a `wc_HmacUpdate(msg, 0)` in between (any pointer `msg`) returns
0 from the update and ends with the same code, context and output: the inner
pad is fed once in both. -/
theorem C22_final_without_update (env : Env σ) (h0 : Hmac σ) (t : Int) (key out : List Nat)
    (hl : HashLaws env) (hs : Supported t) (hk : KeyLenOk env key.length) (hw : WF h0)
    (hsw : Software env h0.devId) :
    (wc_HmacSetKey env (some h0) t (some key) key.length).1 = 0 ∧
    (wc_HmacFinal env (wc_HmacSetKey env (some h0) t (some key) key.length).2
      (some out)).1 = 0 ∧
    (wc_HmacFinal env (wc_HmacSetKey env (some h0) t (some key) key.length).2
      (some out)).2.2 = some (HMAC env t key [] ++ out.drop (digestSize t)) ∧
    ∀ msg : Option (List Nat),
      (wc_HmacUpdate env (wc_HmacSetKey env (some h0) t (some key) key.length).2 msg 0).1
        = 0 ∧
      wc_HmacFinal env
        (wc_HmacUpdate env (wc_HmacSetKey env (some h0) t (some key) key.length).2 msg 0).2
        (some out) =
      wc_HmacFinal env (wc_HmacSetKey env (some h0) t (some key) key.length).2 (some out) :=
  setKey_final_empty env hl h0 t key out hs hk hw hsw

/-- Witness of C22: HMAC-SHA1 of the empty message over the toy hash, key
`[1, 2, 3]`. -/
theorem C22_final_without_update_witness :
    (wc_HmacFinal toyEnv (wc_HmacSetKey toyEnv (some (zeroHmac toyEnv)) WC_SHA
      (some [1, 2, 3]) [1, 2, 3].length).2 (some (List.replicate 20 0))).2.2 =
      some (HMAC toyEnv WC_SHA [1, 2, 3] [] ++ (List.replicate 20 0).drop (digestSize WC_SHA)) ∧
    wc_HmacFinal toyEnv
        (wc_HmacUpdate toyEnv (wc_HmacSetKey toyEnv (some (zeroHmac toyEnv)) WC_SHA
          (some [1, 2, 3]) [1, 2, 3].length).2 (some [7]) 0).2
        (some (List.replicate 20 0)) =
      wc_HmacFinal toyEnv (wc_HmacSetKey toyEnv (some (zeroHmac toyEnv)) WC_SHA
        (some [1, 2, 3]) [1, 2, 3].length).2 (some (List.replicate 20 0)) :=
  ⟨(C22_final_without_update toyEnv (zeroHmac toyEnv) WC_SHA [1, 2, 3] (List.replicate 20 0)
      toyEnv_laws (by decide) (Or.inl rfl) (by simp [WF, zeroHmac]) (Or.inl rfl)).2.2.1,
   ((C22_final_without_update toyEnv (zeroHmac toyEnv) WC_SHA [1, 2, 3] (List.replicate 20 0)
      toyEnv_laws (by decide) (Or.inl rfl) (by simp [WF, zeroHmac]) (Or.inl rfl)).2.2.2 (some [7])).2⟩

/-- C23: `wc_HmacSizeByType` returns 16, 20, 28, 32, 48, 64 for MD5, SHA-1,
SHA-224, SHA-256, SHA-384, SHA-512, 28, 32, 48, 64 for SHA3-224, -256, -384,
-512, and `BAD_FUNC_ARG` for every other integer; for each supported tag the
value is at most the block size of the tag, and it is the number of bytes of
`innerHash` that `wc_HmacFinal` feeds to the outer hash: on the capability
that records its calls, `SetKey`, `Update` of 2 bytes, `Final` make the calls
`Update(block size)`, `Update(2)`, `Final`, `Update(block size)`,
`Update(wc_HmacSizeByType)`, `Final`. -/
theorem C23_size_by_type :
    (wc_HmacSizeByType WC_MD5 = 16 ∧ wc_HmacSizeByType WC_SHA = 20 ∧
     wc_HmacSizeByType WC_SHA224 = 28 ∧ wc_HmacSizeByType WC_SHA256 = 32 ∧
     wc_HmacSizeByType WC_SHA384 = 48 ∧ wc_HmacSizeByType WC_SHA512 = 64 ∧
     wc_HmacSizeByType WC_SHA3_224 = 28 ∧ wc_HmacSizeByType WC_SHA3_256 = 32 ∧
     wc_HmacSizeByType WC_SHA3_384 = 48 ∧ wc_HmacSizeByType WC_SHA3_512 = 64) ∧
    (∀ t : Int, ¬ Supported t → wc_HmacSizeByType t = BAD_FUNC_ARG) ∧
    (∀ t : Int, Supported t →
      wc_HmacSizeByType t = (digestSize t : Int) ∧
      (wc_HmacSizeByType t).toNat ≤ blockSize t ∧
      (wc_HmacFinal traceEnv
        (wc_HmacUpdate traceEnv
          (wc_HmacSetKey traceEnv (some (zeroHmac traceEnv)) t (some [1, 2, 3]) 3).2
          (some [4, 5]) 2).2
        (some (List.replicate 64 0))).2.1.map (fun h => h.hash) =
        some [some (blockSize t), some 2, none, some (blockSize t),
          some (wc_HmacSizeByType t).toNat, none]) :=
  ⟨sizeByType_table, sizeByType_unsupported,
   fun t hs => ⟨sizeByType_supported t hs,
     by rw [sizeByType_supported t hs, Int.toNat_ofNat]; exact (supported_sizes t hs).2.1,
     final_trace t hs⟩⟩

/-- C24: `wc_SSH_KDF` returns `BAD_FUNC_ARG` and leaves the `key` buffer as it
was whenever one of `key`, `k`, `h`, `sessionId` is null, one of `keySz`,
`kSz`, `hSz`, `sessionIdSz` is 0, or `hashId` is not one of SHA-1, SHA-256,
SHA-384, SHA-512, the tags MD5, SHA-224 and SHA-3 that `wc_HmacSizeByType`
accepts included. -/
theorem C24_ssh_bad_args (env : Env σ) (hashId : Int) (keyId : Nat)
    (key : Option (List Nat)) (keySz : Nat) (k : Option (List Nat)) (kSz : Nat)
    (h : Option (List Nat)) (hSz : Nat) (sessionId : Option (List Nat)) (sessionIdSz : Nat)
    (hbad : key = none ∨ keySz = 0 ∨ k = none ∨ kSz = 0 ∨ h = none ∨ hSz = 0 ∨
      sessionId = none ∨ sessionIdSz = 0 ∨ ¬ SshHash hashId) :
    wc_SSH_KDF env hashId keyId key keySz k kSz h hSz sessionId sessionIdSz =
      (BAD_FUNC_ARG, key) :=
  ssh_bad_args env hashId keyId key keySz k kSz h hSz sessionId sessionIdSz hbad

/-- Witness of C24: the tag of MD5, which `wc_HmacSizeByType` accepts. -/
theorem C24_ssh_bad_args_witness :
    wc_HmacSizeByType WC_MD5 = 16 ∧
    wc_SSH_KDF toyEnv WC_MD5 65 (some [9, 9, 9, 9]) 4 (some [1]) 1 (some [1]) 1 (some [1]) 1 =
      (BAD_FUNC_ARG, some [9, 9, 9, 9]) :=
  ⟨by decide,
   C24_ssh_bad_args toyEnv WC_MD5 65 (some [9, 9, 9, 9]) 4 (some [1]) 1 (some [1]) 1
     (some [1]) 1
     (Or.inr (Or.inr (Or.inr (Or.inr (Or.inr (Or.inr (Or.inr (Or.inr (by decide)))))))))⟩

/-- C25: on the software path, for every context of a supported algorithm and
every valid message argument: the keying block is the one `Update` primitive
on the inner pad (skipped when the inner hash is keyed); `wc_HmacUpdate`
returns the code, and leaves the hash state, of the first of its primitive
calls (keying, `Update` of the message) that returns a non-zero code, and 0
with the state after the last call if none does; `wc_HmacFinal` likewise over
keying, `Final`, `Update(opad)`, `Update(innerHash)`, `Final`.  When
`wc_HmacFinal` returns a non-zero code, `innerHashKeyed` is what the keying
block left: it is non-zero whenever it was on entry or the keying succeeded. -/
theorem C25_hash_errors_propagate (env : Env σ) (h : Hmac σ) (msg : Option (List Nat))
    (n : Nat) (out : List Nat)
    (hsw : Software env h.devId) (hs : Supported h.macType)
    (hmsg : ¬ (msg.isNone ∧ n > 0)) :
    ((innerKeying env h).1 =
        (if h.innerHashKeyed = 0 then
          (env.hashUpdate h.macType h.hash (h.ipad.take (blockSize h.macType))).1 else 0) ∧
      (innerKeying env h).2.hash =
        (if h.innerHashKeyed = 0 then
          (env.hashUpdate h.macType h.hash (h.ipad.take (blockSize h.macType))).2
         else h.hash)) ∧
    (∃ h', wc_HmacUpdate env (some h) msg n = ((wc_HmacUpdate env (some h) msg n).1, some h') ∧
      ((wc_HmacUpdate env (some h) msg n).1, h'.hash) =
        stopAt [((innerKeying env h).1, (innerKeying env h).2.hash),
          ((env.hashUpdate h.macType (innerKeying env h).2.hash (rd msg n)).1,
           (env.hashUpdate h.macType (innerKeying env h).2.hash (rd msg n)).2)] h.hash) ∧
    (∃ h' o', wc_HmacFinal env (some h) (some out) =
        ((wc_HmacFinal env (some h) (some out)).1, some h', some o') ∧
      ((wc_HmacFinal env (some h) (some out)).1, h'.hash) =
        stopAt (((innerKeying env h).1, (innerKeying env h).2.hash) ::
          finalSteps env (innerKeying env h).2) h.hash ∧
      ((wc_HmacFinal env (some h) (some out)).1 ≠ 0 →
        h'.innerHashKeyed = (innerKeying env h).2.innerHashKeyed ∧
        (h.innerHashKeyed ≠ 0 ∨ (innerKeying env h).1 = 0 → h'.innerHashKeyed ≠ 0))) := by
  have hd := software_not_onDevice env h hsw
  obtain ⟨k1, _, _, _, _, k2, _, _⟩ := innerKeying_code env h hs
  obtain ⟨u, hu1, hu2, _⟩ := update_steps env h msg n hd hs hmsg
  obtain ⟨f, o, hf1, hf2, _, hf3, _⟩ := final_steps env h out hd hs
  refine ⟨⟨k1, k2⟩, ⟨u, hu1, hu2⟩, ⟨f, o, hf1, hf2, fun hne => ⟨hf3 hne, fun hk => ?_⟩⟩⟩
  rw [hf3 hne]
  exact innerKeying_keyed env h hk

/-- Witness of C25: the `Final` primitive of `flakyEnv` fails with `-1` on the
context `flakyCtx`; `wc_HmacFinal` returns `-1` and leaves `innerHashKeyed`
non-zero. -/
theorem C25_hash_errors_propagate_witness :
    (flakyEnv.hashFinal flakyCtx.macType flakyCtx.hash).1 = -1 ∧
    ∃ h' o', wc_HmacFinal flakyEnv (some flakyCtx) (some (List.replicate 20 0)) =
        (-1, some h', some o') ∧ h'.innerHashKeyed ≠ 0 := by
  obtain ⟨_, _, h', o', e, _, hk⟩ :=
    C25_hash_errors_propagate flakyEnv flakyCtx (some [9]) 1 (List.replicate 20 0)
      (Or.inl rfl) (by decide) (by decide)
  have hc : (wc_HmacFinal flakyEnv (some flakyCtx) (some (List.replicate 20 0))).1 = -1 := by
    decide
  rw [hc] at e hk
  exact ⟨by decide, h', o', e, (hk (by decide)).2 (Or.inl (by decide))⟩

set_option maxRecDepth 100000 in
/-- C26: the code of the first `_HashFinal` of `wc_SSH_KDF` is lost when two or
more whole blocks are asked for, the loop overwriting `ret` with the code of
its `_HashInit`.  On `flakyEnv`, whose `Final` fails with `-1` on the 8 bytes
of the first block (`K`, `H`, session id of one byte each, SHA-1): with
`keySz = 40` the function returns 0, the first 20 bytes of `key` unwritten and
the second block derived from them; with `keySz = 20` and `keySz = 25` it
returns `-1`. -/
theorem C26_ssh_first_final_error_lost :
    (_HashFinal flakyEnv WC_SHA
      (hashChain flakyEnv WC_SHA (_HashInit flakyEnv WC_SHA flakyEnv.hashZero)
        [c32toa 1, [1], [1], [65], [1]]).2).1 = -1 ∧
    wc_SSH_KDF flakyEnv WC_SHA 65 (some (List.replicate 40 9)) 40 (some [1]) 1 (some [1]) 1
        (some [1]) 1 =
      (0, some (List.replicate 20 9 ++ List.replicate 20 209)) ∧
    wc_SSH_KDF flakyEnv WC_SHA 65 (some (List.replicate 20 9)) 20 (some [1]) 1 (some [1]) 1
        (some [1]) 1 =
      (-1, some (List.replicate 20 9)) ∧
    wc_SSH_KDF flakyEnv WC_SHA 65 (some (List.replicate 25 9)) 25 (some [1]) 1 (some [1]) 1
        (some [1]) 1 =
      (-1, some (List.replicate 25 9)) := by
  decide

/-- C27: in a build with the crypto callback, for every context bound to a
device (`devId` other than `INVALID_DEVID`): when the callback returns
`CRYPTOCB_UNAVAILABLE` and leaves the context (for `wc_HmacFinal` also the
output buffer) as it was, `wc_HmacUpdate` and `wc_HmacFinal` give the code,
context and output of the build without the callback on the same arguments;
when it returns any other code, that code is returned with the context and
output the callback left, no hash primitive being called; and if no hash
primitive returns `CRYPTOCB_UNAVAILABLE`, the software path does not either. -/
theorem C27_device_fallback (env : Env σ) (h : Hmac σ) (msg : Option (List Nat)) (n : Nat)
    (o : List Nat) (hon : onDevice env h) (hmsg : ¬ (msg.isNone ∧ n > 0)) :
    ((env.wc_CryptoCb_Hmac h h.macType msg n none).1 = CRYPTOCB_UNAVAILABLE →
      (env.wc_CryptoCb_Hmac h h.macType msg n none).2.1 = h →
      wc_HmacUpdate env (some h) msg n = wc_HmacUpdate (softwareEnv env) (some h) msg n) ∧
    ((env.wc_CryptoCb_Hmac h h.macType none 0 (some o)).1 = CRYPTOCB_UNAVAILABLE →
      (env.wc_CryptoCb_Hmac h h.macType none 0 (some o)).2.1 = h →
      (env.wc_CryptoCb_Hmac h h.macType none 0 (some o)).2.2 = some o →
      wc_HmacFinal env (some h) (some o) =
        wc_HmacFinal (softwareEnv env) (some h) (some o)) ∧
    ((env.wc_CryptoCb_Hmac h h.macType msg n none).1 ≠ CRYPTOCB_UNAVAILABLE →
      wc_HmacUpdate env (some h) msg n =
        ((env.wc_CryptoCb_Hmac h h.macType msg n none).1,
          some (env.wc_CryptoCb_Hmac h h.macType msg n none).2.1)) ∧
    ((env.wc_CryptoCb_Hmac h h.macType none 0 (some o)).1 ≠ CRYPTOCB_UNAVAILABLE →
      wc_HmacFinal env (some h) (some o) =
        ((env.wc_CryptoCb_Hmac h h.macType none 0 (some o)).1,
          some (env.wc_CryptoCb_Hmac h h.macType none 0 (some o)).2.1,
          (env.wc_CryptoCb_Hmac h h.macType none 0 (some o)).2.2)) ∧
    ((∀ t s d, (env.hashUpdate t s d).1 ≠ CRYPTOCB_UNAVAILABLE) →
      (∀ t s, (env.hashFinal t s).1 ≠ CRYPTOCB_UNAVAILABLE) →
      (wc_HmacUpdate (softwareEnv env) (some h) msg n).1 ≠ CRYPTOCB_UNAVAILABLE ∧
      (wc_HmacFinal (softwareEnv env) (some h) (some o)).1 ≠ CRYPTOCB_UNAVAILABLE) :=
  ⟨fun h1 h2 => update_unavailable env h msg n hon h1 h2,
   fun h1 h2 h3 => final_unavailable env h o hon h1 h2 h3,
   fun h1 => update_device env h msg n hon hmsg h1,
   fun h1 => final_device env h o hon h1,
   fun hu hf => unavailable_not_surfaced env h msg n o hu hf⟩

set_option maxRecDepth 100000 in
/-- Witness of C27: on `deviceEnv` the context bound to device 1, which is
unavailable, behaves as in the build without the callback and returns 0; the
context bound to device 2, which fails, returns the device's `-1`. -/
theorem C27_device_fallback_witness :
    onDevice deviceEnv (deviceCtx 1) ∧ onDevice deviceEnv (deviceCtx 2) ∧
    wc_HmacUpdate deviceEnv (some (deviceCtx 1)) (some [4, 5]) 2 =
      wc_HmacUpdate (softwareEnv deviceEnv) (some (deviceCtx 1)) (some [4, 5]) 2 ∧
    wc_HmacFinal deviceEnv (some (deviceCtx 1)) (some (List.replicate 32 0)) =
      wc_HmacFinal (softwareEnv deviceEnv) (some (deviceCtx 1)) (some (List.replicate 32 0)) ∧
    (wc_HmacUpdate deviceEnv (some (deviceCtx 1)) (some [4, 5]) 2).1 = 0 ∧
    wc_HmacUpdate deviceEnv (some (deviceCtx 2)) (some [4, 5]) 2 =
      (-1, some (deviceCtx 2)) ∧
    wc_HmacFinal deviceEnv (some (deviceCtx 2)) (some (List.replicate 32 0)) =
      (-1, some (deviceCtx 2), some (List.replicate 32 0)) :=
  ⟨by decide, by decide,
   (C27_device_fallback deviceEnv (deviceCtx 1) (some [4, 5]) 2 (List.replicate 32 0)
      (by decide) (by decide)).1 (by decide) (by rw [deviceEnv_cb]),
   (C27_device_fallback deviceEnv (deviceCtx 1) (some [4, 5]) 2 (List.replicate 32 0)
      (by decide) (by decide)).2.1 (by decide) (by rw [deviceEnv_cb]) (by rw [deviceEnv_cb]),
   by decide,
   ((C27_device_fallback deviceEnv (deviceCtx 2) (some [4, 5]) 2 (List.replicate 32 0)
      (by decide) (by decide)).2.2.1 (by decide)).trans
      (by rw [deviceEnv_cb, if_neg (by decide : ¬ (deviceCtx 2).devId = 1)]),
   ((C27_device_fallback deviceEnv (deviceCtx 2) (some [4, 5]) 2 (List.replicate 32 0)
      (by decide) (by decide)).2.2.2.1 (by decide)).trans
      (by rw [deviceEnv_cb, if_neg (by decide : ¬ (deviceCtx 2).devId = 1)])⟩

/-- C28: on the software path, for every context, `wc_HmacFree` changes the
hash state only, by the `Free` primitive of the bound algorithm (applied twice
for MD5 and SHA-1/224/256/384/512, once for SHA-3, not at all with no
algorithm bound): the context it leaves has the `ipad`, `opad` and `innerHash`
bytes, the algorithm tag and the `innerHashKeyed` flag it was given; no buffer
is zeroed. -/
theorem C28_free_keeps_pads (env : Env σ) (h : Hmac σ) (hsw : Software env h.devId) :
    wc_HmacFree env (some h) =
      some { h with hash :=
        if h.macType = WC_MD5 ∨ h.macType = WC_SHA ∨ h.macType = WC_SHA224 ∨
            h.macType = WC_SHA256 ∨ h.macType = WC_SHA384 ∨ h.macType = WC_SHA512 then
          env.hashFree h.macType (env.hashFree h.macType h.hash)
        else if Supported h.macType then env.hashFree h.macType h.hash
        else h.hash } ∧
    ∃ h', wc_HmacFree env (some h) = some h' ∧
      h'.ipad = h.ipad ∧ h'.opad = h.opad ∧ h'.innerHash = h.innerHash ∧
      h'.macType = h.macType ∧ h'.innerHashKeyed = h.innerHashKeyed :=
  ⟨congrArg some (HmacFree_eq env h (software_not_onDevice env h hsw)),
   HmacFree env h, rfl, HmacFree_keeps env h (software_not_onDevice env h hsw)⟩

set_option maxRecDepth 100000 in
/-- Witness of C28: `wc_HmacFree` on the context of a finished HMAC-MD5 run
over the toy hash, whose `Free` leaves the empty state. -/
theorem C28_free_keeps_pads_witness :
    (wc_HmacFree toyEnv (some usedCtx)).map (fun h => h.hash) = some [] ∧
    ∃ h', wc_HmacFree toyEnv (some usedCtx) = some h' ∧
      h'.ipad = usedCtx.ipad ∧ h'.opad = usedCtx.opad ∧ h'.innerHash = usedCtx.innerHash ∧
      h'.macType = usedCtx.macType ∧ h'.innerHashKeyed = usedCtx.innerHashKeyed :=
  ⟨(congrArg (fun o => Option.map (fun h => h.hash) o)
      (C28_free_keeps_pads toyEnv usedCtx (Or.inl rfl)).1).trans (by decide),
   (C28_free_keeps_pads toyEnv usedCtx (Or.inl rfl)).2⟩

set_option maxRecDepth 100000 in
/-- C28, the failing input: after `wc_HmacSetKey` with the key `[1, 2, 3]`,
`wc_HmacUpdate`, `wc_HmacFinal` and `wc_HmacFree` under HMAC-MD5 over the toy
hash, `ipad` starts with `1 ^ 0x36, 2 ^ 0x36, 3 ^ 0x36, 0x36`, `opad` with
`1 ^ 0x5c, 2 ^ 0x5c, 3 ^ 0x5c, 0x5c`, and `innerHash` with the inner digest:
none of the three buffers is all zero. -/
theorem C28_free_keeps_pads_counterexample :
    ∃ h', wc_HmacFree toyEnv (some usedCtx) = some h' ∧
      h'.ipad.take 4 = [55, 52, 53, 54] ∧ h'.opad.take 4 = [93, 94, 95, 92] ∧
      h'.innerHash.take 4 = [201, 201, 201, 201] ∧
      h'.ipad ≠ List.replicate WC_HMAC_BLOCK_SIZE 0 ∧
      h'.opad ≠ List.replicate WC_HMAC_BLOCK_SIZE 0 ∧
      h'.innerHash ≠ List.replicate WC_MAX_DIGEST_SIZE 0 :=
  ⟨HmacFree toyEnv usedCtx, rfl, by decide, by decide, by decide, by decide, by decide,
    by decide⟩

/-- C29: for every type that is not a supported tag and every non-null `out`,
`wc_HKDF_Expand` writes nothing to `out`; it returns `BAD_FUNC_ARG` when
`outSz` is not 0 (from `wc_HmacSetKey` in the first round of the loop) and 0
when `outSz` is 0: the negative `wc_HmacSizeByType` is stored in the `word32`
`hashSz` unchecked, the block count is 0 and the loop does not run. -/
theorem C29_expand_unsupported_type (env : Env σ) (t : Int) (inKey : Option (List Nat))
    (inKeySz : Nat) (info : Option (List Nat)) (infoSz : Nat) (o : List Nat) (outSz : Nat)
    (hu : ¬ Supported t) (h32 : outSz < 4294967296) :
    wc_HKDF_Expand env t inKey inKeySz info infoSz (some o) outSz =
      (if outSz = 0 then 0 else BAD_FUNC_ARG, some o) := by
  by_cases hz : outSz = 0
  · subst hz
    rw [if_pos rfl]
    exact expand_unsupported_zero env t inKey inKeySz info infoSz o hu
  · rw [if_neg hz]
    exact expand_unsupported_pos env t inKey inKeySz info infoSz o outSz hu
      (Nat.pos_of_ne_zero hz) h32

/-- Witness of C29: `WC_HASH_TYPE_NONE` with `outSz = 0` returns 0, where
`wc_HKDF_Extract` on the same type returns `BAD_FUNC_ARG`. -/
theorem C29_expand_unsupported_type_witness :
    wc_HKDF_Expand toyEnv WC_HASH_TYPE_NONE (some [1]) 1 (some [2]) 1 (some [7, 7]) 0 =
      (0, some [7, 7]) ∧
    (wc_HKDF_Extract toyEnv WC_HASH_TYPE_NONE (some [1]) 1 (some [2]) 1 (some [7, 7])).1 =
      BAD_FUNC_ARG :=
  ⟨(C29_expand_unsupported_type toyEnv WC_HASH_TYPE_NONE (some [1]) 1 (some [2]) 1 [7, 7] 0
      (by decide) (by decide)).trans (by decide),
   by decide⟩

/-- C30: for all inputs, when `wc_PRF_TLSv1` returns a non-zero code (the
`BUFFER_E` of the size check or the code of either `wc_PRF` run) the caller's
`digest` buffer is what it was: it is written only after both runs returned
0. -/
theorem C30_tlsv1_failure_keeps_digest (env : Env σ) (digest : List Nat) (digLen : Nat)
    (secret : Option (List Nat)) (secLen : Nat) (label : Option (List Nat)) (labLen : Nat)
    (seed : Option (List Nat)) (seedLen : Nat) (devId : Int)
    (hret : (wc_PRF_TLSv1 env digest digLen secret secLen label labLen seed seedLen
      devId).1 ≠ 0) :
    (wc_PRF_TLSv1 env digest digLen secret secLen label labLen seed seedLen devId).2 =
      digest :=
  tlsv1_failure_keeps env digest digLen secret secLen label labLen seed seedLen devId hret

/-- Witness of C30: `digLen = 225` exceeds `MAX_PRF_DIG`; the call returns
`BUFFER_E` and `digest` is untouched. -/
theorem C30_tlsv1_failure_keeps_digest_witness :
    (wc_PRF_TLSv1 toyEnv [7, 7] 225 (some [1]) 1 (some [2]) 1 (some [3]) 1
      INVALID_DEVID).1 = BUFFER_E ∧
    (wc_PRF_TLSv1 toyEnv [7, 7] 225 (some [1]) 1 (some [2]) 1 (some [3]) 1
      INVALID_DEVID).2 = [7, 7] :=
  ⟨by decide,
   C30_tlsv1_failure_keeps_digest toyEnv [7, 7] 225 (some [1]) 1 (some [2]) 1 (some [3]) 1
     INVALID_DEVID (by decide)⟩

/-- C31: with a lawful hash, for every supported algorithm, key, info and
lengths `L1 ≤ L2 ≤ 255 * digest size`, `wc_HKDF_Expand` returns 0 for both
lengths and the `L1` bytes it writes for `outSz = L1` are the first `L1` bytes
it writes for `outSz = L2`, both being the first `L1` bytes of the RFC 5869
stream `T(1) || T(2) || ...`. -/
theorem C31_expand_prefix (env : Env σ) (hl : HashLaws env) (t : Int)
    (prk info o1 o2 : List Nat) (L1 L2 : Nat) (hs : Supported t)
    (hk : KeyLenOk env prk.length) (h12 : L1 ≤ L2) (h2 : L2 ≤ 255 * digestSize t) :
    ∃ w1 w2,
      wc_HKDF_Expand env t (some prk) prk.length (some info) info.length (some o1) L1 =
        (0, some w1) ∧
      wc_HKDF_Expand env t (some prk) prk.length (some info) info.length (some o2) L2 =
        (0, some w2) ∧
      w1.take L1 = w2.take L1 ∧ w1.take L1 = (hkdfOkm env t prk info).take L1 ∧
      (w1.take L1).length = L1 :=
  expand_prefix env hl t prk info o1 o2 L1 L2 hs hk h12 h2

set_option maxRecDepth 100000 in
/-- Witness of C31: HKDF-SHA256 over the toy hash, 40 and 70 bytes. -/
theorem C31_expand_prefix_witness :
    ∃ w1 w2,
      wc_HKDF_Expand toyEnv WC_SHA256 (some [1, 2, 3]) [1, 2, 3].length (some [4]) [4].length
        (some (List.replicate 40 0)) 40 = (0, some w1) ∧
      wc_HKDF_Expand toyEnv WC_SHA256 (some [1, 2, 3]) [1, 2, 3].length (some [4]) [4].length
        (some (List.replicate 70 9)) 70 = (0, some w2) ∧
      w1.take 40 = w2.take 40 ∧ w1.take 40 = (hkdfOkm toyEnv WC_SHA256 [1, 2, 3] [4]).take 40 ∧
      (w1.take 40).length = 40 :=
  C31_expand_prefix toyEnv toyEnv_laws WC_SHA256 [1, 2, 3] [4] (List.replicate 40 0)
    (List.replicate 70 9) 40 70 (by decide) (Or.inl rfl) (by decide) (by decide)

/-- C32: on the software path and with `Final` primitives that reset the hash
state, every context reached from `wc_HmacInit` by a sequence of
`wc_HmacSetKey`, `wc_HmacUpdate`, `wc_HmacFinal` calls in which no
`wc_HmacSetKey` fails past its argument check (`wc_HmacUpdate` and
`wc_HmacFinal` may fail) is uninitialised, the tag being
`WC_HASH_TYPE_NONE`, if no `wc_HmacSetKey` has returned 0, and else has the
algorithm of the last `wc_HmacSetKey` that returned 0 bound and both pads
derived from its key. -/
theorem C32_uninitialised_or_keyed (env : Env σ) (hfr : FinalResets env) (x : Hmac σ)
    (devId : Int) (calls : List HmacCall) (hsw : Software env devId)
    (hall : ∀ e ∈ (runCalls env (wc_HmacInit env (some x) devId).2 calls).1, Settled e) :
    ∃ h, (runCalls env (wc_HmacInit env (some x) devId).2 calls).2 = some h ∧
      KeyedBy env h (lastKey none (runCalls env (wc_HmacInit env (some x) devId).2 calls).1) := by
  obtain ⟨h0, e0, hw0, hm0, _, _, hd0⟩ := init_fields env x devId
  have hsw0 : Software env h0.devId := by rw [hd0]; exact init_software env _ hsw
  have e2 : (wc_HmacInit env (some x) devId).2 = some h0 := by rw [e0]
  rw [e2] at hall ⊢
  obtain ⟨h, r1, _, _, r4⟩ := run_keyed env hfr calls h0 none hw0 hsw0 hm0 hall
  exact ⟨h, r1, r4⟩

set_option maxRecDepth 100000 in
/-- Witness of C32: on `faultyEnv`, a `wc_HmacSetKey` with an unsupported type
(rejected), one for HMAC-SHA256 with the key `[1, 2, 3]`, a `wc_HmacUpdate`
that fails and a `wc_HmacFinal`: the context is keyed for SHA-256 with
`[1, 2, 3]`. -/
theorem C32_uninitialised_or_keyed_witness :
    ∃ h, (runCalls faultyEnv
        (wc_HmacInit faultyEnv (some (zeroHmac faultyEnv)) INVALID_DEVID).2
        [.setKey 9 [1], .setKey WC_SHA256 [1, 2, 3], .update (List.replicate 201 0),
          .final (List.replicate 32 0)]).2 = some h ∧
      KeyedBy faultyEnv h (some (WC_SHA256, [1, 2, 3])) :=
  C32_uninitialised_or_keyed faultyEnv faultyEnv_resets (zeroHmac faultyEnv) INVALID_DEVID
    [.setKey 9 [1], .setKey WC_SHA256 [1, 2, 3], .update (List.replicate 201 0),
      .final (List.replicate 32 0)] (Or.inl rfl) (by decide)

set_option maxRecDepth 100000 in
/-- Counterexample to C32 as stated: on `faultyEnv`, after `wc_HmacInit` a
`wc_HmacSetKey` for HMAC-SHA384 whose hash `Init` fails, and one for
HMAC-SHA256 with a key of 201 bytes whose hashing fails, return `-1` and leave
the algorithm bound with both pads still zero: the context is neither
uninitialised nor keyed with the key of that call. -/
theorem C32_uninitialised_or_keyed_counterexample :
    (∃ h, runCalls faultyEnv
        (wc_HmacInit faultyEnv (some (zeroHmac faultyEnv)) INVALID_DEVID).2
        [.setKey WC_SHA384 [1, 2, 3]] = ([(.setKey WC_SHA384 [1, 2, 3], -1, none)], some h) ∧
      h.macType = WC_SHA384 ∧ h.ipad.take 4 = [0, 0, 0, 0] ∧ h.opad.take 4 = [0, 0, 0, 0] ∧
      ¬ KeyedBy faultyEnv h none ∧ ¬ KeyedBy faultyEnv h (some (WC_SHA384, [1, 2, 3]))) ∧
    (∃ h, (runCalls faultyEnv
        (wc_HmacInit faultyEnv (some (zeroHmac faultyEnv)) INVALID_DEVID).2
        [.setKey WC_SHA256 (List.replicate 201 7)]).2 = some h ∧
      (runCalls faultyEnv
        (wc_HmacInit faultyEnv (some (zeroHmac faultyEnv)) INVALID_DEVID).2
        [.setKey WC_SHA256 (List.replicate 201 7)]).1.map (fun e => e.2.1) = [-1] ∧
      h.macType = WC_SHA256 ∧ h.ipad.take 4 = [0, 0, 0, 0] ∧ h.opad.take 4 = [0, 0, 0, 0] ∧
      ¬ KeyedBy faultyEnv h none ∧
      ¬ KeyedBy faultyEnv h (some (WC_SHA256, List.replicate 201 7))) := by
  refine ⟨⟨_, rfl, by decide, by decide, by decide, ?_, ?_⟩,
    ⟨_, rfl, by decide, by decide, by decide, by decide, ?_, ?_⟩⟩
  · simp only [KeyedBy]; decide
  · simp only [KeyedBy]; decide
  · simp only [KeyedBy]; decide
  · simp only [KeyedBy]; decide

/-- C33: with a lawful hash, on the software path, in every context reached
from `wc_HmacInit` by `wc_HmacSetKey`, `wc_HmacUpdate`, `wc_HmacFinal` calls
that all return 0 and that has an algorithm bound: `innerHashKeyed` is 0
exactly when no `wc_HmacUpdate` has been made since the last `wc_HmacSetKey`
or `wc_HmacFinal`, and then the hash state is the freshly initialised one;
else the hash state is the fresh one fed with `ipad[0 .. block size)` followed
by the message bytes so far.  While no algorithm is bound the tag stays
`WC_HASH_TYPE_NONE`. -/
theorem C33_inner_keyed_tracks (env : Env σ) (hl : HashLaws env) (x : Hmac σ)
    (devId : Int) (calls : List HmacCall) (hsw : Software env devId)
    (hok : ∀ e ∈ (runCalls env (wc_HmacInit env (some x) devId).2 calls).1, e.2.1 = 0) :
    ∃ h, (runCalls env (wc_HmacInit env (some x) devId).2 calls).2 = some h ∧
      match trackAll none calls with
      | none => h.macType = WC_HASH_TYPE_NONE
      | some (t, _, m) =>
        h.macType = t ∧ Supported t ∧ (h.innerHashKeyed = 0 ↔ m = none) ∧
        (m = none → h.hash = freshState env t) ∧
        ∀ b, m = some b →
          h.hash = (env.hashUpdate t (freshState env t) (h.ipad.take (blockSize t) ++ b)).2 := by
  obtain ⟨h0, e0, hw0, hm0, _, _, hd0⟩ := init_fields env x devId
  have hsw0 : Software env h0.devId := by rw [hd0]; exact init_software env _ hsw
  have e2 : (wc_HmacInit env (some x) devId).2 = some h0 := by rw [e0]
  rw [e2] at hok ⊢
  obtain ⟨h, r1, r2, _⟩ := run_tracks env hl calls h0 none ⟨hw0, hsw0, hm0⟩ hok
  refine ⟨h, r1, ?_⟩
  generalize trackAll none calls = st at r2
  match st, r2 with
  | none, r2 => exact r2.2.2
  | some (t, key, none), r2 =>
    obtain ⟨hs, hr⟩ := r2
    exact ⟨hr.macType, hs, ⟨fun _ => rfl, fun _ => hr.unkeyed⟩, fun _ => hr.fresh,
      fun b hb => by cases hb⟩
  | some (t, key, some m), r2 =>
    obtain ⟨hs, base, hr, e⟩ := r2
    subst e
    refine ⟨hr.macType, hs, ⟨fun hz => ?_, fun hn => (by cases hn)⟩, fun hn => (by cases hn),
      fun b hb => ?_⟩
    · exact absurd hz (by simp [absorb, WC_HMAC_INNER_HASH_KEYED_SW])
    · cases hb
      simp only [absorb, hr.macType, hr.fresh]

set_option maxRecDepth 100000 in
/-- Witness of C33: HMAC-SHA256 over the toy hash, whose state is the list of
the bytes absorbed: after `wc_HmacSetKey` the state is empty and the flag 0,
after `wc_HmacUpdate([4, 5])` the flag is set and the state is the inner pad
followed by `4, 5`.  On an unbound context `wc_HmacUpdate` returns 0 and sets
the flag with nothing absorbed. -/
theorem C33_inner_keyed_tracks_witness :
    (∃ h, (runCalls toyEnv (wc_HmacInit toyEnv (some (zeroHmac toyEnv)) INVALID_DEVID).2
        [.setKey WC_SHA256 [1, 2, 3], .update [4, 5]]).2 = some h ∧
      h.macType = WC_SHA256 ∧ h.innerHashKeyed ≠ 0 ∧
      h.hash = (toyEnv.hashUpdate WC_SHA256 (freshState toyEnv WC_SHA256)
        (h.ipad.take (blockSize WC_SHA256) ++ [4, 5])).2) ∧
    (runCalls toyEnv (wc_HmacInit toyEnv (some (zeroHmac toyEnv)) INVALID_DEVID).2
        [.update [1, 2]]).1.map (fun e => e.2.1) = [0] ∧
    (runCalls toyEnv (wc_HmacInit toyEnv (some (zeroHmac toyEnv)) INVALID_DEVID).2
        [.update [1, 2]]).2.map (fun h => (h.macType, h.innerHashKeyed, h.hash)) =
      some (WC_HASH_TYPE_NONE, 1, []) := by
  obtain ⟨h, e, hm⟩ := C33_inner_keyed_tracks toyEnv toyEnv_laws (zeroHmac toyEnv)
    INVALID_DEVID [.setKey WC_SHA256 [1, 2, 3], .update [4, 5]] (Or.inl rfl) (by decide)
  simp only [trackAll, track] at hm
  exact ⟨⟨h, e, hm.1, fun hz => by simpa using hm.2.2.1.mp hz, hm.2.2.2.2 _ rfl⟩,
    by decide, by decide⟩

/-- C34: on the software path `wc_HmacFree` applies the `Free` primitive to
the hash state twice when the algorithm is MD5, SHA-1, SHA-224, SHA-256,
SHA-384 or SHA-512, both `switch` blocks having a `case` for it, and once when
it is one of the four SHA-3 algorithms, which only the first block has. -/
theorem C34_free_twice (env : Env σ) (h : Hmac σ) (hsw : Software env h.devId) :
    ((h.macType = WC_MD5 ∨ h.macType = WC_SHA ∨ h.macType = WC_SHA224 ∨
        h.macType = WC_SHA256 ∨ h.macType = WC_SHA384 ∨ h.macType = WC_SHA512) →
      (HmacFree env h).hash = env.hashFree h.macType (env.hashFree h.macType h.hash)) ∧
    ((h.macType = WC_SHA3_224 ∨ h.macType = WC_SHA3_256 ∨ h.macType = WC_SHA3_384 ∨
        h.macType = WC_SHA3_512) →
      (HmacFree env h).hash = env.hashFree h.macType h.hash) :=
  ⟨(HmacFree_calls env h (software_not_onDevice env h hsw)).1,
   (HmacFree_calls env h (software_not_onDevice env h hsw)).2.1⟩

set_option maxRecDepth 100000 in
/-- Witness of C34: on the capability that counts its `Free` calls, one
`wc_HmacFree` of a context keyed for HMAC-SHA256 makes 2 calls, of one keyed
for HMAC-SHA3-256 makes 1. -/
theorem C34_free_twice_witness :
    (wc_HmacFree countEnv (some (countCtx WC_SHA256))).map (fun h => h.hash) = some 2 ∧
    (wc_HmacFree countEnv (some (countCtx WC_SHA3_256))).map (fun h => h.hash) = some 1 :=
  ⟨congrArg some (((C34_free_twice countEnv (countCtx WC_SHA256) (Or.inl rfl)).1
      (by decide)).trans (by decide)),
   congrArg some (((C34_free_twice countEnv (countCtx WC_SHA3_256) (Or.inl rfl)).2
      (by decide)).trans (by decide))⟩

set_option maxRecDepth 100000 in
/-- C35: `wc_Tls13_HKDF_Expand_Label` has no check of the label sizes: the
bytes it stores into the scratch buffer `data` reach index
`4 + protocolLen + labelLen + infoLen`, beyond `MAX_TLS13_HKDF_LABEL_SZ` when
that sum is larger (the model shows the stores past the end as a longer list).
With a protocol of 6, a label of 100 and an info of 32 bytes, 142 bytes are
stored into the 111-byte buffer and the call returns 0. -/
theorem C35_label_scratch_overrun :
    (∀ (okmLen : Nat) (protocol label info : List Nat),
      (hkdfLabelData okmLen (some protocol) protocol.length (some label) label.length
        (some info) info.length).1.length =
        max MAX_TLS13_HKDF_LABEL_SZ
          (4 + protocol.length + label.length + info.length)) ∧
    MAX_TLS13_HKDF_LABEL_SZ = 111 ∧
    (hkdfLabelData 32 (some [116, 108, 115, 49, 51, 32]) 6 (some (List.replicate 100 65)) 100
      (some (List.replicate 32 5)) 32).1.length = 142 ∧
    (wc_Tls13_HKDF_Expand_Label toyEnv (some (List.replicate 32 0)) 32 (some [1, 2, 3]) 3
      (some [116, 108, 115, 49, 51, 32]) 6 (some (List.replicate 100 65)) 100
      (some (List.replicate 32 5)) 32 WC_SHA256).1 = 0 :=
  ⟨hkdfLabelData_length, by decide, by decide, by decide⟩

/-- C36: after every `wc_HmacSetKey` that returns 0, for every supported
algorithm with block size `B`, every key and every `i < B`:
`ipad[i] xor opad[i] = 0x6A`. -/
theorem C36_pads_xor (env : Env σ) (h0 : Hmac σ) (t : Int) (key : List Nat)
    (hs : Supported t) (hw : WF h0)
    (hret : (wc_HmacSetKey env (some h0) t (some key) key.length).1 = 0) :
    ∃ h', wc_HmacSetKey env (some h0) t (some key) key.length = (0, some h') ∧
      ∀ i, i < blockSize t → h'.ipad.getD i 0 ^^^ h'.opad.getD i 0 = 0x6A :=
  setKey_pads_xor env h0 t key hs hw hret

set_option maxRecDepth 100000 in
/-- Witness of C36: HMAC-SHA512 over the toy hash with a key of 200 bytes,
longer than the block. -/
theorem C36_pads_xor_witness :
    ∃ h', wc_HmacSetKey toyEnv (some (zeroHmac toyEnv)) WC_SHA512
        (some (List.replicate 200 7)) (List.replicate 200 7).length = (0, some h') ∧
      ∀ i, i < blockSize WC_SHA512 → h'.ipad.getD i 0 ^^^ h'.opad.getD i 0 = 0x6A :=
  C36_pads_xor toyEnv (zeroHmac toyEnv) WC_SHA512 (List.replicate 200 7) (by decide)
    (by simp [WF, zeroHmac]) (by decide)

/-- C37: with a lawful hash, on the software path, for every supported
algorithm with block size `B`, every key `k` the build accepts and every `j`
with `len(k) + j ≤ B`: `wc_HmacSetKey` with `k` and with `k` followed by `j`
zero bytes both return 0 and leave the same `ipad[0 .. B)`, `opad[0 .. B)`,
tag, flag and hash state; an HMAC run gives the same code and digest for every
message; and, where the empty key is accepted, `wc_HKDF_Extract` with a null
salt equals `wc_HKDF_Extract` with a non-null empty salt. -/
theorem C37_zero_padded_key (env : Env σ) (hl : HashLaws env) (h0 : Hmac σ) (t : Int)
    (k : List Nat) (j : Nat) (hs : Supported t) (hw : WF h0) (hsw : Software env h0.devId)
    (hk : KeyLenOk env k.length) (hfit : k.length + j ≤ blockSize t) :
    (∃ h1 h2,
      wc_HmacSetKey env (some h0) t (some k) k.length = (0, some h1) ∧
      wc_HmacSetKey env (some h0) t (some (k ++ List.replicate j 0))
        (k ++ List.replicate j 0).length = (0, some h2) ∧
      h1.ipad.take (blockSize t) = h2.ipad.take (blockSize t) ∧
      h1.opad.take (blockSize t) = h2.opad.take (blockSize t) ∧
      h1.macType = h2.macType ∧ h1.innerHashKeyed = h2.innerHashKeyed ∧
      h1.hash = h2.hash) ∧
    (∀ msg out : List Nat,
      hmacRun env t (some (k ++ List.replicate j 0)) (k ++ List.replicate j 0).length
          (some msg) msg.length (some out) =
        hmacRun env t (some k) k.length (some msg) msg.length (some out) ∧
      hmacRun env t (some k) k.length (some msg) msg.length (some out) =
        (0, some (HMAC env t k msg ++ out.drop (digestSize t)))) ∧
    (KeyLenOk env 0 → ∀ (ikm out : List Nat) (saltSz : Nat),
      wc_HKDF_Extract env t none saltSz (some ikm) ikm.length (some out) =
        wc_HKDF_Extract env t (some []) 0 (some ikm) ikm.length (some out)) :=
  ⟨setKey_zeros env hl h0 t k j hs hw hsw hk hfit,
   fun msg out => ⟨hmacRun_zeros env hl t k msg out j hs hk hfit,
     hmacRun_laws env hl t k msg out hs hk⟩,
   fun h0k ikm out saltSz => extract_null_eq_empty env hl t ikm out saltSz hs h0k⟩

/-- Witness of C37: HMAC-SHA256 over the toy hash, the key `[1, 2, 3]` and the
same key followed by five zero bytes; HKDF-Extract with a null and with an
empty salt. -/
theorem C37_zero_padded_key_witness :
    hmacRun toyEnv WC_SHA256 (some ([1, 2, 3] ++ List.replicate 5 0))
        ([1, 2, 3] ++ List.replicate 5 0).length (some [4, 5]) [4, 5].length
        (some (List.replicate 32 0)) =
      hmacRun toyEnv WC_SHA256 (some [1, 2, 3]) [1, 2, 3].length (some [4, 5]) [4, 5].length
        (some (List.replicate 32 0)) ∧
    wc_HKDF_Extract toyEnv WC_SHA256 none 0 (some [4, 5]) [4, 5].length
        (some (List.replicate 32 0)) =
      wc_HKDF_Extract toyEnv WC_SHA256 (some []) 0 (some [4, 5]) [4, 5].length
        (some (List.replicate 32 0)) :=
  ⟨((C37_zero_padded_key toyEnv toyEnv_laws (zeroHmac toyEnv) WC_SHA256 [1, 2, 3] 5
      (by decide) (by simp [WF, zeroHmac]) (Or.inl rfl) (Or.inl rfl) (by decide)).2.1
      [4, 5] (List.replicate 32 0)).1,
   (C37_zero_padded_key toyEnv toyEnv_laws (zeroHmac toyEnv) WC_SHA256 [1, 2, 3] 5
      (by decide) (by simp [WF, zeroHmac]) (Or.inl rfl) (Or.inl rfl) (by decide)).2.2
      (Or.inl rfl) [4, 5] (List.replicate 32 0) 0⟩

/-- C38: with a lawful hash, for any two contexts on the software path, a
supported algorithm and a key the build accepts: `wc_HmacSetKey(type, key)`
returns 0 on both and leaves the same tag, the same flag and the same
`ipad[0 .. B)`, `opad[0 .. B)`; and for every sequence of `wc_HmacUpdate` and
`wc_HmacFinal` calls after it, the two runs return the same codes and store
the same digests, each `wc_HmacFinal` the HMAC under `key` of the message fed
since the `wc_HmacFinal` before it. -/
theorem C38_rekeying_determinism (env : Env σ) (hl : HashLaws env) (h1 h2 : Hmac σ)
    (t : Int) (key : List Nat) (rest : List HmacCall) (hs : Supported t)
    (hk : KeyLenOk env key.length) (hw1 : WF h1) (hw2 : WF h2)
    (hsw1 : Software env h1.devId) (hsw2 : Software env h2.devId)
    (hrest : ∀ c ∈ rest, c.isSetKey = false) :
    (∃ g1 g2,
      wc_HmacSetKey env (some h1) t (some key) key.length = (0, some g1) ∧
      wc_HmacSetKey env (some h2) t (some key) key.length = (0, some g2) ∧
      g1.macType = g2.macType ∧ g1.innerHashKeyed = g2.innerHashKeyed ∧
      g1.ipad.take (blockSize t) = g2.ipad.take (blockSize t) ∧
      g1.opad.take (blockSize t) = g2.opad.take (blockSize t)) ∧
    (runCalls env (some h1) (.setKey t key :: rest)).1 =
      (runCalls env (some h2) (.setKey t key :: rest)).1 ∧
    (runCalls env (some h1) (.setKey t key :: rest)).1 =
      (.setKey t key, 0, none) :: specLog env (some (t, key, none)) rest := by
  obtain ⟨g1, e1, r1⟩ := setKey_ready env hl h1 t key hs hk hw1 hsw1
  obtain ⟨g2, e2, r2⟩ := setKey_ready env hl h2 t key hs hk hw2 hsw2
  have s1 := run_session env hl rest g1 t key none ⟨hs, r1⟩ hrest
  have s2 := run_session env hl rest g2 t key none ⟨hs, r2⟩ hrest
  have l1 : (runCalls env (some h1) (.setKey t key :: rest)).1 =
      (.setKey t key, 0, none) :: specLog env (some (t, key, none)) rest := by
    have a1 : (wc_HmacSetKey env (some h1) t (some key) key.length).1 = 0 := by rw [e1]
    have a2 : (wc_HmacSetKey env (some h1) t (some key) key.length).2 = some g1 := by rw [e1]
    simp only [runCalls, callHmac, a1, a2, s1]
  have l2 : (runCalls env (some h2) (.setKey t key :: rest)).1 =
      (.setKey t key, 0, none) :: specLog env (some (t, key, none)) rest := by
    have a1 : (wc_HmacSetKey env (some h2) t (some key) key.length).1 = 0 := by rw [e2]
    have a2 : (wc_HmacSetKey env (some h2) t (some key) key.length).2 = some g2 := by rw [e2]
    simp only [runCalls, callHmac, a1, a2, s2]
  refine ⟨⟨g1, g2, e1, e2, ?_, ?_, ?_, ?_⟩, by rw [l1, l2], l1⟩
  · rw [r1.macType, r2.macType]
  · rw [r1.unkeyed, r2.unkeyed]
  · rw [r1.ipad, r2.ipad]
  · rw [r1.opad, r2.opad]

/-- Witness of C38: HMAC-SHA256 with the key `[1, 2, 3]` over the toy hash, on
the zero context and on `midCtx`, which is keyed for SHA3-224 and in the
middle of a message; two updates and two finals follow. -/
theorem C38_rekeying_determinism_witness :
    (runCalls toyEnv (some (zeroHmac toyEnv))
      (.setKey WC_SHA256 [1, 2, 3] ::
        [.update [4], .update [5], .final (List.replicate 32 0),
          .final (List.replicate 32 0)])).1 =
    (runCalls toyEnv (some midCtx)
      (.setKey WC_SHA256 [1, 2, 3] ::
        [.update [4], .update [5], .final (List.replicate 32 0),
          .final (List.replicate 32 0)])).1 :=
  (C38_rekeying_determinism toyEnv toyEnv_laws (zeroHmac toyEnv) midCtx WC_SHA256 [1, 2, 3]
    [.update [4], .update [5], .final (List.replicate 32 0), .final (List.replicate 32 0)]
    (by decide) (Or.inl rfl) (by simp [WF, zeroHmac]) midCtx_wf (Or.inl rfl) (Or.inl rfl)
    (by decide)).2.1

/-- C39: for every call of `wc_Tls13_HKDF_Expand_Label` that returns 0 with a
supported digest, `okmLen ≤ 255 * digest size < 65536` and the first two bytes
stored in the label, read as a big-endian 16-bit integer, are `okmLen`. -/
theorem C39_label_length_bytes (env : Env σ) (okm : Option (List Nat)) (okmLen : Nat)
    (prk : Option (List Nat)) (prkLen : Nat) (protocol label info : List Nat) (digest : Int)
    (hs : Supported digest)
    (hret : (wc_Tls13_HKDF_Expand_Label env okm okmLen prk prkLen (some protocol)
      protocol.length (some label) label.length (some info) info.length digest).1 = 0) :
    okmLen ≤ 255 * digestSize digest ∧ okmLen < 65536 ∧
    ∃ b0 b1,
      (hkdfLabelData okmLen (some protocol) protocol.length (some label) label.length
        (some info) info.length).1.take 2 = [b0, b1] ∧
      (hkdfLabel okmLen protocol label info).take 2 = [b0, b1] ∧
      b0 < 256 ∧ b1 < 256 ∧ b0 * 256 + b1 = okmLen := by
  obtain ⟨h1, h2⟩ := expand_label_ok env okm okmLen prk prkLen protocol label info digest
    hs hret
  refine ⟨h1, h2, (okmLen >>> 8) % 256, okmLen % 256,
    hkdfLabelData_head okmLen protocol label info, ?_, Nat.mod_lt _ (by decide),
    Nat.mod_lt _ (by decide), ?_⟩
  · have h8 : (okmLen >>> 8) % 256 = okmLen >>> 8 := by
      rw [Nat.shiftRight_eq_div_pow]; omega
    simp [hkdfLabel, and_255, h8]
  · rw [Nat.shiftRight_eq_div_pow]; omega

set_option maxRecDepth 100000 in
/-- Witness of C39: 300 bytes of HKDF-SHA256 over the toy hash: the label
starts with `1, 44`. -/
theorem C39_label_length_bytes_witness :
    ∃ b0 b1,
      (hkdfLabelData 300 (some [116, 108, 115, 49, 51, 32]) [116, 108, 115, 49, 51, 32].length
        (some [107]) [107].length (some []) ([] : List Nat).length).1.take 2 = [b0, b1] ∧
      (hkdfLabel 300 [116, 108, 115, 49, 51, 32] [107] []).take 2 = [b0, b1] ∧
      b0 < 256 ∧ b1 < 256 ∧ b0 * 256 + b1 = 300 :=
  (C39_label_length_bytes toyEnv (some (List.replicate 300 0)) 300 (some [1, 2, 3]) 3
    [116, 108, 115, 49, 51, 32] [107] [] WC_SHA256 (by decide) (by decide)).2.2

/-- C40: with a lawful hash, for every supported algorithm with digest size
`D`, every key the build accepts and every `outSz ≤ 255 * D`: the loop of
`wc_HKDF_Expand` returns 0 after exactly `N = ceil(outSz / D)` iterations,
`N ≤ 255`, leaving the loop by its condition (`outIdx = N * D ≥ outSz`); in
the iteration `j = 1, 2, ..., N` the counter byte `n` is `j` and the length
fed for the previous block is 0 for `j = 1` and `D` otherwise.  The loop with
the ghost results is the loop of `wc_HKDF_Expand`. -/
theorem C40_expand_iterations (env : Env σ) (hl : HashLaws env) (t : Int)
    (prk info o : List Nat) (outSz : Nat) (hs : Supported t)
    (hk : KeyLenOk env prk.length) (hsz : outSz ≤ 255 * digestSize t) :
    ∃ h0, wc_HmacInit env (some (zeroHmac env)) INVALID_DEVID = (0, some h0) ∧
      (expandLoopTrace env t (some prk) prk.length (some info) info.length outSz
          (digestSize t) outSz (some h0) (List.replicate WC_MAX_DIGEST_SIZE 0) o 0 1).1 =
        expandLoop env t (some prk) prk.length (some info) info.length outSz
          (digestSize t) outSz (some h0) (List.replicate WC_MAX_DIGEST_SIZE 0) o 0 1 ∧
      wc_HKDF_Expand env t (some prk) prk.length (some info) info.length (some o) outSz =
        ((expandLoopTrace env t (some prk) prk.length (some info) info.length outSz
          (digestSize t) outSz (some h0) (List.replicate WC_MAX_DIGEST_SIZE 0) o 0 1).1.1,
         some (expandLoopTrace env t (some prk) prk.length (some info) info.length outSz
          (digestSize t) outSz (some h0) (List.replicate WC_MAX_DIGEST_SIZE 0) o 0
            1).1.2.2) ∧
      (expandLoopTrace env t (some prk) prk.length (some info) info.length outSz
          (digestSize t) outSz (some h0) (List.replicate WC_MAX_DIGEST_SIZE 0) o 0 1).1.1 =
        0 ∧
      (expandLoopTrace env t (some prk) prk.length (some info) info.length outSz
          (digestSize t) outSz (some h0) (List.replicate WC_MAX_DIGEST_SIZE 0) o 0 1).2 =
        ((List.range
            (outSz / digestSize t + (if outSz % digestSize t ≠ 0 then 1 else 0))).map
          (fun i => (i + 1, if i = 0 then 0 else digestSize t)),
         (outSz / digestSize t + (if outSz % digestSize t ≠ 0 then 1 else 0)) *
           digestSize t) ∧
      outSz / digestSize t + (if outSz % digestSize t ≠ 0 then 1 else 0) ≤ 255 ∧
      outSz ≤ (outSz / digestSize t + (if outSz % digestSize t ≠ 0 then 1 else 0)) *
        digestSize t := by
  obtain ⟨h0, e0, i1, i2, i3, i4⟩ := expand_iterations env hl t prk info o outSz hs hk hsz
  have hD := supported_sizes t hs
  have hg : ¬ (outSz / digestSize t + (if outSz % digestSize t ≠ 0 then 1 else 0) > 255) := by
    omega
  refine ⟨h0, e0, expandLoopTrace_fst _ _ _ _ _ _ _ _ _ _ _ _ _ _, ?_, i1, i2, i3, i4⟩
  rw [expandLoopTrace_fst]
  unfold wc_HKDF_Expand
  simp only [hashSz_word32 t hs, hg, if_false, e0, ne_eq, not_true_eq_false]

set_option maxRecDepth 100000 in
/-- Witness of C40: 70 bytes of HKDF-SHA256 over the toy hash take three
iterations, with `(n, tmpSz)` equal to `(1, 0)`, `(2, 32)`, `(3, 32)`, and leave
the loop at `outIdx = 96`. -/
theorem C40_expand_iterations_witness :
    (expandLoopTrace toyEnv WC_SHA256 (some [1, 2, 3]) 3 (some [4]) 1 70 32 70
      (wc_HmacInit toyEnv (some (zeroHmac toyEnv)) INVALID_DEVID).2
      (List.replicate WC_MAX_DIGEST_SIZE 0) (List.replicate 70 0) 0 1).2 =
      ([(1, 0), (2, 32), (3, 32)], 96) := by
  obtain ⟨h0, e0, _, _, _, i2, _, _⟩ := C40_expand_iterations toyEnv toyEnv_laws WC_SHA256
    [1, 2, 3] [4] (List.replicate 70 0) 70 (by decide) (Or.inl rfl) (by decide)
  rw [e0]
  exact i2.trans (by decide)

end WolfHmac
